import Mathlib

/-!
# IPFilter: the packet classification engine and its filter compiler

A shallow embedding of `elements/ip/ipfilter.{cc,hh}`, with the parts of
`lib/string.cc` and `include/click/algorithm.hh` that the properties below are
about.

Machine integers are natural numbers reduced modulo `2^32` where the C++ code
works on `uint32_t`, and integers where it works on `int`.  The host byte order
is a parameter `le` (`true` for a little-endian host), since the engine reads
packet words in host order and the compiler stores `htonl`-converted constants.
-/

namespace IPFilter

/-! ## Constants of `ipfilter.hh` -/

/-- `TRANSP_FAKE_OFFSET`: bias that separates network-header offsets from
transport-header offsets in the unified offset space. -/
def TRANSP_FAKE_OFFSET : Int := 64

/-- `PERFORM_BINARY_SEARCH = 1`. -/
def PERFORM_BINARY_SEARCH : Bool := true

/-- `MIN_BINARY_SEARCH = 7`. -/
def MIN_BINARY_SEARCH : Nat := 7

/-! ## Machine integers -/

/-- Conversion `(int16_t) x` of a 32-bit word: the low 16 bits, sign-extended. -/
def toInt16 (x : Nat) : Int :=
  if x % 2 ^ 16 < 2 ^ 15 then ((x % 2 ^ 16 : Nat) : Int) else ((x % 2 ^ 16 : Nat) : Int) - 2 ^ 16

/-- Conversion of a `uint32_t` to `int` (two's complement). -/
def toInt32 (x : Nat) : Int :=
  if x % 2 ^ 32 < 2 ^ 31 then ((x % 2 ^ 32 : Nat) : Int) else ((x % 2 ^ 32 : Nat) : Int) - 2 ^ 32

/-- Byte `i` (in memory order) of the `uint32_t` value `x` on a host whose byte
order is `le`; this is `((const uint8_t *) &x)[i]`. -/
def memByte (le : Bool) (x i : Nat) : Nat :=
  if le then (x >>> (8 * i)) % 256 else (x >>> (8 * (3 - i))) % 256

/-- The `uint32_t` whose four bytes in memory order are `b0 b1 b2 b3`. -/
def wordOfBytes (le : Bool) (b0 b1 b2 b3 : Nat) : Nat :=
  if le then b0 % 256 + 2 ^ 8 * (b1 % 256) + 2 ^ 16 * (b2 % 256) + 2 ^ 24 * (b3 % 256)
  else b3 % 256 + 2 ^ 8 * (b2 % 256) + 2 ^ 16 * (b1 % 256) + 2 ^ 24 * (b0 % 256)

/-! ## Packets -/

/-- The part of a `Packet` the engine looks at.  `mem` is the byte memory around
the packet buffer, indexed relative to `data()`; bytes `0 .. length - 1` are the
packet, everything else is whatever surrounds it (headroom, tailroom, other
memory). -/
structure Packet where
  mem : Int → Nat
  length : Nat
  network_header_offset : Int
  transport_header_offset : Int

/-- Dereference `*(const uint32_t *)(data() + a)`. -/
def load32 (le : Bool) (mem : Int → Nat) (a : Int) : Nat :=
  wordOfBytes le (mem a) (mem (a + 1)) (mem (a + 2)) (mem (a + 3))

/-! ## The classification engine (`IPFilter::push`, `IPFilter::length_checked_push`) -/

/-- Outcome of running the engine: the output port handed to
`checked_output_push`, a read outside the program array, or exhausted fuel. -/
inductive Result where
  | port (k : Int)
  | outOfBounds
  | outOfFuel
  deriving DecidableEq, Repr

/-- The linear scan `for (; off; --off, ++pp) if (*pp == data) goto gotit`.
Returns `none` when the scan leaves the program array. -/
def linear_scan (prog : List Nat) (data : Nat) : Nat → Nat → Option Bool
  | 0, _ => some false
  | off + 1, pp =>
    match prog[pp]? with
    | none => none
    | some v => if v = data then some true else linear_scan prog data off (pp + 1)

/-- The binary search `while (pp < px) { pm = pp + (px - pp) / 2; ... }`.
The interval shrinks at each round, so `px - pp` rounds of fuel are enough. -/
def binary_search (prog : List Nat) (data : Nat) : Nat → Nat → Nat → Option Bool
  | 0, _, _ => some false
  | fuel + 1, pp, px =>
    if pp < px then
      let pm := pp + (px - pp) / 2
      match prog[pm]? with
      | none => none
      | some v =>
        if v = data then some true
        else if v < data then binary_search prog data fuel (pm + 1) px
        else binary_search prog data fuel pp pm
    else some false

/-- The value-set test of one step: `off = pr[0] >> 16; pp = pr + 4;` followed
by the linear scan when `off < MIN_BINARY_SEARCH` and by the binary search
otherwise. -/
def search (prog : List Nat) (pr w0 data : Nat) : Option Bool :=
  let off := (w0 % 2 ^ 32) >>> 16
  let pp := pr + 4
  if !PERFORM_BINARY_SEARCH || off < MIN_BINARY_SEARCH then linear_scan prog data off pp
  else binary_search prog data off pp (pp + off)

/-- The word the engine reads for unified offset `off`:
`*(const uint32_t *)(transph_data + off - TRANSP_FAKE_OFFSET)` when
`off >= TRANSP_FAKE_OFFSET`, else `*(const uint32_t *)(neth_data + off)`. -/
def read_word (le : Bool) (p : Packet) (off : Int) : Nat :=
  if off ≥ TRANSP_FAKE_OFFSET then
    load32 le p.mem (p.transport_header_offset + off - TRANSP_FAKE_OFFSET)
  else load32 le p.mem (p.network_header_offset + off)

/-- The tail of one round of either loop, from the label `gotit`: the target
`off` (already converted to `int`) either selects port `-off` or moves `pr`. -/
def gotit (off : Int) (pr : Nat) (continue_at : Nat → Result) : Result :=
  if off ≤ 0 then Result.port (-off) else continue_at (pr + off.toNat)

/-- The main loop of `IPFilter::push` (the path that never checks the packet
length), started at program position `pr`. -/
def push_loop (le : Bool) (prog : List Nat) (p : Packet) : Nat → Nat → Result
  | 0, _ => Result.outOfFuel
  | fuel + 1, pr =>
    match prog[pr]?, prog[pr + 3]? with
    | some w0, some mask =>
      let off := toInt16 w0
      let data := read_word le p off &&& (mask % 2 ^ 32)
      match search prog pr w0 data with
      | none => Result.outOfBounds
      | some true =>
        match prog[pr + 2]? with
        | some yes => gotit (toInt32 yes) pr (push_loop le prog p fuel)
        | none => Result.outOfBounds
      | some false =>
        match prog[pr + 1]? with
        | some no => gotit (toInt32 no) pr (push_loop le prog p fuel)
        | none => Result.outOfBounds
    | _, _ => Result.outOfBounds

/-- The unified packet length
`p->length() + TRANSP_FAKE_OFFSET - p->transport_header_offset()`. -/
def packet_length (p : Packet) : Int :=
  (p.length : Int) + TRANSP_FAKE_OFFSET - p.transport_header_offset

/-- The test at the label `check_length`: with `off + 4 > packet_length`, may the
word still be read?  `c` are the bytes of the mask `pr[3]` in memory order. -/
def check_length (le : Bool) (mask : Nat) (off packet_length : Int) : Bool :=
  if off < packet_length then
    let available := packet_length - off
    let c := memByte le (mask % 2 ^ 32)
    !(c 3 != 0 || (c 2 != 0 && available ≤ 2) || (c 1 != 0 && available == 1))
  else false

/-- The loop of `IPFilter::length_checked_push`, started at program position
`pr`. -/
def length_checked_loop (le : Bool) (prog : List Nat) (p : Packet) : Nat → Nat → Result
  | 0, _ => Result.outOfFuel
  | fuel + 1, pr =>
    match prog[pr]? with
    | none => Result.outOfBounds
    | some w0 =>
      let off := toInt16 w0
      let failure : Result :=
        match prog[pr + 1]? with
        | some no => gotit (toInt32 no) pr (length_checked_loop le prog p fuel)
        | none => Result.outOfBounds
      let length_ok : Result :=
        match prog[pr + 3]? with
        | none => Result.outOfBounds
        | some mask =>
          let data := read_word le p off &&& (mask % 2 ^ 32)
          match search prog pr w0 data with
          | none => Result.outOfBounds
          | some true =>
            match prog[pr + 2]? with
            | some yes => gotit (toInt32 yes) pr (length_checked_loop le prog p fuel)
            | none => Result.outOfBounds
          | some false => failure
      if off + 4 > packet_length p then
        match prog[pr + 3]? with
        | none => Result.outOfBounds
        | some mask => if check_length le mask off (packet_length p) then length_ok else failure
      else length_ok

/-- The classifier state `IPFilter::push` consults: the compiled program and the
two fast-path fields computed with it. -/
structure Engine where
  _prog : List Nat
  _output_everything : Int
  _safe_length : Int

/-- `IPFilter::length_checked_push`.  Every continuation moves `pr` forward, so
`_prog.size()` rounds of fuel are never exhausted. -/
def length_checked_push (le : Bool) (e : Engine) (p : Packet) : Result :=
  length_checked_loop le e._prog p e._prog.length 0

/-- `IPFilter::push`. -/
def push (le : Bool) (e : Engine) (p : Packet) : Result :=
  if e._output_everything ≥ 0 then Result.port e._output_everything
  else if packet_length p < e._safe_length then length_checked_push le e p
  else push_loop le e._prog p e._prog.length 0

/-- The value set of the step whose first word `w0` sits at position `pr`: the
`w0 >> 16` words that follow the four header words. -/
def step_values (prog : List Nat) (pr w0 : Nat) : List Nat :=
  (prog.drop (pr + 4)).take ((w0 % 2 ^ 32) >>> 16)

/-- The positions at which the steps of a program start, walked the way
`compressed_program_string` walks them:
`for (i = 0; i < prog.size(); ) { ...; i += (prog[i] >> 16) + 4; }`. -/
def step_starts (prog : List Nat) : Nat → Nat → List Nat
  | 0, _ => []
  | fuel + 1, i =>
    match prog[i]? with
    | none => []
    | some w0 => i :: step_starts prog fuel (i + ((w0 % 2 ^ 32) >>> 16) + 4)

/-- The step positions of a whole program. -/
def steps (prog : List Nat) : List Nat := step_starts prog prog.length 0

/-- A branch target is fine when it is non-positive (a port) or lands on a step. -/
def target_ok (starts : List Nat) (i t : Nat) : Bool :=
  decide (toInt32 t ≤ 0) || starts.contains (i + (toInt32 t).toNat)

/-- Well-formed program: execution starts on a step, every step lies inside the
array with its whole value set, and every positive branch target lands on the
start of a step. -/
def well_formed (prog : List Nat) : Bool :=
  (steps prog).contains 0 &&
  (steps prog).all (fun i =>
    match prog[i]?, prog[i + 1]?, prog[i + 2]? with
    | some w0, some no, some yes =>
      decide (i + 4 + (w0 % 2 ^ 32) >>> 16 ≤ prog.length) &&
        target_ok (steps prog) i no && target_ok (steps prog) i yes
    | _, _, _ => false)

/-! ## The rounds of the engine loops -/

/-- One round of the main loop of `IPFilter::push` at program position `pr`, up
to the label `gotit`: the branch target taken (`pr[2]` when the masked word is in
the value set, `pr[1]` otherwise, as `int`); `none` when the round reads outside
the program array. -/
def push_target (le : Bool) (prog : List Nat) (p : Packet) (pr : Nat) : Option Int :=
  match prog[pr]?, prog[pr + 3]? with
  | some w0, some mask =>
    let off := toInt16 w0
    let data := read_word le p off &&& (mask % 2 ^ 32)
    match search prog pr w0 data with
    | none => none
    | some true =>
      match prog[pr + 2]? with
      | some yes => some (toInt32 yes)
      | none => none
    | some false =>
      match prog[pr + 1]? with
      | some no => some (toInt32 no)
      | none => none
  | _, _ => none

/-- One round of the loop of `IPFilter::length_checked_push` at program position
`pr`, up to the label `gotit`: the branch target taken, `none` when the round
reads outside the program array. -/
def length_checked_target (le : Bool) (prog : List Nat) (p : Packet) (pr : Nat) : Option Int :=
  match prog[pr]? with
  | none => none
  | some w0 =>
    let off := toInt16 w0
    let failure : Option Int :=
      match prog[pr + 1]? with
      | some no => some (toInt32 no)
      | none => none
    let length_ok : Option Int :=
      match prog[pr + 3]? with
      | none => none
      | some mask =>
        let data := read_word le p off &&& (mask % 2 ^ 32)
        match search prog pr w0 data with
        | none => none
        | some true =>
          match prog[pr + 2]? with
          | some yes => some (toInt32 yes)
          | none => none
        | some false => failure
    if off + 4 > packet_length p then
      match prog[pr + 3]? with
      | none => none
      | some mask => if check_length le mask off (packet_length p) then length_ok else failure
    else length_ok

/-- The rounds a loop goes through from position `pr` when `target` gives the
branch target of a round: each position with the target taken there, up to and
including the first target that is not positive (`off <= 0` at `gotit` ends the
loop, a positive target moves `pr` forward by it). -/
def rounds (target : Nat → Option Int) : Nat → Nat → List (Nat × Int)
  | 0, _ => []
  | fuel + 1, pr =>
    match target pr with
    | none => []
    | some t => (pr, t) :: (if t ≤ 0 then [] else rounds target fuel (pr + t.toNat))

/-! ## Byte order and 32-bit arithmetic used by the compiler -/

/-- `htonl(x)`: the host value whose four bytes in memory are the bytes of `x`
in network (big-endian) order. -/
def htonl (le : Bool) (x : Nat) : Nat :=
  wordOfBytes le (x >>> 24) (x >>> 16) (x >>> 8) x

/-- `ntohl` is the same byte permutation as `htonl`. -/
def ntohl (le : Bool) (x : Nat) : Nat := htonl le x

/-- `~x` on a `uint32_t`. -/
def not32 (x : Nat) : Nat := 2 ^ 32 - 1 - x % 2 ^ 32

/-- `x << n` on a 32-bit value.  A count of 32 or more is undefined in C++; the
count is taken modulo 32, as the x86 shift instructions do. -/
def shl32 (x n : Nat) : Nat := (x <<< (n % 32)) % 2 ^ 32

/-- `x >> n` on a `uint32_t`.  A count of 32 or more is undefined in C++; the
count is taken modulo 32, as the x86 shift instructions do. -/
def shr32 (x n : Nat) : Nat := (x % 2 ^ 32) >>> (n % 32)

/-- Conversion of an `int` to `uint32_t`. -/
def toU32 (x : Int) : Nat := (x % 2 ^ 32).toNat

/-- The number of significant bits of `x` (0 for 0), found by halving at most
`fuel` times. -/
def bit_length : Nat → Nat → Nat
  | 0, _ => 0
  | fuel + 1, x => if x = 0 then 0 else bit_length fuel (x / 2) + 1

/-- Modelled from the spec: `ffs_msb` of `click/integers.hh` is absent from the
sources.  §4.5 has the decomposer "inspect the most-significant differing bit",
and the callers compute `33 - ffs_msb(x)` and `0xFFFFFFFFU >> ffs_msb(x)`: it is
the index of the most significant set bit of a 32-bit word counted from 1 at
bit 31, and 0 when the word is 0. -/
def ffs_msb (x : Nat) : Nat :=
  if x % 2 ^ 32 = 0 then 0 else 33 - bit_length 32 (x % 2 ^ 32)

/-! ## Expression trees (`Classifier`) -/

/-- `Classifier::Combiner`. -/
inductive Combiner where
  | C_AND
  | C_OR
  | C_TERNARY
  deriving DecidableEq, Repr

/-- Modelled from the spec: the `Classifier` expression tree is absent from the
sources.  §3: a node is a leaf (one packet-level test: byte offset, 32-bit
value, 32-bit mask, equality only) or interior (AND, OR, NOT, TERNARY) over
child nodes; §4.6: each top-level clause carries an output-port target, its
success jumps to that port and its failure falls through (`route`). -/
inductive Expr where
  | leaf (offset : Int) (value mask : Nat)
  | not (e : Expr)
  | and (a b : Expr)
  | or (a b : Expr)
  | ternary (c t e : Expr)
  | route (e : Expr) (success failure : Int)
  deriving DecidableEq, Repr

/-- What evaluating an expression on a packet gives: success, failure, or a
jump to an output port. -/
inductive Outcome where
  | yes
  | no
  | port (k : Int)
  deriving DecidableEq, Repr

/-- `Classifier::SUCCESS`: the branch target "this subtree matched". -/
def SUCCESS : Int := 0 - 2147483645

/-- `Classifier::FAILURE`: the branch target "this subtree did not match". -/
def FAILURE : Int := 0 - 2147483646

/-- Where a branch target leads: `SUCCESS` and `FAILURE` stay inside the tree,
any other target `t` is terminal and selects port `-t` (§3). -/
def Outcome.jump (t : Int) : Outcome :=
  if t = SUCCESS then Outcome.yes else if t = FAILURE then Outcome.no else Outcome.port (-t)

/-- Modelled from the spec: evaluation of an expression tree on a packet, whose
32-bit words are read through `rd` (unified offset to host-order word).  A leaf
is the equality test `(word & mask) == value`; AND fails as soon as a child
fails, OR succeeds as soon as a child succeeds, TERNARY routes the condition's
success and failure to the two consequents (§4.6); negation swaps success and
failure (§4.7). -/
def Expr.eval (rd : Int → Nat) : Expr → Outcome
  | Expr.leaf offset value mask => if rd offset &&& mask = value then Outcome.yes else Outcome.no
  | Expr.not e =>
    match e.eval rd with
    | Outcome.yes => Outcome.no
    | Outcome.no => Outcome.yes
    | Outcome.port k => Outcome.port k
  | Expr.and a b =>
    match a.eval rd with
    | Outcome.yes => b.eval rd
    | r => r
  | Expr.or a b =>
    match a.eval rd with
    | Outcome.no => b.eval rd
    | r => r
  | Expr.ternary c t e =>
    match c.eval rd with
    | Outcome.yes => t.eval rd
    | Outcome.no => e.eval rd
    | r => r
  | Expr.route e success failure =>
    match e.eval rd with
    | Outcome.yes => Outcome.jump success
    | Outcome.no => Outcome.jump failure
    | r => r

/-- The expression accepts the packet. -/
def Expr.accepts (e : Expr) (rd : Int → Nat) : Bool := e.eval rd == Outcome.yes

/-- Modelled from the spec: the state of the tree under construction (the
`Vector<int> &tree` argument together with the classifier's expression list),
absent from the sources: the stack of open subtrees, innermost first, each with
the children completed so far in order. -/
abbrev Builder := List (List Expr)

/-- Modelled from the spec: `Classifier::init_expr_subtree`. -/
def init_expr_subtree : Builder := [[]]

/-- Modelled from the spec: `Classifier::start_expr_subtree` opens a subtree. -/
def start_expr_subtree (tree : Builder) : Builder := [] :: tree

/-- Modelled from the spec: `Classifier::add_expr(tree, offset, value, mask)`
appends one equality leaf to the open subtree. -/
def add_expr (tree : Builder) (offset : Int) (value mask : Nat) : Builder :=
  match tree with
  | [] => []
  | cur :: rest => (cur ++ [Expr.leaf offset value mask]) :: rest

/-- Negate the last element of a list of children. -/
def negate_last : List Expr → List Expr
  | [] => []
  | [e] => [Expr.not e]
  | e :: es => e :: negate_last es

/-- Modelled from the spec: `Classifier::negate_expr_subtree` negates the
subtree completed last in the open subtree. -/
def negate_expr_subtree (tree : Builder) : Builder :=
  match tree with
  | [] => []
  | cur :: rest => negate_last cur :: rest

/-- Combine the children of a finished subtree: AND and OR chain them, TERNARY
reads them as condition, consequent, alternative (two children alone combine
like AND). -/
def combine (combiner : Combiner) : List Expr → Option Expr
  | [] => none
  | [e] => some e
  | e :: f :: rest =>
    match combiner with
    | Combiner.C_AND =>
      match combine combiner (f :: rest) with
      | some r => some (Expr.and e r)
      | none => some e
    | Combiner.C_OR =>
      match combine combiner (f :: rest) with
      | some r => some (Expr.or e r)
      | none => some e
    | Combiner.C_TERNARY =>
      match combine combiner rest with
      | some r => some (Expr.ternary e f r)
      | none => some (Expr.and e f)

/-- Modelled from the spec: `Classifier::finish_expr_subtree(tree, combiner,
success, failure)` closes the open subtree: its children are combined into one
node, routed to `success`/`failure` when these are not the defaults `SUCCESS`/`FAILURE`, and the
node becomes the last child of the enclosing subtree.  An empty subtree adds
nothing. -/
def finish_expr_subtree (tree : Builder) (combiner : Combiner) (success failure : Int) :
    Builder :=
  let wrap (e : Expr) : Expr :=
    if success = SUCCESS ∧ failure = FAILURE then e else Expr.route e success failure
  match tree with
  | [] => []
  | [cur] =>
    match combine combiner cur with
    | some e => [[wrap e]]
    | none => [[]]
  | cur :: parent :: rest =>
    match combine combiner cur with
    | some e => (parent ++ [wrap e]) :: rest
    | none => parent :: rest

/-! ## Primitives -/

def TYPE_NONE : Int := 0
def TYPE_TYPE : Int := 1
def TYPE_SYNTAX : Int := 2
def TYPE_INT : Int := 3
def TYPE_HOST : Int := 10
def TYPE_PROTO : Int := 11
def TYPE_IPFRAG : Int := 12
def TYPE_PORT : Int := 13
def TYPE_TCPOPT : Int := 14
def TYPE_NET : Int := 30
def TYPE_IPUNFRAG : Int := 31
def TYPE_IPECT : Int := 32
def TYPE_IPCE : Int := 33
def TYPE_FIELD : Nat := 0x40000000
def FIELD_PROTO_SHIFT : Nat := 21
def FIELD_PROTO_MASK : Nat := 0x1FF <<< FIELD_PROTO_SHIFT
def FIELD_OFFSET_SHIFT : Nat := 5
def FIELD_OFFSET_MASK : Nat := 0xFFFF <<< FIELD_OFFSET_SHIFT
def FIELD_LENGTH_SHIFT : Nat := 0
def FIELD_LENGTH_MASK : Nat := 0x1F <<< FIELD_LENGTH_SHIFT

/-- `IPFilter::UNKNOWN`. -/
def UNKNOWN : Int := -1000

def SD_SRC : Int := 1
def SD_DST : Int := 2
def SD_AND : Int := 3
def SD_OR : Int := 4

def OP_EQ : Int := 0
def OP_GT : Int := 1
def OP_LT : Int := 2

/-- The error handler, reduced to what the compiler's control flow depends on:
the number of errors and of warnings reported so far. -/
structure ErrorHandler where
  nerrors : Nat
  nwarnings : Nat
  deriving DecidableEq, Repr

/-- The value `ErrorHandler::error` returns (a negative error code). -/
def ERROR_RESULT : Int := -1

/-- `errh->error(...)`: count one error. -/
def ErrorHandler.error (errh : ErrorHandler) : ErrorHandler :=
  { errh with nerrors := errh.nerrors + 1 }

/-- `errh->warning(...)`: count one warning. -/
def ErrorHandler.warning (errh : ErrorHandler) : ErrorHandler :=
  { errh with nwarnings := errh.nwarnings + 1 }

/-- `IPFilter::Primitive`.  The unions `_u` and `_mask` are kept as their
`uint32_t` member `u`; the member `i` is `toInt32` of it and the bytes `c` are
its `memByte`s. -/
structure Primitive where
  _type : Int
  _data : Int
  _op : Int
  _op_negated : Bool
  _srcdst : Int
  _transp_proto : Int
  _u : Nat
  _mask : Nat
  deriving DecidableEq, Repr

/-- `Primitive::set_mask(full_mask, shift, provided_mask, errh)`: the return
value, the primitive afterwards and the error handler afterwards. -/
def Primitive.set_mask (prim : Primitive) (full_mask : Nat) (shift : Nat) (provided_mask : Nat)
    (errh : ErrorHandler) : Int × Primitive × ErrorHandler :=
  let data := prim._u
  let this_mask := if provided_mask ≠ 0 then provided_mask else full_mask
  if this_mask &&& full_mask ≠ this_mask then (ERROR_RESULT, prim, errh.error)
  else if prim._op = OP_GT ∨ prim._op = OP_LT then
    -- Check for comparisons that are always true or false.
    if (prim._op = OP_LT ∧ (data = 0 ∨ data > this_mask))
        ∨ (prim._op = OP_GT ∧ data ≥ this_mask) then
      let will_be : Bool :=
        if prim._op = OP_LT ∧ data > this_mask then !prim._op_negated else prim._op_negated
      (0, { prim with _u := 0, _mask := 0, _op_negated := !will_be, _op := OP_EQ }, errh.warning)
    else
      -- value < X == !(value > (X - 1))
      let prim1 : Primitive :=
        if prim._op = OP_LT then
          { prim with _u := (prim._u + 2 ^ 32 - 1) % 2 ^ 32, _op_negated := !prim._op_negated,
                      _op := OP_GT }
        else prim
      let low := (shl32 1 shift + 2 ^ 32 - 1) % 2 ^ 32
      let u := shl32 prim1._u shift ||| low
      let mask := shl32 this_mask shift ||| low
      -- Want (_u.u & _mask.u) == _u.u.
      if u &&& mask ≠ u then
        let full_mask_u := shl32 full_mask shift ||| low
        let missing_bits := (u &&& mask) ^^^ (u &&& full_mask_u)
        let add_mask := shr32 0xFFFFFFFF (ffs_msb missing_bits)
        (0, { prim1 with _u := (u ||| add_mask) &&& mask, _mask := mask }, errh)
      else (0, { prim1 with _u := u, _mask := mask }, errh)
  else if data > full_mask then (ERROR_RESULT, prim, errh.error)
  else (0, { prim with _u := shl32 data shift, _mask := shl32 this_mask shift }, errh)

/-- In one round of the first loop of `add_comparison_exprs`:
`int high_bit = (u > (mask >> 1));`. -/
def gt_high_bit (u mask : Nat) : Bool := decide (u > mask >>> 1)

/-- In one round of the first loop of `add_comparison_exprs`: `upper_mask`,
computed from `first_different_bit = 33 - ffs_msb(high_bit ? ~(u+1) & mask : u)`. -/
def gt_upper_mask (u mask : Nat) : Nat :=
  let first_different_bit :=
    33 - ffs_msb (if gt_high_bit u mask then not32 (u + 1) &&& mask else u)
  if first_different_bit = 33 then mask
  else mask &&& not32 ((shl32 1 first_different_bit + 2 ^ 32 - 1) % 2 ^ 32)

/-- The first loop of `add_comparison_exprs`: while `u < mask`, open a subtree,
add the test of the upper bits, and record whether it combines by AND
(`high_bit`) or OR.  Returns the tree, `high_bit_record` and `count`.  Every
round clears at least the top bit of `mask`, so 32 rounds of fuel suffice.
`high_bit_record` is an `int` in the source; it is kept unbounded here, which
reads back the same bits for up to 32 rounds. -/
def gt_loop (le : Bool) (offset : Int) (shift : Nat) :
    Nat → Nat → Nat → Builder → Nat → Nat → Builder × Nat × Nat
  | 0, _, _, tree, high_bit_record, count => (tree, high_bit_record, count)
  | fuel + 1, u, mask, tree, high_bit_record, count =>
    if u < mask then
      let high_bit := gt_high_bit u mask
      let upper_mask := gt_upper_mask u mask
      let upper_u := if high_bit then 0xFFFFFFFF &&& upper_mask else 0
      let tree := start_expr_subtree tree
      let tree := add_expr tree offset (htonl le (shl32 upper_u shift))
        (htonl le (shl32 upper_mask shift))
      let tree := if !high_bit then negate_expr_subtree tree else tree
      let high_bit_record := (high_bit_record <<< 1) ||| (if high_bit then 1 else 0)
      let count := count + 1
      let mask := mask &&& not32 upper_mask
      let u := u &&& mask
      gt_loop le offset shift fuel u mask tree high_bit_record count
    else (tree, high_bit_record, count)

/-- The second loop of `add_comparison_exprs`: close the `count` open subtrees,
innermost first, with the combiner recorded for each. -/
def finish_loop : Nat → Nat → Builder → Builder
  | 0, _, tree => tree
  | count + 1, high_bit_record, tree =>
    finish_loop count (high_bit_record >>> 1)
      (finish_expr_subtree tree
        (if high_bit_record &&& 1 ≠ 0 then Combiner.C_AND else Combiner.C_OR) SUCCESS FAILURE)

/-- `Primitive::add_comparison_exprs(c, tree, offset, shift, swapped, op_negate)`. -/
def Primitive.add_comparison_exprs (le : Bool) (prim : Primitive) (tree : Builder)
    (offset : Int) (shift : Nat) (swapped op_negate : Bool) : Builder :=
  let mask0 := prim._mask % 2 ^ 32
  let u0 := (prim._u % 2 ^ 32) &&& mask0
  let mask := if swapped then ntohl le mask0 else mask0
  let u := if swapped then ntohl le u0 else u0
  if prim._op = OP_EQ then
    let tree := add_expr tree offset (htonl le (shl32 u shift)) (htonl le (shl32 mask shift))
    if prim._op_negated && op_negate then negate_expr_subtree tree else tree
  else
    let r := gt_loop le offset shift 32 u mask tree 0 0
    let tree := finish_loop r.2.2 r.2.1 r.1
    if prim._op_negated && op_negate then negate_expr_subtree tree else tree

/-! ### The tree the two loops of `add_comparison_exprs` build -/

/-- The test one round of the first loop adds: the equality leaf on the upper
bits, negated when `high_bit` is 0. -/
def round_leaf (le : Bool) (offset : Int) (shift : Nat) (high_bit : Bool) (upper_mask : Nat) :
    Expr :=
  let l := Expr.leaf offset
    (htonl le (shl32 (if high_bit then 0xFFFFFFFF &&& upper_mask else 0) shift))
    (htonl le (shl32 upper_mask shift))
  if high_bit then l else Expr.not l

/-- The rounds of the first loop, outermost first: `high_bit` and the test. -/
def gt_rounds (le : Bool) (offset : Int) (shift : Nat) : Nat → Nat → Nat → List (Bool × Expr)
  | 0, _, _ => []
  | fuel + 1, u, mask =>
    if u < mask then
      (gt_high_bit u mask, round_leaf le offset shift (gt_high_bit u mask) (gt_upper_mask u mask))
        :: gt_rounds le offset shift fuel (u &&& (mask &&& not32 (gt_upper_mask u mask)))
            (mask &&& not32 (gt_upper_mask u mask))
    else []

/-- The nested tree the second loop makes of the rounds: each test is combined
with the tree of the later rounds by AND (`high_bit` 1) or OR (`high_bit` 0). -/
def nest : List (Bool × Expr) → Option Expr
  | [] => none
  | (high_bit, l) :: rounds =>
    match nest rounds with
    | none => some l
    | some r => some (if high_bit then Expr.and l r else Expr.or l r)

/-- The subtrees pushed by the rounds, the last round innermost. -/
def push_rounds : List (Bool × Expr) → Builder → Builder
  | [], tree => tree
  | (_, l) :: rounds, tree => push_rounds rounds ([l] :: tree)

/-- The value of `high_bit_record` after the rounds. -/
def record_rounds : List (Bool × Expr) → Nat → Nat
  | [], r => r
  | (high_bit, _) :: rounds, r =>
    record_rounds rounds ((r <<< 1) ||| (if high_bit then 1 else 0))

/-- The number of low bits one round leaves for the later rounds. -/
def round_bits (x : Nat) : Nat := if x = 0 then 0 else Nat.log2 x + 1

/-- The relation a primitive states about a field value `x` and its threshold,
negation included: `=`, `>` or `<`, complemented when the negation flag is set. -/
def relation_holds (op : Int) (negated : Bool) (x threshold : Nat) : Bool :=
  negated != (if op = OP_EQ then decide (x = threshold)
    else if op = OP_GT then decide (x > threshold) else decide (x < threshold))

/-! ## Names, literals and the name lookup (`IPFilter::lookup`) -/

def IP_PROTO_ICMP : Int := 1
def IP_PROTO_IGMP : Int := 2
def IP_PROTO_IPIP : Int := 4
def IP_PROTO_TCP : Int := 6
def IP_PROTO_UDP : Int := 17

/-- Modelled from the spec: `clicknet/ip.h` is absent from the sources.  The
"TCP-or-UDP wildcard" of §3 is a pseudo protocol number outside the 8-bit range
(`check` tests `_u.i >= 256`), distinct from `IP_PROTO_TRANSP`. -/
def IP_PROTO_TCP_OR_UDP : Int := 256

/-- Modelled from the spec: see `IP_PROTO_TCP_OR_UDP`. -/
def IP_PROTO_TRANSP : Int := 257

/-- `IP_ECNMASK` of `clicknet/ip.h`: the two ECN bits of the TOS byte. -/
def IP_ECNMASK : Nat := 0x03

/-- `IP_ECN_CE` of `clicknet/ip.h`. -/
def IP_ECN_CE : Nat := 0x03

def FIELD_CSUM : Nat := TYPE_FIELD ||| ((10 * 8) <<< FIELD_OFFSET_SHIFT) ||| 15
def FIELD_IPLEN : Nat := TYPE_FIELD ||| ((2 * 8) <<< FIELD_OFFSET_SHIFT) ||| 15
def FIELD_ID : Nat := TYPE_FIELD ||| ((4 * 8) <<< FIELD_OFFSET_SHIFT) ||| 15
def FIELD_VERSION : Nat := TYPE_FIELD ||| (0 <<< FIELD_OFFSET_SHIFT) ||| 3
def FIELD_HL : Nat := TYPE_FIELD ||| (4 <<< FIELD_OFFSET_SHIFT) ||| 3
def FIELD_TOS : Nat := TYPE_FIELD ||| ((1 * 8) <<< FIELD_OFFSET_SHIFT) ||| 7
def FIELD_DSCP : Nat := TYPE_FIELD ||| ((1 * 8) <<< FIELD_OFFSET_SHIFT) ||| 5
def FIELD_TTL : Nat := TYPE_FIELD ||| ((8 * 8) <<< FIELD_OFFSET_SHIFT) ||| 7
def FIELD_TCP_WIN : Nat :=
  TYPE_FIELD ||| (6 <<< FIELD_PROTO_SHIFT) ||| ((14 * 8) <<< FIELD_OFFSET_SHIFT) ||| 15
def FIELD_ICMP_TYPE : Nat :=
  TYPE_FIELD ||| (1 <<< FIELD_PROTO_SHIFT) ||| (0 <<< FIELD_OFFSET_SHIFT) ||| 7

/-- The static name database `type_entries` (`NameInfo::T_IPFILTER_TYPE`). -/
def type_entries : List (String × Nat) :=
  [("ce", TYPE_IPCE.toNat), ("dest", TYPE_SYNTAX.toNat), ("dscp", FIELD_DSCP),
   ("dst", TYPE_SYNTAX.toNat), ("ect", TYPE_IPECT.toNat), ("frag", TYPE_IPFRAG.toNat),
   ("hl", FIELD_HL), ("host", TYPE_HOST.toNat), ("id", FIELD_ID), ("ip", TYPE_SYNTAX.toNat),
   ("len", FIELD_IPLEN), ("net", TYPE_NET.toNat), ("not", TYPE_SYNTAX.toNat),
   ("opt", TYPE_TCPOPT.toNat), ("port", TYPE_PORT.toNat), ("proto", TYPE_PROTO.toNat),
   ("src", TYPE_SYNTAX.toNat), ("tos", FIELD_TOS), ("ttl", FIELD_TTL),
   ("type", FIELD_ICMP_TYPE), ("unfrag", TYPE_IPUNFRAG.toNat), ("vers", FIELD_VERSION),
   ("win", FIELD_TCP_WIN)]

/-- The static name database `tcp_opt_entries` (`NameInfo::T_TCP_OPT`), with the
TCP flag bits `TH_*` of `clicknet/tcp.h`. -/
def tcp_opt_entries : List (String × Nat) :=
  [("ack", 0x10), ("fin", 0x01), ("psh", 0x08), ("rst", 0x04), ("syn", 0x02), ("urg", 0x20)]

/-- `db2type`: the type `lookup` reports for a hit in each of the five
databases. -/
def db2type : List Int :=
  [TYPE_PROTO, TYPE_PORT, TYPE_PORT, TYPE_TCPOPT, (FIELD_ICMP_TYPE : Int)]

/-- Look a word up in a static name database. -/
def query (db : List (String × Nat)) (word : String) : Option Nat :=
  (db.find? (fun e => e.1 == word)).map (fun e => e.2)

/-- What the compiler uses of Click outside this repository's sources: the name
databases installed by other elements (`NameInfo::T_IP_PROTO`, `T_TCP_PORT`,
`T_UDP_PORT`, `T_ICMP_TYPE`), the `confparse` literal parsers, the value an
uninitialized `int` happens to hold, and the string a read of `words[i]` past
the end of the vector happens to give.  Addresses are big-endian numbers. -/
structure Env where
  ip_proto : String → Option Nat
  tcp_port : String → Option Nat
  udp_port : String → Option Nat
  icmp_type : String → Option Nat
  cp_integer : String → Option Int
  cp_unsigned : String → Option Nat
  cp_ip_address : String → Option Nat
  cp_ip_prefix : String → Option (Nat × Nat)
  cp_unquote : String → String
  uninitialized : Int
  past_end : String

/-- The "query each relevant database" block of `lookup`: `val[i]` where
`got[i]` holds, for the databases `T_IP_PROTO`, `T_TCP_PORT`, `T_UDP_PORT`,
`T_TCP_OPT` and `T_ICMP_TYPE` in this order. -/
def lookup_val (env : Env) (word : String) : List (Option Nat) :=
  [env.ip_proto word, env.tcp_port word, env.udp_port word, query tcp_opt_entries word,
   env.icmp_type word]

/-- The "filter" block of `lookup`: `tgot[i]`, a hit in database `i` that the
expected type and the transport protocol allow. -/
def lookup_tgot (env : Env) (word : String) (type proto : Int) : List Bool :=
  let got (i : Nat) : Bool := ((lookup_val env word).getD i none).isSome
  [got 0 && decide (type = 0 ∨ type = TYPE_PROTO),
   got 1 && decide (type = 0 ∨ type = TYPE_PORT)
     && decide (proto = UNKNOWN ∨ proto = IP_PROTO_TCP ∨ proto = IP_PROTO_TCP_OR_UDP),
   got 2 && decide (type = 0 ∨ type = TYPE_PORT)
     && decide (proto = UNKNOWN ∨ proto = IP_PROTO_UDP ∨ proto = IP_PROTO_TCP_OR_UDP),
   got 3 && decide (type = 0 ∨ type = TYPE_TCPOPT)
     && decide (proto = UNKNOWN ∨ proto = IP_PROTO_TCP ∨ proto = IP_PROTO_TCP_OR_UDP),
   got 4 && decide (type = 0 ∨ type = (FIELD_ICMP_TYPE : Int))
     && decide (proto = UNKNOWN ∨ proto = IP_PROTO_ICMP)]

/-- "remove one of TCP and UDP port if they give the same value": `tgot` after
`if (tgot[1] && tgot[2] && val[1] == val[2]) tgot[2] = false;`, where `same`
is `val[1] == val[2]`. -/
def merge_ports (tgot : List Bool) (same : Bool) : List Bool :=
  tgot.set 2 (if tgot.getD 1 false && tgot.getD 2 false && same then false
    else tgot.getD 2 false)

/-- `IPFilter::lookup(word, type, proto, data, errh)`: the return value, `data`
afterwards and the error handler afterwards; `report` is false when the caller
passes a null `errh`. -/
def lookup (env : Env) (word : String) (type proto : Int) (data : Nat) (report : Bool)
    (errh : ErrorHandler) : Int × Nat × ErrorHandler :=
  -- type queries always win if they occur
  let tq := if type = 0 ∨ type = TYPE_TYPE then query type_entries word else none
  match tq with
  | some d => (if (d : Int) = TYPE_SYNTAX then -1 else TYPE_TYPE, d, errh)
  | none =>
    -- query each relevant database
    let val := lookup_val env word
    -- exit if no match
    if val.all (fun v => !v.isSome) then (-1, data, errh)
    else
      -- filter, and remove one of TCP and UDP port if they give the same value
      let tgot := merge_ports (lookup_tgot env word type proto)
        (val.getD 1 none == val.getD 2 none)
      let ngot := (tgot.filter id).length
      if ngot = 1 then
        let i := tgot.indexOf true
        (db2type.getD i 0, ((val.getD i none).getD 0) % 2 ^ 32, errh)
      else (-2, data, if report then errh.error else errh)

/-! ## Building and normalizing primitives -/

/-- `Primitive::clear()` (also the state after the constructor). -/
def Primitive.clear : Primitive :=
  { _type := 0, _data := 0, _op := OP_EQ, _op_negated := false, _srcdst := 0,
    _transp_proto := UNKNOWN, _u := 0, _mask := 0 }

/-- `Primitive::set_type(x, errh)`. -/
def Primitive.set_type (prim : Primitive) (x : Int) (errh : ErrorHandler) :
    Primitive × ErrorHandler :=
  ({ prim with _type := x }, if prim._type ≠ 0 then errh.error else errh)

/-- `Primitive::set_srcdst(x, errh)`. -/
def Primitive.set_srcdst (prim : Primitive) (x : Int) (errh : ErrorHandler) :
    Primitive × ErrorHandler :=
  ({ prim with _srcdst := x }, if prim._srcdst ≠ 0 then errh.error else errh)

/-- `Primitive::set_transp_proto(x, errh)`. -/
def Primitive.set_transp_proto (prim : Primitive) (x : Int) (errh : ErrorHandler) :
    Primitive × ErrorHandler :=
  ({ prim with _transp_proto := x },
    if prim._transp_proto ≠ UNKNOWN ∧ prim._transp_proto ≠ x then errh.error else errh)

/-- `_type & TYPE_FIELD` and similar tests on an `int` holding a type. -/
def type_and (t : Int) (m : Nat) : Nat := toU32 t &&& m

/-- The first part of `Primitive::check`: "set _type if it was not specified",
the `switch (_data)` with its `goto retry` (taken at most once, so two rounds of
fuel are enough).  An error is reported as `Except.error`. -/
def Primitive.check_infer (p : Primitive) :
    Nat → Primitive → ErrorHandler → Except ErrorHandler (Primitive × ErrorHandler)
  | 0, _, errh => Except.error errh.error
  | fuel + 1, prim, errh =>
    if prim._data = TYPE_HOST ∨ prim._data = TYPE_NET ∨ prim._data = TYPE_TCPOPT then
      Except.ok ({ prim with _type := prim._data,
                             _srcdst := if prim._srcdst = 0 then p._srcdst else prim._srcdst },
        errh)
    else if prim._data = TYPE_PROTO then Except.ok ({ prim with _type := TYPE_PROTO }, errh)
    else if prim._data = TYPE_PORT then
      Except.ok ({ prim with _type := TYPE_PORT,
                             _srcdst := if prim._srcdst = 0 then p._srcdst else prim._srcdst,
                             _transp_proto :=
                               if prim._transp_proto = UNKNOWN then p._transp_proto
                               else prim._transp_proto }, errh)
    else if prim._data = TYPE_INT then
      if type_and p._type TYPE_FIELD = 0 ∧ p._type ≠ TYPE_PROTO ∧ p._type ≠ TYPE_PORT then
        Except.error errh.error
      else Primitive.check_infer p fuel { prim with _data := p._type } errh
    else if prim._data = TYPE_NONE then
      if prim._transp_proto ≠ UNKNOWN then Except.ok ({ prim with _type := TYPE_PROTO }, errh)
      else Except.error errh.error
    else if type_and prim._data TYPE_FIELD ≠ 0 then
      Except.ok ({ prim with _type := prim._data,
                             _transp_proto :=
                               if type_and prim._data FIELD_PROTO_MASK ≠ 0
                                   ∧ prim._transp_proto = UNKNOWN then
                                 ((type_and prim._data FIELD_PROTO_MASK) >>> FIELD_PROTO_SHIFT : Nat)
                               else prim._transp_proto }, errh)
    else Except.error errh.error

/-- What a `case` of the `switch (_type)` of `Primitive::check` gives: the
negative result and the error handler when it returns early, else the primitive
and the error handler at its `break`. -/
abbrev CaseResult := Except (Int × ErrorHandler) (Primitive × ErrorHandler)

/-- `if (set_mask(full_mask, 0, provided_mask, errh) < 0) return -1;`. -/
def set_mask_or_fail (prim : Primitive) (full_mask provided_mask : Nat) (errh : ErrorHandler) :
    CaseResult :=
  let s := prim.set_mask full_mask 0 provided_mask errh
  if s.1 < 0 then Except.error (-1, s.2.2) else Except.ok (s.2.1, s.2.2)

/-- `case TYPE_HOST:` of `Primitive::check`. -/
def Primitive.check_host (prim : Primitive) (provided_mask : Nat) (errh : ErrorHandler) :
    CaseResult :=
  if prim._data ≠ TYPE_HOST then Except.error (ERROR_RESULT, errh.error)
  else if prim._op ≠ OP_EQ then Except.error (ERROR_RESULT, errh.error)
  else Except.ok ({ prim with _mask := if provided_mask ≠ 0 then provided_mask
                                        else 0xFFFFFFFF }, errh)

/-- `case TYPE_NET:` of `Primitive::check`. -/
def Primitive.check_net (prim : Primitive) (provided_mask : Nat) (errh : ErrorHandler) :
    CaseResult :=
  if prim._data ≠ TYPE_NET then Except.error (ERROR_RESULT, errh.error)
  else if prim._op ≠ OP_EQ then Except.error (ERROR_RESULT, errh.error)
  else Except.ok ({ prim with _type := TYPE_HOST,
                              _mask := if provided_mask ≠ 0 then provided_mask
                                       else prim._mask }, errh)

/-- In `case TYPE_PROTO:`, "set _transp_proto if allowed":
`if (_op == OP_EQ && _mask.u == 0xFF && !_op_negated) _transp_proto = _u.i;`. -/
def Primitive.set_transp_if_allowed (prim : Primitive) : Primitive :=
  if prim._op = OP_EQ ∧ prim._mask = 0xFF ∧ prim._op_negated = false then
    { prim with _transp_proto := toInt32 prim._u }
  else prim

/-- In `case TYPE_PROTO:`, the primitive after its first lines: the protocol
is taken from integer or protocol data, or else from `_transp_proto`, which is
then reset:
`if (_data == TYPE_INT || _data == TYPE_PROTO) _data = TYPE_NONE; else _u.i = _transp_proto;`
`_transp_proto = UNKNOWN;`. -/
def Primitive.proto_operand (prim : Primitive) : Primitive :=
  let prim1 : Primitive :=
    if prim._data = TYPE_INT ∨ prim._data = TYPE_PROTO then { prim with _data := TYPE_NONE }
    else { prim with _u := toU32 prim._transp_proto }
  { prim1 with _transp_proto := UNKNOWN }

/-- `case TYPE_PROTO:` of `Primitive::check`. -/
def Primitive.check_proto (prim : Primitive) (provided_mask : Nat) (errh : ErrorHandler) :
    CaseResult :=
  if (prim._data = TYPE_INT ∨ prim._data = TYPE_PROTO)
      ∧ prim._transp_proto ≠ UNKNOWN ∧ prim._transp_proto ≠ toInt32 prim._u then
    Except.error (ERROR_RESULT, errh.error)
  else if prim.proto_operand._data ≠ TYPE_NONE ∨ toInt32 prim.proto_operand._u = UNKNOWN then
    Except.error (ERROR_RESULT, errh.error)
  else if toInt32 prim.proto_operand._u ≥ 256 then
    if prim.proto_operand._op ≠ OP_EQ ∨ provided_mask ≠ 0 then
      Except.error (ERROR_RESULT, errh.error)
    else Except.ok (Primitive.set_transp_if_allowed { prim.proto_operand with _mask := 0xFF }, errh)
  else
    match set_mask_or_fail prim.proto_operand 0xFF provided_mask errh with
    | Except.error e => Except.error e
    | Except.ok (prim3, errh3) => Except.ok (prim3.set_transp_if_allowed, errh3)

/-- In `case TYPE_PORT:`, the primitive before `set_mask`: integer data counts
as a port, and an unknown transport protocol becomes TCP-or-UDP. -/
def Primitive.port_operand (prim : Primitive) : Primitive :=
  let prim1 : Primitive :=
    if prim._data = TYPE_INT then { prim with _data := TYPE_PORT } else prim
  if prim1._transp_proto = UNKNOWN then { prim1 with _transp_proto := IP_PROTO_TCP_OR_UDP }
  else prim1

/-- `case TYPE_PORT:` of `Primitive::check`. -/
def Primitive.check_port (prim : Primitive) (provided_mask : Nat) (errh : ErrorHandler) :
    CaseResult :=
  if prim.port_operand._data ≠ TYPE_PORT then Except.error (ERROR_RESULT, errh.error)
  else if prim._transp_proto ≠ UNKNOWN ∧ prim._transp_proto ≠ IP_PROTO_TCP
      ∧ prim._transp_proto ≠ IP_PROTO_UDP ∧ prim._transp_proto ≠ IP_PROTO_TCP_OR_UDP then
    Except.error (ERROR_RESULT, errh.error)
  else set_mask_or_fail prim.port_operand 0xFFFF provided_mask errh

/-- In `case TYPE_TCPOPT:`, the primitive before the operator is looked at:
integer data counts as TCP options, and an unknown transport protocol becomes
TCP. -/
def Primitive.tcpopt_operand (prim : Primitive) : Primitive :=
  let prim1 : Primitive :=
    if prim._data = TYPE_INT then { prim with _data := TYPE_TCPOPT } else prim
  if prim1._transp_proto = UNKNOWN then { prim1 with _transp_proto := IP_PROTO_TCP }
  else prim1

/-- `case TYPE_TCPOPT:` of `Primitive::check`. -/
def Primitive.check_tcpopt (prim : Primitive) (provided_mask : Nat) (errh : ErrorHandler) :
    CaseResult :=
  if prim.tcpopt_operand._data ≠ TYPE_TCPOPT then Except.error (ERROR_RESULT, errh.error)
  else if prim._transp_proto ≠ UNKNOWN ∧ prim._transp_proto ≠ IP_PROTO_TCP then
    Except.error (ERROR_RESULT, errh.error)
  else if prim._op ≠ OP_EQ ∨ prim._op_negated = true ∨ provided_mask ≠ 0 then
    Except.error (ERROR_RESULT, errh.error)
  else if toInt32 prim._u < 0 ∨ toInt32 prim._u > 255 then
    Except.error (ERROR_RESULT, errh.error)
  else Except.ok ({ prim.tcpopt_operand with _mask := prim._u }, errh)

/-- In `case TYPE_IPECT:`, the primitive before `set_mask`: without data the
mask, the value and the negation are filled in. -/
def Primitive.ipect_operand (prim : Primitive) : Primitive :=
  if prim._data = TYPE_NONE then { prim with _mask := IP_ECNMASK, _u := 0, _op_negated := true }
  else prim

/-- `case TYPE_IPECT:` of `Primitive::check`. -/
def Primitive.check_ipect (prim : Primitive) (provided_mask : Nat) (errh : ErrorHandler) :
    CaseResult :=
  if prim._data ≠ TYPE_NONE ∧ prim._data ≠ TYPE_INT then Except.error (ERROR_RESULT, errh.error)
  else
    match set_mask_or_fail prim.ipect_operand 0x3 provided_mask errh with
    | Except.error e => Except.error e
    | Except.ok (prim2, errh2) => Except.ok ({ prim2 with _type := (FIELD_TOS : Int) }, errh2)

/-- `case TYPE_IPCE:` of `Primitive::check`. -/
def Primitive.check_ipce (prim : Primitive) (errh : ErrorHandler) : CaseResult :=
  if prim._data ≠ TYPE_NONE then Except.error (ERROR_RESULT, errh.error)
  else Except.ok ({ prim with _mask := IP_ECNMASK, _u := IP_ECN_CE, _type := (FIELD_TOS : Int) },
    errh)

/-- `case TYPE_IPFRAG:` of `Primitive::check`. -/
def Primitive.check_ipfrag (prim : Primitive) (errh : ErrorHandler) : CaseResult :=
  if prim._data ≠ TYPE_NONE then Except.error (ERROR_RESULT, errh.error)
  else Except.ok ({ prim with _mask := 1 }, errh)

/-- `case TYPE_IPUNFRAG:` of `Primitive::check`. -/
def Primitive.check_ipunfrag (prim : Primitive) (errh : ErrorHandler) : CaseResult :=
  if prim._data ≠ TYPE_NONE then Except.error (ERROR_RESULT, errh.error)
  else Except.ok ({ prim with _op_negated := true, _mask := 1, _type := TYPE_IPFRAG }, errh)

/-- The natural mask of a bit-field type:
`nbits = ((_type & FIELD_LENGTH_MASK) >> FIELD_LENGTH_SHIFT) + 1` and
`mask = (nbits == 32 ? 0xFFFFFFFFU : (1 << nbits) - 1)`. -/
def field_mask (type : Int) : Nat :=
  let nbits := ((type_and type FIELD_LENGTH_MASK) >>> FIELD_LENGTH_SHIFT) + 1
  if nbits = 32 then 0xFFFFFFFF else (shl32 1 nbits + 2 ^ 32 - 1) % 2 ^ 32

/-- `default:` of the `switch (_type)` of `Primitive::check`, under
`if (_type & TYPE_FIELD)`. -/
def Primitive.check_field (prim : Primitive) (provided_mask : Nat) (errh : ErrorHandler) :
    CaseResult :=
  if prim._data ≠ TYPE_INT ∧ prim._data ≠ prim._type then
    Except.error (ERROR_RESULT, errh.error)
  else set_mask_or_fail prim (field_mask prim._type) provided_mask errh

/-- The second part of `Primitive::check`: "check that _data and _type agree",
the `switch (_type)`. -/
def Primitive.check_agree (prim : Primitive) (provided_mask : Nat) (errh : ErrorHandler) :
    CaseResult :=
  if prim._type = TYPE_HOST then prim.check_host provided_mask errh
  else if prim._type = TYPE_NET then prim.check_net provided_mask errh
  else if prim._type = TYPE_PROTO then prim.check_proto provided_mask errh
  else if prim._type = TYPE_PORT then prim.check_port provided_mask errh
  else if prim._type = TYPE_TCPOPT then prim.check_tcpopt provided_mask errh
  else if prim._type = TYPE_IPECT then prim.check_ipect provided_mask errh
  else if prim._type = TYPE_IPCE then prim.check_ipce errh
  else if prim._type = TYPE_IPFRAG then prim.check_ipfrag errh
  else if prim._type = TYPE_IPUNFRAG then prim.check_ipunfrag errh
  else if type_and prim._type TYPE_FIELD ≠ 0 then prim.check_field provided_mask errh
  else Except.ok (prim, errh)

/-- The end of `Primitive::check`, "fix _srcdst": a host or port test without
qualifier tests source or destination; elsewhere a qualifier draws a warning. -/
def check_finish (old_srcdst : Int) (r : Primitive × ErrorHandler) :
    Int × Primitive × ErrorHandler :=
  if r.1._type = TYPE_HOST ∨ r.1._type = TYPE_PORT then
    (0, { r.1 with _srcdst := if r.1._srcdst = 0 then SD_OR else r.1._srcdst }, r.2)
  else if old_srcdst ≠ 0 then (0, r.1, r.2.warning)
  else (0, r.1, r.2)

/-- The start of `Primitive::check`, "set _type if it was not specified". -/
def Primitive.check_start (prim p : Primitive) (errh : ErrorHandler) :
    Except ErrorHandler (Primitive × ErrorHandler) :=
  if prim._type = 0 then Primitive.check_infer p 2 prim errh else Except.ok (prim, errh)

/-- `Primitive::check(p, provided_mask, errh)`: the return value, the primitive
afterwards and the error handler afterwards. -/
def Primitive.check (prim : Primitive) (p : Primitive) (provided_mask : Nat)
    (errh : ErrorHandler) : Int × Primitive × ErrorHandler :=
  -- if _type is erroneous, return -1 right away
  if prim._type < 0 then (-1, prim, errh)
  else
    -- set _type if it was not specified
    match prim.check_start p errh with
    | Except.error errh1 => (ERROR_RESULT, prim, errh1)
    | Except.ok r1 =>
      -- check that _data and _type agree
      match r1.1.check_agree provided_mask r1.2 with
      | Except.error e => (e.1, r1.1, e.2)
      | Except.ok r2 =>
        -- fix _srcdst
        check_finish prim._srcdst r2

/-! ## Emitting the tests of a primitive (`Primitive::add_exprs`) -/

/-- `add_exprs_for_proto(proto, mask, c, tree)`. -/
def add_exprs_for_proto (le : Bool) (proto : Int) (mask : Nat) (tree : Builder) : Builder :=
  if mask = 0xFF ∧ proto = IP_PROTO_TCP_OR_UDP then
    let tree := start_expr_subtree tree
    let tree := add_expr tree 8 (htonl le (shl32 (toU32 IP_PROTO_TCP) 16)) (htonl le 0x00FF0000)
    let tree := add_expr tree 8 (htonl le (shl32 (toU32 IP_PROTO_UDP) 16)) (htonl le 0x00FF0000)
    finish_expr_subtree tree Combiner.C_OR SUCCESS FAILURE
  else if mask = 0xFF ∧ proto ≥ 256 then tree
  else add_expr tree 8 (htonl le (shl32 (toU32 proto) 16)) (htonl le (shl32 mask 16))

/-- The cases `TYPE_HOST` and `TYPE_PORT` of `add_exprs`, which differ in the
offsets, the shifts and `swapped` only: the tests of the source side and of the
destination side in a subtree of their own, closed with `C_OR` for `SD_OR` and
with `C_AND` otherwise, then negated when `_op_negated`. -/
def Primitive.add_src_dst_exprs (le : Bool) (prim : Primitive) (off1 : Int) (shift1 : Nat)
    (off2 : Int) (shift2 : Nat) (swapped : Bool) (tree : Builder) : Builder :=
  let tree := start_expr_subtree tree
  let tree :=
    if prim._srcdst = SD_SRC ∨ prim._srcdst = SD_AND ∨ prim._srcdst = SD_OR then
      prim.add_comparison_exprs le tree off1 shift1 swapped false
    else tree
  let tree :=
    if prim._srcdst = SD_DST ∨ prim._srcdst = SD_AND ∨ prim._srcdst = SD_OR then
      prim.add_comparison_exprs le tree off2 shift2 swapped false
    else tree
  let tree := finish_expr_subtree tree
    (if prim._srcdst = SD_OR then Combiner.C_OR else Combiner.C_AND) SUCCESS FAILURE
  if prim._op_negated then negate_expr_subtree tree else tree

/-- The first two blocks of `add_exprs`: "enforce first fragment" and "handle
transport protocol uniformly". -/
def Primitive.add_transp_exprs (le : Bool) (prim : Primitive) (tree : Builder) : Builder :=
  -- enforce first fragment: fragmentation offset == 0
  let tree :=
    if prim._type = TYPE_PORT ∨ prim._type = TYPE_TCPOPT
        ∨ (type_and prim._type TYPE_FIELD ≠ 0 ∧ type_and prim._type FIELD_PROTO_MASK ≠ 0) then
      add_expr tree 4 0 (htonl le 0x00001FFF)
    else tree
  -- handle transport protocol uniformly
  if prim._transp_proto ≠ UNKNOWN then add_exprs_for_proto le prim._transp_proto 0xFF tree
  else tree

/-- `Primitive::add_exprs(c, tree)`. -/
def Primitive.add_exprs (le : Bool) (prim : Primitive) (tree : Builder) : Builder :=
  let tree := start_expr_subtree tree
  let tree := prim.add_transp_exprs le tree
  -- handle other types
  let tree :=
    if prim._type = TYPE_HOST then prim.add_src_dst_exprs le 12 0 16 0 true tree
    else if prim._type = TYPE_PROTO then
      if prim._transp_proto < 256 then prim.add_comparison_exprs le tree 8 16 false true
      else tree
    else if prim._type = TYPE_IPFRAG then
      let tree := add_expr tree 4 0 (htonl le 0x00003FFF)
      if !prim._op_negated then negate_expr_subtree tree else tree
    else if prim._type = TYPE_PORT then
      prim.add_src_dst_exprs le TRANSP_FAKE_OFFSET 16 TRANSP_FAKE_OFFSET 0 false tree
    else if prim._type = TYPE_TCPOPT then
      add_expr tree (TRANSP_FAKE_OFFSET + 12) (htonl le (shl32 prim._u 16))
        (htonl le (shl32 prim._mask 16))
    else if type_and prim._type TYPE_FIELD ≠ 0 then
      let offset : Nat := (type_and prim._type FIELD_OFFSET_MASK) >>> FIELD_OFFSET_SHIFT
      let length : Nat := ((type_and prim._type FIELD_LENGTH_MASK) >>> FIELD_LENGTH_SHIFT) + 1
      let word_offset : Nat := (offset >>> 3) &&& (2 ^ 32 - 4)
      let bit_offset : Nat := offset &&& 0x1F
      let transp_offset : Int :=
        if type_and prim._type FIELD_PROTO_MASK ≠ 0 then TRANSP_FAKE_OFFSET else 0
      prim.add_comparison_exprs le tree (transp_offset + (word_offset : Int))
        (32 - (bit_offset + length)) false true
    else tree
  finish_expr_subtree tree Combiner.C_AND SUCCESS FAILURE

/-! ## The tokenizer (`separate_text`) -/

/-- `isspace` in the C locale. -/
def isspace (c : Char) : Bool :=
  c = ' ' || c = '\t' || c = '\n' || c = '\x0b' || c = '\x0c' || c = '\r'

/-- `isalnum` in the C locale. -/
def isalnum (c : Char) : Bool :=
  ('0' ≤ c && c ≤ '9') || ('a' ≤ c && c ≤ 'z') || ('A' ≤ c && c ≤ 'Z')

/-- The characters that continue a word in the `default:` case. -/
def is_word_char (c : Char) : Bool :=
  isalnum c || c = '-' || c = '.' || c = '/' || c = '@' || c = '_' || c = ':'

/-- `String::substring(pos, len)` for `pos >= 0` and `len >= 0`: the part of the
string inside its bounds. -/
def substring (text : List Char) (pos len : Nat) : List Char :=
  (text.drop pos).take len

/-- The character `s[pos]`.  The tokenizer can read `s[len]`, one past the end
(after trailing whitespace); whatever it finds there, the token it then pushes
is the empty `substring(len, 1)`, so that read is modelled as NUL. -/
def char_at (s : List Char) (pos : Nat) : Char := s.getD pos '\x00'

/-- `while (pos < len && isspace(s[pos])) pos++;`. -/
def skip_space (s : List Char) : Nat → Nat → Nat
  | 0, pos => pos
  | fuel + 1, pos =>
    if pos < s.length ∧ isspace (char_at s pos) then skip_space s fuel (pos + 1) else pos

/-- `while (pos < len && (isalnum(s[pos]) || ...)) pos++;`. -/
def skip_word (s : List Char) : Nat → Nat → Nat
  | 0, pos => pos
  | fuel + 1, pos =>
    if pos < s.length ∧ is_word_char (char_at s pos) then skip_word s fuel (pos + 1) else pos

/-- The `switch (s[pos])` of one round of `separate_text`, entered after the
whitespace has been skipped: the arguments `(first, n)` of the `substring` that
is pushed, and the position afterwards. -/
def separate_case (s : List Char) (pos : Nat) : Nat × Nat × Nat :=
  let c := char_at s pos
  let one_char : Nat × Nat × Nat := (pos, 1, pos + 1)
  let two_char : Nat × Nat × Nat := (pos, 2, pos + 2)
  if c = '&' ∨ c = '|' then
    if (pos : Int) < (s.length : Int) - 1 ∧ char_at s (pos + 1) = c then two_char
    else one_char
  else if c = '<' ∨ c = '>' ∨ c = '!' ∨ c = '=' then
    if (pos : Int) < (s.length : Int) - 1 ∧ char_at s (pos + 1) = '=' then two_char
    else one_char
  else if c = '(' ∨ c = ')' ∨ c = '[' ∨ c = ']' ∨ c = ',' ∨ c = ';' ∨ c = '?' then one_char
  else
    let first := pos
    let pos := skip_word s s.length pos
    let pos := if pos = first then pos + 1 else pos
    (first, pos - first, pos)

/-- The outer loop of `separate_text`; every round moves `pos` forward. -/
def separate_loop (s : List Char) : Nat → Nat → List String → List String
  | 0, _, words => words
  | fuel + 1, pos, words =>
    if pos < s.length then
      let r := separate_case s (skip_space s s.length pos)
      separate_loop s fuel r.2.2 (words ++ [String.mk (substring s r.1 r.2.1)])
    else words

/-- `separate_text(text, words)` on an empty `words`. -/
def separate_text (text : String) : List String :=
  separate_loop text.data text.data.length 0 []

/-! ## The parser (`parse_expr`, `parse_orexpr`, `parse_term`, `parse_factor`) -/

/-- What the parsing functions pass along by reference: the tree under
construction, `prev_prim` and the error handler. -/
structure PState where
  tree : Builder
  prev_prim : Primitive
  errh : ErrorHandler
  deriving DecidableEq, Repr

/-- `words[pos]`; past the end of the vector the read gives `env.past_end`. -/
def word_at (env : Env) (words : List String) (pos : Nat) : String :=
  words.getD pos env.past_end

/-- The loop of `parse_brackets` that glues the words up to `]` together:
returns the position of `]` (or `words.size()`) and `combination`. -/
def collect_brackets (env : Env) (words : List String) : Nat → Nat → List Char → Nat × List Char
  | 0, pos, combination => (pos, combination)
  | fuel + 1, pos, combination =>
    if pos < words.length ∧ word_at env words pos ≠ "]" then
      collect_brackets env words fuel (pos + 1) (combination ++ (word_at env words pos).data)
    else (pos, combination)

/-- The pointer version `cp_integer(begin, end, 0, &x) == end` on a range:
`some x` when the whole range parses, or when the range is empty, where `x`
keeps the value it had. -/
def cp_integer_range (env : Env) (range : List Char) (old : Int) : Option Int :=
  if range = [] then some old else env.cp_integer (String.mk range)

/-- The part "parse 'combination'" of `parse_brackets`: `fieldpos` and `len`
at the label `non_syntax_error`, or `none` for a syntax error. -/
def parse_combination (env : Env) (combination : List Char) : Option (Int × Int) :=
  let n := combination.length
  let colon := combination.indexOf ':'
  let comma := combination.indexOf ','
  if (colon : Int) < (n : Int) - 1 then
    match cp_integer_range env (combination.take colon) env.uninitialized with
    | none => none
    | some fieldpos =>
      match cp_integer_range env (combination.drop (colon + 1)) 1 with
      | none => none
      | some len => some (fieldpos, len)
  else if (comma : Int) < (n : Int) - 1 then
    match cp_integer_range env (combination.take comma) env.uninitialized with
    | none => none
    | some fieldpos =>
      match cp_integer_range env (combination.drop (comma + 1)) env.uninitialized with
      | none => none
      | some pos2 => some (fieldpos, pos2 - fieldpos + 1)
  else
    match env.cp_integer (String.mk combination) with
    | none => none
    | some fieldpos => some (fieldpos, 1)

/-- The type word `TYPE_FIELD | (transp << FIELD_PROTO_SHIFT)
| (fieldpos << FIELD_OFFSET_SHIFT) | ((len - 1) << FIELD_LENGTH_SHIFT)`, with
`fieldpos` and `len` in bits. -/
def field_type_word (transp fieldpos len : Int) : Int :=
  toInt32 (TYPE_FIELD ||| shl32 (toU32 transp) FIELD_PROTO_SHIFT
    ||| shl32 (toU32 fieldpos) FIELD_OFFSET_SHIFT
    ||| shl32 (toU32 (len - 1)) FIELD_LENGTH_SHIFT)

/-- The part of `parse_brackets` after the label `non_syntax_error`, with
`fieldpos` and `len` in bytes. -/
def non_syntax_error (prim : Primitive) (fieldpos len : Int) (errh : ErrorHandler) :
    Primitive × ErrorHandler :=
  let multiplier : Int := 8
  let fieldpos := toInt32 (toU32 (fieldpos * multiplier))
  let len := toInt32 (toU32 (len * multiplier))
  if len < 1 ∨ len > 32 then (prim, errh.error)
  else if toU32 fieldpos &&& (2 ^ 32 - 32) ≠ toU32 (fieldpos + len - 1) &&& (2 ^ 32 - 32) then
    (prim, errh.error)
  else
    let transp : Int := if prim._transp_proto = UNKNOWN then 0 else prim._transp_proto
    prim.set_type (field_type_word transp fieldpos len) errh

/-- `parse_brackets(prim, words, pos, errh)`: the position returned, the
primitive and the error handler afterwards. -/
def parse_brackets (env : Env) (prim : Primitive) (words : List String) (pos : Nat)
    (errh : ErrorHandler) : Nat × Primitive × ErrorHandler :=
  let first_pos := pos + 1
  let r := collect_brackets env words words.length (pos + 1) []
  let pos := r.1
  let combination := r.2
  if pos ≥ words.length then (first_pos, prim, errh.error)
  else
    let pos := pos + 1
    match parse_combination env combination with
    | none => (pos, prim, errh.error)
    | some (fieldpos, len) =>
      let s := non_syntax_error prim fieldpos len errh
      (pos, s.1, s.2)

/-- `(pos >= words.size() - 1 ? String() : words[pos])`. -/
def word_before_last (env : Env) (words : List String) (pos : Nat) : String :=
  if (pos : Int) ≥ (words.length : Int) - 1 then "" else word_at env words pos

/-- The qualifier loop of `parse_factor` ("collect qualifiers"): returns the
position reached, the primitive, the flag `negated` and the error handler. -/
def collect_qualifiers (env : Env) (words : List String) :
    Nat → Nat → Primitive → Bool → ErrorHandler → Nat × Primitive × Bool × ErrorHandler
  | 0, pos, prim, negated, errh => (pos, prim, negated, errh)
  | fuel + 1, pos, prim, negated, errh =>
    if pos < words.length then
      let wd := word_at env words pos
      let l := lookup env wd 0 UNKNOWN 0 false errh
      let wt := l.1
      let wdata := l.2.1
      if wt ≥ 0 ∧ wt = TYPE_TYPE then
        let s := prim.set_type (toInt32 wdata) errh
        let s :=
          if wdata &&& TYPE_FIELD ≠ 0 ∧ wdata &&& FIELD_PROTO_MASK ≠ 0 then
            s.1.set_transp_proto (((wdata &&& FIELD_PROTO_MASK) >>> FIELD_PROTO_SHIFT : Nat)) s.2
          else s
        collect_qualifiers env words fuel (pos + 1) s.1 negated s.2
      else if wt ≥ 0 ∧ wt = TYPE_PROTO then
        let s := prim.set_transp_proto (toInt32 wdata) errh
        collect_qualifiers env words fuel (pos + 1) s.1 negated s.2
      else if wt ≠ -1 then (pos, prim, negated, errh)
      else if wd = "src" then
        if (pos : Int) < (words.length : Int) - 2
            ∧ (word_at env words (pos + 2) = "dst" ∨ word_at env words (pos + 2) = "dest") then
          if word_at env words (pos + 1) = "and" ∨ word_at env words (pos + 1) = "&&" then
            let s := prim.set_srcdst SD_AND errh
            collect_qualifiers env words fuel (pos + 2 + 1) s.1 negated s.2
          else if word_at env words (pos + 1) = "or" ∨ word_at env words (pos + 1) = "||" then
            let s := prim.set_srcdst SD_OR errh
            collect_qualifiers env words fuel (pos + 2 + 1) s.1 negated s.2
          else
            let s := prim.set_srcdst SD_SRC errh
            collect_qualifiers env words fuel (pos + 1) s.1 negated s.2
        else
          let s := prim.set_srcdst SD_SRC errh
          collect_qualifiers env words fuel (pos + 1) s.1 negated s.2
      else if wd = "dst" ∨ wd = "dest" then
        let s := prim.set_srcdst SD_DST errh
        collect_qualifiers env words fuel (pos + 1) s.1 negated s.2
      else if wd = "ip" then collect_qualifiers env words fuel (pos + 1) prim negated errh
      else if wd = "not" ∨ wd = "!" then
        collect_qualifiers env words fuel (pos + 1) prim (!negated) errh
      else (pos, prim, negated, errh)
    else (pos, prim, negated, errh)

/-- The end of `parse_factor`, "add if it is valid": when `check` accepts the
primitive its tests are added to the tree (negated if asked) and it becomes
`prev_prim`; otherwise the tree and `prev_prim` stay as they are. -/
def add_if_valid (le : Bool) (prim prev_prim : Primitive) (provided_mask : Nat) (negated : Bool)
    (tree : Builder) (errh : ErrorHandler) : PState :=
  let c := prim.check prev_prim provided_mask errh
  if c.1 ≥ 0 then
    let tree := c.2.1.add_exprs le tree
    let tree := if negated then negate_expr_subtree tree else tree
    { tree := tree, prev_prim := c.2.1, errh := c.2.2 }
  else { tree := tree, prev_prim := prev_prim, errh := c.2.2 }

/-- The block "optional [] syntax" of `parse_factor`: the position, the
primitive, the error handler and the word `wd` afterwards. -/
def optional_brackets (env : Env) (words : List String) (first_pos pos : Nat) (prim : Primitive)
    (errh : ErrorHandler) : Nat × Primitive × ErrorHandler × String :=
  let wd := word_before_last env words pos
  if wd = "[" ∧ pos > first_pos ∧ prim._type = TYPE_NONE then
    let b := parse_brackets env prim words pos errh
    (b.1, b.2.1, b.2.2, word_before_last env words b.1)
  else (pos, prim, errh, wd)

/-- The block "optional bitmask" of `parse_factor`: the position, the word
`wd`, `provided_mask` and the error handler afterwards. -/
def optional_bitmask (env : Env) (words : List String) (pos : Nat) (wd : String)
    (errh : ErrorHandler) : Nat × String × Nat × ErrorHandler :=
  if wd = "&" ∧ (pos : Int) < (words.length : Int) - 1
      ∧ (env.cp_unsigned (word_at env words (pos + 1))).isSome then
    let provided_mask := ((env.cp_unsigned (word_at env words (pos + 1))).getD 0) % 2 ^ 32
    (pos + 2, word_before_last env words (pos + 2), provided_mask,
      if provided_mask = 0 then errh.error else errh)
  else (pos, wd, 0, errh)

/-- The block "optional relational operation" of `parse_factor`: the primitive
and the position afterwards (`pos++`, undone by `pos--` when `wd` is no
operator). -/
def optional_relop (prim : Primitive) (wd : String) (pos : Nat) : Primitive × Nat :=
  if wd = "=" ∨ wd = "==" then (prim, pos + 1)
  else if wd = "!=" then ({ prim with _op_negated := true }, pos + 1)
  else if wd = ">" then ({ prim with _op := OP_GT }, pos + 1)
  else if wd = "<" then ({ prim with _op := OP_LT }, pos + 1)
  else if wd = ">=" then ({ prim with _op := OP_LT, _op_negated := true }, pos + 1)
  else if wd = "<=" then ({ prim with _op := OP_GT, _op_negated := true }, pos + 1)
  else (prim, pos)

/-- The block "now collect the actual data" of `parse_factor`: the position,
the primitive and the error handler afterwards. -/
def collect_data (le : Bool) (env : Env) (words : List String) (pos : Nat) (prim : Primitive)
    (errh : ErrorHandler) : Nat × Primitive × ErrorHandler :=
  if pos < words.length then
    let wd := word_at env words pos
    let l := lookup env wd prim._type prim._transp_proto 0 true errh
    let wt := l.1
    let wdata := l.2.1
    let errh := l.2.2
    let pos := pos + 1
    if wt = -2 then (pos, { prim with _type := -2 }, errh)
    else if wt ≠ -1 ∧ wt ≠ TYPE_TYPE then (pos, { prim with _data := wt, _u := wdata }, errh)
    else
      match env.cp_integer wd with
      | some i => (pos, { prim with _u := toU32 i, _data := TYPE_INT }, errh)
      | none =>
        match env.cp_ip_address wd with
        | some a =>
          let prim : Primitive := { prim with _u := htonl le a }
          if (pos : Int) < (words.length : Int) - 1 ∧ word_at env words pos = "mask"
              ∧ (env.cp_ip_address (word_at env words (pos + 1))).isSome then
            (pos + 2,
              { prim with
                _mask := htonl le ((env.cp_ip_address (word_at env words (pos + 1))).getD 0),
                _data := TYPE_NET }, errh)
          else
            match (if prim._type = TYPE_NET then env.cp_ip_prefix wd else none) with
            | some (a2, m2) =>
              (pos, { prim with _u := htonl le a2, _mask := htonl le m2, _data := TYPE_NET }, errh)
            | none => (pos, { prim with _data := TYPE_HOST }, errh)
        | none =>
          match env.cp_ip_prefix wd with
          | some (a2, m2) =>
            (pos, { prim with _u := htonl le a2, _mask := htonl le m2, _data := TYPE_NET }, errh)
          | none =>
            (pos - 1, prim, if prim._op ≠ OP_EQ ∨ prim._op_negated then errh.error else errh)
  else (pos, prim, errh)

/-- The "hard case" of `parse_factor`: `quals [relop] data`, from
`int first_pos = pos;` to the end of the function. -/
def parse_primitive (le : Bool) (env : Env) (words : List String) (pos : Nat) (negated : Bool)
    (st : PState) : Nat × PState :=
  let first_pos := pos
  -- collect qualifiers
  let q := collect_qualifiers env words words.length pos Primitive.clear negated st.errh
  let negated := q.2.2.1
  -- prev_prim is not relevant if there were any qualifiers
  let prev_prim := if q.1 ≠ first_pos then Primitive.clear else st.prev_prim
  -- optional [] syntax
  let b := optional_brackets env words first_pos q.1 q.2.1 q.2.2.2
  -- optional bitmask
  let m := optional_bitmask env words b.1 b.2.2.2 b.2.2.1
  let provided_mask := m.2.2.1
  -- optional relational operation
  let r := optional_relop b.2.1 m.2.1 m.1
  -- now collect the actual data
  let d := collect_data le env words r.2 r.1 m.2.2.2
  let pos := d.1
  if pos = first_pos then
    (pos, { tree := st.tree, prev_prim := prev_prim, errh := d.2.2.error })
  else (pos, add_if_valid le d.2.1 prev_prim provided_mask negated st.tree d.2.2)

mutual

/-- `IPFilter::parse_expr`; `none` when the fuel runs out. -/
def parse_expr (le : Bool) (env : Env) (words : List String) :
    Nat → Nat → PState → Option (Nat × PState)
  | 0, _, _ => none
  | fuel + 1, pos, st =>
    match parse_expr_loop le env words fuel pos { st with tree := start_expr_subtree st.tree } with
    | none => none
    | some (pos, st) =>
      some (pos, { st with tree := finish_expr_subtree st.tree Combiner.C_TERNARY SUCCESS FAILURE })
termination_by structural fuel => fuel

/-- The `while (1)` loop of `parse_expr`. -/
def parse_expr_loop (le : Bool) (env : Env) (words : List String) :
    Nat → Nat → PState → Option (Nat × PState)
  | 0, _, _ => none
  | fuel + 1, pos, st =>
    match parse_orexpr le env words fuel pos st with
    | none => none
    | some (pos, st) =>
      if pos ≥ words.length then some (pos, st)
      else if word_at env words pos ≠ "?" then some (pos, st)
      else
        let old_pos := pos + 1
        match parse_expr le env words fuel old_pos st with
        | none => none
        | some (pos, st) =>
          if pos > old_pos ∧ pos < words.length ∧ word_at env words pos = ":" then
            parse_expr_loop le env words fuel (pos + 1) st
          else some (pos, { st with errh := st.errh.error })
termination_by structural fuel => fuel

/-- `IPFilter::parse_orexpr`. -/
def parse_orexpr (le : Bool) (env : Env) (words : List String) :
    Nat → Nat → PState → Option (Nat × PState)
  | 0, _, _ => none
  | fuel + 1, pos, st =>
    match parse_orexpr_loop le env words fuel pos
        { st with tree := start_expr_subtree st.tree } with
    | none => none
    | some (pos, st) =>
      some (pos, { st with tree := finish_expr_subtree st.tree Combiner.C_OR SUCCESS FAILURE })
termination_by structural fuel => fuel

/-- The `while (1)` loop of `parse_orexpr`. -/
def parse_orexpr_loop (le : Bool) (env : Env) (words : List String) :
    Nat → Nat → PState → Option (Nat × PState)
  | 0, _, _ => none
  | fuel + 1, pos, st =>
    match parse_term le env words fuel pos st with
    | none => none
    | some (pos, st) =>
      if pos ≥ words.length then some (pos, st)
      else if word_at env words pos = "or" ∨ word_at env words pos = "||" then
        parse_orexpr_loop le env words fuel (pos + 1) st
      else some (pos, st)
termination_by structural fuel => fuel

/-- `IPFilter::parse_term`. -/
def parse_term (le : Bool) (env : Env) (words : List String) :
    Nat → Nat → PState → Option (Nat × PState)
  | 0, _, _ => none
  | fuel + 1, pos, st =>
    match parse_term_loop le env words fuel pos false
        { st with tree := start_expr_subtree st.tree } with
    | none => none
    | some (pos, blank_ok, st) =>
      let errh := if !blank_ok then st.errh.error else st.errh
      let tree := finish_expr_subtree st.tree Combiner.C_AND SUCCESS FAILURE
      some (pos, { st with tree := tree, errh := errh })
termination_by structural fuel => fuel

/-- The `while (1)` loop of `parse_term`, with the flag `blank_ok`. -/
def parse_term_loop (le : Bool) (env : Env) (words : List String) :
    Nat → Nat → Bool → PState → Option (Nat × Bool × PState)
  | 0, _, _, _ => none
  | fuel + 1, pos, blank_ok, st =>
    match parse_factor le env words fuel pos false st with
    | none => none
    | some (next, st) =>
      if next = pos then some (pos, blank_ok, st)
      else if next < words.length ∧ (word_at env words next = "and" ∨ word_at env words next = "&&") then
        parse_term_loop le env words fuel (next + 1) false st
      else parse_term_loop le env words fuel next true st
termination_by structural fuel => fuel

/-- `IPFilter::parse_factor`. -/
def parse_factor (le : Bool) (env : Env) (words : List String) :
    Nat → Nat → Bool → PState → Option (Nat × PState)
  | 0, _, _, _ => none
  | fuel + 1, pos, negated, st =>
    -- return immediately on last word, ")", "||", "or", "?", ":"
    if pos ≥ words.length ∨ word_at env words pos = ")" ∨ word_at env words pos = "||"
        ∨ word_at env words pos = "or" ∨ word_at env words pos = "?" ∨ word_at env words pos = ":" then
      some (pos, st)
    -- 'true' and 'false'
    else if word_at env words pos = "true" then
      let tree := add_expr st.tree 0 0 0
      some (pos + 1, { st with tree := if negated then negate_expr_subtree tree else tree })
    else if word_at env words pos = "false" then
      let tree := add_expr st.tree 0 0 0
      some (pos + 1, { st with tree := if !negated then negate_expr_subtree tree else tree })
    -- ! factor
    else if word_at env words pos = "not" ∨ word_at env words pos = "!" then
      match parse_factor le env words fuel (pos + 1) (!negated) st with
      | none => none
      | some (next, st) =>
        some (next, if next = pos + 1 then { st with errh := st.errh.error } else st)
    -- ( expr )
    else if word_at env words pos = "(" then
      match parse_expr le env words fuel (pos + 1) st with
      | none => none
      | some (next, st) =>
        let errh := if next = pos + 1 then st.errh.error else st.errh
        let missing : Bool := decide (next ≥ words.length) || decide (word_at env words next ≠ ")")
        let errh := if missing then errh.error else errh
        let next' := if missing then next else next + 1
        let tree := if negated then negate_expr_subtree st.tree else st.tree
        some (next', { st with tree := tree, errh := errh })
    -- hard case
    else some (parse_primitive le env words pos negated st)
termination_by structural fuel => fuel

end

/-- The environment `env` with another string for the reads past the end of
the word list. -/
def Env.with_past_end (env : Env) (junk : String) : Env := { env with past_end := junk }

/-! ## `IPFilter::configure` -/

/-- The "get slot" block of `configure`: the slot the action word `slotwd`
resolves to on an element with `noutputs` outputs, and the error handler
afterwards. -/
def resolve_slot (env : Env) (slotwd : String) (noutputs : Int) (cerrh : ErrorHandler) :
    Int × ErrorHandler :=
  if slotwd = "allow" then (0, if noutputs = 0 then cerrh.error else cerrh)
  else if slotwd = "deny" then (noutputs, if noutputs > 1 then cerrh.warning else cerrh)
  else if slotwd = "drop" then (noutputs, cerrh)
  else
    match env.cp_integer slotwd with
    | some slot => if slot < 0 ∨ slot ≥ noutputs then (noutputs, cerrh.error) else (slot, cerrh)
    | none => (noutputs, cerrh.error)

/-- Rounds of fuel that cover every chain of nested parser calls on `words`. -/
def parse_fuel (words : List String) : Nat := 8 * words.length + 8

/-- One round of the `for (argno ...)` loop of `configure`, after the clause has
been split into `words`. -/
def configure_clause (le : Bool) (env : Env) (noutputs : Int) (words : List String)
    (tree : Builder) (errh : ErrorHandler) : Option (Builder × ErrorHandler) :=
  if words.length = 0 then some (tree, errh.error)
  else
    -- get slot
    let s := resolve_slot env (word_at env words 0) noutputs errh
    let slot := s.1
    let errh := s.2
    let tree := start_expr_subtree tree
    -- check for "-"
    if words.length = 1 ∨ (words.length = 2 ∧ word_at env words 1 = "-")
        ∨ (words.length = 2 ∧ word_at env words 1 = "any")
        ∨ (words.length = 2 ∧ word_at env words 1 = "all") then
      some (finish_expr_subtree (add_expr tree 0 0 0) Combiner.C_AND (-slot) FAILURE, errh)
    else
      -- start with a blank primitive
      match parse_expr le env words (parse_fuel words) 1
          { tree := tree, prev_prim := Primitive.clear, errh := errh } with
      | none => none
      | some (pos, st) =>
        let errh := if pos < words.length then st.errh.error else st.errh
        some (finish_expr_subtree st.tree Combiner.C_AND (-slot) FAILURE, errh)

/-- The `for (argno ...)` loop of `configure` over the tokenized clauses. -/
def configure_loop (le : Bool) (env : Env) (noutputs : Int) :
    List (List String) → Builder → ErrorHandler → Option (Builder × ErrorHandler)
  | [], tree, errh => some (tree, errh)
  | words :: more, tree, errh =>
    match configure_clause le env noutputs words tree errh with
    | none => none
    | some (tree, errh) => configure_loop le env noutputs more tree errh

/-- `IPFilter::configure` up to the call of `optimize_exprs`, on tokenized
clauses: the return value, the expression tree and the error handler. -/
def configure_words (le : Bool) (env : Env) (clauses : List (List String)) (noutputs : Int)
    (errh : ErrorHandler) : Option (Int × Builder × ErrorHandler) :=
  let before_nerrors := errh.nerrors
  match configure_loop le env noutputs clauses init_expr_subtree errh with
  | none => none
  | some (tree, errh) =>
    let tree := finish_expr_subtree tree Combiner.C_OR (-noutputs) (-noutputs)
    some (if errh.nerrors = before_nerrors then 0 else -1, tree, errh)

/-- `IPFilter::configure` up to the call of `optimize_exprs`: each clause goes
through `cp_unquote` and `separate_text`. -/
def configure (le : Bool) (env : Env) (conf : List String) (noutputs : Int)
    (errh : ErrorHandler) : Option (Int × Builder × ErrorHandler) :=
  configure_words le env (conf.map (fun arg => separate_text (env.cp_unquote arg))) noutputs errh

/-- The expression tree a finished configuration holds, if any. -/
def top_expr (tree : Builder) : Option Expr :=
  match tree with
  | [[e]] => some e
  | _ => none

/-- Modelled from the spec: `Classifier::optimize_exprs` is absent from the
sources.  §4.7 (1), constant folding: "detect and flatten subtrees determined at
compile time to be always-true or always-false ... without emitting any packet
test".  `always` is the outcome an expression has on every packet, when its
mask-0 tests alone determine it. -/
def Expr.always : Expr → Option Outcome
  | Expr.leaf _ value mask =>
    if mask = 0 then some (if value = 0 then Outcome.yes else Outcome.no) else none
  | Expr.not e =>
    match e.always with
    | some Outcome.yes => some Outcome.no
    | some Outcome.no => some Outcome.yes
    | r => r
  | Expr.and a b =>
    match a.always with
    | some Outcome.yes => b.always
    | r => r
  | Expr.or a b =>
    match a.always with
    | some Outcome.no => b.always
    | r => r
  | Expr.ternary c t e =>
    match c.always with
    | some Outcome.yes => t.always
    | some Outcome.no => e.always
    | r => r
  | Expr.route e success failure =>
    match e.always with
    | some Outcome.yes => some (Outcome.jump success)
    | some Outcome.no => some (Outcome.jump failure)
    | r => r

/-- Modelled from the spec: the lowering of the tree to a program
(`Classifier::optimize_exprs`, `compress_exprs`) is absent from the sources.
§4.6: "A clause matching every packet unconditionally ... short-circuits the
entire program to a single unconditional jump, recorded as output_everything";
§8: it "compiles to output_everything with no steps".  Every other tree is
lowered by `lower`, a parameter standing for the absent compiler, which gives
the program and its safe length. -/
def compile (lower : Expr → List Nat × Int) (top : Expr) : Engine :=
  match top.always with
  | some (Outcome.port k) => { _prog := [], _output_everything := k, _safe_length := 0 }
  | _ => { _prog := (lower top).1, _output_everything := -1, _safe_length := (lower top).2 }

/-! ### A sample environment -/

/-- Decimal digits to a number; `none` on an empty or non-digit string. -/
def parse_decimal : List Char → Option Nat
  | [] => none
  | cs =>
    if cs.all (fun c => '0' ≤ c && c ≤ '9') then
      some (cs.foldl (fun n c => 10 * n + (c.toNat - '0'.toNat)) 0)
    else none

/-- A sample environment: the IP protocol names, a few well-known ports and ICMP
types, decimal integers, and no address syntax. -/
def sample_env : Env :=
  { ip_proto := query [("icmp", 1), ("igmp", 2), ("ipip", 4), ("tcp", 6), ("udp", 17),
      ("tcpudp", 256), ("transp", 257)],
    tcp_port := query [("ftp", 21), ("ssh", 22), ("telnet", 23), ("smtp", 25), ("domain", 53), ("echo", 7),
      ("www", 80), ("https", 443)],
    udp_port := query [("echo", 7), ("domain", 53), ("bootps", 67), ("bootpc", 68), ("ntp", 123)],
    icmp_type := query [("echo-reply", 0), ("unreachable", 3), ("echo", 8)],
    cp_integer := fun s =>
      match s.data with
      | '-' :: cs => (parse_decimal cs).map (fun n => -(n : Int))
      | cs => (parse_decimal cs).map (fun n => (n : Int)),
    cp_unsigned := fun s => parse_decimal s.data,
    cp_ip_address := fun _ => none,
    cp_ip_prefix := fun _ => none,
    cp_unquote := fun s => s,
    uninitialized := 0,
    past_end := "" }

/-- The sample environment in which the field keyword `host` is also the name
of an IP protocol (number 7) in `T_IP_PROTO`. -/
def keyword_clash_env : Env :=
  { sample_env with ip_proto := query [("host", 7), ("tcp", 6), ("udp", 17)] }

/-! ## Header fields of a packet -/

/-- Byte `i` of the IP header. -/
def ip_byte (p : Packet) (i : Int) : Nat := p.mem (p.network_header_offset + i) % 256

/-- Byte `i` of the transport header. -/
def transp_byte (p : Packet) (i : Int) : Nat := p.mem (p.transport_header_offset + i) % 256

/-- The protocol field `ip_p` of the IP header. -/
def ip_p (p : Packet) : Nat := ip_byte p 9

/-- The 13-bit fragment offset of the IP header (`ip_off & IP_OFFMASK`). -/
def ip_fragment_offset (p : Packet) : Nat := (ip_byte p 6 % 32) * 256 + ip_byte p 7

/-- The destination port of a TCP or UDP header. -/
def th_dport (p : Packet) : Nat := transp_byte p 2 * 256 + transp_byte p 3

/-- The first byte of the IP source address (its top 8 bits). -/
def ip_src_top (p : Packet) : Nat := ip_byte p 12

/-- The tests that `parse_expr` builds for `tcp && dst port 80`: the protocol
test of `tcp` (emitted twice), then for `dst port 80` the first-fragment test,
the TCP-or-UDP test and the test of the destination port. -/
def tcp_dst_port_80_expr (le : Bool) : Expr :=
  Expr.and
    (Expr.and (Expr.leaf 8 (htonl le 0x00060000) (htonl le 0x00FF0000))
      (Expr.leaf 8 (htonl le 0x00060000) (htonl le 0x00FF0000)))
    (Expr.and (Expr.leaf 4 0 (htonl le 0x00001FFF))
      (Expr.and
        (Expr.or (Expr.leaf 8 (htonl le 0x00060000) (htonl le 0x00FF0000))
          (Expr.leaf 8 (htonl le 0x00110000) (htonl le 0x00FF0000)))
        (Expr.leaf 64 (htonl le 80) (htonl le 0x0000FFFF))))

/-! ### The clause `deny src 10.0.0.0/8` -/

/-- The sample environment with one address literal: `cp_ip_prefix` reads
`10.0.0.0/8` as address 10.0.0.0 and mask 255.0.0.0. -/
def prefix_env : Env :=
  { sample_env with
    cp_ip_prefix := fun s => if s = "10.0.0.0/8" then some (0x0A000000, 0xFF000000) else none }

/-- The primitive `parse_factor` has collected for `src 10.0.0.0/8` when it
calls `check`: qualifier `src`, no type, data of kind net, and the address and
mask bytes as `cp_ip_prefix` stored them. -/
def src_net_10_prim (le : Bool) : Primitive :=
  { _type := 0, _data := TYPE_NET, _op := OP_EQ, _op_negated := false, _srcdst := SD_SRC,
    _transp_proto := UNKNOWN, _u := htonl le 0x0A000000, _mask := htonl le 0xFF000000 }

/-- The single test of `src 10.0.0.0/8`, on the source-address word. -/
def src_net_10_expr (le : Bool) : Expr :=
  Expr.leaf 12 (htonl le 0x0A000000) (htonl le 0xFF000000)

/-! ### Primitives whose mask is zero after `check` -/

/-- The primitive `parse_factor` has collected for `port > 65535`. -/
def port_above_all_prim : Primitive :=
  { _type := TYPE_PORT, _data := TYPE_INT, _op := OP_GT, _op_negated := false, _srcdst := 0,
    _transp_proto := UNKNOWN, _u := 65535, _mask := 0 }

/-- The primitive `parse_factor` has collected for `src net 0.0.0.0/0`. -/
def net_zero_prim : Primitive :=
  { _type := TYPE_NET, _data := TYPE_NET, _op := OP_EQ, _op_negated := false, _srcdst := SD_SRC,
    _transp_proto := UNKNOWN, _u := 0, _mask := 0 }

/-- The primitive `parse_factor` has collected for `tcp opt 0`. -/
def tcpopt_zero_prim : Primitive :=
  { _type := TYPE_TCPOPT, _data := TYPE_INT, _op := OP_EQ, _op_negated := false, _srcdst := 0,
    _transp_proto := IP_PROTO_TCP, _u := 0, _mask := 0 }

/-! ### Shorthand directives with an operator -/

/-- A shorthand primitive: the given type, no data, and the given operator. -/
def shorthand_prim (type op : Int) : Primitive :=
  { _type := type, _data := TYPE_NONE, _op := op, _op_negated := false, _srcdst := 0,
    _transp_proto := UNKNOWN, _u := 0, _mask := 0 }

/-! ### Juxtaposition -/

/-- The checked primitive of `src port 80`, as `prev_prim`. -/
def src_port_80_prim : Primitive :=
  { _type := TYPE_PORT, _data := TYPE_PORT, _op := OP_EQ, _op_negated := false,
    _srcdst := SD_SRC, _transp_proto := IP_PROTO_TCP_OR_UDP, _u := 80, _mask := 0xFFFF }

/-- The primitive `parse_factor` has collected for a bare integer `n`. -/
def bare_int_prim (n : Nat) : Primitive :=
  { _type := 0, _data := TYPE_INT, _op := OP_EQ, _op_negated := false, _srcdst := 0,
    _transp_proto := UNKNOWN, _u := n, _mask := 0 }

/-- The tests `add_exprs` emits for the clause `port < 70000` on a
little-endian host: first fragment, TCP or UDP, and the two folded port tests. -/
def port_below_70000_expr : Expr :=
  Expr.and (Expr.leaf 4 0 0xFF1F0000)
    (Expr.and (Expr.or (Expr.leaf 8 0x600 0xFF00) (Expr.leaf 8 0x1100 0xFF00))
      (Expr.or (Expr.leaf 64 0 0) (Expr.leaf 64 0 0)))

/-- The primitive `parse_factor` hands to `check` for `ip proto tcpudp`
(`negated` false) and for `ip proto != tcpudp` (`negated` true): type and data
`proto`, value `IP_PROTO_TCP_OR_UDP`. -/
def proto_wildcard_prim (negated : Bool) : Primitive :=
  { _type := TYPE_PROTO, _data := TYPE_PROTO, _op := OP_EQ, _op_negated := negated, _srcdst := 0,
    _transp_proto := UNKNOWN, _u := 256, _mask := 0 }

/-- The primitive `check` makes of `port < 1024`: operator `>` with threshold
1023 and the negation flag set, both sides (`SD_OR`), TCP or UDP. -/
def port_below_1024_prim : Primitive :=
  { _type := TYPE_PORT, _data := TYPE_PORT, _op := OP_GT, _op_negated := true, _srcdst := SD_OR,
    _transp_proto := 256, _u := 1023, _mask := 0xFFFF }

/-! ### Sample programs and packets -/

/-- One step on the source-address word with eight sorted values; `yes` selects
port 0 and `no` selects port 1. -/
def sample_prog : List Nat := [12 + 8 * 65536, 0xFFFFFFFF, 0, 0xFF, 1, 2, 3, 4, 5, 6, 7, 8]

/-- A 40-byte packet whose byte 12 is 7. -/
def sample_packet : Packet :=
  { mem := fun a => if a = 12 then 7 else 0, length := 40,
    network_header_offset := 0, transport_header_offset := 20 }

/-- The engine state for `sample_prog`. -/
def sample_engine : Engine :=
  { _prog := sample_prog, _output_everything := -1, _safe_length := 16 }

/-- One step on the first transport word whose mask covers only its first two
bytes in memory (little-endian host): a source-port test for port 80. -/
def port_prog : List Nat := [64 + 1 * 65536, 0xFFFFFFFF, 0, 0x0000FFFF, 0x5000]

/-- A packet cut two bytes into the transport header, source port 80. -/
def cut_packet : Packet :=
  { mem := fun a => if a = 21 then 80 else 0, length := 22,
    network_header_offset := 0, transport_header_offset := 20 }

/-- One step at the first transport word with mask 0 and value set `{0}`. -/
def zero_mask_prog : List Nat := [64 + 1 * 65536, 0xFFFFFFFF, 0, 0, 0]

/-- A 20-byte packet (an IP header and nothing else) surrounded by bytes `x`. -/
def header_only_packet (x : Nat) : Packet :=
  { mem := fun a => if 0 ≤ a ∧ a < 20 then 0 else x, length := 20,
    network_header_offset := 0, transport_header_offset := 20 }

/-- Two steps: `ip[24:4] == 0` (yes: port 0, no: next step), then
`transp[0:4] == 0` (yes: port 0, no: port 1). -/
def beyond_prog : List Nat :=
  [24 + 1 * 65536, 5, 0, 0xFFFFFFFF, 0, 64 + 1 * 65536, 0xFFFFFFFF, 0, 0xFFFFFFFF, 0]

/-- The engine state for `beyond_prog`; its last step needs 68 bytes. -/
def beyond_engine : Engine :=
  { _prog := beyond_prog, _output_everything := -1, _safe_length := 68 }

/-- One step with exactly seven values, stored in descending order. -/
def seven_prog : List Nat := [12 + 7 * 65536, 0xFFFFFFFF, 0, 0xFF, 7, 6, 5, 4, 3, 2, 1]

/-- A primitive with the given operator, negation flag, value and mask. -/
def sample_prim (op : Int) (negated : Bool) (u mask : Nat) : Primitive :=
  { _type := TYPE_NONE, _data := TYPE_NONE, _op := op, _op_negated := negated, _srcdst := 0,
    _transp_proto := UNKNOWN, _u := u, _mask := mask }

/-! ## The heap algorithms of `click/algorithm.hh`

A range `[begin, end)` is a list `a` that starts at `begin`; an iterator
`begin + i` is the offset `i`.  The placement function object `place` is
recorded by the offsets it has been called with, in order. -/

/-- `less<T>` for `T = unsigned`: the function object around `operator<`. -/
def less (x y : Nat) : Bool := decide (x < y)

/-- `click_swap(begin[i], begin[j])`; the algorithms call it with offsets inside
the range only, and outside it the list is left as it is. -/
def swap_at {α : Type} (a : List α) (i j : Nat) : List α :=
  match a[i]?, a[j]? with
  | some x, some y => (a.set i y).set j x
  | _, _ => a

/-- `comp(begin[i], begin[j])`; the algorithms call it with offsets inside the
range only, and outside it the answer is `false`. -/
def comp_at {α : Type} (comp : α → α → Bool) (a : List α) (i j : Nat) : Bool :=
  match a[i]?, a[j]? with
  | some x, some y => comp x y
  | _, _ => false

/-- The loop `while (i > 0 && (npos = (i-1)/2, comp(begin[i], begin[npos])))`
of `push_heap` and `change_heap`: the range, `i` and the calls of `place`
when the loop is left; `none` when the fuel runs out. -/
def heap_up_loop {α : Type} (comp : α → α → Bool) :
    Nat → List α → Nat → List Nat → Option (List α × Nat × List Nat)
  | 0, _, _, _ => none
  | fuel + 1, a, i, placed =>
    let npos := (i - 1) / 2
    if i > 0 ∧ comp_at comp a i npos = true then
      heap_up_loop comp fuel (swap_at a i npos) npos (placed ++ [i])
    else some (a, i, placed)

/-- `push_heap(begin, end, comp, place)` on the range `a`: the range and the
calls of `place` afterwards; `none` when the assertion `begin < end` fails. -/
def push_heap {α : Type} (comp : α → α → Bool) (a : List α) : Option (List α × List Nat) :=
  if a.length = 0 then none
  else
    match heap_up_loop comp a.length a (a.length - 1) [] with
    | none => none
    | some (a, i, placed) => some (a, placed ++ [i])

/-- The loop `while (1)` of `change_heap` over a range of `size` elements. -/
def heap_down_loop {α : Type} (comp : α → α → Bool) (size : Nat) :
    Nat → List α → Nat → List Nat → Option (List α × Nat × List Nat)
  | 0, _, _, _ => none
  | fuel + 1, a, i, placed =>
    let smallest := i
    let trial := i * 2 + 1
    let smallest := if trial < size ∧ comp_at comp a trial smallest = true then trial else smallest
    let smallest :=
      if trial + 1 < size ∧ comp_at comp a (trial + 1) smallest = true then trial + 1
      else smallest
    if smallest = i then some (a, i, placed)
    else heap_down_loop comp size fuel (swap_at a i smallest) smallest (placed ++ [i])

/-- `change_heap(begin, end, element, comp, place)` with `size = end - begin`
and `a` the storage from `begin` on (it may go on past `end`, as in the call
by `remove_heap`): the storage, the offset returned and the calls of `place`;
`none` when the assertion `begin <= element && element < end` fails. -/
def change_heap {α : Type} (comp : α → α → Bool) (a : List α) (size element : Nat) :
    Option (List α × Nat × List Nat) :=
  if ¬ (element < size) then none
  else
    match heap_up_loop comp size a element [] with
    | none => none
    | some (a, i, placed) =>
      match heap_down_loop comp size size a i placed with
      | none => none
      | some (a, i, placed) =>
        some (a, i, if i ≠ element then placed ++ [i] else placed)

/-- `remove_heap(begin, end, element, comp, place)` on the range `a`: the range
and the calls of `place` afterwards; `none` when the assertion fails. -/
def remove_heap {α : Type} (comp : α → α → Bool) (a : List α) (element : Nat) :
    Option (List α × List Nat) :=
  if ¬ (element < a.length) then none
  else if element + 1 ≠ a.length then
    match change_heap comp (swap_at a element (a.length - 1)) (a.length - 1) element with
    | none => none
    | some (r, _, placed) => some (r, element :: placed)
  else some (a, [])

/-- `pop_heap(begin, end, comp, place)`. -/
def pop_heap {α : Type} (comp : α → α → Bool) (a : List α) : Option (List α × List Nat) :=
  remove_heap comp a 0

/-- The first `size` elements of `a` are a heap under `comp`: no element
compares below its parent. -/
def is_heap {α : Type} (comp : α → α → Bool) (a : List α) (size : Nat) : Prop :=
  ∀ j < size, 0 < j → comp_at comp a j ((j - 1) / 2) = false

instance is_heap_decidable {α : Type} (comp : α → α → Bool) (a : List α) (size : Nat) :
    Decidable (is_heap comp a size) := by
  unfold is_heap; infer_instance

/-- The first `size` elements of `a` are a heap "perhaps excluding" the element
at `i`: every pair of a child and its parent that does not involve `i` is in
order, and so is every child of `i` with the parent of `i`. -/
def heap_except {α : Type} (comp : α → α → Bool) (a : List α) (size i : Nat) : Prop :=
  (∀ j < size, 0 < j → j ≠ i → (j - 1) / 2 ≠ i → comp_at comp a j ((j - 1) / 2) = false)
  ∧ (∀ j < size, 0 < j → (j - 1) / 2 = i → 0 < i → comp_at comp a j ((i - 1) / 2) = false)

/-- A strict weak order: irreflexive, transitive, and with a transitive
incomparability relation. -/
def strict_weak_order {α : Type} (comp : α → α → Bool) : Prop :=
  (∀ x, comp x x = false)
  ∧ (∀ x y z, comp x y = true → comp y z = true → comp x z = true)
  ∧ (∀ x y z, comp x y = false → comp y x = false → comp y z = false → comp z y = false →
      comp x z = false ∧ comp z x = false)

/-- The transposition of `i` and `j`, applied to `k`. -/
def transpose (i j k : Nat) : Nat := if k = i then j else if k = j then i else k

instance heap_except_decidable {α : Type} (comp : α → α → Bool) (a : List α) (size i : Nat) :
    Decidable (heap_except comp a size i) := by
  unfold heap_except; infer_instance

/-! # Theorems -/

theorem bytes_sum_eq_or (c0 c1 c2 c3 : Nat) :
    c0 % 256 + 2 ^ 8 * (c1 % 256) + 2 ^ 16 * (c2 % 256) + 2 ^ 24 * (c3 % 256) =
      (c3 % 256) <<< 24 ||| ((c2 % 256) <<< 16 ||| ((c1 % 256) <<< 8 ||| c0 % 256)) := by
  have h0 : c0 % 256 < 2 ^ 8 := Nat.mod_lt _ (by norm_num)
  have h1 : c1 % 256 < 2 ^ 8 := Nat.mod_lt _ (by norm_num)
  have h2 : c2 % 256 < 2 ^ 8 := Nat.mod_lt _ (by norm_num)
  have e1 : 2 ^ 8 * (c1 % 256) + c0 % 256 = 2 ^ 8 * (c1 % 256) ||| c0 % 256 :=
    Nat.mul_add_lt_is_or h0 _
  have l1 : 2 ^ 8 * (c1 % 256) + c0 % 256 < 2 ^ 16 := by omega
  have e2 : 2 ^ 16 * (c2 % 256) + (2 ^ 8 * (c1 % 256) + c0 % 256) =
      2 ^ 16 * (c2 % 256) ||| (2 ^ 8 * (c1 % 256) + c0 % 256) := Nat.mul_add_lt_is_or l1 _
  have l2 : 2 ^ 16 * (c2 % 256) + (2 ^ 8 * (c1 % 256) + c0 % 256) < 2 ^ 24 := by omega
  have e3 : 2 ^ 24 * (c3 % 256) + (2 ^ 16 * (c2 % 256) + (2 ^ 8 * (c1 % 256) + c0 % 256)) =
      2 ^ 24 * (c3 % 256) ||| (2 ^ 16 * (c2 % 256) + (2 ^ 8 * (c1 % 256) + c0 % 256)) :=
    Nat.mul_add_lt_is_or l2 _
  rw [Nat.shiftLeft_eq, Nat.shiftLeft_eq, Nat.shiftLeft_eq, Nat.mul_comm (c3 % 256),
    Nat.mul_comm (c2 % 256), Nat.mul_comm (c1 % 256), ← e1, ← e2, ← e3]
  omega

theorem testBit_bytes (c0 c1 c2 c3 j : Nat) :
    (c0 % 256 + 2 ^ 8 * (c1 % 256) + 2 ^ 16 * (c2 % 256) + 2 ^ 24 * (c3 % 256)).testBit j =
      if j < 8 then c0.testBit j
      else if j < 16 then c1.testBit (j - 8)
      else if j < 24 then c2.testBit (j - 16)
      else if j < 32 then c3.testBit (j - 24) else false := by
  rw [bytes_sum_eq_or]
  have e : (256 : Nat) = 2 ^ 8 := by norm_num
  simp only [e, Nat.testBit_or, Nat.testBit_shiftLeft, Nat.testBit_mod_two_pow]
  by_cases h1 : j < 8
  · have a1 : ¬ j ≥ 24 := by omega
    have a2 : ¬ j ≥ 16 := by omega
    have a3 : ¬ j ≥ 8 := by omega
    simp [h1, a1, a2, a3]
  · by_cases h2 : j < 16
    · have a1 : ¬ j ≥ 24 := by omega
      have a2 : ¬ j ≥ 16 := by omega
      have a3 : j ≥ 8 := by omega
      have a4 : j - 8 < 8 := by omega
      simp [h1, h2, a1, a2, a3, a4]
    · by_cases h3 : j < 24
      · have a1 : ¬ j ≥ 24 := by omega
        have a2 : j ≥ 16 := by omega
        have a3 : j ≥ 8 := by omega
        have a4 : ¬ j - 8 < 8 := by omega
        have a5 : j - 16 < 8 := by omega
        simp [h1, h2, h3, a1, a2, a3, a4, a5]
      · by_cases h4 : j < 32
        · have a1 : j ≥ 24 := by omega
          have a2 : j ≥ 16 := by omega
          have a3 : j ≥ 8 := by omega
          have a4 : ¬ j - 8 < 8 := by omega
          have a5 : ¬ j - 16 < 8 := by omega
          have a6 : j - 24 < 8 := by omega
          simp [h1, h2, h3, h4, a1, a2, a3, a4, a5, a6]
        · have a1 : j ≥ 24 := by omega
          have a2 : j ≥ 16 := by omega
          have a3 : j ≥ 8 := by omega
          have a4 : ¬ j - 8 < 8 := by omega
          have a5 : ¬ j - 16 < 8 := by omega
          have a6 : ¬ j - 24 < 8 := by omega
          simp [h1, h2, h3, h4, a1, a2, a3, a4, a5, a6]

theorem mem_slice_iff (prog : List Nat) (pp n data : Nat) (h : pp + n ≤ prog.length) :
    data ∈ (prog.drop pp).take n ↔ ∃ i, pp ≤ i ∧ i < pp + n ∧ prog[i]? = some data := by
  constructor
  · intro hm
    obtain ⟨k, hk, hget⟩ := List.mem_iff_getElem.mp hm
    simp only [List.length_take, List.length_drop] at hk
    refine ⟨pp + k, by omega, by omega, ?_⟩
    rw [List.getElem_take, List.getElem_drop] at hget
    rw [List.getElem?_eq_getElem (by omega)]
    exact congrArg some hget
  · rintro ⟨i, h1, h2, h3⟩
    have hi : i < prog.length := by omega
    rw [List.getElem?_eq_getElem hi] at h3
    apply List.mem_iff_getElem.mpr
    refine ⟨i - pp, by simp only [List.length_take, List.length_drop]; omega, ?_⟩
    rw [List.getElem_take, List.getElem_drop]
    have : pp + (i - pp) = i := by omega
    simp only [this]
    exact Option.some.inj h3

theorem linear_scan_spec (prog : List Nat) (data : Nat) :
    ∀ off pp, pp + off ≤ prog.length →
      ∃ b, linear_scan prog data off pp = some b ∧
        (b = true ↔ ∃ i, pp ≤ i ∧ i < pp + off ∧ prog[i]? = some data) := by
  intro off
  induction off with
  | zero =>
    intro pp _
    refine ⟨false, rfl, ?_⟩
    constructor
    · intro h; cases h
    · rintro ⟨i, h1, h2, _⟩; omega
  | succ n ih =>
    intro pp hle
    have hpp : pp < prog.length := by omega
    by_cases hv : prog[pp] = data
    · refine ⟨true, ?_, ?_⟩
      · simp [linear_scan, List.getElem?_eq_getElem hpp, hv]
      · constructor
        · intro _
          exact ⟨pp, le_refl _, by omega, by rw [List.getElem?_eq_getElem hpp, hv]⟩
        · intro _; rfl
    · obtain ⟨b, hb, hiff⟩ := ih (pp + 1) (by omega)
      refine ⟨b, ?_, ?_⟩
      · simp [linear_scan, List.getElem?_eq_getElem hpp, hv, hb]
      · rw [hiff]
        constructor
        · rintro ⟨i, h1, h2, h3⟩
          exact ⟨i, by omega, by omega, h3⟩
        · rintro ⟨i, h1, h2, h3⟩
          have hne : i ≠ pp := by
            intro he
            subst he
            rw [List.getElem?_eq_getElem hpp] at h3
            exact hv (Option.some.inj h3)
          exact ⟨i, by omega, by omega, h3⟩

theorem binary_search_spec (prog : List Nat) (data lo hi : Nat) (hhi : hi ≤ prog.length)
    (hs : ∀ i j vi vj, lo ≤ i → i ≤ j → j < hi → prog[i]? = some vi → prog[j]? = some vj →
      vi ≤ vj) :
    ∀ fuel pp px, lo ≤ pp → px ≤ hi → px - pp ≤ fuel →
      ∃ b, binary_search prog data fuel pp px = some b ∧
        (b = true ↔ ∃ i, pp ≤ i ∧ i < px ∧ prog[i]? = some data) := by
  intro fuel
  induction fuel with
  | zero =>
    intro pp px _ _ hf
    refine ⟨false, rfl, ?_⟩
    constructor
    · intro h; cases h
    · rintro ⟨i, h1, h2, _⟩; omega
  | succ n ih =>
    intro pp px hlo hpx hf
    by_cases hlt : pp < px
    · have hpm : pp + (px - pp) / 2 < prog.length := by omega
      have hpm1 : pp ≤ pp + (px - pp) / 2 := by omega
      have hpm2 : pp + (px - pp) / 2 < px := by omega
      generalize hm : pp + (px - pp) / 2 = pm at hpm hpm1 hpm2
      have hget : prog[pm]? = some prog[pm] := List.getElem?_eq_getElem hpm
      by_cases hv : prog[pm] = data
      · refine ⟨true, ?_, ?_⟩
        · simp [binary_search, hlt, hm, hget, hv]
        · constructor
          · intro _
            exact ⟨pm, hpm1, hpm2, by rw [hget, hv]⟩
          · intro _; rfl
      · by_cases hless : prog[pm] < data
        · obtain ⟨b, hb, hiff⟩ := ih (pm + 1) px (by omega) hpx (by omega)
          refine ⟨b, ?_, ?_⟩
          · simp [binary_search, hlt, hm, hget, hv, hless, hb]
          · rw [hiff]
            constructor
            · rintro ⟨i, h1, h2, h3⟩
              exact ⟨i, by omega, h2, h3⟩
            · rintro ⟨i, h1, h2, h3⟩
              refine ⟨i, ?_, h2, h3⟩
              by_contra hcon
              have hle := hs i pm data prog[pm] (by omega) (by omega) (by omega) h3 hget
              omega
        · obtain ⟨b, hb, hiff⟩ := ih pp pm hlo (by omega) (by omega)
          refine ⟨b, ?_, ?_⟩
          · simp [binary_search, hlt, hm, hget, hv, hless, hb]
          · rw [hiff]
            constructor
            · rintro ⟨i, h1, h2, h3⟩
              exact ⟨i, h1, by omega, h3⟩
            · rintro ⟨i, h1, h2, h3⟩
              refine ⟨i, h1, ?_, h3⟩
              by_contra hcon
              have hle := hs pm i prog[pm] data (by omega) (by omega) (by omega) hget h3
              omega
    · refine ⟨false, ?_, ?_⟩
      · simp [binary_search, hlt]
      · constructor
        · intro h; cases h
        · rintro ⟨i, h1, h2, _⟩; omega

theorem sorted_slice_index (prog : List Nat) (pp n : Nat) (h : pp + n ≤ prog.length)
    (hs : ((prog.drop pp).take n).Sorted (· ≤ ·)) :
    ∀ i j vi vj, pp ≤ i → i ≤ j → j < pp + n → prog[i]? = some vi → prog[j]? = some vj →
      vi ≤ vj := by
  intro i j vi vj h1 h2 h3 hi hj
  rw [List.getElem?_eq_getElem (by omega)] at hi hj
  have hi' := Option.some.inj hi
  have hj' := Option.some.inj hj
  rcases Nat.eq_or_lt_of_le h2 with heq | hlt
  · subst heq
    rw [← hi', ← hj']
  · have hp := List.pairwise_iff_getElem.mp hs (i - pp) (j - pp)
      (by simp only [List.length_take, List.length_drop]; omega)
      (by simp only [List.length_take, List.length_drop]; omega) (by omega)
    rw [List.getElem_take, List.getElem_take, List.getElem_drop, List.getElem_drop] at hp
    have e1 : pp + (i - pp) = i := by omega
    have e2 : pp + (j - pp) = j := by omega
    simp only [e1, e2] at hp
    rw [← hi', ← hj']
    exact hp

theorem search_spec (prog : List Nat) (pr w0 data : Nat)
    (hin : pr + 4 + (w0 % 2 ^ 32) >>> 16 ≤ prog.length)
    (hsorted : MIN_BINARY_SEARCH ≤ (w0 % 2 ^ 32) >>> 16 →
      (step_values prog pr w0).Sorted (· ≤ ·)) :
    search prog pr w0 data = some (decide (data ∈ step_values prog pr w0)) := by
  have hmem := mem_slice_iff prog (pr + 4) ((w0 % 2 ^ 32) >>> 16) data hin
  by_cases hc : (w0 % 2 ^ 32) >>> 16 < MIN_BINARY_SEARCH
  · obtain ⟨b, hb, hiff⟩ := linear_scan_spec prog data ((w0 % 2 ^ 32) >>> 16) (pr + 4) hin
    have : search prog pr w0 data = some b := by
      simp only [search, PERFORM_BINARY_SEARCH, hc, hb]
      simp
    rw [this]
    congr 1
    cases b
    · simp only [step_values]
      symm
      rw [decide_eq_false_iff_not, hmem, ← hiff]
      simp
    · simp only [step_values]
      symm
      rw [decide_eq_true_iff, hmem, ← hiff]
  · have hs := sorted_slice_index prog (pr + 4) ((w0 % 2 ^ 32) >>> 16) hin
      (hsorted (by omega))
    obtain ⟨b, hb, hiff⟩ := binary_search_spec prog data (pr + 4)
      (pr + 4 + (w0 % 2 ^ 32) >>> 16) hin hs ((w0 % 2 ^ 32) >>> 16) (pr + 4)
      (pr + 4 + (w0 % 2 ^ 32) >>> 16) (le_refl _) (le_refl _) (by omega)
    have : search prog pr w0 data = some b := by
      simp only [search, PERFORM_BINARY_SEARCH, hc, hb]
      simp
    rw [this]
    congr 1
    cases b
    · simp only [step_values]
      symm
      rw [decide_eq_false_iff_not, hmem, ← hiff]
      simp
    · simp only [step_values]
      symm
      rw [decide_eq_true_iff, hmem, ← hiff]

theorem read_word_eq (le : Bool) (p : Packet) (o : Int) :
    read_word le p o =
      (if o < TRANSP_FAKE_OFFSET then load32 le p.mem (p.network_header_offset + o)
       else load32 le p.mem (p.transport_header_offset + (o - TRANSP_FAKE_OFFSET))) := by
  unfold read_word
  by_cases h : o ≥ TRANSP_FAKE_OFFSET
  · rw [if_pos h, if_neg (by omega)]
    congr 1
    omega
  · rw [if_neg h, if_pos (by omega)]

theorem push_loop_step (le : Bool) (prog : List Nat) (p : Packet)
    (fuel pr w0 no yes mask : Nat)
    (h0 : prog[pr]? = some w0) (h1 : prog[pr + 1]? = some no)
    (h2 : prog[pr + 2]? = some yes) (h3 : prog[pr + 3]? = some mask)
    (hin : pr + 4 + (w0 % 2 ^ 32) >>> 16 ≤ prog.length)
    (hsorted : MIN_BINARY_SEARCH ≤ (w0 % 2 ^ 32) >>> 16 →
      (step_values prog pr w0).Sorted (· ≤ ·)) :
    push_loop le prog p (fuel + 1) pr =
      (let o := toInt16 w0
       let word :=
         if o < TRANSP_FAKE_OFFSET then load32 le p.mem (p.network_header_offset + o)
         else load32 le p.mem (p.transport_header_offset + (o - TRANSP_FAKE_OFFSET))
       let t := toInt32 (if word &&& (mask % 2 ^ 32) ∈ step_values prog pr w0 then yes else no)
       if t ≤ 0 then Result.port (-t) else push_loop le prog p fuel (pr + t.toNat)) := by
  
  simp only [push_loop, h0, h3, search_spec prog pr w0 _ hin hsorted, read_word_eq]
  by_cases hm : (if toInt16 w0 < TRANSP_FAKE_OFFSET then
        load32 le p.mem (p.network_header_offset + toInt16 w0)
       else load32 le p.mem (p.transport_header_offset + (toInt16 w0 - TRANSP_FAKE_OFFSET)))
        &&& (mask % 2 ^ 32) ∈ step_values prog pr w0
  · simp only [hm, decide_True, h2, gotit, if_true]
  · simp only [hm, decide_False, h1, gotit, if_false]

theorem check_length_iff (le : Bool) (mask : Nat) (off L : Int) (hshort : off + 4 > L) :
    check_length le mask off L = true ↔
      (off < L ∧ ∀ i : Nat, i < 4 → L - off ≤ (i : Int) → memByte le (mask % 2 ^ 32) i = 0) := by
  unfold check_length
  by_cases hlt : off < L
  · rw [if_pos hlt]
    simp only [hlt, true_and]
    generalize memByte le (mask % 2 ^ 32) = c
    have havail : L - off = 1 ∨ L - off = 2 ∨ L - off = 3 := by omega
    rcases havail with e | e | e <;> rw [e] <;> constructor
    · intro h i hi hle
      have hi' : i = 1 ∨ i = 2 ∨ i = 3 := by omega
      rcases hi' with rfl | rfl | rfl <;> by_contra hne <;> simp [hne] at h
    · intro h
      simp [h 1 (by omega) (by omega), h 2 (by omega) (by omega), h 3 (by omega) (by omega)]
    · intro h i hi hle
      have hi' : i = 2 ∨ i = 3 := by omega
      rcases hi' with rfl | rfl <;> by_contra hne <;> simp [hne] at h
    · intro h
      simp [h 2 (by omega) (by omega), h 3 (by omega) (by omega)]
    · intro h i hi hle
      have hi' : i = 3 := by omega
      subst hi'
      by_contra hne
      simp [hne] at h
    · intro h
      simp [h 3 (by omega) (by omega)]
  · rw [if_neg hlt]
    simp [hlt]

theorem length_checked_loop_step (le : Bool) (prog : List Nat) (p : Packet)
    (fuel pr w0 no yes mask : Nat)
    (h0 : prog[pr]? = some w0) (h1 : prog[pr + 1]? = some no)
    (h2 : prog[pr + 2]? = some yes) (h3 : prog[pr + 3]? = some mask)
    (hin : pr + 4 + (w0 % 2 ^ 32) >>> 16 ≤ prog.length)
    (hsorted : MIN_BINARY_SEARCH ≤ (w0 % 2 ^ 32) >>> 16 →
      (step_values prog pr w0).Sorted (· ≤ ·)) :
    length_checked_loop le prog p (fuel + 1) pr =
      (let o := toInt16 w0
       let word :=
         if o < TRANSP_FAKE_OFFSET then load32 le p.mem (p.network_header_offset + o)
         else load32 le p.mem (p.transport_header_offset + (o - TRANSP_FAKE_OFFSET))
       let readable : Bool := decide (o + 4 ≤ packet_length p) ||
         check_length le mask o (packet_length p)
       let t := toInt32 (if readable = true ∧
         word &&& (mask % 2 ^ 32) ∈ step_values prog pr w0 then yes else no)
       if t ≤ 0 then Result.port (-t)
       else length_checked_loop le prog p fuel (pr + t.toNat)) := by
  simp only [length_checked_loop, h0, h3, h1, h2, search_spec prog pr w0 _ hin hsorted,
    read_word_eq]
  by_cases hm : (if toInt16 w0 < TRANSP_FAKE_OFFSET then
        load32 le p.mem (p.network_header_offset + toInt16 w0)
       else load32 le p.mem (p.transport_header_offset + (toInt16 w0 - TRANSP_FAKE_OFFSET)))
        &&& (mask % 2 ^ 32) ∈ step_values prog pr w0
  · simp only [hm, decide_True, and_true]
    by_cases hs : toInt16 w0 + 4 > packet_length p
    · by_cases hc : check_length le mask (toInt16 w0) (packet_length p) = true
      · simp [hs, hc, gotit]
      · simp [hs, hc, gotit, not_le.mpr hs]
    · simp [hs, gotit, not_lt.mp hs]
  · simp only [hm, decide_False, and_false, if_false]
    by_cases hs : toInt16 w0 + 4 > packet_length p
    · by_cases hc : check_length le mask (toInt16 w0) (packet_length p) = true
      · simp [hs, hc, gotit]
      · simp [hs, hc, gotit]
    · simp [hs, gotit]

theorem binary_search_total (prog : List Nat) (data hi : Nat) (hhi : hi ≤ prog.length) :
    ∀ fuel pp px, px ≤ hi → ∃ b, binary_search prog data fuel pp px = some b := by
  intro fuel
  induction fuel with
  | zero => intro pp px _; exact ⟨false, rfl⟩
  | succ n ih =>
    intro pp px hpx
    by_cases hlt : pp < px
    · have hpm : pp + (px - pp) / 2 < prog.length := by omega
      have hpm2 : pp + (px - pp) / 2 < px := by omega
      generalize hm : pp + (px - pp) / 2 = pm at hpm hpm2
      have hget : prog[pm]? = some prog[pm] := List.getElem?_eq_getElem hpm
      by_cases hv : prog[pm] = data
      · exact ⟨true, by simp [binary_search, hlt, hm, hget, hv]⟩
      · by_cases hless : prog[pm] < data
        · obtain ⟨b, hb⟩ := ih (pm + 1) px hpx
          exact ⟨b, by simp [binary_search, hlt, hm, hget, hv, hless, hb]⟩
        · obtain ⟨b, hb⟩ := ih pp pm (by omega)
          exact ⟨b, by simp [binary_search, hlt, hm, hget, hv, hless, hb]⟩
    · exact ⟨false, by simp [binary_search, hlt]⟩

theorem search_total (prog : List Nat) (pr w0 data : Nat)
    (hin : pr + 4 + (w0 % 2 ^ 32) >>> 16 ≤ prog.length) :
    ∃ b, search prog pr w0 data = some b := by
  by_cases hc : (w0 % 2 ^ 32) >>> 16 < MIN_BINARY_SEARCH
  · obtain ⟨b, hb, _⟩ := linear_scan_spec prog data ((w0 % 2 ^ 32) >>> 16) (pr + 4) hin
    exact ⟨b, by simp only [search, PERFORM_BINARY_SEARCH, hc, hb]; simp⟩
  · obtain ⟨b, hb⟩ := binary_search_total prog data (pr + 4 + (w0 % 2 ^ 32) >>> 16) hin
      ((w0 % 2 ^ 32) >>> 16) (pr + 4) (pr + 4 + (w0 % 2 ^ 32) >>> 16) (le_refl _)
    exact ⟨b, by simp only [search, PERFORM_BINARY_SEARCH, hc, hb]; simp⟩

theorem filter_ge_length_le (S : List Nat) (a b : Nat) (hab : a ≤ b) :
    (S.filter (fun x => decide (b ≤ x))).length ≤ (S.filter (fun x => decide (a ≤ x))).length := by
  induction S with
  | nil => simp
  | cons x xs ih =>
    by_cases hb : b ≤ x
    · have ha : a ≤ x := le_trans hab hb
      simp [List.filter_cons, hb, ha, ih]
    · by_cases ha : a ≤ x
      · simp [List.filter_cons, hb, ha]
        omega
      · simp [List.filter_cons, hb, ha, ih]

theorem filter_ge_length_lt (S : List Nat) (a b : Nat) (hab : a < b) (hmem : a ∈ S) :
    (S.filter (fun x => decide (b ≤ x))).length < (S.filter (fun x => decide (a ≤ x))).length := by
  induction S with
  | nil => cases hmem
  | cons x xs ih =>
    rcases List.mem_cons.mp hmem with heq | hin
    · subst heq
      have hb : ¬ b ≤ a := by omega
      have := filter_ge_length_le xs a b (le_of_lt hab)
      simp [List.filter_cons, hb]
      omega
    · have := ih hin
      by_cases hb : b ≤ x
      · have ha : a ≤ x := by omega
        simp [List.filter_cons, hb, ha, this]
      · by_cases ha : a ≤ x
        · simp [List.filter_cons, hb, ha]
          omega
        · simp [List.filter_cons, hb, ha, this]

theorem step_starts_length_le (prog : List Nat) : ∀ fuel i, (step_starts prog fuel i).length ≤ fuel := by
  intro fuel
  induction fuel with
  | zero => intro i; simp [step_starts]
  | succ n ih =>
    intro i
    unfold step_starts
    cases h : prog[i]? with
    | none => simp
    | some w0 =>
      simp only [List.length_cons]
      have := ih (i + ((w0 % 2 ^ 32) >>> 16) + 4)
      omega

/-- What `well_formed` says about one step position. -/
theorem well_formed_step (prog : List Nat) (hwf : well_formed prog = true) (i : Nat)
    (hi : i ∈ steps prog) :
    ∃ w0 no yes mask, prog[i]? = some w0 ∧ prog[i + 1]? = some no ∧ prog[i + 2]? = some yes ∧
      prog[i + 3]? = some mask ∧ i + 4 + (w0 % 2 ^ 32) >>> 16 ≤ prog.length ∧
      (toInt32 no ≤ 0 ∨ i + (toInt32 no).toNat ∈ steps prog) ∧
      (toInt32 yes ≤ 0 ∨ i + (toInt32 yes).toNat ∈ steps prog) := by
  unfold well_formed at hwf
  rw [Bool.and_eq_true, List.all_eq_true] at hwf
  have h := hwf.2 i hi
  cases h0 : prog[i]? with
  | none => simp [h0] at h
  | some w0 =>
    cases h1 : prog[i + 1]? with
    | none => simp [h0, h1] at h
    | some no =>
      cases h2 : prog[i + 2]? with
      | none => simp [h0, h1, h2] at h
      | some yes =>
        simp only [h0, h1, h2, Bool.and_eq_true, decide_eq_true_eq, target_ok, Bool.or_eq_true,
          List.contains_iff_exists_mem_beq, beq_iff_eq, exists_eq_right'] at h
        obtain ⟨⟨hin, hno⟩, hyes⟩ := h
        have h3lt : i + 3 < prog.length := by omega
        exact ⟨w0, no, yes, prog[i + 3], rfl, rfl, rfl, List.getElem?_eq_getElem h3lt, hin, hno, hyes⟩

theorem gotit_terminates (S : List Nat) (pr fuel : Nat) (t : Nat) (loop : Nat → Nat → Result)
    (hpr : pr ∈ S)
    (hfuel : (S.filter (fun x => decide (pr ≤ x))).length ≤ fuel + 1)
    (ht : toInt32 t ≤ 0 ∨ pr + (toInt32 t).toNat ∈ S)
    (ih : ∀ pr', pr' ∈ S → (S.filter (fun x => decide (pr' ≤ x))).length ≤ fuel →
      ∃ k : Int, k ≤ 0 ∧ loop fuel pr' = Result.port (-k)) :
    ∃ k : Int, k ≤ 0 ∧ gotit (toInt32 t) pr (loop fuel) = Result.port (-k) := by
  unfold gotit
  by_cases hle : toInt32 t ≤ 0
  · exact ⟨toInt32 t, hle, by rw [if_pos hle]⟩
  · rw [if_neg hle]
    have hmem : pr + (toInt32 t).toNat ∈ S := by
      rcases ht with h | h
      · exact absurd h hle
      · exact h
    have hlt : pr < pr + (toInt32 t).toNat := by
      have : 0 < (toInt32 t).toNat := by omega
      omega
    have := filter_ge_length_lt S pr (pr + (toInt32 t).toNat) hlt hpr
    exact ih _ hmem (by omega)

theorem push_loop_terminates (le : Bool) (prog : List Nat) (p : Packet)
    (hwf : well_formed prog = true) :
    ∀ fuel pr, pr ∈ steps prog →
      ((steps prog).filter (fun x => decide (pr ≤ x))).length ≤ fuel →
      ∃ k : Int, k ≤ 0 ∧ push_loop le prog p fuel pr = Result.port (-k) := by
  intro fuel
  induction fuel with
  | zero =>
    intro pr hpr hf
    have hpos : 0 < ((steps prog).filter (fun x => decide (pr ≤ x))).length :=
      List.length_pos_of_mem (List.mem_filter.mpr ⟨hpr, by simp⟩)
    omega
  | succ n ih =>
    intro pr hpr hf
    obtain ⟨w0, no, yes, mask, h0, h1, h2, h3, hin, hno, hyes⟩ := well_formed_step prog hwf pr hpr
    obtain ⟨b, hb⟩ := search_total prog pr w0
      (read_word le p (toInt16 w0) &&& (mask % 2 ^ 32)) hin
    simp only [push_loop, h0, h3, hb]
    cases b
    · simp only [h1]
      exact gotit_terminates (steps prog) pr n no (push_loop le prog p) hpr hf hno ih
    · simp only [h2]
      exact gotit_terminates (steps prog) pr n yes (push_loop le prog p) hpr hf hyes ih

theorem length_checked_loop_terminates (le : Bool) (prog : List Nat) (p : Packet)
    (hwf : well_formed prog = true) :
    ∀ fuel pr, pr ∈ steps prog →
      ((steps prog).filter (fun x => decide (pr ≤ x))).length ≤ fuel →
      ∃ k : Int, k ≤ 0 ∧ length_checked_loop le prog p fuel pr = Result.port (-k) := by
  intro fuel
  induction fuel with
  | zero =>
    intro pr hpr hf
    have hpos : 0 < ((steps prog).filter (fun x => decide (pr ≤ x))).length :=
      List.length_pos_of_mem (List.mem_filter.mpr ⟨hpr, by simp⟩)
    omega
  | succ n ih =>
    intro pr hpr hf
    obtain ⟨w0, no, yes, mask, h0, h1, h2, h3, hin, hno, hyes⟩ := well_formed_step prog hwf pr hpr
    obtain ⟨b, hb⟩ := search_total prog pr w0
      (read_word le p (toInt16 w0) &&& (mask % 2 ^ 32)) hin
    have hN := gotit_terminates (steps prog) pr n no (length_checked_loop le prog p) hpr hf hno ih
    have hY := gotit_terminates (steps prog) pr n yes (length_checked_loop le prog p) hpr hf hyes ih
    simp only [length_checked_loop, h0, h3, hb, h1, h2]
    cases b <;> split_ifs <;> first | exact hN | exact hY

theorem filter_length_le_length (S : List Nat) (q : Nat → Bool) : (S.filter q).length ≤ S.length :=
  List.length_filter_le q S

theorem testBit_wordOfBytes (le : Bool) (c : Nat → Nat) (j : Nat) :
    (wordOfBytes le (c 0) (c 1) (c 2) (c 3)).testBit j =
      (decide (j < 32) && (c (if le then j / 8 else 3 - j / 8)).testBit (j % 8)) := by
  unfold wordOfBytes
  cases le
  · simp only [Bool.false_eq_true, if_false, testBit_bytes]
    by_cases h1 : j < 8
    · have e1 : j / 8 = 0 := by omega
      have e2 : j % 8 = j := by omega
      have e3 : j < 32 := by omega
      simp [h1, e1, e2, e3]
    · by_cases h2 : j < 16
      · have e1 : j / 8 = 1 := by omega
        have e2 : j % 8 = j - 8 := by omega
        have e3 : j < 32 := by omega
        simp [h1, h2, e1, e2, e3]
      · by_cases h3 : j < 24
        · have e1 : j / 8 = 2 := by omega
          have e2 : j % 8 = j - 16 := by omega
          have e3 : j < 32 := by omega
          simp [h1, h2, h3, e1, e2, e3]
        · by_cases h4 : j < 32
          · have e1 : j / 8 = 3 := by omega
            have e2 : j % 8 = j - 24 := by omega
            simp [h1, h2, h3, h4, e1, e2]
          · simp [h1, h2, h3, h4]
  · simp only [if_true, testBit_bytes]
    by_cases h1 : j < 8
    · have e1 : j / 8 = 0 := by omega
      have e2 : j % 8 = j := by omega
      have e3 : j < 32 := by omega
      simp [h1, e1, e2, e3]
    · by_cases h2 : j < 16
      · have e1 : j / 8 = 1 := by omega
        have e2 : j % 8 = j - 8 := by omega
        have e3 : j < 32 := by omega
        simp [h1, h2, e1, e2, e3]
      · by_cases h3 : j < 24
        · have e1 : j / 8 = 2 := by omega
          have e2 : j % 8 = j - 16 := by omega
          have e3 : j < 32 := by omega
          simp [h1, h2, h3, e1, e2, e3]
        · by_cases h4 : j < 32
          · have e1 : j / 8 = 3 := by omega
            have e2 : j % 8 = j - 24 := by omega
            simp [h1, h2, h3, h4, e1, e2]
          · simp [h1, h2, h3, h4]

theorem testBit_memByte (le : Bool) (x i k : Nat) :
    (memByte le x i).testBit k =
      (decide (k < 8) && x.testBit (8 * (if le then i else 3 - i) + k)) := by
  unfold memByte
  cases le
  · simp only [Bool.false_eq_true, if_false]
    rw [show (256 : Nat) = 2 ^ 8 from rfl, Nat.testBit_mod_two_pow, Nat.testBit_shiftRight]
  · simp only [if_true]
    rw [show (256 : Nat) = 2 ^ 8 from rfl, Nat.testBit_mod_two_pow, Nat.testBit_shiftRight]

theorem memByte_ne_zero_of_testBit (le : Bool) (x j : Nat) (hj : j < 32)
    (hbit : x.testBit j = true) :
    memByte le x (if le then j / 8 else 3 - j / 8) ≠ 0 := by
  intro h0
  have hb := testBit_memByte le x (if le then j / 8 else 3 - j / 8) (j % 8)
  rw [h0] at hb
  have e : 8 * (if le = true then (if le = true then j / 8 else 3 - j / 8)
      else 3 - (if le = true then j / 8 else 3 - j / 8)) + j % 8 = j := by
    cases le
    · simp only [Bool.false_eq_true, if_false]; omega
    · simp only [if_true]; omega
  rw [e, hbit] at hb
  have : j % 8 < 8 := by omega
  simp [this] at hb

theorem load32_and_local (le : Bool) (mem mem' : Int → Nat) (a : Int) (m : Nat)
    (h : ∀ i : Nat, i < 4 → memByte le (m % 2 ^ 32) i ≠ 0 → mem' (a + i) = mem (a + i)) :
    load32 le mem' a &&& (m % 2 ^ 32) = load32 le mem a &&& (m % 2 ^ 32) := by
  apply Nat.eq_of_testBit_eq
  intro j
  have hw : ∀ f : Int → Nat, load32 le f a =
      wordOfBytes le ((fun i : Nat => f (a + i)) 0) ((fun i : Nat => f (a + i)) 1)
        ((fun i : Nat => f (a + i)) 2) ((fun i : Nat => f (a + i)) 3) := by
    intro f
    simp [load32]
  rw [Nat.testBit_and, Nat.testBit_and, hw mem, hw mem',
    testBit_wordOfBytes le (fun i : Nat => mem' (a + i)) j,
    testBit_wordOfBytes le (fun i : Nat => mem (a + i)) j]
  by_cases hj : j < 32
  · by_cases hbit : (m % 2 ^ 32).testBit j = true
    · have hne := memByte_ne_zero_of_testBit le (m % 2 ^ 32) j hj hbit
      have hlt : (if le then j / 8 else 3 - j / 8) < 4 := by
        cases le
        · simp only [Bool.false_eq_true, if_false]; omega
        · simp only [if_true]; omega
      have := h _ hlt hne
      simp only [this]
    · simp only [Bool.not_eq_true] at hbit
      rw [hbit, Bool.and_false, Bool.and_false]
  · simp [hj]

/-! ## The engine loops, round by round -/

theorem push_loop_target (le : Bool) (prog : List Nat) (p : Packet) (fuel pr : Nat) :
    push_loop le prog p (fuel + 1) pr =
      match push_target le prog p pr with
      | none => Result.outOfBounds
      | some t => gotit t pr (push_loop le prog p fuel) := by
  rw [push_loop]
  unfold push_target
  cases h0 : prog[pr]? with
  | none => rfl
  | some w0 =>
    cases h3 : prog[pr + 3]? with
    | none => rfl
    | some mask =>
      dsimp only
      cases hs : search prog pr w0 (read_word le p (toInt16 w0) &&& (mask % 2 ^ 32)) with
      | none => rfl
      | some b =>
        cases b
        · dsimp only
          cases h1 : prog[pr + 1]? <;> rfl
        · dsimp only
          cases h2 : prog[pr + 2]? <;> rfl

theorem length_checked_loop_target (le : Bool) (prog : List Nat) (p : Packet) (fuel pr : Nat) :
    length_checked_loop le prog p (fuel + 1) pr =
      match length_checked_target le prog p pr with
      | none => Result.outOfBounds
      | some t => gotit t pr (length_checked_loop le prog p fuel) := by
  rw [length_checked_loop]
  unfold length_checked_target
  cases h0 : prog[pr]? with
  | none => rfl
  | some w0 =>
    dsimp only
    cases h3 : prog[pr + 3]? with
    | none =>
      dsimp only
      split_ifs <;> rfl
    | some mask =>
      dsimp only
      cases hs : search prog pr w0 (read_word le p (toInt16 w0) &&& (mask % 2 ^ 32)) with
      | none =>
        dsimp only
        cases h1 : prog[pr + 1]? <;> dsimp only <;> split_ifs <;> rfl
      | some b =>
        cases b
        · dsimp only
          cases h1 : prog[pr + 1]? <;> dsimp only <;> split_ifs <;> rfl
        · dsimp only
          cases h1 : prog[pr + 1]? <;> cases h2 : prog[pr + 2]? <;> dsimp only <;>
            split_ifs <;> rfl

/-- A loop whose every round at a position of `S` takes a target that is not
positive or leads to a later position of `S` ends at the first target that is
not positive, after at most as many rounds as `S` has positions from the start
on; every round before the last moves forward by its positive target. -/
theorem rounds_spec (target : Nat → Option Int) (loop : Nat → Nat → Result) (S : List Nat)
    (hloop : ∀ fuel pr, loop (fuel + 1) pr =
      match target pr with
      | none => Result.outOfBounds
      | some t => gotit t pr (loop fuel))
    (hS : ∀ pr, pr ∈ S → ∃ t, target pr = some t ∧ (t ≤ 0 ∨ pr + t.toNat ∈ S)) :
    ∀ fuel pr, pr ∈ S → (S.filter (fun x => decide (pr ≤ x))).length ≤ fuel →
      ∃ R0 q t t0, rounds target fuel pr = R0 ++ [(q, t)] ∧ t ≤ 0
        ∧ loop fuel pr = Result.port (-t)
        ∧ (rounds target fuel pr).head? = some (pr, t0)
        ∧ List.Chain' (fun a b => 0 < a.2 ∧ b.1 = a.1 + a.2.toNat) (rounds target fuel pr)
        ∧ (rounds target fuel pr).length ≤ (S.filter (fun x => decide (pr ≤ x))).length
        ∧ ∀ x, x ∈ rounds target fuel pr → x.1 ∈ S ∧ target x.1 = some x.2 := by
  intro fuel
  induction fuel with
  | zero =>
    intro pr hpr hf
    have hpos : 0 < (S.filter (fun x => decide (pr ≤ x))).length :=
      List.length_pos_of_mem (List.mem_filter.mpr ⟨hpr, by simp⟩)
    omega
  | succ n ih =>
    intro pr hpr hf
    obtain ⟨t, ht, hnext⟩ := hS pr hpr
    have hpos : 0 < (S.filter (fun x => decide (pr ≤ x))).length :=
      List.length_pos_of_mem (List.mem_filter.mpr ⟨hpr, by simp⟩)
    rw [hloop, rounds, ht]
    dsimp only
    by_cases hle : t ≤ 0
    · rw [if_pos hle]
      refine ⟨[], pr, t, t, rfl, hle, ?_, rfl, List.chain'_singleton _, ?_, ?_⟩
      · unfold gotit
        rw [if_pos hle]
      · simp only [List.length_singleton]
        omega
      · intro x hx
        rw [List.mem_singleton] at hx
        subst hx
        exact ⟨hpr, ht⟩
    · rw [if_neg hle]
      have hmem : pr + t.toNat ∈ S := by
        rcases hnext with h | h
        · exact absurd h hle
        · exact h
      have hlt : pr < pr + t.toNat := by
        have : 0 < t.toNat := by omega
        omega
      have hmeas := filter_ge_length_lt S pr (pr + t.toNat) hlt hpr
      obtain ⟨R0, q, t', t0, hR, ht', hres, hhead, hchain, hlen, hall⟩ :=
        ih (pr + t.toNat) hmem (by omega)
      refine ⟨(pr, t) :: R0, q, t', t, ?_, ht', ?_, rfl, ?_, ?_, ?_⟩
      · rw [hR]
        rfl
      · unfold gotit
        rw [if_neg hle]
        exact hres
      · rw [List.chain'_cons']
        refine ⟨?_, hchain⟩
        intro y hy
        rw [hhead] at hy
        simp only [Option.mem_def, Option.some.injEq] at hy
        subst hy
        exact ⟨by omega, rfl⟩
      · simp only [List.length_cons]
        omega
      · intro x hx
        rcases List.mem_cons.mp hx with h | h
        · subst h
          exact ⟨hpr, ht⟩
        · exact hall x h

/-- On a well-formed program every round of the main loop of `push` at a step
takes a target that ends the loop or leads to a step. -/
theorem push_target_step (le : Bool) (prog : List Nat) (p : Packet)
    (hwf : well_formed prog = true) (pr : Nat) (hpr : pr ∈ steps prog) :
    ∃ t, push_target le prog p pr = some t ∧ (t ≤ 0 ∨ pr + t.toNat ∈ steps prog) := by
  obtain ⟨w0, no, yes, mask, h0, h1, h2, h3, hin, hno, hyes⟩ := well_formed_step prog hwf pr hpr
  obtain ⟨b, hb⟩ := search_total prog pr w0
    (read_word le p (toInt16 w0) &&& (mask % 2 ^ 32)) hin
  unfold push_target
  simp only [h0, h3, hb]
  cases b
  · simp only [h1]
    exact ⟨_, rfl, hno⟩
  · simp only [h2]
    exact ⟨_, rfl, hyes⟩

/-- The same for the loop of `length_checked_push`. -/
theorem length_checked_target_step (le : Bool) (prog : List Nat) (p : Packet)
    (hwf : well_formed prog = true) (pr : Nat) (hpr : pr ∈ steps prog) :
    ∃ t, length_checked_target le prog p pr = some t
      ∧ (t ≤ 0 ∨ pr + t.toNat ∈ steps prog) := by
  obtain ⟨w0, no, yes, mask, h0, h1, h2, h3, hin, hno, hyes⟩ := well_formed_step prog hwf pr hpr
  obtain ⟨b, hb⟩ := search_total prog pr w0
    (read_word le p (toInt16 w0) &&& (mask % 2 ^ 32)) hin
  unfold length_checked_target
  simp only [h0, h3, hb, h1, h2]
  cases b <;> dsimp only <;> split_ifs <;> first | exact ⟨_, rfl, hno⟩ | exact ⟨_, rfl, hyes⟩

/-! ## The unchecked and the length-checked path -/

/-- Where the word of a step lies inside the unified packet length, the
length-checked round takes the target the unchecked round takes. -/
theorem length_checked_target_eq (le : Bool) (prog : List Nat) (p : Packet) (pr : Nat)
    (hok : ∀ w0, prog[pr]? = some w0 → toInt16 w0 + 4 ≤ packet_length p) :
    length_checked_target le prog p pr = push_target le prog p pr := by
  unfold length_checked_target push_target
  cases h0 : prog[pr]? with
  | none => rfl
  | some w0 =>
    have h := hok w0 h0
    dsimp only
    rw [if_neg (by omega)]
    cases h3 : prog[pr + 3]? with
    | none => rfl
    | some mask => rfl

theorem loops_agree (le : Bool) (prog : List Nat) (p : Packet) :
    ∀ (fuel pr : Nat),
      (∀ w0, prog[pr]? = some w0 → toInt16 w0 + 4 ≤ packet_length p) →
      (∀ x, x ∈ rounds (push_target le prog p) fuel pr → 0 < x.2 →
        ∀ w0, prog[x.1 + x.2.toNat]? = some w0 → toInt16 w0 + 4 ≤ packet_length p) →
      length_checked_loop le prog p fuel pr = push_loop le prog p fuel pr := by
  intro fuel
  induction fuel with
  | zero => intro pr _ _; rfl
  | succ n ih =>
    intro pr hstart hnext
    rw [length_checked_loop_target, push_loop_target, length_checked_target_eq le prog p pr hstart]
    cases ht : push_target le prog p pr with
    | none => rfl
    | some t =>
      dsimp only
      unfold gotit
      by_cases hle : t ≤ 0
      · rw [if_pos hle, if_pos hle]
      · rw [if_neg hle, if_neg hle]
        have hr : rounds (push_target le prog p) (n + 1) pr
            = (pr, t) :: rounds (push_target le prog p) n (pr + t.toNat) := by
          rw [rounds, ht]
          dsimp only
          rw [if_neg hle]
        apply ih
        · exact hnext (pr, t) (by rw [hr]; exact List.mem_cons_self _ _) (by omega)
        · intro x hx
          exact hnext x (by rw [hr]; exact List.mem_cons_of_mem _ hx)

/-- C26: when the word of every step visited lies inside the unified packet
length (`offset + 4 <= packet_length` at the start position and at every
position a positive target leads to), the loop of `length_checked_push` and the
main loop of `push` give the same result from every position; in particular
`length_checked_push` selects the port the main loop of `push` selects. -/
theorem push_paths_agree (le : Bool) (e : Engine) (p : Packet) (fuel pr : Nat)
    (hstart : ∀ w0, e._prog[pr]? = some w0 → toInt16 w0 + 4 ≤ packet_length p)
    (hnext : ∀ x, x ∈ rounds (push_target le e._prog p) fuel pr → 0 < x.2 →
      ∀ w0, e._prog[x.1 + x.2.toNat]? = some w0 → toInt16 w0 + 4 ≤ packet_length p) :
    length_checked_loop le e._prog p fuel pr = push_loop le e._prog p fuel pr
    ∧ (fuel = e._prog.length → pr = 0 →
        length_checked_push le e p = push_loop le e._prog p e._prog.length 0) := by
  have h := loops_agree le e._prog p fuel pr hstart hnext
  refine ⟨h, fun hf hp => ?_⟩
  subst hf
  subst hp
  exact h

theorem push_paths_agree_witness :
    length_checked_loop true beyond_engine._prog (header_only_packet 0) 10 0
      = push_loop true beyond_engine._prog (header_only_packet 0) 10 0
    ∧ ((10 : Nat) = beyond_engine._prog.length → (0 : Nat) = 0 →
        length_checked_push true beyond_engine (header_only_packet 0)
          = push_loop true beyond_engine._prog (header_only_packet 0)
              beyond_engine._prog.length 0) :=
  push_paths_agree true beyond_engine (header_only_packet 0) 10 0 (by decide) (by decide)

/-! ## Claims about the classification engine -/

/-- C4: for a packet at least `_safe_length` long (and no `_output_everything`),
`IPFilter::push` runs its unchecked main loop; one round of that loop at a step
with offset `o`, mask `m` and value set `V` (sorted when binary search applies)
reads the word at `network_header + o` when `o < TRANSP_FAKE_OFFSET` and at
`transport_header + (o - 64)` otherwise, takes the `yes` target iff
`word & m ∈ V` and the `no` target otherwise, and stops at a non-positive target
`t` with port `-t`. -/
theorem push_step_follows_membership (le : Bool) (e : Engine) (p : Packet)
    (fuel pr w0 no yes mask : Nat)
    (hall : e._output_everything < 0) (hlen : e._safe_length ≤ packet_length p)
    (h0 : e._prog[pr]? = some w0) (h1 : e._prog[pr + 1]? = some no)
    (h2 : e._prog[pr + 2]? = some yes) (h3 : e._prog[pr + 3]? = some mask)
    (hin : pr + 4 + (w0 % 2 ^ 32) >>> 16 ≤ e._prog.length)
    (hsorted : MIN_BINARY_SEARCH ≤ (w0 % 2 ^ 32) >>> 16 →
      (step_values e._prog pr w0).Sorted (· ≤ ·)) :
    push le e p = push_loop le e._prog p e._prog.length 0 ∧
    push_loop le e._prog p (fuel + 1) pr =
      (let o := toInt16 w0
       let word :=
         if o < TRANSP_FAKE_OFFSET then load32 le p.mem (p.network_header_offset + o)
         else load32 le p.mem (p.transport_header_offset + (o - TRANSP_FAKE_OFFSET))
       let t := toInt32 (if word &&& (mask % 2 ^ 32) ∈ step_values e._prog pr w0 then yes else no)
       if t ≤ 0 then Result.port (-t) else push_loop le e._prog p fuel (pr + t.toNat)) := by
  refine ⟨?_, push_loop_step le e._prog p fuel pr w0 no yes mask h0 h1 h2 h3 hin hsorted⟩
  unfold push
  rw [if_neg (by omega), if_neg (by omega)]

/-- Witness for C4: the eight-value step of `sample_prog` on `sample_packet`. -/
theorem push_step_follows_membership_witness :
    push true sample_engine sample_packet = Result.port 0 ∧
    push_loop true sample_engine._prog sample_packet (0 + 1) 0 = Result.port 0 := by
  have h := push_step_follows_membership true sample_engine sample_packet 0 0
    (12 + 8 * 65536) 0xFFFFFFFF 0 0xFF (by decide) (by decide) (by decide) (by decide)
    (by decide) (by decide) (by decide) (fun _ => by decide)
  exact ⟨h.1.trans (by decide), h.2.trans (by decide)⟩

/-- C5 as stated fails: the step of `zero_mask_prog` starts at the very end of
`header_only_packet 0` (offset 64, unified length 64), every byte of its mask in
the unavailable region is zero and its value set holds the masked word 0, yet
`length_checked_push` takes the `no` target (port 1) rather than `yes` (port 0). -/
theorem length_checked_zero_mask_counterexample :
    toInt16 (64 + 1 * 65536) + 4 > packet_length (header_only_packet 0) ∧
    (∀ i : Nat, i < 4 →
      packet_length (header_only_packet 0) - toInt16 (64 + 1 * 65536) ≤ (i : Int) →
      memByte true 0 i = 0) ∧
    read_word true (header_only_packet 0) 64 &&& 0 ∈ step_values zero_mask_prog 0 (64 + 1 * 65536) ∧
    toInt32 0 = 0 ∧ toInt32 0xFFFFFFFF = -1 ∧
    length_checked_loop true zero_mask_prog (header_only_packet 0) 1 0 = Result.port 1 := by
  refine ⟨by decide, by decide, by decide, by decide, by decide, by decide⟩

/-- C5 (amended): in `length_checked_push`, a step with `o + 4 > L` is evaluated
on the masked word exactly when at least one byte of the word is available
(`o < L`) and every byte of the mask at a position `>= L - o` is zero, and takes
its `no` target otherwise; when it is evaluated, the masked word is the same for
any memory that agrees on the bytes the mask covers, so only available bytes
are used. -/
theorem length_checked_short_step (le : Bool) (prog : List Nat) (p : Packet)
    (fuel pr w0 no yes mask : Nat)
    (h0 : prog[pr]? = some w0) (h1 : prog[pr + 1]? = some no)
    (h2 : prog[pr + 2]? = some yes) (h3 : prog[pr + 3]? = some mask)
    (hin : pr + 4 + (w0 % 2 ^ 32) >>> 16 ≤ prog.length)
    (hsorted : MIN_BINARY_SEARCH ≤ (w0 % 2 ^ 32) >>> 16 →
      (step_values prog pr w0).Sorted (· ≤ ·))
    (hshort : toInt16 w0 + 4 > packet_length p) :
    length_checked_loop le prog p (fuel + 1) pr =
      (let o := toInt16 w0
       let word :=
         if o < TRANSP_FAKE_OFFSET then load32 le p.mem (p.network_header_offset + o)
         else load32 le p.mem (p.transport_header_offset + (o - TRANSP_FAKE_OFFSET))
       let t := toInt32
         (if (o < packet_length p ∧
              ∀ i : Nat, i < 4 → packet_length p - o ≤ (i : Int) →
                memByte le (mask % 2 ^ 32) i = 0) ∧
             word &&& (mask % 2 ^ 32) ∈ step_values prog pr w0 then yes else no)
       if t ≤ 0 then Result.port (-t)
       else length_checked_loop le prog p fuel (pr + t.toNat)) ∧
    ((∀ i : Nat, i < 4 → packet_length p - toInt16 w0 ≤ (i : Int) →
        memByte le (mask % 2 ^ 32) i = 0) →
      ∀ (mem' : Int → Nat) (a : Int),
        (∀ i : Nat, (i : Int) < packet_length p - toInt16 w0 → mem' (a + i) = p.mem (a + i)) →
        load32 le mem' a &&& (mask % 2 ^ 32) = load32 le p.mem a &&& (mask % 2 ^ 32)) := by
  constructor
  · rw [length_checked_loop_step le prog p fuel pr w0 no yes mask h0 h1 h2 h3 hin hsorted]
    have hiff := check_length_iff le mask (toInt16 w0) (packet_length p) hshort
    have hnot : ¬ toInt16 w0 + 4 ≤ packet_length p := by omega
    have hcond : ∀ X : Prop,
        ((decide (toInt16 w0 + 4 ≤ packet_length p) ||
            check_length le mask (toInt16 w0) (packet_length p)) = true ∧ X) ↔
          ((toInt16 w0 < packet_length p ∧
            ∀ i : Nat, i < 4 → packet_length p - toInt16 w0 ≤ (i : Int) →
              memByte le (mask % 2 ^ 32) i = 0) ∧ X) := by
      intro X
      rw [Bool.or_eq_true, decide_eq_true_iff, hiff]
      constructor
      · rintro ⟨h | h, hx⟩
        · exact absurd h hnot
        · exact ⟨h, hx⟩
      · rintro ⟨h, hx⟩
        exact ⟨Or.inr h, hx⟩
    dsimp only
    simp only [hcond]
  · intro hz mem' a hagree
    apply load32_and_local
    intro i hi hne
    by_cases hav : (i : Int) < packet_length p - toInt16 w0
    · exact hagree i hav
    · exact absurd (hz i hi (by omega)) hne

/-- Witness for C5: the source-port step of `port_prog` on a packet cut two
bytes into the transport header is still evaluated and matches. -/
theorem length_checked_short_step_witness :
    length_checked_loop true port_prog cut_packet (0 + 1) 0 = Result.port 0 := by
  have h := length_checked_short_step true port_prog cut_packet 0 0 (64 + 1 * 65536)
    0xFFFFFFFF 0 0x0000FFFF (by decide) (by decide) (by decide) (by decide) (by decide)
    (fun _ => by decide) (by decide)
  exact h.1.trans (by decide)

/-- C6 (the engine at the failing input): `header_only_packet 0` and
`header_only_packet 255` have the same length and header offsets and identical
bytes inside the packet, yet `length_checked_push` (reached from `push`) selects
port 0 for one and port 1 for the other, on either byte order: the step at
network offset 24 passes the length check and reads bytes 24..27 of a 20-byte
packet. -/
theorem length_checked_push_reads_past_packet_end (le : Bool) :
    (header_only_packet 0).length = (header_only_packet 255).length ∧
    (∀ a : Int, 0 ≤ a → a < ((header_only_packet 0).length : Int) →
      (header_only_packet 0).mem a = (header_only_packet 255).mem a) ∧
    push le beyond_engine (header_only_packet 0) =
      length_checked_push le beyond_engine (header_only_packet 0) ∧
    push le beyond_engine (header_only_packet 255) =
      length_checked_push le beyond_engine (header_only_packet 255) ∧
    length_checked_push le beyond_engine (header_only_packet 0) = Result.port 0 ∧
    length_checked_push le beyond_engine (header_only_packet 255) = Result.port 1 := by
  refine ⟨rfl, ?_, ?_, ?_, ?_, ?_⟩
  · intro a h0 h1
    have h1' : a < 20 := h1
    simp [header_only_packet, h0, h1']
  · cases le <;> decide
  · cases le <;> decide
  · cases le <;> decide
  · cases le <;> decide

/-- C7: on a well-formed program (execution starts on a step and every positive
branch target lands on the start of a step inside the array), with fuel for as
many rounds as the program has steps, the rounds of each loop start at position
0, every round but the last takes a positive target and moves the position
forward by it, the last round takes the first target `t` that is not positive,
and the loop ends there by selecting port `-t`; there are at most as many rounds
as steps, each at a step of the program with the target that round takes.
`length_checked_push` and `push` run these loops with `_prog.size()` rounds of
fuel, which is enough. -/
theorem engine_terminates (le : Bool) (e : Engine) (p : Packet) (fuel : Nat)
    (hwf : well_formed e._prog = true) (hfuel : (steps e._prog).length ≤ fuel) :
    (∃ R0 q t t0, rounds (push_target le e._prog p) fuel 0 = R0 ++ [(q, t)] ∧ t ≤ 0
      ∧ push_loop le e._prog p fuel 0 = Result.port (-t)
      ∧ (rounds (push_target le e._prog p) fuel 0).head? = some (0, t0)
      ∧ List.Chain' (fun a b => 0 < a.2 ∧ b.1 = a.1 + a.2.toNat)
          (rounds (push_target le e._prog p) fuel 0)
      ∧ (rounds (push_target le e._prog p) fuel 0).length ≤ (steps e._prog).length
      ∧ ∀ x, x ∈ rounds (push_target le e._prog p) fuel 0 →
          x.1 ∈ steps e._prog ∧ push_target le e._prog p x.1 = some x.2) ∧
    (∃ R0 q t t0, rounds (length_checked_target le e._prog p) fuel 0 = R0 ++ [(q, t)] ∧ t ≤ 0
      ∧ length_checked_loop le e._prog p fuel 0 = Result.port (-t)
      ∧ (rounds (length_checked_target le e._prog p) fuel 0).head? = some (0, t0)
      ∧ List.Chain' (fun a b => 0 < a.2 ∧ b.1 = a.1 + a.2.toNat)
          (rounds (length_checked_target le e._prog p) fuel 0)
      ∧ (rounds (length_checked_target le e._prog p) fuel 0).length ≤ (steps e._prog).length
      ∧ ∀ x, x ∈ rounds (length_checked_target le e._prog p) fuel 0 →
          x.1 ∈ steps e._prog ∧ length_checked_target le e._prog p x.1 = some x.2) ∧
    (steps e._prog).length ≤ e._prog.length ∧
    length_checked_push le e p = length_checked_loop le e._prog p e._prog.length 0 ∧
    push le e p =
      (if e._output_everything ≥ 0 then Result.port e._output_everything
       else if packet_length p < e._safe_length then
         length_checked_loop le e._prog p e._prog.length 0
       else push_loop le e._prog p e._prog.length 0) := by
  have h0 : 0 ∈ steps e._prog := by
    unfold well_formed at hwf
    rw [Bool.and_eq_true] at hwf
    simpa [List.contains_iff_exists_mem_beq] using hwf.1
  have hlen : (steps e._prog).length ≤ e._prog.length := step_starts_length_le e._prog _ _
  have hf : ((steps e._prog).filter (fun x => decide (0 ≤ x))).length ≤ fuel :=
    le_trans (List.length_filter_le _ _) hfuel
  have hP := rounds_spec (push_target le e._prog p) (push_loop le e._prog p) (steps e._prog)
    (push_loop_target le e._prog p) (push_target_step le e._prog p hwf) fuel 0 h0 hf
  have hL := rounds_spec (length_checked_target le e._prog p) (length_checked_loop le e._prog p)
    (steps e._prog) (length_checked_loop_target le e._prog p)
    (length_checked_target_step le e._prog p hwf) fuel 0 h0 hf
  refine ⟨?_, ?_, hlen, rfl, rfl⟩
  · obtain ⟨R0, q, t, t0, h1, h2, h3, h4, h5, h6, h7⟩ := hP
    exact ⟨R0, q, t, t0, h1, h2, h3, h4, h5, le_trans h6 (List.length_filter_le _ _), h7⟩
  · obtain ⟨R0, q, t, t0, h1, h2, h3, h4, h5, h6, h7⟩ := hL
    exact ⟨R0, q, t, t0, h1, h2, h3, h4, h5, le_trans h6 (List.length_filter_le _ _), h7⟩

/-- Witness for C7: the two-step program `beyond_prog` is well formed. -/
theorem engine_terminates_witness :
    well_formed beyond_engine._prog = true ∧
    (∃ R0 q t t0, rounds (push_target true beyond_engine._prog sample_packet)
        beyond_engine._prog.length 0 = R0 ++ [(q, t)] ∧ t ≤ 0
      ∧ push_loop true beyond_engine._prog sample_packet beyond_engine._prog.length 0
          = Result.port (-t)
      ∧ (rounds (push_target true beyond_engine._prog sample_packet)
          beyond_engine._prog.length 0).head? = some (0, t0)
      ∧ List.Chain' (fun a b => 0 < a.2 ∧ b.1 = a.1 + a.2.toNat)
          (rounds (push_target true beyond_engine._prog sample_packet)
            beyond_engine._prog.length 0)
      ∧ (rounds (push_target true beyond_engine._prog sample_packet)
          beyond_engine._prog.length 0).length ≤ (steps beyond_engine._prog).length
      ∧ ∀ x, x ∈ rounds (push_target true beyond_engine._prog sample_packet)
            beyond_engine._prog.length 0 →
          x.1 ∈ steps beyond_engine._prog
            ∧ push_target true beyond_engine._prog sample_packet x.1 = some x.2) :=
  ⟨by decide, (engine_terminates true beyond_engine sample_packet beyond_engine._prog.length
    (by decide) (by decide)).1⟩

/-- C8 as stated fails: a step holding exactly seven values is evaluated by
binary search, not by the linear scan; on the unsorted `seven_prog` the two
differ. -/
theorem search_seven_values_counterexample :
    search seven_prog 0 (12 + 7 * 65536) 7 = binary_search seven_prog 7 7 4 11 ∧
    search seven_prog 0 (12 + 7 * 65536) 7 = some false ∧
    linear_scan seven_prog 7 7 4 = some true := by
  refine ⟨by decide, by decide, by decide⟩

/-- C8 (amended): a step's value set is evaluated by binary search exactly when
its number of values is at least `MIN_BINARY_SEARCH = 7`, and by linear scan
when it is smaller. -/
theorem search_mode_threshold (prog : List Nat) (pr w0 data : Nat) :
    search prog pr w0 data =
      (if 7 ≤ (w0 % 2 ^ 32) >>> 16 then
        binary_search prog data ((w0 % 2 ^ 32) >>> 16) (pr + 4) (pr + 4 + (w0 % 2 ^ 32) >>> 16)
       else linear_scan prog data ((w0 % 2 ^ 32) >>> 16) (pr + 4)) := by
  unfold search
  by_cases h : (w0 % 2 ^ 32) >>> 16 < MIN_BINARY_SEARCH
  · have h' : ¬ 7 ≤ (w0 % 2 ^ 32) >>> 16 := by simpa [MIN_BINARY_SEARCH] using h
    simp only [PERFORM_BINARY_SEARCH, h, h']
    simp
  · have h' : 7 ≤ (w0 % 2 ^ 32) >>> 16 := by simpa [MIN_BINARY_SEARCH] using h
    simp only [PERFORM_BINARY_SEARCH, h, h']
    simp

/-! ## Bit-level facts -/

theorem testBit_false_of_lt (x n i : Nat) (hx : x < 2 ^ n) (hi : n ≤ i) : x.testBit i = false :=
  Nat.testBit_lt_two_pow (lt_of_lt_of_le hx (Nat.pow_le_pow_right (by norm_num) hi))

theorem and_mod_two_pow (a b k : Nat) : (a &&& b) % 2 ^ k = (a % 2 ^ k) &&& (b % 2 ^ k) := by
  apply Nat.eq_of_testBit_eq
  intro i
  simp only [Nat.testBit_mod_two_pow, Nat.testBit_and]
  cases decide (i < k) <;> simp

theorem and_div_two_pow (a b k : Nat) : (a &&& b) / 2 ^ k = (a / 2 ^ k) &&& (b / 2 ^ k) := by
  apply Nat.eq_of_testBit_eq
  intro i
  simp only [← Nat.shiftRight_eq_div_pow, Nat.testBit_shiftRight, Nat.testBit_and]

theorem testBit_not32 (x i : Nat) :
    (not32 x).testBit i = (decide (i < 32) && !(x % 2 ^ 32).testBit i) := by
  unfold not32
  have h : x % 2 ^ 32 < 2 ^ 32 := Nat.mod_lt _ (by norm_num)
  have e : 2 ^ 32 - 1 - x % 2 ^ 32 = 2 ^ 32 - (x % 2 ^ 32 + 1) := by omega
  rw [e, Nat.testBit_two_pow_sub_succ h]

theorem not32_lt (x : Nat) : not32 x < 2 ^ 32 := by
  unfold not32
  omega

/-- Clearing the low `k` bits of a 32-bit word keeps `(m / 2^k) * 2^k`. -/
theorem and_not32_low (m k : Nat) (hm : m < 2 ^ 32) :
    m &&& not32 (2 ^ k - 1) = (m >>> k) <<< k := by
  apply Nat.eq_of_testBit_eq
  intro i
  rw [Nat.testBit_and, testBit_not32, Nat.testBit_shiftLeft, Nat.testBit_shiftRight,
    Nat.testBit_mod_two_pow, Nat.testBit_two_pow_sub_one]
  by_cases hi : i < 32
  · by_cases hk : i < k
    · have : ¬ i ≥ k := by omega
      simp [hi, hk, this]
    · have h1 : i ≥ k := by omega
      have h2 : k + (i - k) = i := by omega
      simp [hi, hk, h1, h2]
  · have := testBit_false_of_lt m 32 i hm (by omega)
    have h2 : m.testBit (k + (i - k)) = false := testBit_false_of_lt m 32 _ hm (by omega)
    simp [hi, this, h2]

/-- Removing from a 32-bit word the bits at and above position `k`. -/
theorem and_not32_high (m k : Nat) (hm : m < 2 ^ 32) :
    m &&& not32 ((m >>> k) <<< k) = m % 2 ^ k := by
  apply Nat.eq_of_testBit_eq
  intro i
  rw [Nat.testBit_and, testBit_not32, Nat.testBit_mod_two_pow, Nat.testBit_mod_two_pow,
    Nat.testBit_shiftLeft, Nat.testBit_shiftRight]
  by_cases hi : i < 32
  · by_cases hk : i < k
    · have : ¬ i ≥ k := by omega
      simp [hi, hk, this]
    · have h1 : i ≥ k := by omega
      have h2 : k + (i - k) = i := by omega
      simp [hi, hk, h1, h2]
  · have := testBit_false_of_lt m 32 i hm (by omega)
    simp [hi, this]

theorem and_shift_high (v m k : Nat) : v &&& ((m >>> k) <<< k) = ((v &&& m) >>> k) <<< k := by
  apply Nat.eq_of_testBit_eq
  intro i
  simp only [Nat.testBit_and, Nat.testBit_shiftLeft, Nat.testBit_shiftRight]
  by_cases hk : i ≥ k
  · have h2 : k + (i - k) = i := by omega
    simp [hk, h2]
  · simp [hk]

theorem and_mod_of_lt (v m k : Nat) (hm : m < 2 ^ k) : v &&& m = (v % 2 ^ k) &&& m := by
  apply Nat.eq_of_testBit_eq
  intro i
  simp only [Nat.testBit_and, Nat.testBit_mod_two_pow]
  by_cases hk : i < k
  · simp [hk]
  · have := testBit_false_of_lt m k i hm (by omega)
    simp [hk, this]

theorem testBit_log2 (x : Nat) (hx : x ≠ 0) : x.testBit (Nat.log2 x) = true := by
  have h1 := Nat.log2_self_le hx
  have h2 : x < 2 ^ (Nat.log2 x + 1) := Nat.lt_log2_self
  rw [Nat.testBit_to_div_mod]
  have hpos : 0 < 2 ^ Nat.log2 x := Nat.pow_pos (by norm_num)
  have : x / 2 ^ Nat.log2 x = 1 := by
    apply Nat.div_eq_of_lt_le
    · omega
    · rw [pow_succ] at h2; omega
  simp [this]

theorem lt_two_pow_of_testBit_false (n j : Nat) (h : n < 2 ^ (j + 1)) (hb : n.testBit j = false) :
    n < 2 ^ j := by
  by_contra hge
  have hpos : 0 < 2 ^ j := Nat.pow_pos (by norm_num)
  have : n / 2 ^ j = 1 := by
    apply Nat.div_eq_of_lt_le
    · omega
    · rw [pow_succ] at h; omega
  rw [Nat.testBit_to_div_mod, this] at hb
  simp at hb

theorem sub_of_and_eq (a m : Nat) (h : a &&& m = a) : a ≤ m := by
  rw [← h]; exact Nat.and_le_right

theorem lex_lt (P a b : Nat) (_hP : 0 < P) :
    b < a ↔ (b / P < a / P ∨ (b / P = a / P ∧ b % P < a % P)) := by
  have ha := Nat.div_add_mod a P
  have hb := Nat.div_add_mod b P
  constructor
  · intro h
    by_cases hq : b / P < a / P
    · exact Or.inl hq
    · right
      have hle : b / P ≤ a / P := Nat.div_le_div_right (le_of_lt h)
      have heq : b / P = a / P := by omega
      refine ⟨heq, ?_⟩
      rw [heq] at hb
      generalize P * (a / P) = t at ha hb
      omega
  · rintro (h | ⟨h1, h2⟩)
    · exact Nat.lt_of_div_lt_div h
    · rw [h1] at hb
      generalize P * (a / P) = t at ha hb
      omega

/-- One round of the decomposition when the top bit of the threshold is 0. -/
theorem round_or (x u k : Nat) (hu : u < 2 ^ k) :
    u < x ↔ (x / 2 ^ k ≠ 0 ∨ u < x % 2 ^ k) := by
  have hP : 0 < 2 ^ k := Nat.pow_pos (by norm_num)
  rw [lex_lt (2 ^ k) x u hP, Nat.div_eq_of_lt hu, Nat.mod_eq_of_lt hu]
  generalize x / 2 ^ k = q
  generalize x % 2 ^ k = r
  constructor
  · rintro (h | ⟨h1, h2⟩)
    · exact Or.inl (by omega)
    · exact Or.inr h2
  · rintro (h | h)
    · exact Or.inl (by omega)
    · by_cases h0 : q = 0
      · exact Or.inr ⟨h0.symm, h⟩
      · exact Or.inl (by omega)

theorem div_succ_le (u P : Nat) (hP : 0 < P) : (u + 1) / P ≤ u / P + 1 := by
  calc (u + 1) / P ≤ (u + P) / P := Nat.div_le_div_right (by omega)
    _ = u / P + 1 := Nat.add_div_right u hP

theorem div_succ_eq (u P : Nat) (_hP : 0 < P) (h : u % P + 1 < P) : (u + 1) / P = u / P := by
  have hu := Nat.div_add_mod u P
  apply Nat.div_eq_of_lt_le
  · rw [Nat.mul_comm]
    generalize P * (u / P) = t at hu
    omega
  · rw [Nat.add_mul, Nat.one_mul, Nat.mul_comm]
    generalize P * (u / P) = t at hu
    omega

/-- One round of the decomposition when the top bit of the threshold is 1. -/
theorem round_and (x u m k : Nat) (hxm : x &&& m = x) (hum : u &&& m = u) (hlt : u < m)
    (hcarry : m / 2 ^ k ≤ (u + 1) / 2 ^ k) :
    u < x ↔ (x / 2 ^ k = m / 2 ^ k ∧ (u % 2 ^ k < m % 2 ^ k → u % 2 ^ k < x % 2 ^ k)) := by
  have hP : 0 < 2 ^ k := Nat.pow_pos (by norm_num)
  have hxh : x / 2 ^ k ≤ m / 2 ^ k := by
    have := and_div_two_pow x m k
    rw [hxm] at this
    rw [this]; exact Nat.and_le_right
  have hxl : x % 2 ^ k ≤ m % 2 ^ k := by
    have := and_mod_two_pow x m k
    rw [hxm] at this
    rw [this]; exact Nat.and_le_right
  have huh : u / 2 ^ k ≤ m / 2 ^ k := by
    have := and_div_two_pow u m k
    rw [hum] at this
    rw [this]; exact Nat.and_le_right
  have hul : u % 2 ^ k ≤ m % 2 ^ k := by
    have := and_mod_two_pow u m k
    rw [hum] at this
    rw [this]; exact Nat.and_le_right
  have hml : m % 2 ^ k < 2 ^ k := Nat.mod_lt _ hP
  have hlex := lex_lt (2 ^ k) x u hP
  have hlexm := (lex_lt (2 ^ k) m u hP).mp hlt
  have hsucc := div_succ_le u (2 ^ k) hP
  rw [hlex]
  by_cases hcase : u % 2 ^ k < m % 2 ^ k
  · have heq : (u + 1) / 2 ^ k = u / 2 ^ k := div_succ_eq u (2 ^ k) hP (by omega)
    rw [heq] at hcarry
    generalize x / 2 ^ k = xh at *
    generalize x % 2 ^ k = xl at *
    generalize u / 2 ^ k = uh at *
    generalize u % 2 ^ k = ul at *
    generalize m / 2 ^ k = mh at *
    generalize m % 2 ^ k = ml at *
    constructor
    · rintro (h | ⟨h1, h2⟩)
      · omega
      · exact ⟨by omega, fun _ => h2⟩
    · rintro ⟨h1, h2⟩
      exact Or.inr ⟨by omega, h2 hcase⟩
  · generalize x / 2 ^ k = xh at *
    generalize x % 2 ^ k = xl at *
    generalize u / 2 ^ k = uh at *
    generalize u % 2 ^ k = ul at *
    generalize m / 2 ^ k = mh at *
    generalize m % 2 ^ k = ml at *
    generalize (u + 1) / 2 ^ k = ch at *
    constructor
    · rintro (h | ⟨h1, h2⟩)
      · refine ⟨by omega, fun h => absurd h hcase⟩
      · omega
    · rintro ⟨h1, _⟩
      rcases hlexm with h | ⟨_, h⟩
      · exact Or.inl (by omega)
      · omega

theorem bit_length_eq_log2 : ∀ (fuel x : Nat), x ≠ 0 → x < 2 ^ fuel →
    bit_length fuel x = Nat.log2 x + 1 := by
  intro fuel
  induction fuel with
  | zero => intro x h0 hx; simp at hx; omega
  | succ f ih =>
    intro x h0 hx
    rw [bit_length, if_neg h0]
    by_cases h2 : x ≥ 2
    · have hne : x / 2 ≠ 0 := by omega
      have hlt : x / 2 < 2 ^ f := by rw [pow_succ] at hx; omega
      have e : Nat.log2 x = Nat.log2 (x / 2) + 1 := by
        conv_lhs => rw [Nat.log2]
        rw [if_pos h2]
      rw [ih (x / 2) hne hlt, e]
    · have h1 : x = 1 := by omega
      subst h1
      have hz : ∀ g, bit_length g (1 / 2) = 0 := by
        intro g; cases g <;> simp [bit_length]
      have e : Nat.log2 1 = 0 := by
        conv_lhs => rw [Nat.log2]
        rw [if_neg (by omega)]
      rw [hz, e]

theorem ffs_msb_def (x : Nat) :
    ffs_msb x = if x % 2 ^ 32 = 0 then 0 else 32 - Nat.log2 (x % 2 ^ 32) := by
  unfold ffs_msb
  by_cases h : x % 2 ^ 32 = 0
  · rw [if_pos h, if_pos h]
  · rw [if_neg h, if_neg h, bit_length_eq_log2 32 _ h (Nat.mod_lt _ (by norm_num))]
    omega

theorem shl32_one (k : Nat) (hk : k ≤ 31) : (shl32 1 k + 2 ^ 32 - 1) % 2 ^ 32 = 2 ^ k - 1 := by
  unfold shl32
  have h1 : k % 32 = k := Nat.mod_eq_of_lt (by omega)
  have h2 : 2 ^ k < 2 ^ 32 := Nat.pow_lt_pow_right (by norm_num) (by omega)
  have h3 : 0 < 2 ^ k := Nat.pow_pos (by norm_num)
  rw [h1, Nat.shiftLeft_eq, Nat.one_mul, Nat.mod_eq_of_lt h2]
  have : 2 ^ k + 2 ^ 32 - 1 = (2 ^ k - 1) + 2 ^ 32 := by omega
  rw [this, Nat.add_mod_right, Nat.mod_eq_of_lt (by omega)]

theorem lt_round_bits (x : Nat) : x < 2 ^ round_bits x := by
  unfold round_bits
  by_cases h : x = 0
  · simp [h]
  · rw [if_neg h]; exact Nat.lt_log2_self

theorem ffs_msb_eq (x : Nat) (hx : x < 2 ^ 32) (hk : round_bits x ≤ 31) :
    (33 - ffs_msb x = 33 ↔ x = 0) ∧ (x ≠ 0 → 33 - ffs_msb x = round_bits x) := by
  rw [ffs_msb_def]
  unfold round_bits at *
  rw [Nat.mod_eq_of_lt hx]
  by_cases h : x = 0
  · simp [h]
  · rw [if_neg h] at hk
    simp only [h, if_false]
    constructor
    · constructor
      · intro h'; omega
      · intro h'; exact h'.elim
    · intro _; omega

/-- With `k = round_bits x` at most 31, `upper_mask` is the part of `mask` at
and above bit `k`. -/
theorem upper_mask_of_bits (x mask : Nat) (hx : x < 2 ^ 32) (hm : mask < 2 ^ 32)
    (hk : round_bits x ≤ 31) :
    (if 33 - ffs_msb x = 33 then mask
      else mask &&& not32 ((shl32 1 (33 - ffs_msb x) + 2 ^ 32 - 1) % 2 ^ 32)) =
      (mask >>> round_bits x) <<< round_bits x := by
  have hf := ffs_msb_eq x hx hk
  by_cases h : x = 0
  · rw [if_pos (hf.1.mpr h)]
    simp [round_bits, h]
  · rw [if_neg (fun h' => h (hf.1.mp h')), hf.2 h, shl32_one _ hk, and_not32_low _ _ hm]

/-- The part of the mask above the cut is not empty (threshold top bit 0). -/
theorem round_bits_le_mask_or (u mask : Nat) (hlt : u < mask) (hb : ¬ u > mask >>> 1) :
    2 ^ round_bits u ≤ mask := by
  unfold round_bits
  by_cases h : u = 0
  · simp [h]; omega
  · rw [if_neg h]
    have h1 := Nat.log2_self_le h
    rw [Nat.shiftRight_eq_div_pow] at hb
    rw [pow_succ]
    omega

/-- The part of the mask above the cut is not empty (threshold top bit 1). -/
theorem round_bits_le_mask_and (u mask : Nat) (hm : mask < 2 ^ 32) (hum : u &&& mask = u)
    (hlt : u < mask) (hb : u > mask >>> 1) :
    2 ^ round_bits (not32 (u + 1) &&& mask) ≤ mask := by
  unfold round_bits
  by_cases h : not32 (u + 1) &&& mask = 0
  · simp [h]; omega
  · rw [if_neg h]
    by_contra hcon
    have hcon' : mask < 2 ^ (Nat.log2 (not32 (u + 1) &&& mask) + 1) := by omega
    have hbit := testBit_log2 _ h
    generalize Nat.log2 (not32 (u + 1) &&& mask) = j at hbit hcon'
    rw [Nat.testBit_and, testBit_not32, Nat.mod_eq_of_lt (by omega : u + 1 < 2 ^ 32)] at hbit
    simp only [Bool.and_eq_true, decide_eq_true_eq, Bool.not_eq_true'] at hbit
    obtain ⟨⟨_, hu1⟩, hmj⟩ := hbit
    have hu2 : u + 1 < 2 ^ j := lt_two_pow_of_testBit_false _ _ (by omega) hu1
    have hmge : 2 ^ j ≤ mask := Nat.testBit_implies_ge hmj
    have hmod : mask % 2 ^ j = mask - 2 ^ j := by
      rw [pow_succ] at hcon'
      rw [Nat.mod_eq_sub_mod hmge, Nat.mod_eq_of_lt (by omega)]
    have hule : u ≤ mask % 2 ^ j := by
      have := and_mod_two_pow u mask j
      rw [hum, Nat.mod_eq_of_lt (by omega : u < 2 ^ j)] at this
      rw [this]; exact Nat.and_le_right
    rw [Nat.shiftRight_eq_div_pow] at hb
    rw [pow_succ] at hcon'
    omega

/-- When the top bit of the threshold is 1, the mask above the cut is covered by
`u + 1`. -/
theorem carry_of_lt (u mask k : Nat) (hm : mask < 2 ^ 32) (hlt : u < mask)
    (hx : not32 (u + 1) &&& mask < 2 ^ k) : mask / 2 ^ k ≤ (u + 1) / 2 ^ k := by
  have hsub : (mask / 2 ^ k) &&& ((u + 1) / 2 ^ k) = mask / 2 ^ k := by
    apply Nat.eq_of_testBit_eq
    intro i
    have hbit := testBit_false_of_lt _ k (k + i) hx (by omega)
    rw [Nat.testBit_and, testBit_not32, Nat.mod_eq_of_lt (by omega : u + 1 < 2 ^ 32)] at hbit
    simp only [← Nat.shiftRight_eq_div_pow, Nat.testBit_and, Nat.testBit_shiftRight]
    by_cases hmi : mask.testBit (k + i) = true
    · have hlt32 : k + i < 32 := by
        by_contra hge
        have := testBit_false_of_lt mask 32 (k + i) hm (by omega)
        rw [this] at hmi
        cases hmi
      simp [hmi, hlt32] at hbit
      simp [hmi, hbit]
    · simp only [Bool.not_eq_true] at hmi
      simp [hmi]
  rw [← hsub]
  exact Nat.and_le_right

theorem testBit_htonl (le : Bool) (x j : Nat) :
    (htonl le x).testBit j =
      (decide (j < 32) && x.testBit (if le then 8 * (3 - j / 8) + j % 8 else j)) := by
  have h := testBit_wordOfBytes le (fun i : Nat => x >>> (8 * (3 - i))) j
  have e : htonl le x = wordOfBytes le ((fun i : Nat => x >>> (8 * (3 - i))) 0)
      ((fun i : Nat => x >>> (8 * (3 - i))) 1) ((fun i : Nat => x >>> (8 * (3 - i))) 2)
      ((fun i : Nat => x >>> (8 * (3 - i))) 3) := by
    simp [htonl]
  rw [e, h]
  by_cases hj : j < 32
  · cases le
    · simp only [Bool.false_eq_true, if_false, Nat.testBit_shiftRight]
      have : 8 * (3 - (3 - j / 8)) + j % 8 = j := by omega
      rw [this]
    · simp only [if_true, Nat.testBit_shiftRight]
  · simp [hj]

theorem htonl_and (le : Bool) (a b : Nat) : htonl le (a &&& b) = htonl le a &&& htonl le b := by
  apply Nat.eq_of_testBit_eq
  intro j
  simp only [testBit_htonl, Nat.testBit_and]
  cases decide (j < 32) <;> simp

theorem htonl_htonl (le : Bool) (x : Nat) (hx : x < 2 ^ 32) : htonl le (htonl le x) = x := by
  apply Nat.eq_of_testBit_eq
  intro j
  rw [testBit_htonl, testBit_htonl]
  by_cases hj : j < 32
  · cases le
    · simp [hj]
    · have h1 : 8 * (3 - j / 8) + j % 8 < 32 := by omega
      have h2 : 8 * (3 - (8 * (3 - j / 8) + j % 8) / 8) + (8 * (3 - j / 8) + j % 8) % 8 = j := by
        omega
      simp only [if_true, hj, h1, decide_True, Bool.true_and]
      rw [h2]
  · have := testBit_false_of_lt x 32 j hx (by omega)
    simp [hj, this]

theorem htonl_lt (le : Bool) (x : Nat) : htonl le x < 2 ^ 32 := by
  apply Nat.lt_pow_two_of_testBit
  intro i hi
  rw [testBit_htonl]
  have : ¬ i < 32 := by omega
  simp [this]

/-- A leaf whose constants went through `htonl` tests the packet word in network
byte order. -/
theorem htonl_test_iff (le : Bool) (w a b : Nat) (hw : w < 2 ^ 32) (hb : b < 2 ^ 32) :
    (htonl le w &&& htonl le a = htonl le b) ↔ (w &&& a = b) := by
  rw [← htonl_and]
  constructor
  · intro h
    have h' := congrArg (htonl le) h
    rwa [htonl_htonl le _ (lt_of_le_of_lt Nat.and_le_left hw), htonl_htonl le _ hb] at h'
  · intro h
    rw [h]

theorem shl32_eq (m s : Nat) (hfit : m * 2 ^ s < 2 ^ 32) (hm : m ≠ 0) : shl32 m s = m <<< s := by
  unfold shl32
  have hs : s < 32 := by
    by_contra hge
    have h1 : 2 ^ 32 ≤ 2 ^ s := Nat.pow_le_pow_right (by norm_num) (by omega)
    have h2 : 2 ^ s ≤ m * 2 ^ s := Nat.le_mul_of_pos_left _ (Nat.pos_of_ne_zero hm)
    omega
  rw [Nat.mod_eq_of_lt hs, Nat.shiftLeft_eq, Nat.mod_eq_of_lt hfit]

theorem shl32_zero (s : Nat) : shl32 0 s = 0 := by
  simp [shl32]

theorem and_shiftLeft_eq (w m s : Nat) : w &&& (m <<< s) = ((w >>> s) &&& m) <<< s := by
  apply Nat.eq_of_testBit_eq
  intro i
  simp only [Nat.testBit_and, Nat.testBit_shiftLeft, Nat.testBit_shiftRight]
  by_cases hk : i ≥ s
  · have h2 : s + (i - s) = i := by omega
    simp [hk, h2]
  · simp [hk]

theorem shiftLeft_inj (a b s : Nat) : a <<< s = b <<< s ↔ a = b := by
  rw [Nat.shiftLeft_eq, Nat.shiftLeft_eq]
  constructor
  · intro h
    exact Nat.eq_of_mul_eq_mul_right (Nat.pow_pos (by norm_num)) h
  · intro h; rw [h]

/-- The equality test a leaf with mask `m << s` and value `v << s` performs on
the packet word `w`, in terms of the field `w >> s`. -/
theorem leaf_test_iff (le : Bool) (w m v s : Nat) (hw : w < 2 ^ 32)
    (hfit : m * 2 ^ s < 2 ^ 32) (hv : v ≤ m) :
    (htonl le w &&& htonl le (shl32 m s) = htonl le (shl32 v s)) ↔ ((w >>> s) &&& m = v) := by
  by_cases hm : m = 0
  · subst hm
    have hv0 : v = 0 := by omega
    subst hv0
    simp [shl32_zero, htonl_test_iff le w 0 0 hw (by norm_num)]
  · have hvfit : v * 2 ^ s < 2 ^ 32 :=
      lt_of_le_of_lt (Nat.mul_le_mul_right _ hv) hfit
    have hvs : shl32 v s = v <<< s := by
      by_cases hv0 : v = 0
      · subst hv0; simp [shl32_zero]
      · exact shl32_eq v s hvfit hv0
    rw [shl32_eq m s hfit hm, hvs, htonl_test_iff le w _ _ hw
      (by rw [Nat.shiftLeft_eq]; exact hvfit), and_shiftLeft_eq, shiftLeft_inj]

/-! ## The tree built by `add_comparison_exprs` -/

theorem gt_loop_eq (le : Bool) (offset : Int) (shift : Nat) :
    ∀ fuel u mask tree r n,
      gt_loop le offset shift fuel u mask tree r n =
        (push_rounds (gt_rounds le offset shift fuel u mask) tree,
          record_rounds (gt_rounds le offset shift fuel u mask) r,
          n + (gt_rounds le offset shift fuel u mask).length) := by
  intro fuel
  induction fuel with
  | zero => intro u mask tree r n; simp [gt_loop, gt_rounds, push_rounds, record_rounds]
  | succ f ih =>
    intro u mask tree r n
    by_cases hlt : u < mask
    · simp only [gt_loop, gt_rounds, hlt, if_true, ih, push_rounds, record_rounds,
        List.length_cons]
      have htree : (if (!gt_high_bit u mask) = true then
            negate_expr_subtree (add_expr (start_expr_subtree tree) offset
              (htonl le (shl32 (if gt_high_bit u mask = true then
                0xFFFFFFFF &&& gt_upper_mask u mask else 0) shift))
              (htonl le (shl32 (gt_upper_mask u mask) shift)))
          else add_expr (start_expr_subtree tree) offset
              (htonl le (shl32 (if gt_high_bit u mask = true then
                0xFFFFFFFF &&& gt_upper_mask u mask else 0) shift))
              (htonl le (shl32 (gt_upper_mask u mask) shift))) =
          [round_leaf le offset shift (gt_high_bit u mask) (gt_upper_mask u mask)] :: tree := by
        cases gt_high_bit u mask <;>
          simp [round_leaf, start_expr_subtree, add_expr, negate_expr_subtree, negate_last]
      rw [htree]
      refine Prod.ext rfl (Prod.ext rfl ?_)
      simp only
      omega
    · simp [gt_loop, gt_rounds, hlt, push_rounds, record_rounds]

theorem finish_loop_succ (n R : Nat) (X : Builder) :
    finish_loop (n + 1) R X =
      finish_expr_subtree (finish_loop n R X)
        (if (R >>> n) &&& 1 ≠ 0 then Combiner.C_AND else Combiner.C_OR) SUCCESS FAILURE := by
  induction n generalizing R X with
  | zero => simp [finish_loop]
  | succ m ih =>
    have e : R >>> (m + 1) = (R >>> 1) >>> m := by
      rw [← Nat.shiftRight_add, Nat.add_comm]
    rw [finish_loop, ih, e]
    rfl

theorem record_step (r : Nat) (b : Bool) :
    ((r <<< 1) ||| (if b then 1 else 0)) >>> 1 = r ∧
      ((((r <<< 1) ||| (if b then 1 else 0)) &&& 1 ≠ 0) ↔ b = true) := by
  have hlt : (if b then 1 else 0 : Nat) < 2 ^ 1 := by cases b <;> simp
  have e : (r <<< 1) ||| (if b then 1 else 0) = 2 * r + (if b then 1 else 0) := by
    rw [Nat.shiftLeft_eq, Nat.mul_comm, ← Nat.mul_add_lt_is_or hlt]
  rw [e, Nat.shiftRight_eq_div_pow, Nat.and_one_is_mod]
  cases b
  · simp
  · simp; omega

theorem record_rounds_shift (rs : List (Bool × Expr)) :
    ∀ r, record_rounds rs r >>> rs.length = r := by
  induction rs with
  | nil => intro r; simp [record_rounds]
  | cons hd tl ih =>
    intro r
    obtain ⟨b, l⟩ := hd
    have e : List.length ((b, l) :: tl) = tl.length + 1 := rfl
    rw [record_rounds, e, Nat.shiftRight_add, ih, (record_step r b).1]

theorem finish_push_rounds (rs : List (Bool × Expr)) :
    ∀ (cur : List Expr) (rest : Builder) (r : Nat),
      finish_loop rs.length (record_rounds rs r) (push_rounds rs (cur :: rest)) =
        (cur ++ (nest rs).toList) :: rest := by
  induction rs with
  | nil => intro cur rest r; simp [finish_loop, push_rounds, nest]
  | cons hd tl ih =>
    intro cur rest r
    obtain ⟨b, l⟩ := hd
    have e : List.length ((b, l) :: tl) = tl.length + 1 := rfl
    rw [e, finish_loop_succ, record_rounds, push_rounds, ih, record_rounds_shift]
    have hb := (record_step r b).2
    cases hn : nest tl with
    | none =>
      simp [nest, hn, finish_expr_subtree, combine]
    | some N =>
      cases b
      · have : ¬ ((r <<< 1) ||| (if false = true then 1 else 0)) &&& 1 ≠ 0 := by
          intro h; exact Bool.false_ne_true (hb.mp h)
        simp only [this, if_false]
        simp [nest, hn, finish_expr_subtree, combine]
      · have : ((r <<< 1) ||| (if true = true then 1 else 0)) &&& 1 ≠ 0 := hb.mpr rfl
        simp only [this, if_true]
        simp [nest, hn, finish_expr_subtree, combine]

theorem leaf_eval (le : Bool) (offset : Int) (rd : Int → Nat) (w m v s : Nat)
    (hw : w < 2 ^ 32) (hrd : rd offset = htonl le w) (hfit : m * 2 ^ s < 2 ^ 32) (hv : v ≤ m) :
    (Expr.leaf offset (htonl le (shl32 v s)) (htonl le (shl32 m s))).eval rd =
      if (w >>> s) &&& m = v then Outcome.yes else Outcome.no := by
  have h := leaf_test_iff le w m v s hw hfit hv
  simp only [Expr.eval, hrd]
  by_cases hc : (w >>> s) &&& m = v
  · rw [if_pos hc, if_pos (h.mpr hc)]
  · rw [if_neg hc, if_neg (fun h' => hc (h.mp h'))]

theorem upper_shift_eq (x k : Nat) : (x >>> k) <<< k = x / 2 ^ k * 2 ^ k := by
  rw [Nat.shiftLeft_eq, Nat.shiftRight_eq_div_pow]

/-- The test of one round, in terms of the field value `v` and the cut `k`. -/
theorem round_leaf_eval (le : Bool) (offset : Int) (rd : Int → Nat) (w mask s k : Nat) (b : Bool)
    (hw : w < 2 ^ 32) (hrd : rd offset = htonl le w) (hfit : mask * 2 ^ s < 2 ^ 32) :
    (round_leaf le offset s b ((mask >>> k) <<< k)).eval rd =
      if b then
        (if ((w >>> s) &&& mask) / 2 ^ k = mask / 2 ^ k then Outcome.yes else Outcome.no)
      else (if ((w >>> s) &&& mask) / 2 ^ k ≠ 0 then Outcome.yes else Outcome.no) := by
  have hP : 0 < 2 ^ k := Nat.pow_pos (by norm_num)
  have hle : (mask >>> k) <<< k ≤ mask := by
    rw [upper_shift_eq]; exact Nat.div_mul_le_self mask (2 ^ k)
  have hm32 : mask < 2 ^ 32 := by
    have : mask * 1 ≤ mask * 2 ^ s := Nat.mul_le_mul_left _ (Nat.pow_pos (by norm_num))
    omega
  have hfit' : (mask >>> k) <<< k * 2 ^ s < 2 ^ 32 :=
    lt_of_le_of_lt (Nat.mul_le_mul_right _ hle) hfit
  have hand : (w >>> s) &&& ((mask >>> k) <<< k) = (((w >>> s) &&& mask) >>> k) <<< k :=
    and_shift_high _ _ _
  cases b
  · simp only [round_leaf, Bool.false_eq_true, if_false, Expr.eval]
    have h := leaf_eval le offset rd w ((mask >>> k) <<< k) 0 s hw hrd hfit' (Nat.zero_le _)
    simp only [Expr.eval] at h
    rw [h, hand]
    have hz : ((((w >>> s) &&& mask) >>> k) <<< k = 0) ↔ ((w >>> s) &&& mask) / 2 ^ k = 0 := by
      rw [upper_shift_eq]
      constructor
      · intro h0
        rcases Nat.mul_eq_zero.mp h0 with h1 | h1
        · exact h1
        · omega
      · intro h0; rw [h0, Nat.zero_mul]
    by_cases hc : ((w >>> s) &&& mask) / 2 ^ k = 0
    · rw [if_pos (hz.mpr hc), if_neg (by simpa using hc)]
    · rw [if_neg (fun h' => hc (hz.mp h')), if_pos hc]
  · have hu : 0xFFFFFFFF &&& ((mask >>> k) <<< k) = (mask >>> k) <<< k := by
      rw [Nat.and_comm]
      exact Nat.and_pow_two_sub_one_of_lt_two_pow (n := 32) (by omega)
    simp only [round_leaf, if_true, hu]
    have h := leaf_eval le offset rd w ((mask >>> k) <<< k) ((mask >>> k) <<< k) s hw hrd hfit'
      (le_refl _)
    rw [h, hand]
    have hiff : ((((w >>> s) &&& mask) >>> k) <<< k = (mask >>> k) <<< k) ↔
        ((w >>> s) &&& mask) / 2 ^ k = mask / 2 ^ k := by
      rw [shiftLeft_inj]
      simp only [Nat.shiftRight_eq_div_pow]
    by_cases hc : ((w >>> s) &&& mask) / 2 ^ k = mask / 2 ^ k
    · rw [if_pos (hiff.mpr hc), if_pos hc]
    · rw [if_neg (fun h' => hc (hiff.mp h')), if_neg hc]

/-- What one round computes, given the cut `k = round_bits x`. -/
theorem round_facts (u mask : Nat) (hm : mask < 2 ^ 32) (hum : u &&& mask = u) (hlt : u < mask) :
    ∃ k, 2 ^ k ≤ mask ∧
      gt_upper_mask u mask = (mask >>> k) <<< k ∧
      mask &&& not32 (gt_upper_mask u mask) = mask % 2 ^ k ∧
      u &&& (mask &&& not32 (gt_upper_mask u mask)) = u % 2 ^ k ∧
      (gt_high_bit u mask = false → u < 2 ^ k) ∧
      (gt_high_bit u mask = true → mask / 2 ^ k ≤ (u + 1) / 2 ^ k) := by
  have key : ∀ x, x < 2 ^ 32 → 2 ^ round_bits x ≤ mask →
      (if 33 - ffs_msb x = 33 then mask
        else mask &&& not32 ((shl32 1 (33 - ffs_msb x) + 2 ^ 32 - 1) % 2 ^ 32)) =
        (mask >>> round_bits x) <<< round_bits x := by
    intro x hx hk
    have hk31 : round_bits x ≤ 31 := by
      by_contra hge
      have : 2 ^ 32 ≤ 2 ^ round_bits x := Nat.pow_le_pow_right (by norm_num) (by omega)
      omega
    exact upper_mask_of_bits x mask hx hm hk31
  have hrest : ∀ k, gt_upper_mask u mask = (mask >>> k) <<< k →
      mask &&& not32 (gt_upper_mask u mask) = mask % 2 ^ k ∧
      u &&& (mask &&& not32 (gt_upper_mask u mask)) = u % 2 ^ k := by
    intro k hk
    have h1 : mask &&& not32 (gt_upper_mask u mask) = mask % 2 ^ k := by
      rw [hk]; exact and_not32_high mask k hm
    refine ⟨h1, ?_⟩
    rw [h1, and_mod_of_lt u (mask % 2 ^ k) k (Nat.mod_lt _ (Nat.pow_pos (by norm_num))),
      ← and_mod_two_pow, hum]
  by_cases hb : u > mask >>> 1
  · have hx : not32 (u + 1) &&& mask < 2 ^ 32 := lt_of_le_of_lt Nat.and_le_right hm
    have hk := round_bits_le_mask_and u mask hm hum hlt hb
    have hum' : gt_upper_mask u mask =
        (mask >>> round_bits (not32 (u + 1) &&& mask)) <<<
          round_bits (not32 (u + 1) &&& mask) := by
      have := key _ hx hk
      simpa [gt_upper_mask, gt_high_bit, hb] using this
    refine ⟨_, hk, hum', (hrest _ hum').1, (hrest _ hum').2, ?_, ?_⟩
    · intro h; simp [gt_high_bit, hb] at h
    · intro _; exact carry_of_lt u mask _ hm hlt (lt_round_bits _)
  · have hx : u < 2 ^ 32 := by omega
    have hk := round_bits_le_mask_or u mask hlt hb
    have hum' : gt_upper_mask u mask = (mask >>> round_bits u) <<< round_bits u := by
      have := key _ hx hk
      simpa [gt_upper_mask, gt_high_bit, hb] using this
    refine ⟨_, hk, hum', (hrest _ hum').1, (hrest _ hum').2, ?_, ?_⟩
    · intro _; exact lt_round_bits u
    · intro h; simp [gt_high_bit, hb] at h

theorem and_and_self (v m : Nat) : (v &&& m) &&& m = v &&& m := by
  rw [Nat.and_assoc, Nat.and_self]

theorem eval_or (rd : Int → Nat) (a b : Expr) :
    (Expr.or a b).eval rd = (match a.eval rd with
      | Outcome.no => b.eval rd
      | r => r) := rfl

theorem eval_and (rd : Int → Nat) (a b : Expr) :
    (Expr.and a b).eval rd = (match a.eval rd with
      | Outcome.yes => b.eval rd
      | r => r) := rfl

theorem eval_not (rd : Int → Nat) (a : Expr) :
    (Expr.not a).eval rd = (match a.eval rd with
      | Outcome.yes => Outcome.no
      | Outcome.no => Outcome.yes
      | Outcome.port k => Outcome.port k) := rfl

/-- The nested tree of the rounds decides `u < (field & mask)`. -/
theorem gt_rounds_sem (le : Bool) (offset : Int) (shift : Nat) (rd : Int → Nat) (w : Nat)
    (hw : w < 2 ^ 32) (hrd : rd offset = htonl le w) :
    ∀ fuel u mask, mask < 2 ^ fuel → fuel ≤ 32 → mask * 2 ^ shift < 2 ^ 32 → u &&& mask = u →
      match nest (gt_rounds le offset shift fuel u mask) with
      | none => ¬ u < mask
      | some N => u < mask ∧
          N.eval rd = if u < (w >>> shift) &&& mask then Outcome.yes else Outcome.no := by
  intro fuel
  induction fuel with
  | zero =>
    intro u mask hm _ _ _
    simp only [gt_rounds, nest]
    simp at hm
    omega
  | succ f ih =>
    intro u mask hm hf hfit hum
    by_cases hlt : u < mask
    · have hm32 : mask < 2 ^ 32 :=
        lt_of_lt_of_le hm (Nat.pow_le_pow_right (by norm_num) hf)
      obtain ⟨k, hk, hupper, hmask', hu', hor, hand⟩ := round_facts u mask hm32 hum hlt
      have hP : 0 < 2 ^ k := Nat.pow_pos (by norm_num)
      have hkf : 2 ^ k ≤ 2 ^ f := by
        have hlt' : 2 ^ k < 2 ^ (f + 1) := lt_of_le_of_lt hk hm
        have : k < f + 1 := (Nat.pow_lt_pow_iff_right (by norm_num)).mp hlt'
        exact Nat.pow_le_pow_right (by norm_num) (by omega)
      have hmodlt : mask % 2 ^ k < 2 ^ k := Nat.mod_lt _ hP
      have hmodle : mask % 2 ^ k ≤ mask := Nat.mod_le _ _
      have hIH := ih (u % 2 ^ k) (mask % 2 ^ k) (by omega) (by omega)
        (lt_of_le_of_lt (Nat.mul_le_mul_right _ hmodle) hfit)
        (by rw [← and_mod_two_pow, hum])
      have hvlow : (w >>> shift) &&& (mask % 2 ^ k) = ((w >>> shift) &&& mask) % 2 ^ k := by
        rw [and_mod_of_lt _ _ k hmodlt, ← and_mod_two_pow]
      have hxle : ((w >>> shift) &&& mask) % 2 ^ k ≤ mask % 2 ^ k := by
        rw [← hvlow]; exact Nat.and_le_right
      have hleaf := round_leaf_eval le offset rd w mask shift k (gt_high_bit u mask) hw hrd hfit
      rw [hupper] at hmask' hu'
      rw [hmask'] at hu'
      have hunf : gt_rounds le offset shift (f + 1) u mask =
          (gt_high_bit u mask, round_leaf le offset shift (gt_high_bit u mask)
            ((mask >>> k) <<< k)) :: gt_rounds le offset shift f (u % 2 ^ k) (mask % 2 ^ k) := by
        simp only [gt_rounds, hlt, if_true, hupper, hmask', hu']
      rw [hunf]
      simp only [nest]
      rw [hvlow] at hIH
      cases hb : gt_high_bit u mask
      · rw [hb] at hleaf
        simp only [Bool.false_eq_true, if_false] at hleaf
        have hulow : u % 2 ^ k = u := Nat.mod_eq_of_lt (hor hb)
        have hround := round_or ((w >>> shift) &&& mask) u k (hor hb)
        rw [hulow] at hIH
        cases hn : nest (gt_rounds le offset shift f u (mask % 2 ^ k)) with
        | none =>
          rw [hulow, hn]
          rw [hn] at hIH
          refine ⟨hlt, ?_⟩
          rw [hleaf]
          by_cases hc : ((w >>> shift) &&& mask) / 2 ^ k ≠ 0
          · rw [if_pos hc, if_pos (hround.mpr (Or.inl hc))]
          · rw [if_neg hc, if_neg]
            intro h
            rcases hround.mp h with h1 | h1
            · exact hc h1
            · omega
        | some N =>
          rw [hulow, hn]
          rw [hn] at hIH
          refine ⟨hlt, ?_⟩
          simp only [Bool.false_eq_true, if_false]
          rw [eval_or, hleaf, hIH.2]
          by_cases hc : ((w >>> shift) &&& mask) / 2 ^ k ≠ 0
          · rw [if_pos hc, if_pos (hround.mpr (Or.inl hc))]
          · rw [if_neg hc]
            by_cases hc2 : u < ((w >>> shift) &&& mask) % 2 ^ k
            · rw [if_pos hc2, if_pos (hround.mpr (Or.inr hc2))]
            · rw [if_neg hc2, if_neg]
              intro h
              rcases hround.mp h with h1 | h1
              · exact hc h1
              · exact hc2 h1
      · rw [hb] at hleaf
        simp only [if_true] at hleaf
        have hround := round_and ((w >>> shift) &&& mask) u mask k (and_and_self _ _) hum hlt
          (hand hb)
        cases hn : nest (gt_rounds le offset shift f (u % 2 ^ k) (mask % 2 ^ k)) with
        | none =>
          rw [hn] at hIH
          refine ⟨hlt, ?_⟩
          rw [hleaf]
          by_cases hc : ((w >>> shift) &&& mask) / 2 ^ k = mask / 2 ^ k
          · rw [if_pos hc, if_pos (hround.mpr ⟨hc, fun h => absurd h hIH⟩)]
          · rw [if_neg hc, if_neg (fun h => hc (hround.mp h).1)]
        | some N =>
          rw [hn] at hIH
          refine ⟨hlt, ?_⟩
          simp only [if_true]
          rw [eval_and, hleaf, hIH.2]
          by_cases hc : ((w >>> shift) &&& mask) / 2 ^ k = mask / 2 ^ k
          · rw [if_pos hc]
            by_cases hc2 : u % 2 ^ k < ((w >>> shift) &&& mask) % 2 ^ k
            · rw [if_pos hc2, if_pos (hround.mpr ⟨hc, fun _ => hc2⟩)]
            · rw [if_neg hc2, if_neg (fun h => hc2 ((hround.mp h).2 hIH.1))]
          · rw [if_neg hc, if_neg (fun h => hc (hround.mp h).1)]
    · have hunf : gt_rounds le offset shift (f + 1) u mask = [] := by
        simp only [gt_rounds, hlt, if_false]
      rw [hunf]
      exact hlt

theorem negate_last_append (cur : List Expr) (e : Expr) :
    negate_last (cur ++ [e]) = cur ++ [Expr.not e] := by
  induction cur with
  | nil => rfl
  | cons c cs ih =>
    cases cs with
    | nil => rfl
    | cons d ds =>
      have h : negate_last (c :: ((d :: ds) ++ [e])) = c :: negate_last ((d :: ds) ++ [e]) := rfl
      rw [List.cons_append, h, ih]
      rfl

theorem accepts_of_eval (e : Expr) (rd : Int → Nat) (P : Prop) [Decidable P]
    (h : e.eval rd = if P then Outcome.yes else Outcome.no) : e.accepts rd = decide P := by
  unfold Expr.accepts
  rw [h]
  by_cases hp : P <;> simp [hp]

theorem accepts_not_of_eval (e : Expr) (rd : Int → Nat) (P : Prop) [Decidable P]
    (h : e.eval rd = if P then Outcome.yes else Outcome.no) :
    (Expr.not e).accepts rd = !decide P := by
  unfold Expr.accepts
  rw [eval_not, h]
  by_cases hp : P <;> simp [hp]

/-- The tree `add_comparison_exprs` appends for masked threshold `U` under mask
`M` (both already byte-swapped if `swapped`), and what it evaluates to: success
or failure, never a jump. -/
theorem add_comparison_exprs_eval (le : Bool) (prim : Primitive) (cur : List Expr)
    (rest : Builder) (offset : Int) (shift : Nat) (swapped op_negate : Bool) (M U : Nat)
    (hMdef : M = if swapped then ntohl le (prim._mask % 2 ^ 32) else prim._mask % 2 ^ 32)
    (hUdef : U = if swapped then ntohl le ((prim._u % 2 ^ 32) &&& (prim._mask % 2 ^ 32))
      else (prim._u % 2 ^ 32) &&& (prim._mask % 2 ^ 32))
    (hfit : M * 2 ^ shift < 2 ^ 32)
    (hgt : prim._op ≠ OP_EQ → U < M) :
    ∃ e, prim.add_comparison_exprs le (cur :: rest) offset shift swapped op_negate =
        (cur ++ [e]) :: rest ∧
      (prim._op = OP_EQ → e =
        if (prim._op_negated && op_negate) = true then
          Expr.not (Expr.leaf offset (htonl le (U <<< shift)) (htonl le (M <<< shift)))
        else Expr.leaf offset (htonl le (U <<< shift)) (htonl le (M <<< shift))) ∧
      ∀ (rd : Int → Nat) (w : Nat), w < 2 ^ 32 → rd offset = htonl le w →
        e.eval rd = if ((prim._op_negated && op_negate) !=
          (if prim._op = OP_EQ then decide (w &&& (M <<< shift) = U <<< shift)
           else decide ((w >>> shift) &&& M > U))) = true then Outcome.yes else Outcome.no := by
  have hM32 : M < 2 ^ 32 := by
    rw [hMdef]
    split_ifs
    · exact htonl_lt le _
    · exact Nat.mod_lt _ (by norm_num)
  have hUM : U &&& M = U := by
    rw [hUdef, hMdef]
    split_ifs
    · unfold ntohl
      rw [← htonl_and, and_and_self]
    · rw [and_and_self]
  have hUle : U ≤ M := sub_of_and_eq U M hUM
  have hshl : ∀ x, x ≤ M → shl32 x shift = x <<< shift := by
    intro x hx
    by_cases h0 : x = 0
    · subst h0; simp [shl32_zero]
    · exact shl32_eq x shift (lt_of_le_of_lt (Nat.mul_le_mul_right _ hx) hfit) h0
  by_cases hop : prim._op = OP_EQ
  · -- one equality leaf
    have hleaf : ∀ (rd : Int → Nat) (w : Nat), w < 2 ^ 32 → rd offset = htonl le w →
        (Expr.leaf offset (htonl le (U <<< shift)) (htonl le (M <<< shift))).eval rd =
          if w &&& (M <<< shift) = U <<< shift then Outcome.yes else Outcome.no := by
      intro rd w hw hrd
      have h := leaf_eval le offset rd w M U shift hw hrd hfit hUle
      rw [hshl U hUle, hshl M (le_refl _)] at h
      rw [h]
      have hiff : ((w >>> shift) &&& M = U) ↔ (w &&& (M <<< shift) = U <<< shift) := by
        rw [and_shiftLeft_eq, shiftLeft_inj]
      by_cases hc : (w >>> shift) &&& M = U
      · rw [if_pos hc, if_pos (hiff.mp hc)]
      · rw [if_neg hc, if_neg (fun h' => hc (hiff.mpr h'))]
    by_cases hneg : (prim._op_negated && op_negate) = true
    · refine ⟨Expr.not (Expr.leaf offset (htonl le (U <<< shift)) (htonl le (M <<< shift))),
        ?_, ?_, ?_⟩
      · simp only [Primitive.add_comparison_exprs, hop, if_true, ← hMdef, ← hUdef, hneg,
          add_expr, negate_expr_subtree, negate_last_append, hshl U hUle, hshl M (le_refl _)]
      · intro _; rw [if_pos hneg]
      · intro rd w hw hrd
        rw [eval_not, hleaf rd w hw hrd, hneg, if_pos hop]
        by_cases hc : w &&& (M <<< shift) = U <<< shift <;> simp [hc]
    · refine ⟨Expr.leaf offset (htonl le (U <<< shift)) (htonl le (M <<< shift)), ?_, ?_, ?_⟩
      · simp only [Primitive.add_comparison_exprs, hop, if_true, ← hMdef, ← hUdef, hneg,
          add_expr, hshl U hUle, hshl M (le_refl _)]
        simp
      · intro _; rw [if_neg hneg]
      · intro rd w hw hrd
        simp only [Bool.not_eq_true] at hneg
        rw [hleaf rd w hw hrd, hneg, if_pos hop]
        by_cases hc : w &&& (M <<< shift) = U <<< shift <;> simp [hc]
  · -- the nested tree of the greater-than rounds
    have hlt := hgt hop
    have hbuild : (finish_loop (gt_loop le offset shift 32 U M (cur :: rest) 0 0).2.2
        (gt_loop le offset shift 32 U M (cur :: rest) 0 0).2.1
        (gt_loop le offset shift 32 U M (cur :: rest) 0 0).1) =
        (cur ++ (nest (gt_rounds le offset shift 32 U M)).toList) :: rest := by
      rw [gt_loop_eq]
      simp only [Nat.zero_add]
      exact finish_push_rounds _ cur rest 0
    have hsem0 := gt_rounds_sem le offset shift
    cases hn : nest (gt_rounds le offset shift 32 U M) with
    | none =>
      have := hsem0 (fun _ => htonl le 0) 0 (by norm_num) rfl 32 U M hM32 (le_refl _) hfit hUM
      rw [hn] at this
      exact absurd hlt this
    | some N =>
      have hsem : ∀ (rd : Int → Nat) (w : Nat), w < 2 ^ 32 → rd offset = htonl le w →
          N.eval rd = if U < (w >>> shift) &&& M then Outcome.yes else Outcome.no := by
        intro rd w hw hrd
        have := hsem0 rd w hw hrd 32 U M hM32 (le_refl _) hfit hUM
        rw [hn] at this
        exact this.2
      rw [hn] at hbuild
      by_cases hneg : (prim._op_negated && op_negate) = true
      · refine ⟨Expr.not N, ?_, fun h => absurd h hop, ?_⟩
        · simp only [Primitive.add_comparison_exprs, hop, if_false, ← hMdef, ← hUdef, hneg,
            if_true, hbuild, negate_expr_subtree, Option.toList, negate_last_append]
        · intro rd w hw hrd
          rw [eval_not, hsem rd w hw hrd, hneg, if_neg hop]
          by_cases hc : U < (w >>> shift) &&& M <;> simp [hc]
      · refine ⟨N, ?_, fun h => absurd h hop, ?_⟩
        · simp only [Primitive.add_comparison_exprs, hop, if_false, ← hMdef, ← hUdef, hneg,
            hbuild, Option.toList]
          simp
        · intro rd w hw hrd
          simp only [Bool.not_eq_true] at hneg
          rw [hsem rd w hw hrd, hneg, if_neg hop]
          by_cases hc : U < (w >>> shift) &&& M <;> simp [hc]

/-- The tree `add_comparison_exprs` appends for masked threshold `U` under mask
`M` (both already byte-swapped if `swapped`), and what it accepts. -/
theorem add_comparison_exprs_spec (le : Bool) (prim : Primitive) (cur : List Expr)
    (rest : Builder) (offset : Int) (shift : Nat) (swapped op_negate : Bool) (M U : Nat)
    (hMdef : M = if swapped then ntohl le (prim._mask % 2 ^ 32) else prim._mask % 2 ^ 32)
    (hUdef : U = if swapped then ntohl le ((prim._u % 2 ^ 32) &&& (prim._mask % 2 ^ 32))
      else (prim._u % 2 ^ 32) &&& (prim._mask % 2 ^ 32))
    (hfit : M * 2 ^ shift < 2 ^ 32)
    (hgt : prim._op ≠ OP_EQ → U < M) :
    ∃ e, prim.add_comparison_exprs le (cur :: rest) offset shift swapped op_negate =
        (cur ++ [e]) :: rest ∧
      (prim._op = OP_EQ → e =
        if (prim._op_negated && op_negate) = true then
          Expr.not (Expr.leaf offset (htonl le (U <<< shift)) (htonl le (M <<< shift)))
        else Expr.leaf offset (htonl le (U <<< shift)) (htonl le (M <<< shift))) ∧
      ∀ (rd : Int → Nat) (w : Nat), w < 2 ^ 32 → rd offset = htonl le w →
        e.accepts rd = ((prim._op_negated && op_negate) !=
          (if prim._op = OP_EQ then decide (w &&& (M <<< shift) = U <<< shift)
           else decide ((w >>> shift) &&& M > U))) := by
  obtain ⟨e, h1, h2, h3⟩ := add_comparison_exprs_eval le prim cur rest offset shift swapped
    op_negate M U hMdef hUdef hfit hgt
  refine ⟨e, h1, h2, fun rd w hw hrd => ?_⟩
  unfold Expr.accepts
  rw [h3 rd w hw hrd]
  cases ((prim._op_negated && op_negate) !=
      (if prim._op = OP_EQ then decide (w &&& (M <<< shift) = U <<< shift)
       else decide ((w >>> shift) &&& M > U))) <;> simp

/-! ## The threshold adjustment of `set_mask` -/

theorem testBit_of_and_eq (z M i : Nat) (h : z &&& M = z) (hz : z.testBit i = true) :
    M.testBit i = true := by
  rw [← h, Nat.testBit_and] at hz
  simp only [Bool.and_eq_true] at hz
  exact hz.2

/-- A value within the mask has no bit at a position the mask lacks, so below
the cut `2^(j+1)` it stays under `2^j`. -/
theorem mod_lt_of_masked (z M j : Nat) (h : z &&& M = z) (hMj : M.testBit j = false) :
    z % 2 ^ (j + 1) < 2 ^ j := by
  apply lt_two_pow_of_testBit_false _ _ (Nat.mod_lt _ (Nat.pow_pos (by norm_num)))
  rw [Nat.testBit_mod_two_pow]
  have : z.testBit j = false := by
    by_contra hc
    simp only [Bool.not_eq_false] at hc
    have := testBit_of_and_eq z M j h hc
    rw [hMj] at this
    cases this
  simp [this]

/-- Replacing a threshold `u` whose highest bit outside the mask is bit `j` by
`(u | (2^j - 1)) & M` does not change which masked values exceed it. -/
theorem adjust_equiv (u M j : Nat) (hbit : u.testBit j = true) (hMj : M.testBit j = false)
    (hhigh : ∀ i, j < i → u.testBit i = true → M.testBit i = true) :
    ((u ||| (2 ^ j - 1)) &&& M) &&& M = (u ||| (2 ^ j - 1)) &&& M ∧
    (u < M → (u ||| (2 ^ j - 1)) &&& M < M) ∧
    ∀ y, y &&& M = y → (u < y ↔ (u ||| (2 ^ j - 1)) &&& M < y) := by
  have hP : 0 < 2 ^ (j + 1) := Nat.pow_pos (by norm_num)
  have hsub : ((u ||| (2 ^ j - 1)) &&& M) &&& M = (u ||| (2 ^ j - 1)) &&& M := and_and_self _ _
  have hhi : ((u ||| (2 ^ j - 1)) &&& M) / 2 ^ (j + 1) = u / 2 ^ (j + 1) := by
    apply Nat.eq_of_testBit_eq
    intro i
    simp only [← Nat.shiftRight_eq_div_pow, Nat.testBit_shiftRight, Nat.testBit_and,
      Nat.testBit_or, Nat.testBit_two_pow_sub_one]
    have h1 : ¬ j + 1 + i < j := by omega
    by_cases hu : u.testBit (j + 1 + i) = true
    · have := hhigh (j + 1 + i) (by omega) hu
      simp [hu, this]
    · simp only [Bool.not_eq_true] at hu
      simp [hu, h1]
  have hul : 2 ^ j ≤ u % 2 ^ (j + 1) := by
    apply Nat.testBit_implies_ge
    rw [Nat.testBit_mod_two_pow]
    simp [hbit]
  have hlow : ∀ y, y &&& M = y → y % 2 ^ (j + 1) ≤ ((u ||| (2 ^ j - 1)) &&& M) % 2 ^ (j + 1) := by
    intro y hy
    have hand : (y % 2 ^ (j + 1)) &&& (((u ||| (2 ^ j - 1)) &&& M) % 2 ^ (j + 1)) =
        y % 2 ^ (j + 1) := by
      apply Nat.eq_of_testBit_eq
      intro i
      simp only [Nat.testBit_and, Nat.testBit_mod_two_pow, Nat.testBit_or,
        Nat.testBit_two_pow_sub_one]
      by_cases hy1 : y.testBit i = true
      · have hMi := testBit_of_and_eq y M i hy hy1
        have hij : i ≠ j := by
          intro h; subst h; rw [hMj] at hMi; cases hMi
        by_cases hi : i < j + 1
        · have : i < j := by omega
          simp [hy1, hMi, hi, this]
        · simp [hi]
      · simp only [Bool.not_eq_true] at hy1
        simp [hy1]
    rw [← hand]
    exact Nat.and_le_right
  refine ⟨hsub, ?_, ?_⟩
  · intro hlt
    have hMl := mod_lt_of_masked M M j (Nat.and_self M) hMj
    have h1 := (lex_lt (2 ^ (j + 1)) M u hP).mp hlt
    rw [lex_lt (2 ^ (j + 1)) M _ hP, hhi]
    rcases h1 with h | ⟨_, h⟩
    · exact Or.inl h
    · omega
  · intro y hy
    have hyl := mod_lt_of_masked y M j hy hMj
    have hle := hlow y hy
    rw [lex_lt (2 ^ (j + 1)) y u hP, lex_lt (2 ^ (j + 1)) y _ hP, hhi]
    constructor
    · rintro (h | ⟨_, h⟩)
      · exact Or.inl h
      · omega
    · rintro (h | ⟨_, h⟩)
      · exact Or.inl h
      · omega

theorem shr32_ones (j : Nat) (h1 : 1 ≤ j) (h2 : j ≤ 32) :
    shr32 0xFFFFFFFF (32 - j) = 2 ^ j - 1 := by
  unfold shr32
  have e : (32 - j) % 32 = 32 - j := Nat.mod_eq_of_lt (by omega)
  rw [e]
  apply Nat.eq_of_testBit_eq
  intro i
  have e2 : (0xFFFFFFFF : Nat) % 2 ^ 32 = 2 ^ 32 - 1 := by norm_num
  rw [e2, Nat.testBit_shiftRight, Nat.testBit_two_pow_sub_one, Nat.testBit_two_pow_sub_one]
  by_cases hi : i < j
  · have : 32 - j + i < 32 := by omega
    simp [hi, this]
  · have : ¬ 32 - j + i < 32 := by omega
    simp [hi, this]

/-- The bits of `u` that the mask lacks, as `set_mask` computes them. -/
theorem testBit_missing (u M full i : Nat) (hfull : u &&& full = u) :
    ((u &&& M) ^^^ (u &&& full)).testBit i = (u.testBit i && !M.testBit i) := by
  rw [hfull, Nat.testBit_xor, Nat.testBit_and]
  cases u.testBit i <;> cases M.testBit i <;> rfl

/-- The adjustment branch of `set_mask`, when the highest missing bit is not
bit 0: the new threshold lies within the mask, stays below it, and is exceeded
by the same masked values. -/
theorem adjust_code (u M full : Nat) (hu : u < 2 ^ 32) (hfull : u &&& full = u)
    (hne : u &&& M ≠ u) (hnot1 : (u &&& M) ^^^ (u &&& full) ≠ 1) :
    ((u ||| shr32 0xFFFFFFFF (ffs_msb ((u &&& M) ^^^ (u &&& full)))) &&& M) &&& M =
        (u ||| shr32 0xFFFFFFFF (ffs_msb ((u &&& M) ^^^ (u &&& full)))) &&& M ∧
    (u < M → (u ||| shr32 0xFFFFFFFF (ffs_msb ((u &&& M) ^^^ (u &&& full)))) &&& M < M) ∧
    ∀ y, y &&& M = y →
      (u < y ↔ (u ||| shr32 0xFFFFFFFF (ffs_msb ((u &&& M) ^^^ (u &&& full)))) &&& M < y) := by
  have hbits := testBit_missing u M full
  generalize hd : (u &&& M) ^^^ (u &&& full) = d at hbits hnot1
  have hd0 : d ≠ 0 := by
    intro h0
    apply hne
    apply Nat.eq_of_testBit_eq
    intro i
    have := hbits i hfull
    rw [h0, Nat.zero_testBit] at this
    rw [Nat.testBit_and]
    cases hui : u.testBit i <;> cases hmi : M.testBit i <;> simp_all
  have hd32 : d < 2 ^ 32 := by
    apply Nat.lt_pow_two_of_testBit
    intro i hi
    rw [hbits i hfull, testBit_false_of_lt u 32 i hu hi]
    rfl
  have hj1 : 1 ≤ Nat.log2 d := by
    by_contra h
    have h0 : Nat.log2 d = 0 := by omega
    have hlt : d < 2 ^ (Nat.log2 d + 1) := Nat.lt_log2_self
    rw [h0] at hlt
    have : d = 1 := by omega
    exact hnot1 this
  have hj31 : Nat.log2 d < 32 := (Nat.log2_lt hd0).mpr hd32
  have hffs : ffs_msb d = 32 - Nat.log2 d := by
    rw [ffs_msb_def, Nat.mod_eq_of_lt hd32, if_neg hd0]
  have hadd : shr32 0xFFFFFFFF (ffs_msb d) = 2 ^ Nat.log2 d - 1 := by
    rw [hffs]; exact shr32_ones _ hj1 (by omega)
  have hdj := testBit_log2 d hd0
  rw [hbits _ hfull] at hdj
  simp only [Bool.and_eq_true, Bool.not_eq_true'] at hdj
  rw [hadd]
  apply adjust_equiv u M (Nat.log2 d) hdj.1 hdj.2
  intro i hi hui
  have hdi : d.testBit i = false :=
    testBit_false_of_lt d (Nat.log2 d + 1) i Nat.lt_log2_self (by omega)
  rw [hbits i hfull, hui] at hdi
  simpa using hdi

/-! ## The source/destination subtree of host and port primitives -/

/-- With a two-sided qualifier `add_exprs` tests the un-negated relation on each
side, combines the two tests by OR (`SD_OR`) or AND (`SD_AND`), and negates the
combination when `_op_negated`. -/
theorem add_src_dst_exprs_spec (le : Bool) (prim : Primitive) (pre : List Expr)
    (more : Builder) (off1 : Int) (s1 : Nat) (off2 : Int) (s2 : Nat) (swapped : Bool)
    (M U : Nat)
    (hsd : prim._srcdst = SD_OR ∨ prim._srcdst = SD_AND)
    (hMdef : M = if swapped then ntohl le (prim._mask % 2 ^ 32) else prim._mask % 2 ^ 32)
    (hUdef : U = if swapped then ntohl le ((prim._u % 2 ^ 32) &&& (prim._mask % 2 ^ 32))
      else (prim._u % 2 ^ 32) &&& (prim._mask % 2 ^ 32))
    (hfit1 : M * 2 ^ s1 < 2 ^ 32) (hfit2 : M * 2 ^ s2 < 2 ^ 32)
    (hgt : prim._op ≠ OP_EQ → U < M) :
    ∃ a b, prim.add_src_dst_exprs le off1 s1 off2 s2 swapped (pre :: more)
        = (pre ++ [if prim._op_negated = true then
            Expr.not (if prim._srcdst = SD_OR then Expr.or a b else Expr.and a b)
          else (if prim._srcdst = SD_OR then Expr.or a b else Expr.and a b)]) :: more
      ∧ ∀ (rd : Int → Nat) (w1 w2 : Nat), w1 < 2 ^ 32 → w2 < 2 ^ 32 →
          rd off1 = htonl le w1 → rd off2 = htonl le w2 →
          a.accepts rd = (if prim._op = OP_EQ then decide (w1 &&& (M <<< s1) = U <<< s1)
            else decide ((w1 >>> s1) &&& M > U))
          ∧ b.accepts rd = (if prim._op = OP_EQ then decide (w2 &&& (M <<< s2) = U <<< s2)
            else decide ((w2 >>> s2) &&& M > U))
          ∧ (if prim._op_negated = true then
              Expr.not (if prim._srcdst = SD_OR then Expr.or a b else Expr.and a b)
            else (if prim._srcdst = SD_OR then Expr.or a b else Expr.and a b)).accepts rd
            = (prim._op_negated != (if prim._srcdst = SD_OR then
                (a.accepts rd || b.accepts rd) else (a.accepts rd && b.accepts rd))) := by
  obtain ⟨a, ha, _, hae⟩ := add_comparison_exprs_eval le prim [] (pre :: more) off1 s1 swapped
    false M U hMdef hUdef hfit1 hgt
  obtain ⟨b, hb, _, hbe⟩ := add_comparison_exprs_eval le prim [a] (pre :: more) off2 s2
    swapped false M U hMdef hUdef hfit2 hgt
  rw [List.nil_append] at ha
  rw [List.singleton_append] at hb
  refine ⟨a, b, ?_, ?_⟩
  · unfold Primitive.add_src_dst_exprs
    have c1 : prim._srcdst = SD_SRC ∨ prim._srcdst = SD_AND ∨ prim._srcdst = SD_OR := by
      rcases hsd with h | h
      · exact Or.inr (Or.inr h)
      · exact Or.inr (Or.inl h)
    have c2 : prim._srcdst = SD_DST ∨ prim._srcdst = SD_AND ∨ prim._srcdst = SD_OR := by
      rcases hsd with h | h
      · exact Or.inr (Or.inr h)
      · exact Or.inr (Or.inl h)
    simp only [start_expr_subtree, if_pos c1, if_pos c2, ha, hb]
    by_cases hor : prim._srcdst = SD_OR
    · simp only [hor, if_true, finish_expr_subtree, combine, SUCCESS, FAILURE, and_self]
      cases prim._op_negated
      · simp
      · simp [negate_expr_subtree, negate_last_append]
    · simp only [hor, if_false, finish_expr_subtree, combine, SUCCESS, FAILURE, and_self]
      cases prim._op_negated
      · simp
      · simp [negate_expr_subtree, negate_last_append]
  · intro rd w1 w2 hw1 hw2 h1 h2
    have ea := hae rd w1 hw1 h1
    have eb := hbe rd w2 hw2 h2
    simp only [Bool.and_false, Bool.false_bne] at ea eb
    have acca : a.accepts rd = (if prim._op = OP_EQ then decide (w1 &&& (M <<< s1) = U <<< s1)
        else decide ((w1 >>> s1) &&& M > U)) := by
      unfold Expr.accepts
      rw [ea]
      cases (if prim._op = OP_EQ then decide (w1 &&& (M <<< s1) = U <<< s1)
        else decide ((w1 >>> s1) &&& M > U)) <;> simp
    have accb : b.accepts rd = (if prim._op = OP_EQ then decide (w2 &&& (M <<< s2) = U <<< s2)
        else decide ((w2 >>> s2) &&& M > U)) := by
      unfold Expr.accepts
      rw [eb]
      cases (if prim._op = OP_EQ then decide (w2 &&& (M <<< s2) = U <<< s2)
        else decide ((w2 >>> s2) &&& M > U)) <;> simp
    refine ⟨acca, accb, ?_⟩
    rw [acca, accb]
    generalize (if prim._op = OP_EQ then decide (w1 &&& (M <<< s1) = U <<< s1)
        else decide ((w1 >>> s1) &&& M > U)) = x at ea
    generalize (if prim._op = OP_EQ then decide (w2 &&& (M <<< s2) = U <<< s2)
        else decide ((w2 >>> s2) &&& M > U)) = y at eb
    unfold Expr.accepts
    cases prim._op_negated <;> by_cases hor : prim._srcdst = SD_OR <;> cases x <;> cases y <;>
      simp [hor, eval_not, eval_or, eval_and, ea, eb]

/-- C27: for a host or port primitive `add_exprs` hands the source and the
destination test to `add_src_dst_exprs` (after the first-fragment and protocol
tests).  With a two-sided qualifier that block emits the un-negated test `a` of
the source side and `b` of the destination side, combines them by OR for
`src or dst` and by AND for `src and dst`, and applies the negation flag to the
combination: a negated `src or dst` primitive accepts a packet iff neither side
satisfies the un-negated relation, a negated `src and dst` primitive iff at
least one side fails it. -/
theorem add_exprs_negates_combination (le : Bool) (prim : Primitive) (tree : Builder)
    (pre : List Expr) (more : Builder) (off1 : Int) (s1 : Nat) (off2 : Int) (s2 : Nat)
    (swapped : Bool) (M U : Nat)
    (hsd : prim._srcdst = SD_OR ∨ prim._srcdst = SD_AND)
    (hMdef : M = if swapped then ntohl le (prim._mask % 2 ^ 32) else prim._mask % 2 ^ 32)
    (hUdef : U = if swapped then ntohl le ((prim._u % 2 ^ 32) &&& (prim._mask % 2 ^ 32))
      else (prim._u % 2 ^ 32) &&& (prim._mask % 2 ^ 32))
    (hfit1 : M * 2 ^ s1 < 2 ^ 32) (hfit2 : M * 2 ^ s2 < 2 ^ 32)
    (hgt : prim._op ≠ OP_EQ → U < M) :
    (prim._type = TYPE_HOST → prim.add_exprs le tree
      = finish_expr_subtree (prim.add_src_dst_exprs le 12 0 16 0 true
          (prim.add_transp_exprs le (start_expr_subtree tree))) Combiner.C_AND SUCCESS FAILURE)
    ∧ (prim._type = TYPE_PORT → prim.add_exprs le tree
      = finish_expr_subtree (prim.add_src_dst_exprs le TRANSP_FAKE_OFFSET 16 TRANSP_FAKE_OFFSET 0
          false (prim.add_transp_exprs le (start_expr_subtree tree)))
          Combiner.C_AND SUCCESS FAILURE)
    ∧ ∃ a b, prim.add_src_dst_exprs le off1 s1 off2 s2 swapped (pre :: more)
        = (pre ++ [if prim._op_negated = true then
            Expr.not (if prim._srcdst = SD_OR then Expr.or a b else Expr.and a b)
          else (if prim._srcdst = SD_OR then Expr.or a b else Expr.and a b)]) :: more
      ∧ ∀ (rd : Int → Nat) (w1 w2 : Nat), w1 < 2 ^ 32 → w2 < 2 ^ 32 →
          rd off1 = htonl le w1 → rd off2 = htonl le w2 →
          a.accepts rd = (if prim._op = OP_EQ then decide (w1 &&& (M <<< s1) = U <<< s1)
            else decide ((w1 >>> s1) &&& M > U))
          ∧ b.accepts rd = (if prim._op = OP_EQ then decide (w2 &&& (M <<< s2) = U <<< s2)
            else decide ((w2 >>> s2) &&& M > U))
          ∧ (prim._op_negated = true → prim._srcdst = SD_OR →
              ((Expr.not (Expr.or a b)).accepts rd = true
                ↔ a.accepts rd = false ∧ b.accepts rd = false))
          ∧ (prim._op_negated = true → prim._srcdst = SD_AND →
              ((Expr.not (Expr.and a b)).accepts rd = true
                ↔ a.accepts rd = false ∨ b.accepts rd = false))
          ∧ (prim._op_negated = false → prim._srcdst = SD_OR →
              ((Expr.or a b).accepts rd = true
                ↔ a.accepts rd = true ∨ b.accepts rd = true))
          ∧ (prim._op_negated = false → prim._srcdst = SD_AND →
              ((Expr.and a b).accepts rd = true
                ↔ a.accepts rd = true ∧ b.accepts rd = true)) := by
  refine ⟨fun h => ?_, fun h => ?_, ?_⟩
  · unfold Primitive.add_exprs
    dsimp only
    rw [if_pos h]
  · unfold Primitive.add_exprs
    dsimp only
    rw [if_neg (by rw [h]; decide), if_neg (by rw [h]; decide), if_neg (by rw [h]; decide),
      if_pos h]
  · obtain ⟨a, b, hab, hsem⟩ := add_src_dst_exprs_spec le prim pre more off1 s1 off2 s2 swapped
      M U hsd hMdef hUdef hfit1 hfit2 hgt
    refine ⟨a, b, hab, fun rd w1 w2 hw1 hw2 h1 h2 => ?_⟩
    obtain ⟨ha, hb, hx⟩ := hsem rd w1 w2 hw1 hw2 h1 h2
    have hsdne : SD_AND ≠ SD_OR := by decide
    refine ⟨ha, hb, fun hn ho => ?_, fun hn ho => ?_, fun hn ho => ?_, fun hn ho => ?_⟩
    · rw [hn, ho] at hx
      simp only [if_true] at hx
      rw [hx]
      cases a.accepts rd <;> cases b.accepts rd <;> simp
    · rw [hn, ho] at hx
      simp only [if_true, if_neg hsdne] at hx
      rw [hx]
      cases a.accepts rd <;> cases b.accepts rd <;> simp
    · rw [hn, ho] at hx
      simp only [if_true, Bool.false_eq_true, if_false] at hx
      rw [hx]
      cases a.accepts rd <;> cases b.accepts rd <;> simp
    · rw [hn, ho] at hx
      simp only [if_neg hsdne, Bool.false_eq_true, if_false] at hx
      rw [hx]
      cases a.accepts rd <;> cases b.accepts rd <;> simp

/-- Witness for C27: `port < 1024` accepts exactly the packets whose source and
destination port are both at most 1023. -/
theorem add_exprs_negates_combination_witness :
    (parse_primitive true sample_env ["allow", "port", "<", "1024"] 1 false
        ⟨[[]], Primitive.clear, ⟨0, 0⟩⟩).2.prev_prim = port_below_1024_prim
    ∧ ∃ a b, port_below_1024_prim.add_src_dst_exprs true 64 16 64 0 false ([] :: [])
        = ([] ++ [if port_below_1024_prim._op_negated = true then
            Expr.not (if port_below_1024_prim._srcdst = SD_OR then Expr.or a b
              else Expr.and a b)
          else (if port_below_1024_prim._srcdst = SD_OR then Expr.or a b
            else Expr.and a b)]) :: []
      ∧ ∀ (rd : Int → Nat) (w : Nat), w < 2 ^ 32 → rd 64 = htonl true w →
          ((Expr.not (Expr.or a b)).accepts rd = true
            ↔ ¬ ((w >>> 16) &&& 0xFFFF > 1023) ∧ ¬ ((w >>> 0) &&& 0xFFFF > 1023)) := by
  obtain ⟨_, _, a, b, hab, hsem⟩ := add_exprs_negates_combination true port_below_1024_prim [[]]
    [] [] 64 16 64 0 false 0xFFFF 1023 (by decide) (by decide) (by decide) (by decide)
    (by decide) (by decide)
  refine ⟨by decide, a, b, hab, fun rd w hw hrd => ?_⟩
  obtain ⟨ha, hb, hor, _, _, _⟩ := hsem rd w w hw hw hrd hrd
  rw [hor (by decide) (by decide), ha, hb]
  have e : ¬ port_below_1024_prim._op = OP_EQ := by decide
  rw [if_neg e, if_neg e]
  simp

/-! ## Claims about the comparison decomposer -/

/-- C1 as stated fails: for operator `>` with `U & M >= M` (here `M = 0`,
`U = 0`) the loop of `add_comparison_exprs` never runs and no test at all is
emitted, so there is no tree rejecting the field values (none of which is
greater than `U & M`). -/
theorem add_comparison_exprs_empty_counterexample :
    (sample_prim OP_GT false 0 0).add_comparison_exprs true [[]] 8 0 false true = [[]] ∧
    ¬ ∃ e, (sample_prim OP_GT false 0 0).add_comparison_exprs true [[]] 8 0 false true = [[e]] := by
  constructor
  · decide
  · rintro ⟨e, he⟩
    have h : (sample_prim OP_GT false 0 0).add_comparison_exprs true [[]] 8 0 false true = [[]] := by
      decide
    rw [h] at he
    cases he

/-- C1 (amended): for every 32-bit mask `M`, value `U` and shift `s` with `M << s`
fitting in 32 bits, and with `U & M < M` when the operator is `>`,
`add_comparison_exprs` appends one tree to the open subtree; for `=` it is the
leaf with value `(U & M) << s` and mask `M << s` (both through `htonl`), for `>`
it is the nested AND/OR tree of equality leaves; it accepts a header word `w`
(read in network byte order) iff `(w & (M << s)) == ((U & M) << s)`, resp.
`((w >> s) & M) > (U & M)`, and the exact complement when the primitive is
negated and `op_negate` is set. -/
theorem add_comparison_exprs_accepts (le : Bool) (prim : Primitive) (cur : List Expr)
    (rest : Builder) (offset : Int) (shift : Nat) (op_negate : Bool)
    (hM : prim._mask < 2 ^ 32) (hU : prim._u < 2 ^ 32)
    (hop : prim._op = OP_EQ ∨ prim._op = OP_GT)
    (hfit : prim._mask * 2 ^ shift < 2 ^ 32)
    (hgt : prim._op = OP_GT → prim._u &&& prim._mask < prim._mask) :
    ∃ e, prim.add_comparison_exprs le (cur :: rest) offset shift false op_negate =
        (cur ++ [e]) :: rest ∧
      (prim._op = OP_EQ → e =
        if (prim._op_negated && op_negate) = true then
          Expr.not (Expr.leaf offset (htonl le ((prim._u &&& prim._mask) <<< shift))
            (htonl le (prim._mask <<< shift)))
        else Expr.leaf offset (htonl le ((prim._u &&& prim._mask) <<< shift))
            (htonl le (prim._mask <<< shift))) ∧
      ∀ (rd : Int → Nat) (w : Nat), w < 2 ^ 32 → rd offset = htonl le w →
        e.accepts rd = ((prim._op_negated && op_negate) !=
          (if prim._op = OP_EQ then
            decide (w &&& (prim._mask <<< shift) = (prim._u &&& prim._mask) <<< shift)
           else decide ((w >>> shift) &&& prim._mask > prim._u &&& prim._mask))) := by
  have hgt' : prim._op ≠ OP_EQ → prim._u &&& prim._mask < prim._mask := by
    intro hne
    rcases hop with h | h
    · exact absurd h hne
    · exact hgt h
  exact add_comparison_exprs_spec le prim cur rest offset shift false op_negate prim._mask
    (prim._u &&& prim._mask)
    (by rw [Nat.mod_eq_of_lt hM]; rfl)
    (by rw [Nat.mod_eq_of_lt hM, Nat.mod_eq_of_lt hU]; rfl)
    hfit hgt'

/-- Witness for C1: `ip proto > 0x80` style test, mask `0xFF` shifted by 16. -/
theorem add_comparison_exprs_accepts_witness :
    ∃ e, (sample_prim OP_GT true 0x80 0xFF).add_comparison_exprs true ([] :: []) 8 16 false true =
        ([] ++ [e]) :: [] ∧
      ((sample_prim OP_GT true 0x80 0xFF)._op = OP_EQ → e =
        if ((sample_prim OP_GT true 0x80 0xFF)._op_negated && true) = true then
          Expr.not (Expr.leaf 8 (htonl true (((sample_prim OP_GT true 0x80 0xFF)._u &&&
            (sample_prim OP_GT true 0x80 0xFF)._mask) <<< 16))
            (htonl true ((sample_prim OP_GT true 0x80 0xFF)._mask <<< 16)))
        else Expr.leaf 8 (htonl true (((sample_prim OP_GT true 0x80 0xFF)._u &&&
            (sample_prim OP_GT true 0x80 0xFF)._mask) <<< 16))
            (htonl true ((sample_prim OP_GT true 0x80 0xFF)._mask <<< 16))) ∧
      ∀ (rd : Int → Nat) (w : Nat), w < 2 ^ 32 → rd 8 = htonl true w →
        e.accepts rd = (((sample_prim OP_GT true 0x80 0xFF)._op_negated && true) !=
          (if (sample_prim OP_GT true 0x80 0xFF)._op = OP_EQ then
            decide (w &&& ((sample_prim OP_GT true 0x80 0xFF)._mask <<< 16) =
              ((sample_prim OP_GT true 0x80 0xFF)._u &&&
                (sample_prim OP_GT true 0x80 0xFF)._mask) <<< 16)
           else decide ((w >>> 16) &&& (sample_prim OP_GT true 0x80 0xFF)._mask >
              (sample_prim OP_GT true 0x80 0xFF)._u &&&
                (sample_prim OP_GT true 0x80 0xFF)._mask))) :=
  add_comparison_exprs_accepts true (sample_prim OP_GT true 0x80 0xFF) [] [] 8 16 true
    (by decide) (by decide) (by decide) (by decide) (fun _ => by decide)

theorem htonl_zero (le : Bool) : htonl le 0 = 0 := by
  cases le <;> rfl

theorem op_ne : OP_GT ≠ OP_EQ ∧ OP_LT ≠ OP_EQ ∧ OP_GT ≠ OP_LT ∧ OP_LT ≠ OP_GT := by decide

/-- The result of `set_mask` on the branch that folds relations that are always
true or always false. -/
theorem set_mask_simplified_eq (prim : Primitive) (full_mask shift provided_mask M : Nat)
    (errh : ErrorHandler) (hM : M = if provided_mask ≠ 0 then provided_mask else full_mask)
    (hmask : M &&& full_mask = M)
    (hsimp : (prim._op = OP_LT ∧ (prim._u = 0 ∨ prim._u > M)) ∨
      (prim._op = OP_GT ∧ prim._u ≥ M)) (b : Bool)
    (hb : b = if prim._op = OP_LT ∧ prim._u > M then !prim._op_negated else prim._op_negated) :
    prim.set_mask full_mask shift provided_mask errh =
      (0, { prim with _u := 0, _mask := 0, _op_negated := !b, _op := OP_EQ },
        { nerrors := errh.nerrors, nwarnings := errh.nwarnings + 1 }) := by
  have hnot : ¬ (M &&& full_mask ≠ M) := fun h => h hmask
  have hrel : prim._op = OP_GT ∨ prim._op = OP_LT := by
    rcases hsimp with ⟨h, _⟩ | ⟨h, _⟩
    · exact Or.inr h
    · exact Or.inl h
  simp only [Primitive.set_mask, ← hM, hnot, if_false, hrel, if_true, hsimp, ← hb,
    ErrorHandler.warning]

/-- The comparison tests of a folded primitive (operator `=`, value 0, mask 0,
negation flag `!b`): a mask-0 leaf, negated only when `op_negate` is set and `b`
is false. -/
theorem folded_comparison_exprs (le : Bool) (q : Primitive) (b : Bool) (cur : List Expr)
    (rest : Builder) (offset : Int) (s : Nat) (swapped op_negate : Bool)
    (h1 : q._op = OP_EQ) (h2 : q._u = 0) (h3 : q._mask = 0) (h4 : q._op_negated = !b) :
    q.add_comparison_exprs le (cur :: rest) offset s swapped op_negate =
      (cur ++ [if (!b && op_negate) = true then Expr.not (Expr.leaf offset 0 0)
        else Expr.leaf offset 0 0]) :: rest := by
  cases b <;> cases op_negate <;> cases swapped <;>
    simp [Primitive.add_comparison_exprs, h1, h2, h3, h4, ntohl, htonl_zero, shl32_zero,
      add_expr, negate_expr_subtree, negate_last_append]

/-- The source/destination subtree of a folded primitive evaluates to `b` on
every packet. -/
theorem folded_src_dst_exprs (le : Bool) (q : Primitive) (b : Bool) (pre : List Expr)
    (more : Builder) (off1 : Int) (s1 : Nat) (off2 : Int) (s2 : Nat) (swapped : Bool)
    (h1 : q._op = OP_EQ) (h2 : q._u = 0) (h3 : q._mask = 0) (h4 : q._op_negated = !b)
    (hsd : q._srcdst = SD_SRC ∨ q._srcdst = SD_DST ∨ q._srcdst = SD_AND ∨ q._srcdst = SD_OR) :
    ∃ e, q.add_src_dst_exprs le off1 s1 off2 s2 swapped (pre :: more)
        = (pre ++ [e]) :: more ∧ ∀ rd : Int → Nat, e.accepts rd = b := by
  have key : ∀ (cur : List Expr) (rest : Builder) (offset : Int) (s : Nat),
      q.add_comparison_exprs le (cur :: rest) offset s swapped false
        = (cur ++ [Expr.leaf offset 0 0]) :: rest := by
    intro cur rest offset s
    rw [folded_comparison_exprs le q b cur rest offset s swapped false h1 h2 h3 h4]
    simp
  unfold Primitive.add_src_dst_exprs
  simp only [start_expr_subtree]
  rcases hsd with h | h | h | h <;> cases b <;>
    simp [h, h4, key, SD_SRC, SD_DST, SD_AND, SD_OR, finish_expr_subtree, combine,
      negate_expr_subtree, negate_last_append, Expr.accepts, Expr.eval, SUCCESS, FAILURE]

/-- C3 as stated fails: the relation of `port < 70000` is true for every port,
and `set_mask` folds it with a warning, but the tests emitted for the rewritten
primitive still hold the first-fragment and the protocol test, which test
packet bits; a packet whose words are all zero (protocol 0) is not accepted. -/
theorem set_mask_simplifies_counterexample :
    configure true sample_env ["allow port < 70000"] 1 ⟨0, 0⟩
      = some (0, [[Expr.route (Expr.route port_below_70000_expr 0 FAILURE) (-1) (-1)]], ⟨0, 1⟩)
    ∧ relation_holds OP_LT false (0 &&& 0xFFFF) 70000 = true
    ∧ port_below_70000_expr.accepts (fun _ => 0) = false := by
  decide

/-- C3 (amended): whenever `set_mask` simplifies a relational primitive (`<`
with threshold 0 or above the mask, `>` with threshold at least the mask), the
original relation has one truth value `b` for every field value, `set_mask`
returns 0 after one warning and no error, and the primitive becomes `=` with
value 0, mask 0 and negation flag `!b`.  The comparison test then emitted is a
mask-0 leaf: with `op_negate` set it is negated when `b` is false and evaluates
to `b` on every packet; with `op_negate` clear (host and port primitives) it is
the bare leaf, true on every packet, and the source/destination subtree that
`add_exprs` builds from it and negates as a whole evaluates to `b` on every
packet. -/
theorem set_mask_simplifies (le : Bool) (prim : Primitive)
    (full_mask shift provided_mask M : Nat) (errh : ErrorHandler)
    (hM : M = if provided_mask ≠ 0 then provided_mask else full_mask)
    (hmask : M &&& full_mask = M)
    (hsimp : (prim._op = OP_LT ∧ (prim._u = 0 ∨ prim._u > M)) ∨
      (prim._op = OP_GT ∧ prim._u ≥ M)) :
    ∃ b : Bool,
      (∀ v : Nat, relation_holds prim._op prim._op_negated (v &&& M) prim._u = b) ∧
      (prim.set_mask full_mask shift provided_mask errh).1 = 0 ∧
      (prim.set_mask full_mask shift provided_mask errh).2.2 =
        { nerrors := errh.nerrors, nwarnings := errh.nwarnings + 1 } ∧
      (prim.set_mask full_mask shift provided_mask errh).2.1 =
        { prim with _u := 0, _mask := 0, _op_negated := !b, _op := OP_EQ } ∧
      (∀ (cur : List Expr) (rest : Builder) (offset : Int) (s : Nat) (swapped : Bool),
        (prim.set_mask full_mask shift provided_mask errh).2.1.add_comparison_exprs le
            (cur :: rest) offset s swapped true =
          (cur ++ [if b then Expr.leaf offset 0 0 else Expr.not (Expr.leaf offset 0 0)]) :: rest ∧
        ∀ rd : Int → Nat,
          (if b then Expr.leaf offset 0 0 else Expr.not (Expr.leaf offset 0 0)).accepts rd = b) ∧
      (∀ (cur : List Expr) (rest : Builder) (offset : Int) (s : Nat) (swapped : Bool),
        (prim.set_mask full_mask shift provided_mask errh).2.1.add_comparison_exprs le
            (cur :: rest) offset s swapped false = (cur ++ [Expr.leaf offset 0 0]) :: rest ∧
        ∀ rd : Int → Nat, (Expr.leaf offset 0 0).accepts rd = true) ∧
      (prim._srcdst = SD_SRC ∨ prim._srcdst = SD_DST ∨ prim._srcdst = SD_AND
          ∨ prim._srcdst = SD_OR →
        ∀ (pre : List Expr) (more : Builder) (off1 : Int) (s1 : Nat) (off2 : Int) (s2 : Nat)
          (swapped : Bool),
          ∃ e, (prim.set_mask full_mask shift provided_mask errh).2.1.add_src_dst_exprs le
              off1 s1 off2 s2 swapped (pre :: more) = (pre ++ [e]) :: more
            ∧ ∀ rd : Int → Nat, e.accepts rd = b) := by
  have hrel : ∀ v : Nat, v &&& M ≤ M := fun v => Nat.and_le_right
  obtain ⟨b, hb⟩ : ∃ b : Bool, b =
      if prim._op = OP_LT ∧ prim._u > M then !prim._op_negated else prim._op_negated := ⟨_, rfl⟩
  have hset := set_mask_simplified_eq prim full_mask shift provided_mask M errh hM hmask hsimp b hb
  refine ⟨b, ?_, by rw [hset], by rw [hset], by rw [hset], ?_, ?_, ?_⟩
  · intro v
    have := hrel v
    rw [hb]
    rcases hsimp with ⟨hop, h⟩ | ⟨hop, h⟩
    · simp only [relation_holds, hop, op_ne.2.1, op_ne.2.2.2, if_false, true_and]
      by_cases hc : prim._u > M
      · have : v &&& M < prim._u := by omega
        simp [hc, this]
      · have h0 : prim._u = 0 := by
          rcases h with h | h
          · exact h
          · exact absurd h hc
        simp [hc, h0]
    · have : ¬ v &&& M > prim._u := by omega
      simp only [relation_holds, hop, op_ne.1, op_ne.2.2.1, if_false, if_true, false_and]
      simp [this]
  · intro cur rest offset s swapped
    constructor
    · rw [hset]
      rw [folded_comparison_exprs le _ b cur rest offset s swapped true rfl rfl rfl rfl]
      cases b <;> rfl
    · intro rd
      cases b
      · simp [Expr.accepts, Expr.eval]
      · simp [Expr.accepts, Expr.eval]
  · intro cur rest offset s swapped
    constructor
    · rw [hset]
      rw [folded_comparison_exprs le _ b cur rest offset s swapped false rfl rfl rfl rfl]
      simp
    · intro rd
      simp [Expr.accepts, Expr.eval]
  · intro hsd pre more off1 s1 off2 s2 swapped
    rw [hset]
    exact folded_src_dst_exprs le _ b pre more off1 s1 off2 s2 swapped rfl rfl rfl rfl hsd

/-- Witness for C3: `ip ttl > 255`, never true, is folded to the negated
mask-0 leaf. -/
theorem set_mask_simplifies_witness :
    ((sample_prim OP_GT false 255 0).set_mask 0xFF 0 0 ⟨0, 0⟩).1 = 0 ∧
    ((sample_prim OP_GT false 255 0).set_mask 0xFF 0 0 ⟨0, 0⟩).2.2 = ⟨0, 1⟩ ∧
    ((sample_prim OP_GT false 255 0).set_mask 0xFF 0 0 ⟨0, 0⟩).2.1.add_comparison_exprs true
      [[]] 8 0 false true = [[Expr.not (Expr.leaf 8 0 0)]] := by
  obtain ⟨b, h1, h2, h3, h4, h5, _, _⟩ := set_mask_simplifies true (sample_prim OP_GT false 255 0)
    0xFF 0 0 0xFF ⟨0, 0⟩ (by decide) (by decide) (by decide)
  have hb : b = false := by
    rw [← h1 0]
    decide
  subst hb
  exact ⟨h2, h3, (h5 [] [] 8 0 false).1⟩

theorem shl32_zero_shift (x : Nat) (hx : x < 2 ^ 32) : shl32 x 0 = x := by
  unfold shl32
  rw [Nat.zero_mod, Nat.shiftLeft_zero, Nat.mod_eq_of_lt hx]

theorem low_bits_zero_shift : (shl32 1 0 + 2 ^ 32 - 1) % 2 ^ 32 = 0 := by decide

/-- The result of `set_mask` (shift 0) on a `<` primitive whose threshold `X`
satisfies `1 <= X <= M`: operator `>`, flipped negation, mask `M`, threshold
`X - 1`, adjusted into the mask when it has bits outside it. -/
theorem set_mask_lt_eq (prim : Primitive) (full_mask provided_mask M : Nat)
    (errh : ErrorHandler) (hop : prim._op = OP_LT)
    (hM : M = if provided_mask ≠ 0 then provided_mask else full_mask)
    (hmask : M &&& full_mask = M) (hM32 : M < 2 ^ 32) (hf32 : full_mask < 2 ^ 32)
    (hX1 : 1 ≤ prim._u) (hX2 : prim._u ≤ M) :
    prim.set_mask full_mask 0 provided_mask errh =
      (0, { prim with
            _u := if (prim._u - 1) &&& M ≠ prim._u - 1 then
                ((prim._u - 1) ||| shr32 0xFFFFFFFF
                  (ffs_msb (((prim._u - 1) &&& M) ^^^ ((prim._u - 1) &&& full_mask)))) &&& M
              else prim._u - 1,
            _mask := M, _op_negated := !prim._op_negated, _op := OP_GT }, errh) := by
  have hnot : ¬ (M &&& full_mask ≠ M) := fun h => h hmask
  have hrel : prim._op = OP_GT ∨ prim._op = OP_LT := Or.inr hop
  have hns : ¬ ((prim._op = OP_LT ∧ (prim._u = 0 ∨ prim._u > M)) ∨
      (prim._op = OP_GT ∧ prim._u ≥ M)) := by
    rintro (⟨_, h⟩ | ⟨h, _⟩)
    · omega
    · rw [hop] at h; exact op_ne.2.2.2 h
  have hdec : (prim._u + 2 ^ 32 - 1) % 2 ^ 32 = prim._u - 1 := by
    have : prim._u + 2 ^ 32 - 1 = (prim._u - 1) + 2 ^ 32 := by omega
    rw [this, Nat.add_mod_right, Nat.mod_eq_of_lt (by omega)]
  have hu32 : prim._u - 1 < 2 ^ 32 := by omega
  simp only [Primitive.set_mask, ← hM, hnot, if_false, hrel, if_true, hns]
  simp only [hop, if_true, hdec, low_bits_zero_shift, Nat.or_zero, shl32_zero_shift _ hu32,
    shl32_zero_shift _ hM32, shl32_zero_shift _ hf32]
  split_ifs <;> rfl

theorem missing_eq_and_not32 (u M full : Nat) (hu : u < 2 ^ 32) (hfull : u &&& full = u) :
    (u &&& M) ^^^ (u &&& full) = u &&& not32 M := by
  apply Nat.eq_of_testBit_eq
  intro i
  rw [testBit_missing u M full i hfull, Nat.testBit_and, testBit_not32]
  by_cases hi : i < 32
  · by_cases hu' : u.testBit i = true
    · have hm : (M % 2 ^ 32).testBit i = M.testBit i := by
        rw [Nat.testBit_mod_two_pow]; simp [hi]
      rw [hm]
      simp [hi]
    · simp only [Bool.not_eq_true] at hu'
      simp [hu']
  · have := testBit_false_of_lt u 32 i hu (by omega)
    simp [this]

/-- C2 as stated fails: with effective mask 5 and threshold `X = 3` (`X - 1 = 2`
has a bit outside the mask), `set_mask` leaves the threshold 1, not `X - 1`. -/
theorem set_mask_less_than_counterexample :
    ((sample_prim OP_LT false 3 0).set_mask 0xFF 0 5 ⟨0, 0⟩).2.1._op = OP_GT ∧
    ((sample_prim OP_LT false 3 0).set_mask 0xFF 0 5 ⟨0, 0⟩).2.1._mask = 5 ∧
    ((sample_prim OP_LT false 3 0).set_mask 0xFF 0 5 ⟨0, 0⟩).2.1._u = 1 ∧
    ((sample_prim OP_LT false 3 0).set_mask 0xFF 0 5 ⟨0, 0⟩).2.1._u ≠ 3 - 1 := by
  decide

/-- C2 (amended): for a `<` primitive with threshold `X`, `1 <= X <= M`, where
`M` is the effective mask inside a full mask `2^n - 1`, `set_mask` succeeds
without error or warning and rewrites it to operator `>` with the negation flag
flipped and mask `M`; the new threshold is `X - 1` when `X - 1` lies within `M`.
Unless the highest bit of `X - 1` outside `M` is bit 0, the new threshold lies
within `M` and below it, and the tree `add_comparison_exprs` then emits accepts,
when called with `op_negate` set (protocol and bit-field primitives), exactly
the field values `v` with `(v & M) < X`, for the negated form (`>=`) exactly
those with `(v & M) >= X`; called with `op_negate` clear (host and port
primitives, where `add_exprs` negates the combined subtree itself) it accepts
exactly the values with `(v & M) > X - 1`, whatever the negation flag. -/
theorem set_mask_less_than (le : Bool) (prim : Primitive) (full_mask provided_mask M n : Nat)
    (errh : ErrorHandler) (cur : List Expr) (rest : Builder) (offset : Int) (s : Nat)
    (op_negate : Bool)
    (hop : prim._op = OP_LT) (hn : n ≤ 32) (hfull : full_mask = 2 ^ n - 1)
    (hM : M = if provided_mask ≠ 0 then provided_mask else full_mask)
    (hmask : M &&& full_mask = M)
    (hX1 : 1 ≤ prim._u) (hX2 : prim._u ≤ M)
    (hbit0 : (prim._u - 1) &&& not32 M ≠ 1)
    (hfit : M * 2 ^ s < 2 ^ 32) :
    (prim.set_mask full_mask 0 provided_mask errh).1 = 0 ∧
    (prim.set_mask full_mask 0 provided_mask errh).2.2 = errh ∧
    (prim.set_mask full_mask 0 provided_mask errh).2.1._op = OP_GT ∧
    (prim.set_mask full_mask 0 provided_mask errh).2.1._op_negated = !prim._op_negated ∧
    (prim.set_mask full_mask 0 provided_mask errh).2.1._mask = M ∧
    ((prim._u - 1) &&& M = prim._u - 1 →
      (prim.set_mask full_mask 0 provided_mask errh).2.1._u = prim._u - 1) ∧
    (prim.set_mask full_mask 0 provided_mask errh).2.1._u &&& M
      = (prim.set_mask full_mask 0 provided_mask errh).2.1._u ∧
    (prim.set_mask full_mask 0 provided_mask errh).2.1._u < M ∧
    (∀ v : Nat, (v &&& M > (prim.set_mask full_mask 0 provided_mask errh).2.1._u
      ↔ v &&& M > prim._u - 1)) ∧
    ∃ e, (prim.set_mask full_mask 0 provided_mask errh).2.1.add_comparison_exprs le
          (cur :: rest) offset s false op_negate = (cur ++ [e]) :: rest ∧
      ∀ (rd : Int → Nat) (w : Nat), w < 2 ^ 32 → rd offset = htonl le w →
        e.accepts rd = if op_negate = true then
            relation_holds OP_LT prim._op_negated ((w >>> s) &&& M) prim._u
          else decide ((w >>> s) &&& M > prim._u - 1) := by
  have hpos : 0 < 2 ^ n := Nat.pow_pos (by norm_num)
  have hf32 : full_mask < 2 ^ 32 := by
    have : 2 ^ n ≤ 2 ^ 32 := Nat.pow_le_pow_right (by norm_num) hn
    omega
  have hMle : M ≤ full_mask := sub_of_and_eq M full_mask hmask
  have hM32 : M < 2 ^ 32 := by omega
  have hu32 : prim._u - 1 < 2 ^ 32 := by omega
  have hufull : (prim._u - 1) &&& full_mask = prim._u - 1 := by
    rw [hfull, Nat.and_pow_two_sub_one_eq_mod, Nat.mod_eq_of_lt (by omega)]
  have hset := set_mask_lt_eq prim full_mask provided_mask M errh hop hM hmask hM32 hf32 hX1 hX2
  have hadj : ∃ u', (prim.set_mask full_mask 0 provided_mask errh).2.1._u = u' ∧
      ((prim._u - 1) &&& M = prim._u - 1 → u' = prim._u - 1) ∧
      u' &&& M = u' ∧ u' < M ∧ ∀ y, y &&& M = y → (prim._u - 1 < y ↔ u' < y) := by
    rw [hset]
    by_cases hin : (prim._u - 1) &&& M = prim._u - 1
    · refine ⟨prim._u - 1, ?_, fun _ => rfl, hin, by omega, fun y _ => Iff.rfl⟩
      simp [hin]
    · have hne1 : ((prim._u - 1) &&& M) ^^^ ((prim._u - 1) &&& full_mask) ≠ 1 := by
        rw [missing_eq_and_not32 _ _ _ hu32 hufull]; exact hbit0
      obtain ⟨h1, h2, h3⟩ := adjust_code (prim._u - 1) M full_mask hu32 hufull hin hne1
      refine ⟨_, ?_, fun h => absurd h hin, h1, h2 (by omega), h3⟩
      simp [hin]
  obtain ⟨u', hu', huin, husub, hult, hequiv⟩ := hadj
  refine ⟨by rw [hset], by rw [hset], by rw [hset], by rw [hset], by rw [hset], ?_, ?_, ?_, ?_,
    ?_⟩
  · intro hin; rw [hu']; exact huin hin
  · rw [hu']; exact husub
  · rw [hu']; exact hult
  · intro v
    rw [hu']
    exact (hequiv (v &&& M) (and_and_self _ _)).symm
  · have hmask' : (prim.set_mask full_mask 0 provided_mask errh).2.1._mask = M := by rw [hset]
    have hop' : (prim.set_mask full_mask 0 provided_mask errh).2.1._op = OP_GT := by rw [hset]
    have hneg' : (prim.set_mask full_mask 0 provided_mask errh).2.1._op_negated =
        !prim._op_negated := by rw [hset]
    have hu'32 : u' < 2 ^ 32 := by omega
    obtain ⟨e, he, _, hacc⟩ := add_comparison_exprs_spec le
      (prim.set_mask full_mask 0 provided_mask errh).2.1 cur rest offset s false op_negate M u'
      (by rw [hmask', Nat.mod_eq_of_lt hM32]; rfl)
      (by rw [hmask', hu', Nat.mod_eq_of_lt hM32, Nat.mod_eq_of_lt hu'32, husub]; rfl)
      hfit (fun _ => hult)
    refine ⟨e, he, ?_⟩
    intro rd w hw hrd
    rw [hacc rd w hw hrd, hop', hneg']
    have hiff := hequiv ((w >>> s) &&& M) (and_and_self _ _)
    simp only [relation_holds, op_ne.1, op_ne.2.1, op_ne.2.2.2, if_false]
    cases op_negate
    · simp only [Bool.and_false, Bool.false_eq_true, if_false]
      by_cases hc : (w >>> s) &&& M > prim._u - 1
      · have : (w >>> s) &&& M > u' := hiff.mp hc
        simp [hc, this]
      · have : ¬ ((w >>> s) &&& M > u') := fun h => hc (hiff.mpr h)
        simp [hc, this]
    · simp only [Bool.and_true, if_true]
      by_cases hc : (w >>> s) &&& M < prim._u
      · have : ¬ ((w >>> s) &&& M > u') := by
          intro h; have := hiff.mpr h; omega
        simp [hc, this]
      · have : (w >>> s) &&& M > u' := hiff.mp (by omega)
        simp [hc, this]

/-- Witness for C2: `ip ttl < 64` on the 8-bit field at shift 16. -/
theorem set_mask_less_than_witness :
    ((sample_prim OP_LT false 64 0).set_mask 0xFF 0 0 ⟨0, 0⟩).2.1._u = 64 - 1 ∧
    ∃ e, ((sample_prim OP_LT false 64 0).set_mask 0xFF 0 0 ⟨0, 0⟩).2.1.add_comparison_exprs true
          ([] :: []) 8 16 false true = ([] ++ [e]) :: [] ∧
      ∀ (rd : Int → Nat) (w : Nat), w < 2 ^ 32 → rd 8 = htonl true w →
        e.accepts rd = if true = true then
            relation_holds OP_LT false ((w >>> 16) &&& 0xFF) 64
          else decide ((w >>> 16) &&& 0xFF > 64 - 1) := by
  obtain ⟨_, _, _, _, _, h6, _, _, _, h7⟩ := set_mask_less_than true (sample_prim OP_LT false 64 0)
    0xFF 0 0xFF 8 ⟨0, 0⟩ [] [] 8 16 true (by decide) (by decide) (by decide) (by decide)
    (by decide) (by decide) (by decide) (by decide) (by decide)
  exact ⟨h6 (by decide), h7⟩

/-- C25 fails when the highest missing bit is bit 0: for `> 1` under mask 6
(full mask 0xFF) the missing bits are 1, `ffs_msb` gives 32, and the shift
`0xFFFFFFFF >> 32` (undefined in C++, the whole word on x86) turns the threshold
into the mask itself, 6.  The relation changes: the field value 2 satisfies
`(2 & 6) > 1` but not `(2 & 6) > 6`, and for the clause `allow ip[0] & 6 > 1`
no test is emitted at all. -/
theorem set_mask_adjust_bit_zero :
    ((1 &&& 6) ^^^ (1 &&& 0xFF) = 1 ∧ ffs_msb 1 = 32 ∧ shr32 0xFFFFFFFF 32 = 0xFFFFFFFF)
    ∧ (sample_prim OP_GT false 1 0).set_mask 0xFF 0 6 ⟨0, 0⟩
        = (0, sample_prim OP_GT false 6 6, ⟨0, 0⟩)
    ∧ (2 &&& 6 > 1 ∧ ¬ (2 &&& 6 > 6))
    ∧ (sample_prim OP_GT false 6 6).add_comparison_exprs true [[]] 0 24 false true = [[]]
    ∧ configure true sample_env ["allow ip[0] & 6 > 1"] 1 ⟨0, 0⟩ = some (0, [[]], ⟨0, 0⟩) := by
  decide

/-! ## The bare wildcard clause (`IPFilter::configure`) -/

/-- The slot an action word resolves to is an output or the drop slot. -/
theorem resolve_slot_range (env : Env) (a : String) (N : Int) (errh : ErrorHandler)
    (hN : 0 ≤ N) :
    0 ≤ (resolve_slot env a N errh).1 ∧ (resolve_slot env a N errh).1 ≤ N := by
  unfold resolve_slot
  by_cases h1 : a = "allow"
  · rw [if_pos h1]
    exact ⟨le_refl _, hN⟩
  · rw [if_neg h1]
    by_cases h2 : a = "deny"
    · rw [if_pos h2]
      exact ⟨hN, le_refl _⟩
    · rw [if_neg h2]
      by_cases h3 : a = "drop"
      · rw [if_pos h3]
        exact ⟨hN, le_refl _⟩
      · rw [if_neg h3]
        cases env.cp_integer a with
        | none => exact ⟨hN, le_refl _⟩
        | some slot =>
          by_cases h4 : slot < 0 ∨ slot ≥ N
          · simp only [if_pos h4]
            exact ⟨hN, le_refl _⟩
          · simp only [if_neg h4]
            push_neg at h4
            exact ⟨h4.1, le_of_lt h4.2⟩

/-- A clause of one word, or of two words ending in a wildcard, is not parsed:
`configure` adds the test (0, 0, 0) for it and routes it to the slot. -/
theorem configure_clause_wildcard (le : Bool) (env : Env) (N : Int) (words : List String)
    (tree : Builder) (errh : ErrorHandler)
    (h : words.length = 1 ∨ (words.length = 2 ∧ word_at env words 1 = "-")
      ∨ (words.length = 2 ∧ word_at env words 1 = "any")
      ∨ (words.length = 2 ∧ word_at env words 1 = "all")) :
    configure_clause le env N words tree errh
      = some (finish_expr_subtree (add_expr (start_expr_subtree tree) 0 0 0) Combiner.C_AND
          (-(resolve_slot env (word_at env words 0) N errh).1) FAILURE,
        (resolve_slot env (word_at env words 0) N errh).2) := by
  have h0 : words.length ≠ 0 := by
    rcases h with h | ⟨h, _⟩ | ⟨h, _⟩ | ⟨h, _⟩ <;> omega
  unfold configure_clause
  rw [if_neg h0]
  simp only []
  rw [if_pos h]

/-- The test (0, 0, 0) is true on every packet. -/
theorem true_leaf_eval (rd : Int → Nat) (offset : Int) :
    (Expr.leaf offset 0 0).eval rd = Outcome.yes := by
  simp only [Expr.eval, Nat.and_zero, if_true]

/-- A target `-slot` of a slot in range is terminal. -/
theorem jump_neg_slot (slot : Int) (h0 : 0 ≤ slot) (hlt : slot < 2147483645) :
    Outcome.jump (-slot) = Outcome.port slot := by
  have h1 : ¬ (-slot = 0 - 2147483645) := by omega
  have h2 : ¬ (-slot = 0 - 2147483646) := by omega
  unfold Outcome.jump SUCCESS FAILURE
  rw [if_neg h1, if_neg h2, neg_neg]

/-- The tree of a configuration that is one wildcard clause. -/
theorem configure_words_wildcard (le : Bool) (env : Env) (N : Int) (words : List String)
    (errh : ErrorHandler)
    (h : words.length = 1 ∨ (words.length = 2 ∧ word_at env words 1 = "-")
      ∨ (words.length = 2 ∧ word_at env words 1 = "any")
      ∨ (words.length = 2 ∧ word_at env words 1 = "all")) (hN : 0 ≤ N) (hN2 : N < 2147483645) :
    (configure_words le env [words] N errh).map (fun r => (r.2.1, r.2.2))
      = some ([[Expr.route (Expr.route (Expr.leaf 0 0 0)
            (-(resolve_slot env (word_at env words 0) N errh).1) FAILURE) (-N) (-N)]],
          (resolve_slot env (word_at env words 0) N errh).2) := by
  have hs := resolve_slot_range env (word_at env words 0) N errh hN
  have hne : ¬ (-(resolve_slot env (word_at env words 0) N errh).1 = SUCCESS ∧ True) := by
    unfold SUCCESS
    intro hh
    omega
  have hne2 : ¬ (-N = SUCCESS ∧ -N = FAILURE) := by
    unfold SUCCESS FAILURE
    intro hh
    omega
  unfold configure_words
  simp only [configure_loop, configure_clause_wildcard le env N words _ errh h]
  simp only [init_expr_subtree, start_expr_subtree, add_expr, List.nil_append,
    finish_expr_subtree, combine, hne, hne2, if_false, Option.map_some']

/-- The routed always-true test has the same outcome on every packet, and the
compiler short-circuits it. -/
theorem wildcard_top (lower : Expr → List Nat × Int) (slot N : Int) (h0 : 0 ≤ slot)
    (hlt : slot < 2147483645) :
    (∀ rd, (Expr.route (Expr.route (Expr.leaf 0 0 0) (-slot) FAILURE) (-N) (-N)).eval rd
        = Outcome.port slot)
    ∧ compile lower (Expr.route (Expr.route (Expr.leaf 0 0 0) (-slot) FAILURE) (-N) (-N))
        = { _prog := [], _output_everything := slot, _safe_length := 0 } := by
  constructor
  · intro rd
    simp only [Expr.eval, Nat.and_zero, if_true, jump_neg_slot slot h0 hlt]
  · simp only [compile, Expr.always, if_true, jump_neg_slot slot h0 hlt]

/-- C9: a clause whose pattern is the bare wildcard (`-`, `any`, `all`, or
nothing after the action word `a`) is not parsed: wherever it stands,
`configure` adds for it only the test (offset 0, value 0, mask 0), routed to
the slot of `a`, and touches the error handler only while resolving the slot.
A configuration that is this clause alone has a tree with the same outcome
"port slot" on every packet, it compiles to `_output_everything = slot` with an
empty program, and `push` sends every packet to that output. -/
theorem bare_wildcard_outputs_everything (le : Bool) (env : Env)
    (lower : Expr → List Nat × Int) (a w : String) (words : List String) (N : Int)
    (errh : ErrorHandler) (p : Packet)
    (hw : w = "-" ∨ w = "any" ∨ w = "all") (hwords : words = [a] ∨ words = [a, w])
    (hN : 0 ≤ N) (hN2 : N < 2147483645) :
    (∀ tree errh0, configure_clause le env N words tree errh0
        = some (finish_expr_subtree (add_expr (start_expr_subtree tree) 0 0 0) Combiner.C_AND
            (-(resolve_slot env a N errh0).1) FAILURE, (resolve_slot env a N errh0).2))
    ∧ (configure_words le env [words] N errh).map (fun r => (r.2.1, r.2.2))
        = some ([[Expr.route (Expr.route (Expr.leaf 0 0 0)
              (-(resolve_slot env a N errh).1) FAILURE) (-N) (-N)]],
            (resolve_slot env a N errh).2)
    ∧ (∀ rd, (Expr.route (Expr.route (Expr.leaf 0 0 0)
          (-(resolve_slot env a N errh).1) FAILURE) (-N) (-N)).eval rd
        = Outcome.port (resolve_slot env a N errh).1)
    ∧ compile lower (Expr.route (Expr.route (Expr.leaf 0 0 0)
          (-(resolve_slot env a N errh).1) FAILURE) (-N) (-N))
        = { _prog := [], _output_everything := (resolve_slot env a N errh).1, _safe_length := 0 }
    ∧ push le (compile lower (Expr.route (Expr.route (Expr.leaf 0 0 0)
          (-(resolve_slot env a N errh).1) FAILURE) (-N) (-N))) p
        = Result.port (resolve_slot env a N errh).1 := by
  have hshape : words.length = 1 ∨ (words.length = 2 ∧ word_at env words 1 = "-")
      ∨ (words.length = 2 ∧ word_at env words 1 = "any")
      ∨ (words.length = 2 ∧ word_at env words 1 = "all") := by
    rcases hwords with h | h
    · left; rw [h]; rfl
    · right
      rw [h]
      rcases hw with h1 | h1 | h1
      · left; exact ⟨rfl, h1⟩
      · right; left; exact ⟨rfl, h1⟩
      · right; right; exact ⟨rfl, h1⟩
  have ha : word_at env words 0 = a := by
    rcases hwords with h | h <;> rw [h] <;> rfl
  have hs := resolve_slot_range env a N errh hN
  have ht := wildcard_top lower (resolve_slot env a N errh).1 N hs.1 (lt_of_le_of_lt hs.2 hN2)
  refine ⟨?_, ?_, ht.1, ht.2, ?_⟩
  · intro tree errh0
    rw [← ha]
    exact configure_clause_wildcard le env N words tree errh0 hshape
  · rw [← ha]
    exact configure_words_wildcard le env N words errh hshape hN hN2
  · rw [ht.2]
    unfold push
    rw [if_pos hs.1]

/-- C9 at the clause `allow -` on an element with one output. -/
theorem bare_wildcard_outputs_everything_witness :
    (configure true sample_env ["allow -"] 1 ⟨0, 0⟩).map (fun r => (r.2.1, r.2.2))
      = some ([[Expr.route (Expr.route (Expr.leaf 0 0 0) 0 FAILURE) (-1) (-1)]], ⟨0, 0⟩)
    ∧ push true (compile (fun _ => ([], 0))
        (Expr.route (Expr.route (Expr.leaf 0 0 0) 0 FAILURE) (-1) (-1))) sample_packet
      = Result.port 0 :=
  ⟨(bare_wildcard_outputs_everything true sample_env (fun _ => ([], 0)) "allow" "-"
      ["allow", "-"] 1 ⟨0, 0⟩ sample_packet (Or.inl rfl) (Or.inr rfl) (by decide) (by decide)).2.1,
   (bare_wildcard_outputs_everything true sample_env (fun _ => ([], 0)) "allow" "-"
      ["allow", "-"] 1 ⟨0, 0⟩ sample_packet (Or.inl rfl) (Or.inr rfl) (by decide) (by decide)).2.2.2.2⟩

/-! ## Packet words and header fields -/

/-- A word read on either host is `htonl` of the big-endian word. -/
theorem load32_htonl (le : Bool) (mem : Int → Nat) (a : Int) :
    load32 le mem a = htonl le (load32 false mem a) := by
  apply Nat.eq_of_testBit_eq
  intro j
  have hw : ∀ l : Bool, load32 l mem a =
      wordOfBytes l ((fun i : Nat => mem (a + i)) 0) ((fun i : Nat => mem (a + i)) 1)
        ((fun i : Nat => mem (a + i)) 2) ((fun i : Nat => mem (a + i)) 3) := by
    intro l
    simp [load32]
  rw [testBit_htonl, hw le, hw false, testBit_wordOfBytes le (fun i : Nat => mem (a + i)) j,
    testBit_wordOfBytes false (fun i : Nat => mem (a + i))]
  by_cases hj : j < 32
  · cases le
    · simp only [Bool.false_eq_true, if_false, hj, decide_True, Bool.true_and]
    · have h1 : 8 * (3 - j / 8) + j % 8 < 32 := by omega
      have h2 : 3 - (8 * (3 - j / 8) + j % 8) / 8 = j / 8 := by omega
      have h3 : (8 * (3 - j / 8) + j % 8) % 8 = j % 8 := by omega
      simp only [if_true, Bool.false_eq_true, if_false, hj, h1, h2, h3, decide_True,
        Bool.true_and]
  · simp [hj]

theorem read_word_htonl (le : Bool) (p : Packet) (off : Int) :
    read_word le p off = htonl le (read_word false p off) := by
  unfold read_word
  split_ifs
  · exact load32_htonl le p.mem _
  · exact load32_htonl le p.mem _

theorem load32_lt (le : Bool) (mem : Int → Nat) (a : Int) : load32 le mem a < 2 ^ 32 := by
  rw [load32_htonl]
  exact htonl_lt le _

theorem read_word_lt (le : Bool) (p : Packet) (off : Int) : read_word le p off < 2 ^ 32 := by
  rw [read_word_htonl]
  exact htonl_lt le _

/-- A test of `w` bits at bit `s` of a word compares that bit field. -/
theorem masked_field_iff (x w s v : Nat) :
    (x &&& ((2 ^ w - 1) <<< s) = v <<< s) ↔ (x / 2 ^ s) % 2 ^ w = v := by
  rw [and_shiftLeft_eq, shiftLeft_inj, Nat.shiftRight_eq_div_pow, Nat.and_pow_two_sub_one_eq_mod]

/-- A leaf in network byte order tests the big-endian word of the packet. -/
theorem leaf_field_eval (le : Bool) (p : Packet) (off : Int) (w s v : Nat)
    (hv : v <<< s < 2 ^ 32) :
    (Expr.leaf off (htonl le (v <<< s)) (htonl le ((2 ^ w - 1) <<< s))).eval (read_word le p)
      = if (read_word false p off / 2 ^ s) % 2 ^ w = v then Outcome.yes else Outcome.no := by
  have h := htonl_test_iff le (read_word false p off) ((2 ^ w - 1) <<< s) (v <<< s)
    (read_word_lt false p off) hv
  simp only [Expr.eval]
  rw [read_word_htonl le p off]
  by_cases hc : (read_word false p off / 2 ^ s) % 2 ^ w = v
  · rw [if_pos hc, if_pos (h.mpr ((masked_field_iff _ w s v).mpr hc))]
  · rw [if_neg hc, if_neg (fun h' => hc ((masked_field_iff _ w s v).mp (h.mp h')))]

/-- The big-endian word at an offset of the IP header, by bytes. -/
theorem read_word_ip (p : Packet) (off : Int) (h : off < 64) :
    read_word false p off = ip_byte p (off + 3) + 2 ^ 8 * ip_byte p (off + 2)
      + 2 ^ 16 * ip_byte p (off + 1) + 2 ^ 24 * ip_byte p off := by
  unfold read_word TRANSP_FAKE_OFFSET
  rw [if_neg (by omega)]
  simp only [load32, wordOfBytes, ip_byte, Bool.false_eq_true, if_false, add_assoc]

/-- The big-endian word at an offset of the transport header, by bytes. -/
theorem read_word_transp (p : Packet) (off : Int) (h : 64 ≤ off) :
    read_word false p off = transp_byte p (off - 64 + 3) + 2 ^ 8 * transp_byte p (off - 64 + 2)
      + 2 ^ 16 * transp_byte p (off - 64 + 1) + 2 ^ 24 * transp_byte p (off - 64) := by
  unfold read_word TRANSP_FAKE_OFFSET
  rw [if_pos (by omega)]
  simp only [load32, wordOfBytes, transp_byte, Bool.false_eq_true, if_false, add_assoc,
    add_sub_assoc]

theorem ip_byte_lt (p : Packet) (i : Int) : ip_byte p i < 256 := Nat.mod_lt _ (by norm_num)

theorem transp_byte_lt (p : Packet) (i : Int) : transp_byte p i < 256 :=
  Nat.mod_lt _ (by norm_num)

/-! ## The clause `allow tcp && dst port 80` -/

/-- What `configure` builds for the clause on an element with one output. -/
theorem configure_tcp_dst_port_80 (le : Bool) :
    configure le sample_env ["allow tcp && dst port 80"] 1 ⟨0, 0⟩
      = some (0, [[Expr.route (Expr.route (tcp_dst_port_80_expr le) 0 FAILURE) (-1) (-1)]],
          ⟨0, 0⟩) := by
  cases le <;> decide

/-- A test of the protocol byte. -/
theorem proto_leaf_eval (le : Bool) (p : Packet) (v : Nat) (hv : v < 256) :
    (Expr.leaf 8 (htonl le (v <<< 16)) (htonl le 0x00FF0000)).eval (read_word le p)
      = if ip_p p = v then Outcome.yes else Outcome.no := by
  have hm : (0x00FF0000 : Nat) = (2 ^ 8 - 1) <<< 16 := by decide
  have hv2 : v <<< 16 < 2 ^ 32 := by
    rw [Nat.shiftLeft_eq]
    omega
  rw [hm, leaf_field_eval le p 8 8 16 v hv2, read_word_ip p 8 (by decide)]
  have e : ((8 : Int) + 1) = 9 := by decide
  rw [e]
  have h0 := ip_byte_lt p (8 + 3)
  have h1 := ip_byte_lt p (8 + 2)
  have h2 := ip_byte_lt p 9
  have h3 := ip_byte_lt p 8
  have hq : (ip_byte p (8 + 3) + 2 ^ 8 * ip_byte p (8 + 2) + 2 ^ 16 * ip_byte p 9
      + 2 ^ 24 * ip_byte p 8) / 2 ^ 16 % 2 ^ 8 = ip_p p := by
    unfold ip_p
    omega
  rw [hq]

/-- The first-fragment test. -/
theorem frag_leaf_eval (le : Bool) (p : Packet) :
    (Expr.leaf 4 0 (htonl le 0x00001FFF)).eval (read_word le p)
      = if ip_fragment_offset p = 0 then Outcome.yes else Outcome.no := by
  have hm : (0x00001FFF : Nat) = (2 ^ 13 - 1) <<< 0 := by decide
  have hz : (0 : Nat) = htonl le (0 <<< 0) := by cases le <;> decide
  have hv2 : 0 <<< 0 < 2 ^ 32 := by decide
  rw [hm]
  nth_rewrite 1 [hz]
  rw [leaf_field_eval le p 4 13 0 0 hv2, read_word_ip p 4 (by decide)]
  have e3 : ((4 : Int) + 3) = 7 := by decide
  have e2 : ((4 : Int) + 2) = 6 := by decide
  rw [e3, e2]
  have h0 := ip_byte_lt p 7
  have h1 := ip_byte_lt p 6
  have h2 := ip_byte_lt p (4 + 1)
  have h3 := ip_byte_lt p 4
  have hq : (ip_byte p 7 + 2 ^ 8 * ip_byte p 6 + 2 ^ 16 * ip_byte p (4 + 1)
      + 2 ^ 24 * ip_byte p 4) / 2 ^ 0 % 2 ^ 13 = ip_fragment_offset p := by
    unfold ip_fragment_offset
    omega
  rw [hq]

/-- A test of the destination port. -/
theorem dport_leaf_eval (le : Bool) (p : Packet) (v : Nat) (hv : v < 65536) :
    (Expr.leaf 64 (htonl le v) (htonl le 0x0000FFFF)).eval (read_word le p)
      = if th_dport p = v then Outcome.yes else Outcome.no := by
  have hm : (0x0000FFFF : Nat) = (2 ^ 16 - 1) <<< 0 := by decide
  have hz : v = v <<< 0 := rfl
  have hv2 : v <<< 0 < 2 ^ 32 := by
    rw [← hz]
    omega
  rw [hm]
  nth_rewrite 1 [hz]
  rw [leaf_field_eval le p 64 16 0 v hv2, read_word_transp p 64 (by decide)]
  have e3 : ((64 : Int) - 64 + 3) = 3 := by decide
  have e2 : ((64 : Int) - 64 + 2) = 2 := by decide
  rw [e3, e2]
  have h0 := transp_byte_lt p 3
  have h1 := transp_byte_lt p 2
  have h2 := transp_byte_lt p (64 - 64 + 1)
  have h3 := transp_byte_lt p (64 - 64)
  have hq : (transp_byte p 3 + 2 ^ 8 * transp_byte p 2 + 2 ^ 16 * transp_byte p (64 - 64 + 1)
      + 2 ^ 24 * transp_byte p (64 - 64)) / 2 ^ 0 % 2 ^ 16 = th_dport p := by
    unfold th_dport
    omega
  rw [hq]

theorem eval_route (rd : Int → Nat) (e : Expr) (success failure : Int) :
    (Expr.route e success failure).eval rd = (match e.eval rd with
      | Outcome.yes => Outcome.jump success
      | Outcome.no => Outcome.jump failure
      | r => r) := rfl

/-- The tests of `tcp && dst port 80` decide: TCP, first fragment, destination
port 80. -/
theorem tcp_dst_port_80_eval (le : Bool) (p : Packet) :
    (tcp_dst_port_80_expr le).eval (read_word le p)
      = if ip_p p = 6 ∧ ip_fragment_offset p = 0 ∧ th_dport p = 80 then Outcome.yes
        else Outcome.no := by
  have e6 : (0x00060000 : Nat) = 6 <<< 16 := by decide
  have e17 : (0x00110000 : Nat) = 17 <<< 16 := by decide
  have htcp := proto_leaf_eval le p 6 (by decide)
  have hudp := proto_leaf_eval le p 17 (by decide)
  have hfrag := frag_leaf_eval le p
  have hport := dport_leaf_eval le p 80 (by decide)
  unfold tcp_dst_port_80_expr
  rw [e6, e17]
  simp only [eval_and, eval_or, htcp, hudp, hfrag, hport]
  by_cases h1 : ip_p p = 6
  · by_cases h2 : ip_fragment_offset p = 0
    · by_cases h3 : th_dport p = 80
      · simp [h1, h2, h3]
      · simp [h1, h2, h3]
    · simp [h1, h2]
  · simp [h1]

/-- C10: for the clause `allow tcp && dst port 80` (element with one output,
either host byte order) `configure` succeeds without errors and builds the
tests `tcp_dst_port_80_expr`, routed to port 0.  On every packet these tests are
satisfied exactly when the protocol is TCP (6), the fragment offset is 0 and
the destination port is 80: such a packet (every unfragmented TCP packet to
port 80) goes to port 0, and every other packet (protocol UDP = 17, or
destination port 8080) fails the clause and falls through to the default,
port 1 = drop. -/
theorem allow_tcp_dst_port_80 (le : Bool) (p : Packet) :
    configure le sample_env ["allow tcp && dst port 80"] 1 ⟨0, 0⟩
      = some (0, [[Expr.route (Expr.route (tcp_dst_port_80_expr le) 0 FAILURE) (-1) (-1)]],
          ⟨0, 0⟩)
    ∧ ((tcp_dst_port_80_expr le).accepts (read_word le p) = true
        ↔ ip_p p = 6 ∧ ip_fragment_offset p = 0 ∧ th_dport p = 80)
    ∧ (Expr.route (Expr.route (tcp_dst_port_80_expr le) 0 FAILURE) (-1) (-1)).eval
          (read_word le p)
        = (if ip_p p = 6 ∧ ip_fragment_offset p = 0 ∧ th_dport p = 80 then Outcome.port 0
           else Outcome.port 1)
    ∧ ((ip_p p = 17 ∨ th_dport p = 8080)
        ∧ (tcp_dst_port_80_expr le).accepts (read_word le p) = true ↔ False) := by
  have he := tcp_dst_port_80_eval le p
  have hacc : (tcp_dst_port_80_expr le).accepts (read_word le p) = true
      ↔ ip_p p = 6 ∧ ip_fragment_offset p = 0 ∧ th_dport p = 80 := by
    rw [accepts_of_eval _ _ _ he, decide_eq_true_iff]
  refine ⟨configure_tcp_dst_port_80 le, hacc, ?_, ?_⟩
  · rw [eval_route, eval_route, he]
    by_cases hc : ip_p p = 6 ∧ ip_fragment_offset p = 0 ∧ th_dport p = 80
    · rw [if_pos hc, if_pos hc]
      rfl
    · rw [if_neg hc, if_neg hc]
      rfl
  · rw [hacc]
    constructor
    · rintro ⟨h1 | h1, h2, _, h4⟩
      · omega
      · omega
    · exact False.elim

/-! ## The TCP-or-UDP wildcard -/

/-- What `check` and `add_exprs` do with the wildcard primitive and its
negated form. -/
theorem proto_wildcard_exprs (le : Bool) :
    (proto_wildcard_prim false).check Primitive.clear 0 ⟨0, 0⟩
      = (0, { proto_wildcard_prim false with _data := TYPE_NONE, _transp_proto := 256,
                                             _mask := 0xFF }, ⟨0, 0⟩)
    ∧ ((proto_wildcard_prim false).check Primitive.clear 0 ⟨0, 0⟩).2.1.add_exprs le [[]]
      = [[Expr.or (Expr.leaf 8 (htonl le (6 <<< 16)) (htonl le 0x00FF0000))
          (Expr.leaf 8 (htonl le (17 <<< 16)) (htonl le 0x00FF0000))]]
    ∧ (proto_wildcard_prim true).check Primitive.clear 0 ⟨0, 0⟩
      = (0, { proto_wildcard_prim true with _data := TYPE_NONE, _mask := 0xFF }, ⟨0, 0⟩)
    ∧ ((proto_wildcard_prim true).check Primitive.clear 0 ⟨0, 0⟩).2.1.add_exprs le [[]]
      = [[Expr.not (Expr.leaf 8 (htonl le (0 <<< 16)) (htonl le 0x00FF0000))]]
    ∧ (parse_primitive le sample_env ["allow", "ip", "proto", "!=", "tcpudp"] 1 false
        ⟨[[]], Primitive.clear, ⟨0, 0⟩⟩).2.tree
      = [[Expr.not (Expr.leaf 8 (htonl le (0 <<< 16)) (htonl le 0x00FF0000))]]
    ∧ configure le sample_env ["allow ip proto != tcpudp"] 1 ⟨0, 0⟩
      = some ((0 : Int), ([[Expr.route (Expr.route
          (Expr.not (Expr.leaf 8 (htonl le (0 <<< 16)) (htonl le 0x00FF0000))) 0 FAILURE)
          (-1) (-1)]] : Builder), (⟨0, 0⟩ : ErrorHandler)) := by
  cases le <;> decide

/-- C28 holds for the wildcard itself and fails for its negated form: `check`
accepts `ip proto tcpudp` and `add_exprs` emits the test "TCP or UDP", which a
packet passes iff its protocol field is 6 or 17; `check` also accepts
`ip proto != tcpudp`, but leaves `_transp_proto` unset, and `add_exprs` then
compares the protocol byte with the low byte of the pseudo number 256, which is
0: the negated form accepts a packet iff its protocol is not 0, so it accepts
every TCP and UDP packet. -/
theorem proto_wildcard_negated (le : Bool) (p : Packet) :
    ((proto_wildcard_prim false).check Primitive.clear 0 ⟨0, 0⟩).1 = 0
    ∧ (∃ e, ((proto_wildcard_prim false).check Primitive.clear 0 ⟨0, 0⟩).2.1.add_exprs le [[]]
          = [[e]]
        ∧ (e.accepts (read_word le p) = true ↔ ip_p p = 6 ∨ ip_p p = 17))
    ∧ ((proto_wildcard_prim true).check Primitive.clear 0 ⟨0, 0⟩).1 = 0
    ∧ ((proto_wildcard_prim true).check Primitive.clear 0 ⟨0, 0⟩).2.2 = ⟨0, 0⟩
    ∧ (∃ e, ((proto_wildcard_prim true).check Primitive.clear 0 ⟨0, 0⟩).2.1.add_exprs le [[]]
          = [[e]]
        ∧ configure le sample_env ["allow ip proto != tcpudp"] 1 ⟨0, 0⟩
          = some ((0 : Int), ([[Expr.route (Expr.route e 0 FAILURE) (-1) (-1)]] : Builder),
              (⟨0, 0⟩ : ErrorHandler))
        ∧ (e.accepts (read_word le p) = true ↔ ip_p p ≠ 0)
        ∧ (ip_p p = 6 ∨ ip_p p = 17 → e.accepts (read_word le p) = true)) := by
  have h := proto_wildcard_exprs le
  have h6 := proto_leaf_eval le p 6 (by decide)
  have h17 := proto_leaf_eval le p 17 (by decide)
  have h0 := proto_leaf_eval le p 0 (by decide)
  refine ⟨by rw [h.1], ⟨_, h.2.1, ?_⟩, by rw [h.2.2.1], by rw [h.2.2.1], _, h.2.2.2.1,
    h.2.2.2.2.2, ?_, ?_⟩
  · unfold Expr.accepts
    rw [eval_or, h6, h17]
    by_cases a : ip_p p = 6
    · simp [a]
    · by_cases b : ip_p p = 17
      · simp [a, b]
      · simp [a, b]
  · unfold Expr.accepts
    rw [eval_not, h0]
    by_cases a : ip_p p = 0
    · simp [a]
    · simp [a]
  · intro hp
    unfold Expr.accepts
    rw [eval_not, h0]
    have a : ¬ ip_p p = 0 := by omega
    simp [a]

/-! ## The clause `deny src 10.0.0.0/8` -/

/-- What the parser, `check` and `add_exprs` do for the clause. -/
theorem configure_deny_src_net (le : Bool) :
    (parse_primitive le prefix_env ["deny", "src", "10.0.0.0/8"] 1 false
        { tree := [[]], prev_prim := Primitive.clear, errh := ⟨0, 0⟩ })
      = (3, { tree := [[src_net_10_expr le]],
              prev_prim := { src_net_10_prim le with _type := TYPE_HOST }, errh := ⟨0, 0⟩ })
    ∧ Primitive.check (src_net_10_prim le) Primitive.clear 0 ⟨0, 0⟩
      = (0, { src_net_10_prim le with _type := TYPE_HOST }, ⟨0, 0⟩)
    ∧ Primitive.add_exprs le { src_net_10_prim le with _type := TYPE_HOST } [[]]
      = [[src_net_10_expr le]]
    ∧ configure le prefix_env ["deny src 10.0.0.0/8", "allow all"] 1 ⟨0, 0⟩
      = some (0, [[Expr.route (Expr.or (Expr.route (src_net_10_expr le) (-1) FAILURE)
            (Expr.route (Expr.leaf 0 0 0) 0 FAILURE)) (-1) (-1)]], ⟨0, 0⟩) := by
  cases le <;> decide

/-- The test of `src 10.0.0.0/8` compares the first byte of the source
address with 10. -/
theorem src_net_10_eval (le : Bool) (p : Packet) :
    (src_net_10_expr le).eval (read_word le p)
      = if ip_src_top p = 10 then Outcome.yes else Outcome.no := by
  have hm : (0xFF000000 : Nat) = (2 ^ 8 - 1) <<< 24 := by decide
  have hv : (0x0A000000 : Nat) = 10 <<< 24 := by decide
  unfold src_net_10_expr
  rw [hm, hv, leaf_field_eval le p 12 8 24 10 (by decide), read_word_ip p 12 (by decide)]
  have h0 := ip_byte_lt p (12 + 3)
  have h1 := ip_byte_lt p (12 + 2)
  have h2 := ip_byte_lt p (12 + 1)
  have h3 := ip_byte_lt p 12
  have hq : (ip_byte p (12 + 3) + 2 ^ 8 * ip_byte p (12 + 2) + 2 ^ 16 * ip_byte p (12 + 1)
      + 2 ^ 24 * ip_byte p 12) / 2 ^ 24 % 2 ^ 8 = ip_src_top p := by
    unfold ip_src_top
    omega
  rw [hq]

/-- C11: for the clause `deny src 10.0.0.0/8` (either host byte order) the
parser hands `check` a net primitive with qualifier `src`; `check` succeeds and
turns it into a host test that keeps the prefix mask 255.0.0.0, and `add_exprs`
emits the single test `src_net_10_expr` on the word at offset 12.  A packet
satisfies the clause iff the first byte (top 8 bits) of its source address is
10; in the configuration `deny src 10.0.0.0/8, allow all` on an element with
one output such a packet goes to the drop slot (port 1 = noutputs) and every
other packet fails the clause and reaches the next clause (port 0). -/
theorem deny_src_net_10 (le : Bool) (p : Packet) :
    Primitive.check (src_net_10_prim le) Primitive.clear 0 ⟨0, 0⟩
      = (0, { src_net_10_prim le with _type := TYPE_HOST }, ⟨0, 0⟩)
    ∧ ({ src_net_10_prim le with _type := TYPE_HOST } : Primitive)._mask = htonl le 0xFF000000
    ∧ Primitive.add_exprs le { src_net_10_prim le with _type := TYPE_HOST } [[]]
      = [[Expr.leaf 12 (htonl le 0x0A000000) (htonl le 0xFF000000)]]
    ∧ (parse_primitive le prefix_env ["deny", "src", "10.0.0.0/8"] 1 false
        { tree := [[]], prev_prim := Primitive.clear, errh := ⟨0, 0⟩ })
      = (3, { tree := [[src_net_10_expr le]],
              prev_prim := { src_net_10_prim le with _type := TYPE_HOST }, errh := ⟨0, 0⟩ })
    ∧ configure le prefix_env ["deny src 10.0.0.0/8", "allow all"] 1 ⟨0, 0⟩
      = some (0, [[Expr.route (Expr.or (Expr.route (src_net_10_expr le) (-1) FAILURE)
            (Expr.route (Expr.leaf 0 0 0) 0 FAILURE)) (-1) (-1)]], ⟨0, 0⟩)
    ∧ ((src_net_10_expr le).accepts (read_word le p) = true ↔ ip_src_top p = 10)
    ∧ (Expr.route (Expr.or (Expr.route (src_net_10_expr le) (-1) FAILURE)
            (Expr.route (Expr.leaf 0 0 0) 0 FAILURE)) (-1) (-1)).eval (read_word le p)
        = (if ip_src_top p = 10 then Outcome.port 1 else Outcome.port 0) := by
  have hc := configure_deny_src_net le
  have he := src_net_10_eval le p
  refine ⟨hc.2.1, rfl, hc.2.2.1, hc.1, hc.2.2.2, ?_, ?_⟩
  · rw [accepts_of_eval _ _ _ he, decide_eq_true_iff]
  · rw [eval_route, eval_or, eval_route, eval_route, he]
    by_cases h : ip_src_top p = 10
    · rw [if_pos h, if_pos h]
      rfl
    · rw [if_neg h, if_neg h, true_leaf_eval]
      rfl

/-! ## Ambiguous names (`IPFilter::lookup`) -/

/-- Two allowed hits that the port rule does not merge leave `ngot` different
from 1. -/
theorem merge_count_two : ∀ a0 a1 a2 a3 a4 same : Bool, ∀ i j : Fin 5, i ≠ j →
    [a0, a1, a2, a3, a4].getD i.val false = true →
    [a0, a1, a2, a3, a4].getD j.val false = true →
    ((i.val = 1 ∧ j.val = 2) ∨ (i.val = 2 ∧ j.val = 1) → same = false) →
    ((merge_ports [a0, a1, a2, a3, a4] same).filter id).length ≠ 1 := by
  decide

/-- When `ngot` is 1, the hit returned is an allowed one, and any other allowed
hit is the UDP port merged into an equal TCP port. -/
theorem merge_count_one : ∀ a0 a1 a2 a3 a4 same : Bool,
    ((merge_ports [a0, a1, a2, a3, a4] same).filter id).length = 1 →
    [a0, a1, a2, a3, a4].getD ((merge_ports [a0, a1, a2, a3, a4] same).indexOf true) false = true
    ∧ ∀ j : Fin 5, [a0, a1, a2, a3, a4].getD j.val false = true →
        j.val = (merge_ports [a0, a1, a2, a3, a4] same).indexOf true
        ∨ ((merge_ports [a0, a1, a2, a3, a4] same).indexOf true = 1 ∧ j.val = 2
            ∧ same = true) := by
  decide

/-- An allowed hit is a hit, in one of the five databases. -/
theorem tgot_got (env : Env) (word : String) (type proto : Int) (i : Nat)
    (h : (lookup_tgot env word type proto).getD i false = true) :
    i < 5 ∧ ((lookup_val env word).getD i none).isSome = true := by
  unfold lookup_tgot at h
  rcases i with _ | _ | _ | _ | _ | i
  · simp only [List.getD_cons_zero, Bool.and_eq_true] at h
    exact ⟨by omega, h.1⟩
  · simp only [List.getD_cons_succ, List.getD_cons_zero, Bool.and_eq_true] at h
    exact ⟨by omega, h.1.1⟩
  · simp only [List.getD_cons_succ, List.getD_cons_zero, Bool.and_eq_true] at h
    exact ⟨by omega, h.1.1⟩
  · simp only [List.getD_cons_succ, List.getD_cons_zero, Bool.and_eq_true] at h
    exact ⟨by omega, h.1.1⟩
  · simp only [List.getD_cons_succ, List.getD_cons_zero, Bool.and_eq_true] at h
    exact ⟨by omega, h.1.1⟩
  · simp at h

/-- The list `tgot` has five entries. -/
theorem lookup_tgot_shape (env : Env) (word : String) (type proto : Int) :
    ∃ a0 a1 a2 a3 a4, lookup_tgot env word type proto = [a0, a1, a2, a3, a4] :=
  ⟨_, _, _, _, _, rfl⟩

/-- A hit keeps `lookup` from leaving at "exit if no match". -/
theorem not_all_none (env : Env) (word : String) (i : Nat)
    (h : ((lookup_val env word).getD i none).isSome = true) :
    (lookup_val env word).all (fun v => !v.isSome) = false := by
  by_contra hc
  rw [Bool.not_eq_false, List.all_eq_true] at hc
  by_cases hi : i < (lookup_val env word).length
  · have hm := hc ((lookup_val env word)[i]) (List.getElem_mem _)
    rw [List.getD_eq_getElem _ _ hi] at h
    rw [h] at hm
    exact absurd hm (by decide)
  · rw [List.getD_eq_default _ _ (by omega)] at h
    exact absurd h (by decide)

/-- `lookup` past the type query. -/
theorem lookup_unfold (env : Env) (word : String) (type proto : Int) (data : Nat)
    (report : Bool) (errh : ErrorHandler)
    (hkw : (type ≠ 0 ∧ type ≠ TYPE_TYPE) ∨ query type_entries word = none)
    (hgot : (lookup_val env word).all (fun v => !v.isSome) = false) :
    lookup env word type proto data report errh =
      if ((merge_ports (lookup_tgot env word type proto)
            ((lookup_val env word).getD 1 none == (lookup_val env word).getD 2 none)).filter
          id).length = 1 then
        (db2type.getD ((merge_ports (lookup_tgot env word type proto)
            ((lookup_val env word).getD 1 none == (lookup_val env word).getD 2 none)).indexOf
              true) 0,
          (((lookup_val env word).getD ((merge_ports (lookup_tgot env word type proto)
            ((lookup_val env word).getD 1 none == (lookup_val env word).getD 2 none)).indexOf
              true) none).getD 0) % 2 ^ 32, errh)
      else (-2, data, if report then errh.error else errh) := by
  have htq : (if type = 0 ∨ type = TYPE_TYPE then query type_entries word else none) = none := by
    rcases hkw with h | h
    · rw [if_neg (by push_neg; exact h)]
    · rw [h, ite_self]
  unfold lookup
  simp only [htq, hgot, Bool.false_eq_true, if_false]

/-- Two allowed hits with different values: `lookup` returns -2. -/
theorem lookup_two_hits (env : Env) (word : String) (type proto : Int) (data : Nat)
    (report : Bool) (errh : ErrorHandler)
    (hkw : (type ≠ 0 ∧ type ≠ TYPE_TYPE) ∨ query type_entries word = none)
    (i j : Nat) (hij : i ≠ j)
    (hi : (lookup_tgot env word type proto).getD i false = true)
    (hj : (lookup_tgot env word type proto).getD j false = true)
    (hdiff : (lookup_val env word).getD i none ≠ (lookup_val env word).getD j none) :
    lookup env word type proto data report errh
      = (-2, data, if report then errh.error else errh) := by
  have gi := tgot_got env word type proto i hi
  have gj := tgot_got env word type proto j hj
  rw [lookup_unfold env word type proto data report errh hkw (not_all_none env word i gi.2)]
  obtain ⟨a0, a1, a2, a3, a4, hs⟩ := lookup_tgot_shape env word type proto
  rw [hs] at hi hj ⊢
  have hsame : (i = 1 ∧ j = 2) ∨ (i = 2 ∧ j = 1) →
      ((lookup_val env word).getD 1 none == (lookup_val env word).getD 2 none) = false := by
    rintro (⟨h1, h2⟩ | ⟨h1, h2⟩)
    · subst h1 h2
      exact beq_false_of_ne hdiff
    · subst h1 h2
      exact beq_false_of_ne (Ne.symm hdiff)
  have hne := merge_count_two a0 a1 a2 a3 a4 _ ⟨i, gi.1⟩ ⟨j, gj.1⟩
    (fun h => hij (Fin.mk.inj_iff.mp h)) hi hj hsame
  rw [if_neg hne]

/-- When `lookup` picks a meaning, it is an allowed hit, and any other allowed
hit is the UDP port beside a TCP port of the same value. -/
theorem lookup_one_hit (env : Env) (word : String) (type proto : Int) (data : Nat)
    (report : Bool) (errh : ErrorHandler)
    (hkw : (type ≠ 0 ∧ type ≠ TYPE_TYPE) ∨ query type_entries word = none)
    (hpick : (lookup env word type proto data report errh).1 ≠ -1
      ∧ (lookup env word type proto data report errh).1 ≠ -2) :
    ∃ i, (lookup_tgot env word type proto).getD i false = true
      ∧ lookup env word type proto data report errh
          = (db2type.getD i 0, (((lookup_val env word).getD i none).getD 0) % 2 ^ 32, errh)
      ∧ ∀ j, (lookup_tgot env word type proto).getD j false = true →
          j = i ∨ (i = 1 ∧ j = 2
            ∧ (lookup_val env word).getD 1 none = (lookup_val env word).getD 2 none) := by
  by_cases hgot : (lookup_val env word).all (fun v => !v.isSome) = false
  · have hu := lookup_unfold env word type proto data report errh hkw hgot
    by_cases hn : ((merge_ports (lookup_tgot env word type proto)
        ((lookup_val env word).getD 1 none == (lookup_val env word).getD 2 none)).filter
          id).length = 1
    · rw [if_pos hn] at hu
      refine ⟨_, ?_, hu, ?_⟩
      · obtain ⟨a0, a1, a2, a3, a4, hs⟩ := lookup_tgot_shape env word type proto
        rw [hs] at hn ⊢
        exact (merge_count_one a0 a1 a2 a3 a4 _ hn).1
      · intro j hj
        have gj := tgot_got env word type proto j hj
        obtain ⟨a0, a1, a2, a3, a4, hs⟩ := lookup_tgot_shape env word type proto
        rw [hs] at hn hj ⊢
        rcases (merge_count_one a0 a1 a2 a3 a4 _ hn).2 ⟨j, gj.1⟩ hj with h | ⟨h1, h2, h3⟩
        · exact Or.inl h
        · exact Or.inr ⟨h1, h2, beq_iff_eq.mp h3⟩
    · rw [if_neg hn] at hu
      rw [hu] at hpick
      exact absurd rfl hpick.2
  · exfalso
    rw [Bool.not_eq_false] at hgot
    have htq : (if type = 0 ∨ type = TYPE_TYPE then query type_entries word else none)
        = none := by
      rcases hkw with h | h
      · rw [if_neg (by push_neg; exact h)]
      · rw [h, ite_self]
    have : lookup env word type proto data report errh = (-1, data, errh) := by
      unfold lookup
      simp only [htq, hgot, if_true]
    rw [this] at hpick
    exact absurd rfl hpick.1

/-- C12 as stated fails on a word that is also a field keyword: with `host`
registered as IP protocol 7, the word `host` is in two applicable namespaces
with different values (keyword `TYPE_HOST` = 10, protocol 7), and `lookup`
returns `TYPE_TYPE` with the keyword's value and reports nothing. -/
theorem lookup_keyword_wins_counterexample :
    query type_entries "host" = some 10
    ∧ keyword_clash_env.ip_proto "host" = some 7
    ∧ (lookup_tgot keyword_clash_env "host" 0 UNKNOWN).getD 0 false = true
    ∧ lookup keyword_clash_env "host" 0 UNKNOWN 0 true ⟨0, 0⟩ = (TYPE_TYPE, 10, ⟨0, 0⟩)
    ∧ (lookup keyword_clash_env "host" 0 UNKNOWN 0 true ⟨0, 0⟩).1 ≠ -2 := by
  decide

/-- C12 (amended): for every word, expected type and protocol context in which
the word is not resolved as a field keyword (the type query is not made, or
does not find the word): if two different databases both give an allowed hit
and the two values differ, `lookup` returns -2, leaves `data` alone and reports
an error when it was given an error handler; and whenever `lookup` picks a
meaning, that meaning is an allowed hit `i` and every other allowed hit is the
UDP-port entry beside the TCP-port entry `i` with the same value. -/
theorem lookup_ambiguity (env : Env) (word : String) (type proto : Int) (data : Nat)
    (report : Bool) (errh : ErrorHandler)
    (hkw : (type ≠ 0 ∧ type ≠ TYPE_TYPE) ∨ query type_entries word = none) :
    (∀ i j, i ≠ j → (lookup_tgot env word type proto).getD i false = true →
        (lookup_tgot env word type proto).getD j false = true →
        (lookup_val env word).getD i none ≠ (lookup_val env word).getD j none →
        lookup env word type proto data report errh
          = (-2, data, if report then errh.error else errh))
    ∧ ((lookup env word type proto data report errh).1 ≠ -1
        ∧ (lookup env word type proto data report errh).1 ≠ -2 →
      ∃ i, (lookup_tgot env word type proto).getD i false = true
        ∧ lookup env word type proto data report errh
            = (db2type.getD i 0, (((lookup_val env word).getD i none).getD 0) % 2 ^ 32, errh)
        ∧ ∀ j, (lookup_tgot env word type proto).getD j false = true →
            j = i ∨ (i = 1 ∧ j = 2
              ∧ (lookup_val env word).getD 1 none = (lookup_val env word).getD 2 none)) :=
  ⟨fun i j hij hi hj hd =>
      lookup_two_hits env word type proto data report errh hkw i j hij hi hj hd,
    fun hp => lookup_one_hit env word type proto data report errh hkw hp⟩

/-- C12 on the word `echo`: TCP and UDP port 7 and ICMP type 8. -/
theorem lookup_ambiguity_witness :
    query type_entries "echo" = none
    ∧ lookup sample_env "echo" 0 UNKNOWN 0 true ⟨0, 0⟩ = (-2, 0, ⟨1, 0⟩) :=
  ⟨by decide,
   (lookup_ambiguity sample_env "echo" 0 UNKNOWN 0 true ⟨0, 0⟩ (Or.inr (by decide))).1 1 4
      (by decide) (by decide) (by decide) (by decide)⟩

/-! ## The tokenizer (`separate_text`) -/

theorem char_at_eq (s : List Char) (q : Nat) (h : q < s.length) : char_at s q = s[q] := by
  unfold char_at
  rw [List.getD_eq_getElem _ _ h]

theorem substring_two (s : List Char) (q : Nat) (h : q + 1 < s.length) :
    substring s q 2 = [char_at s q, char_at s (q + 1)] := by
  have hq : q < s.length := by omega
  rw [char_at_eq s q hq, char_at_eq s (q + 1) h]
  unfold substring
  rw [List.drop_eq_getElem_cons hq, List.drop_eq_getElem_cons h]
  rfl

theorem substring_one (s : List Char) (q : Nat) (h : q < s.length) :
    substring s q 1 = [char_at s q] := by
  rw [char_at_eq s q h]
  unfold substring
  rw [List.drop_eq_getElem_cons h]
  rfl

theorem substring_end (s : List Char) (q n : Nat) (h : s.length ≤ q) :
    substring s q n = [] := by
  unfold substring
  rw [List.drop_eq_nil_of_le h, List.take_nil]

/-- One round of the loop of `separate_text`. -/
theorem separate_loop_succ (s : List Char) (fuel pos : Nat) (words : List String)
    (hpos : pos < s.length) :
    separate_loop s (fuel + 1) pos words
      = separate_loop s fuel (separate_case s (skip_space s s.length pos)).2.2
          (words ++ [String.mk (substring s (separate_case s (skip_space s s.length pos)).1
            (separate_case s (skip_space s s.length pos)).2.1)]) := by
  conv_lhs => unfold separate_loop
  rw [if_pos hpos]

/-- The loop of `separate_text` ends at the end of the string. -/
theorem separate_loop_stop (s : List Char) (fuel pos : Nat) (words : List String)
    (hpos : ¬ pos < s.length) : separate_loop s fuel pos words = words := by
  cases fuel with
  | zero => rfl
  | succ n =>
    conv_lhs => unfold separate_loop
    rw [if_neg hpos]

/-- The six two-character operators, by characters. -/
theorem two_char_operator_iff (a b : Char) :
    String.mk [a, b] ∈ ["&&", "||", "==", "!=", "<=", ">="] ↔
      ((a = '&' ∨ a = '|') ∧ b = a) ∨ ((a = '<' ∨ a = '>' ∨ a = '!' ∨ a = '=') ∧ b = '=') := by
  simp only [List.mem_cons, List.mem_singleton, List.not_mem_nil, or_false, String.ext_iff]
  simp
  constructor
  · rintro (⟨h1, h2⟩ | ⟨h1, h2⟩ | ⟨h1, h2⟩ | ⟨h1, h2⟩ | ⟨h1, h2⟩ | ⟨h1, h2⟩) <;> simp [h1, h2]
  · rintro (⟨h1 | h1, h2⟩ | ⟨h1 | h1 | h1 | h1, h2⟩) <;> simp [h1, h2]

/-- The `switch` takes `two_char` exactly at a two-character operator that
lies inside the string. -/
theorem separate_case_two (s : List Char) (q : Nat) (h : q + 1 < s.length)
    (hop : String.mk [char_at s q, char_at s (q + 1)] ∈ ["&&", "||", "==", "!=", "<=", ">="]) :
    separate_case s q = (q, 2, q + 2) := by
  have hlt : (q : Int) < (s.length : Int) - 1 := by omega
  rw [two_char_operator_iff] at hop
  unfold separate_case
  rcases hop with ⟨h1, h2⟩ | ⟨h1, h2⟩
  · simp only [h1, h2, hlt, and_self, if_true]
  · have h3 : ¬ (char_at s q = '&' ∨ char_at s q = '|') := by
      rcases h1 with h | h | h | h <;> rw [h] <;> decide
    simp only [h3, h1, h2, hlt, and_self, if_true, if_false]

/-- The `switch` takes `one_char` at each of the thirteen operator characters
that does not start a two-character operator. -/
theorem separate_case_one (s : List Char) (q : Nat)
    (hno : ¬ (q + 1 < s.length
      ∧ String.mk [char_at s q, char_at s (q + 1)] ∈ ["&&", "||", "==", "!=", "<=", ">="]))
    (hc : char_at s q ∈ ['(', ')', '[', ']', ',', ';', '?', '!', '<', '>', '=', '&', '|']) :
    separate_case s q = (q, 1, q + 1) := by
  rw [two_char_operator_iff] at hno
  unfold separate_case
  by_cases h1 : char_at s q = '&' ∨ char_at s q = '|'
  · have h2 : ¬ ((q : Int) < (s.length : Int) - 1 ∧ char_at s (q + 1) = char_at s q) := by
      rintro ⟨h3, h4⟩
      exact hno ⟨by omega, Or.inl ⟨h1, h4⟩⟩
    simp only [h1, h2, if_true, if_false]
  · by_cases h5 : char_at s q = '<' ∨ char_at s q = '>' ∨ char_at s q = '!' ∨ char_at s q = '='
    · have h2 : ¬ ((q : Int) < (s.length : Int) - 1 ∧ char_at s (q + 1) = '=') := by
        rintro ⟨h3, h4⟩
        exact hno ⟨by omega, Or.inr ⟨h5, h4⟩⟩
      simp only [h1, h5, h2, if_true, if_false]
    · have h6 : char_at s q = '(' ∨ char_at s q = ')' ∨ char_at s q = '[' ∨ char_at s q = ']'
          ∨ char_at s q = ',' ∨ char_at s q = ';' ∨ char_at s q = '?' := by
        simp only [List.mem_cons, List.mem_singleton, List.not_mem_nil, or_false] at hc
        tauto
      simp only [h1, h5, h6, if_true, if_false]

/-- The `switch` takes the `default:` case at every other character. -/
theorem separate_case_default (s : List Char) (q : Nat)
    (hc : char_at s q ∉ ['(', ')', '[', ']', ',', ';', '?', '!', '<', '>', '=', '&', '|']) :
    separate_case s q
      = (q, (if skip_word s s.length q = q then skip_word s s.length q + 1
              else skip_word s s.length q) - q,
          if skip_word s s.length q = q then skip_word s s.length q + 1
          else skip_word s s.length q) := by
  simp only [List.mem_cons, List.mem_singleton, List.not_mem_nil, or_false, not_or] at hc
  have h1 : ¬ (char_at s q = '&' ∨ char_at s q = '|') := by tauto
  have h2 : ¬ (char_at s q = '<' ∨ char_at s q = '>' ∨ char_at s q = '!'
      ∨ char_at s q = '=') := by tauto
  have h3 : ¬ (char_at s q = '(' ∨ char_at s q = ')' ∨ char_at s q = '[' ∨ char_at s q = ']'
      ∨ char_at s q = ',' ∨ char_at s q = ';' ∨ char_at s q = '?') := by tauto
  unfold separate_case
  simp only [h1, h2, h3, if_false]

/-- The characters `skip_word` passes over are word characters. -/
theorem skip_word_chars (s : List Char) (fuel pos i : Nat) (h1 : pos ≤ i)
    (h2 : i < skip_word s fuel pos) : i < s.length ∧ is_word_char (char_at s i) = true := by
  induction fuel generalizing pos with
  | zero =>
    simp only [skip_word] at h2
    omega
  | succ n ih =>
    simp only [skip_word] at h2
    by_cases hc : pos < s.length ∧ is_word_char (char_at s pos) = true
    · rw [if_pos hc] at h2
      by_cases he : i = pos
      · rw [he]
        exact hc
      · exact ih (pos + 1) (by omega) h2
    · rw [if_neg hc] at h2
      omega

/-- The characters of a substring are characters of the string. -/
theorem mem_substring (s : List Char) (q n : Nat) (c : Char) (h : c ∈ substring s q n) :
    ∃ i, q ≤ i ∧ i < q + n ∧ i < s.length ∧ c = char_at s i := by
  unfold substring at h
  obtain ⟨k, hk, hck⟩ := List.mem_iff_getElem.mp h
  rw [List.length_take, List.length_drop] at hk
  rw [List.getElem_take, List.getElem_drop] at hck
  have hlt : q + k < s.length := by omega
  exact ⟨q + k, by omega, by omega, hlt, by rw [char_at_eq s _ hlt, hck]⟩

/-- A word character is none of the thirteen operator characters. -/
theorem word_char_not_operator (c : Char) (h : is_word_char c = true) :
    c ∉ ['(', ')', '[', ']', ',', ';', '?', '!', '<', '>', '=', '&', '|'] := by
  intro hc
  simp only [List.mem_cons, List.mem_singleton, List.not_mem_nil, or_false] at hc
  rcases hc with h1 | h1 | h1 | h1 | h1 | h1 | h1 | h1 | h1 | h1 | h1 | h1 | h1 <;>
    · rw [h1] at h
      exact absurd h (by decide)

/-- The token of a round that holds an operator character is that character
alone or a two-character operator. -/
theorem separate_case_token (s : List Char) (q : Nat) (c : Char)
    (hc : c ∈ substring s (separate_case s q).1 (separate_case s q).2.1)
    (hop : c ∈ ['(', ')', '[', ']', ',', ';', '?', '!', '<', '>', '=', '&', '|']) :
    (substring s (separate_case s q).1 (separate_case s q).2.1).length = 1
    ∨ String.mk (substring s (separate_case s q).1 (separate_case s q).2.1)
        ∈ ["&&", "||", "==", "!=", "<=", ">="] := by
  by_cases h2 : q + 1 < s.length
      ∧ String.mk [char_at s q, char_at s (q + 1)] ∈ ["&&", "||", "==", "!=", "<=", ">="]
  · right
    rw [separate_case_two s q h2.1 h2.2]
    simp only
    rw [substring_two s q h2.1]
    exact h2.2
  · by_cases h1 : char_at s q
        ∈ ['(', ')', '[', ']', ',', ';', '?', '!', '<', '>', '=', '&', '|']
    · left
      rw [separate_case_one s q h2 h1] at hc ⊢
      simp only at hc ⊢
      by_cases hq : q < s.length
      · rw [substring_one s q hq]
        rfl
      · rw [substring_end s q 1 (by omega)] at hc
        exact absurd hc (List.not_mem_nil c)
    · exfalso
      rw [separate_case_default s q h1] at hc
      simp only at hc
      obtain ⟨i, hi1, hi2, hi3, hi4⟩ := mem_substring s q _ c hc
      by_cases hw : skip_word s s.length q = q
      · rw [if_pos hw] at hi2
        have : i = q := by omega
        rw [this] at hi4
        rw [hi4] at hop
        exact h1 hop
      · rw [if_neg hw] at hi2
        have hlt : i < skip_word s s.length q := by omega
        have := (skip_word_chars s s.length q i hi1 hlt).2
        rw [← hi4] at this
        exact word_char_not_operator c this hop

/-- What holds of the words so far and of the token of every round holds of all
words the loop returns. -/
theorem separate_loop_all (s : List Char) (P : String → Prop)
    (hP : ∀ q, P (String.mk (substring s (separate_case s q).1 (separate_case s q).2.1)))
    (fuel pos : Nat) (words : List String) (hw : ∀ t ∈ words, P t) :
    ∀ t ∈ separate_loop s fuel pos words, P t := by
  induction fuel generalizing pos words with
  | zero =>
    simp only [separate_loop]
    exact hw
  | succ n ih =>
    by_cases hpos : pos < s.length
    · rw [separate_loop_succ s n pos words hpos]
      apply ih
      intro t ht
      rcases List.mem_append.mp ht with h | h
      · exact hw t h
      · rw [List.mem_singleton.mp h]
        exact hP _
    · rw [separate_loop_stop s (n + 1) pos words hpos]
      exact hw

/-- C13: in every round of the loop of `separate_text` on a clause string, with
`q` the position reached after skipping whitespace: if the two characters at
`q` lie inside the string and form one of `&&`, `||`, `==`, `!=`, `<=`, `>=`,
the round pushes that two-character operator and continues at `q + 2`;
otherwise, if the character at `q` is one of `( ) [ ] , ; ? ! < > = & |`, the
round pushes that character alone and continues at `q + 1`.  Moreover every
token `separate_text` returns that holds one of these thirteen characters is
that character alone or one of the six two-character operators. -/
theorem separate_text_operators (text : String) (fuel pos q : Nat) (words : List String)
    (hpos : pos < text.data.length) (hq : q = skip_space text.data text.data.length pos) :
    (q + 1 < text.data.length
        ∧ String.mk [char_at text.data q, char_at text.data (q + 1)]
            ∈ ["&&", "||", "==", "!=", "<=", ">="] →
      separate_loop text.data (fuel + 1) pos words
        = separate_loop text.data fuel (q + 2)
            (words ++ [String.mk [char_at text.data q, char_at text.data (q + 1)]]))
    ∧ (q < text.data.length
        ∧ ¬ (q + 1 < text.data.length
          ∧ String.mk [char_at text.data q, char_at text.data (q + 1)]
              ∈ ["&&", "||", "==", "!=", "<=", ">="])
        ∧ char_at text.data q
            ∈ ['(', ')', '[', ']', ',', ';', '?', '!', '<', '>', '=', '&', '|'] →
      separate_loop text.data (fuel + 1) pos words
        = separate_loop text.data fuel (q + 1) (words ++ [String.mk [char_at text.data q]]))
    ∧ (∀ t ∈ separate_text text, ∀ c ∈ t.data,
        c ∈ ['(', ')', '[', ']', ',', ';', '?', '!', '<', '>', '=', '&', '|'] →
        t.data.length = 1 ∨ t ∈ ["&&", "||", "==", "!=", "<=", ">="]) := by
  refine ⟨?_, ?_, ?_⟩
  · rintro ⟨h1, h2⟩
    rw [separate_loop_succ _ fuel pos words hpos, ← hq, separate_case_two _ q h1 h2]
    simp only
    rw [substring_two _ q h1]
  · rintro ⟨h1, h2, h3⟩
    rw [separate_loop_succ _ fuel pos words hpos, ← hq, separate_case_one _ q h2 h3]
    simp only
    rw [substring_one _ q h1]
  · intro t ht
    exact separate_loop_all text.data
      (fun t => ∀ c ∈ t.data,
        c ∈ ['(', ')', '[', ']', ',', ';', '?', '!', '<', '>', '=', '&', '|'] →
        t.data.length = 1 ∨ t ∈ ["&&", "||", "==", "!=", "<=", ">="])
      (fun q c hc hop => separate_case_token text.data q c hc hop)
      text.data.length 0 [] (fun t h => absurd h (List.not_mem_nil t)) t ht

/-- C13 on `tcp&&udp`: the round that starts after `tcp` pushes `&&`. -/
theorem separate_text_operators_witness :
    separate_loop "tcp&&udp".data 8 3 ["tcp"]
      = separate_loop "tcp&&udp".data 7 5 ["tcp", "&&"] :=
  (separate_text_operators "tcp&&udp" 7 3 3 ["tcp"] (by decide) (by decide)).1
    ⟨by decide, by decide⟩

/-- C14 fails on a clause with trailing whitespace: after the whitespace the
loop of `separate_text` runs one more round at the end of the string and pushes
the empty `substring(len, 1)`; `configure` then reports errors on a clause that
it accepts without the trailing blank. -/
theorem separate_text_trailing_whitespace :
    separate_text "allow tcp " = ["allow", "tcp", ""]
    ∧ "" ∈ separate_text "allow tcp "
    ∧ (configure true sample_env ["allow tcp "] 1 ⟨0, 0⟩).map (fun r => (r.1, r.2.2))
        = some (-1, ⟨2, 0⟩)
    ∧ (configure true sample_env ["allow tcp"] 1 ⟨0, 0⟩).map (fun r => (r.1, r.2.2))
        = some (0, ⟨0, 0⟩) := by
  decide

/-! ## What `Primitive::check` leaves behind -/

/-- `set_mask` changes the operator, the value and the mask only. -/
theorem set_mask_keeps (prim : Primitive) (full_mask shift provided_mask : Nat)
    (errh : ErrorHandler) :
    (prim.set_mask full_mask shift provided_mask errh).2.1._type = prim._type
    ∧ (prim.set_mask full_mask shift provided_mask errh).2.1._data = prim._data
    ∧ (prim.set_mask full_mask shift provided_mask errh).2.1._srcdst = prim._srcdst
    ∧ (prim.set_mask full_mask shift provided_mask errh).2.1._transp_proto
        = prim._transp_proto := by
  unfold Primitive.set_mask
  simp only []
  split_ifs <;> exact ⟨rfl, rfl, rfl, rfl⟩

/-- The keywords of `type_entries` are syntax words, the nine named types, or
bit-field types. -/
theorem type_entries_kinds : ∀ e ∈ type_entries,
    (e.2 : Int) = TYPE_SYNTAX
    ∨ (e.2 : Int) ∈ [TYPE_HOST, TYPE_PROTO, TYPE_IPFRAG, TYPE_PORT, TYPE_TCPOPT, TYPE_NET,
        TYPE_IPUNFRAG, TYPE_IPECT, TYPE_IPCE]
    ∨ type_and (e.2 : Int) TYPE_FIELD ≠ 0 := by
  decide

/-- A hit of `query` is an entry of the database. -/
theorem query_mem (db : List (String × Nat)) (word : String) (d : Nat)
    (h : query db word = some d) : ∃ e ∈ db, e.2 = d := by
  unfold query at h
  cases hf : db.find? (fun e => e.1 == word) with
  | none => rw [hf] at h; exact absurd h (by simp)
  | some e =>
    rw [hf] at h
    exact ⟨e, List.mem_of_find?_eq_some hf, by simpa using h⟩

/-- A bit-field type is none of the named types. -/
theorem field_type_ne (t : Int) (h : type_and t TYPE_FIELD ≠ 0) :
    t ≠ 0 ∧ t ≠ TYPE_HOST ∧ t ≠ TYPE_NET ∧ t ≠ TYPE_PROTO ∧ t ≠ TYPE_PORT ∧ t ≠ TYPE_TCPOPT
    ∧ t ≠ TYPE_IPECT ∧ t ≠ TYPE_IPCE ∧ t ≠ TYPE_IPFRAG ∧ t ≠ TYPE_IPUNFRAG ∧ t ≠ TYPE_INT := by
  refine ⟨?_, ?_, ?_, ?_, ?_, ?_, ?_, ?_, ?_, ?_, ?_⟩ <;>
    · intro he
      rw [he] at h
      exact h (by decide)

/-- A successful `set_mask_or_fail` is a successful `set_mask`. -/
theorem set_mask_or_fail_ok (prim : Primitive) (full_mask provided_mask : Nat)
    (errh : ErrorHandler) (r : Primitive × ErrorHandler)
    (h : set_mask_or_fail prim full_mask provided_mask errh = Except.ok r) :
    0 ≤ (prim.set_mask full_mask 0 provided_mask errh).1
    ∧ r = ((prim.set_mask full_mask 0 provided_mask errh).2.1,
        (prim.set_mask full_mask 0 provided_mask errh).2.2) := by
  unfold set_mask_or_fail at h
  simp only [] at h
  split_ifs at h with h1
  exact ⟨by omega, (Except.ok.inj h).symm⟩

/-- "set _transp_proto if allowed" changes the transport protocol only. -/
theorem set_transp_if_allowed_keeps (prim : Primitive) :
    prim.set_transp_if_allowed._type = prim._type
    ∧ prim.set_transp_if_allowed._mask = prim._mask
    ∧ prim.set_transp_if_allowed._op = prim._op
    ∧ prim.set_transp_if_allowed._u = prim._u
    ∧ prim.set_transp_if_allowed._data = prim._data := by
  unfold Primitive.set_transp_if_allowed
  split_ifs <;> exact ⟨rfl, rfl, rfl, rfl, rfl⟩

/-- The operands of the `proto`, `port`, `tcp opt` and `ip ect` cases keep the
type, the operator and (except for `proto` and `ip ect`) the value. -/
theorem operands_keep (prim : Primitive) :
    prim.proto_operand._type = prim._type ∧ prim.proto_operand._op = prim._op
    ∧ prim.port_operand._type = prim._type ∧ prim.port_operand._op = prim._op
    ∧ prim.port_operand._u = prim._u
    ∧ prim.tcpopt_operand._type = prim._type ∧ prim.tcpopt_operand._op = prim._op
    ∧ prim.tcpopt_operand._u = prim._u
    ∧ prim.ipect_operand._type = prim._type ∧ prim.ipect_operand._op = prim._op := by
  unfold Primitive.proto_operand Primitive.port_operand Primitive.tcpopt_operand
    Primitive.ipect_operand
  simp only []
  refine ⟨?_, ?_, ?_, ?_, ?_, ?_, ?_, ?_, ?_, ?_⟩ <;> split_ifs <;> rfl

/-- A successful `case TYPE_PROTO:` ends with mask 0xFF on a pseudo protocol,
or with a successful `set_mask` under the full mask 0xFF. -/
theorem check_proto_ok (prim : Primitive) (m : Nat) (errh : ErrorHandler)
    (r : Primitive × ErrorHandler) (h : prim.check_proto m errh = Except.ok r) :
    (r.1 = Primitive.set_transp_if_allowed { prim.proto_operand with _mask := 0xFF })
    ∨ (∃ r3, set_mask_or_fail prim.proto_operand 0xFF m errh = Except.ok r3
        ∧ r.1 = r3.1.set_transp_if_allowed) := by
  unfold Primitive.check_proto at h
  split_ifs at h with h1 h2 h3 h4
  · exact Or.inl (by rw [← Except.ok.inj h])
  · right
    split at h
    · exact absurd h (by simp)
    · rename_i prim3 errh3 heq
      exact ⟨(prim3, errh3), heq, by rw [← Except.ok.inj h]⟩

/-- A successful `case TYPE_PORT:` is a successful `set_mask` under 0xFFFF. -/
theorem check_port_ok (prim : Primitive) (m : Nat) (errh : ErrorHandler)
    (r : Primitive × ErrorHandler) (h : prim.check_port m errh = Except.ok r) :
    set_mask_or_fail prim.port_operand 0xFFFF m errh = Except.ok r := by
  unfold Primitive.check_port at h
  split_ifs at h
  exact h

/-- A successful `case TYPE_IPECT:` is a successful `set_mask` under 0x3. -/
theorem check_ipect_ok (prim : Primitive) (m : Nat) (errh : ErrorHandler)
    (r : Primitive × ErrorHandler) (h : prim.check_ipect m errh = Except.ok r) :
    ∃ r2, set_mask_or_fail prim.ipect_operand 0x3 m errh = Except.ok r2
      ∧ r = ({ r2.1 with _type := (FIELD_TOS : Int) }, r2.2) := by
  unfold Primitive.check_ipect at h
  split_ifs at h
  split at h
  · exact absurd h (by simp)
  · rename_i prim2 errh2 heq
    exact ⟨(prim2, errh2), heq, (Except.ok.inj h).symm⟩

/-- A successful `default:` case is a successful `set_mask` under the natural
mask of the field. -/
theorem check_field_ok (prim : Primitive) (m : Nat) (errh : ErrorHandler)
    (r : Primitive × ErrorHandler) (h : prim.check_field m errh = Except.ok r) :
    set_mask_or_fail prim (field_mask prim._type) m errh = Except.ok r := by
  unfold Primitive.check_field at h
  split_ifs at h
  exact h

/-- The `switch (_type)` dispatches on the type. -/
theorem check_agree_cases (prim : Primitive) (m : Nat) (errh : ErrorHandler) :
    (prim._type = TYPE_HOST → prim.check_agree m errh = prim.check_host m errh)
    ∧ (prim._type = TYPE_NET → prim.check_agree m errh = prim.check_net m errh)
    ∧ (prim._type = TYPE_PROTO → prim.check_agree m errh = prim.check_proto m errh)
    ∧ (prim._type = TYPE_PORT → prim.check_agree m errh = prim.check_port m errh)
    ∧ (prim._type = TYPE_TCPOPT → prim.check_agree m errh = prim.check_tcpopt m errh)
    ∧ (prim._type = TYPE_IPECT → prim.check_agree m errh = prim.check_ipect m errh)
    ∧ (prim._type = TYPE_IPCE → prim.check_agree m errh = prim.check_ipce errh)
    ∧ (prim._type = TYPE_IPFRAG → prim.check_agree m errh = prim.check_ipfrag errh)
    ∧ (prim._type = TYPE_IPUNFRAG → prim.check_agree m errh = prim.check_ipunfrag errh)
    ∧ (type_and prim._type TYPE_FIELD ≠ 0 →
        prim.check_agree m errh = prim.check_field m errh) := by
  refine ⟨?_, ?_, ?_, ?_, ?_, ?_, ?_, ?_, ?_, ?_⟩
  · intro h
    unfold Primitive.check_agree
    rw [if_pos h]
  · intro h
    unfold Primitive.check_agree
    rw [if_neg (by rw [h]; decide), if_pos h]
  · intro h
    unfold Primitive.check_agree
    rw [if_neg (by rw [h]; decide), if_neg (by rw [h]; decide), if_pos h]
  · intro h
    unfold Primitive.check_agree
    rw [if_neg (by rw [h]; decide), if_neg (by rw [h]; decide), if_neg (by rw [h]; decide),
      if_pos h]
  · intro h
    unfold Primitive.check_agree
    rw [if_neg (by rw [h]; decide), if_neg (by rw [h]; decide), if_neg (by rw [h]; decide),
      if_neg (by rw [h]; decide), if_pos h]
  · intro h
    unfold Primitive.check_agree
    rw [if_neg (by rw [h]; decide), if_neg (by rw [h]; decide), if_neg (by rw [h]; decide),
      if_neg (by rw [h]; decide), if_neg (by rw [h]; decide), if_pos h]
  · intro h
    unfold Primitive.check_agree
    rw [if_neg (by rw [h]; decide), if_neg (by rw [h]; decide), if_neg (by rw [h]; decide),
      if_neg (by rw [h]; decide), if_neg (by rw [h]; decide), if_neg (by rw [h]; decide),
      if_pos h]
  · intro h
    unfold Primitive.check_agree
    rw [if_neg (by rw [h]; decide), if_neg (by rw [h]; decide), if_neg (by rw [h]; decide),
      if_neg (by rw [h]; decide), if_neg (by rw [h]; decide), if_neg (by rw [h]; decide),
      if_neg (by rw [h]; decide), if_pos h]
  · intro h
    unfold Primitive.check_agree
    rw [if_neg (by rw [h]; decide), if_neg (by rw [h]; decide), if_neg (by rw [h]; decide),
      if_neg (by rw [h]; decide), if_neg (by rw [h]; decide), if_neg (by rw [h]; decide),
      if_neg (by rw [h]; decide), if_neg (by rw [h]; decide), if_pos h]
  · intro h
    have hn := field_type_ne prim._type h
    unfold Primitive.check_agree
    rw [if_neg hn.2.1, if_neg hn.2.2.1, if_neg hn.2.2.2.1, if_neg hn.2.2.2.2.1,
      if_neg hn.2.2.2.2.2.1, if_neg hn.2.2.2.2.2.2.1, if_neg hn.2.2.2.2.2.2.2.1,
      if_neg hn.2.2.2.2.2.2.2.2.1, if_neg hn.2.2.2.2.2.2.2.2.2.1, if_pos h]

/-- The type a successful `switch (_type)` leaves behind, for the types the
parser can set. -/
theorem check_agree_type (prim : Primitive) (m : Nat) (errh : ErrorHandler)
    (r : Primitive × ErrorHandler) (h : prim.check_agree m errh = Except.ok r)
    (hty : prim._type ∈ [TYPE_HOST, TYPE_PROTO, TYPE_IPFRAG, TYPE_PORT, TYPE_TCPOPT, TYPE_NET,
        TYPE_IPUNFRAG, TYPE_IPECT, TYPE_IPCE] ∨ type_and prim._type TYPE_FIELD ≠ 0) :
    r.1._type = TYPE_HOST ∨ r.1._type = TYPE_PROTO ∨ r.1._type = TYPE_PORT
      ∨ r.1._type = TYPE_TCPOPT ∨ r.1._type = TYPE_IPFRAG
      ∨ type_and r.1._type TYPE_FIELD ≠ 0 := by
  have htos : type_and (FIELD_TOS : Int) TYPE_FIELD ≠ 0 := by decide
  have hc := check_agree_cases prim m errh
  rcases hty with hty | hty
  · simp only [List.mem_cons, List.mem_singleton, List.not_mem_nil, or_false] at hty
    rcases hty with h1 | h1 | h1 | h1 | h1 | h1 | h1 | h1 | h1
    · rw [hc.1 h1] at h
      unfold Primitive.check_host at h
      split_ifs at h <;> (rw [← Except.ok.inj h]; exact Or.inl h1)
    · rw [hc.2.2.1 h1] at h
      right; left
      rcases check_proto_ok prim m errh r h with hr | ⟨r3, hs, hr⟩
      · rw [hr, (set_transp_if_allowed_keeps _).1]
        exact (operands_keep prim).1.trans h1
      · rw [hr, (set_transp_if_allowed_keeps _).1, (set_mask_or_fail_ok _ _ _ _ _ hs).2]
        simp only
        rw [(set_mask_keeps _ _ _ _ _).1]
        exact (operands_keep prim).1.trans h1
    · rw [hc.2.2.2.2.2.2.2.1 h1] at h
      unfold Primitive.check_ipfrag at h
      split_ifs at h
      rw [← Except.ok.inj h]
      exact Or.inr (Or.inr (Or.inr (Or.inr (Or.inl h1))))
    · rw [hc.2.2.2.1 h1] at h
      right; right; left
      rw [(set_mask_or_fail_ok _ _ _ _ _ (check_port_ok prim m errh r h)).2]
      simp only
      rw [(set_mask_keeps _ _ _ _ _).1]
      exact (operands_keep prim).2.2.1.trans h1
    · rw [hc.2.2.2.2.1 h1] at h
      right; right; right; left
      unfold Primitive.check_tcpopt at h
      split_ifs at h
      rw [← Except.ok.inj h]
      exact (operands_keep prim).2.2.2.2.2.1.trans h1
    · rw [hc.2.1 h1] at h
      unfold Primitive.check_net at h
      split_ifs at h <;> (rw [← Except.ok.inj h]; exact Or.inl rfl)
    · rw [hc.2.2.2.2.2.2.2.2.1 h1] at h
      unfold Primitive.check_ipunfrag at h
      split_ifs at h
      rw [← Except.ok.inj h]
      exact Or.inr (Or.inr (Or.inr (Or.inr (Or.inl rfl))))
    · rw [hc.2.2.2.2.2.1 h1] at h
      obtain ⟨r2, _, hr⟩ := check_ipect_ok prim m errh r h
      rw [hr]
      exact Or.inr (Or.inr (Or.inr (Or.inr (Or.inr htos))))
    · rw [hc.2.2.2.2.2.2.1 h1] at h
      unfold Primitive.check_ipce at h
      split_ifs at h
      rw [← Except.ok.inj h]
      exact Or.inr (Or.inr (Or.inr (Or.inr (Or.inr htos))))
  · rw [hc.2.2.2.2.2.2.2.2.2 hty] at h
    rw [(set_mask_or_fail_ok _ _ _ _ _ (check_field_ok prim m errh r h)).2]
    simp only
    rw [(set_mask_keeps _ _ _ _ _).1]
    exact Or.inr (Or.inr (Or.inr (Or.inr (Or.inr hty))))

/-- The type "set _type if it was not specified" infers. -/
theorem check_infer_type (p : Primitive) (fuel : Nat) (prim : Primitive) (errh : ErrorHandler)
    (r : Primitive × ErrorHandler) (h : Primitive.check_infer p fuel prim errh = Except.ok r) :
    r.1._type ∈ [TYPE_HOST, TYPE_PROTO, TYPE_IPFRAG, TYPE_PORT, TYPE_TCPOPT, TYPE_NET,
        TYPE_IPUNFRAG, TYPE_IPECT, TYPE_IPCE] ∨ type_and r.1._type TYPE_FIELD ≠ 0 := by
  induction fuel generalizing prim with
  | zero => exact absurd h (by simp [Primitive.check_infer])
  | succ n ih =>
    unfold Primitive.check_infer at h
    split_ifs at h
    all_goals first
      | exact ih _ h
      | (rw [← Except.ok.inj h]
         simp only [List.mem_cons, List.mem_singleton, List.not_mem_nil, or_false]
         tauto)

/-- "fix _srcdst" succeeds and changes `_srcdst` only. -/
theorem check_finish_keeps (old_srcdst : Int) (r : Primitive × ErrorHandler) :
    (check_finish old_srcdst r).1 = 0
    ∧ (check_finish old_srcdst r).2.1._type = r.1._type
    ∧ (check_finish old_srcdst r).2.1._mask = r.1._mask
    ∧ (check_finish old_srcdst r).2.1._u = r.1._u
    ∧ (check_finish old_srcdst r).2.1._op = r.1._op
    ∧ (check_finish old_srcdst r).2.1._op_negated = r.1._op_negated
    ∧ (check_finish old_srcdst r).2.1._transp_proto = r.1._transp_proto
    ∧ (check_finish old_srcdst r).2.2.nerrors = r.2.nerrors := by
  unfold check_finish
  split_ifs <;> exact ⟨rfl, rfl, rfl, rfl, rfl, rfl, rfl, rfl⟩

theorem check_finish_data (old_srcdst : Int) (r : Primitive × ErrorHandler) :
    (check_finish old_srcdst r).2.1._data = r.1._data := by
  unfold check_finish
  split_ifs <;> rfl

/-- The three ways `check` ends: an erroneous type or a failed inference or a
failed `switch (_type)` give a negative result, and otherwise the result is
that of "fix _srcdst". -/
theorem check_eq (prim p : Primitive) (m : Nat) (errh : ErrorHandler) :
    (prim._type < 0 ∧ prim.check p m errh = (-1, prim, errh))
    ∨ (0 ≤ prim._type ∧ ∃ e, prim.check_start p errh = Except.error e
        ∧ prim.check p m errh = (ERROR_RESULT, prim, e))
    ∨ (0 ≤ prim._type ∧ ∃ r1 e, prim.check_start p errh = Except.ok r1
        ∧ r1.1.check_agree m r1.2 = Except.error e
        ∧ prim.check p m errh = (e.1, r1.1, e.2))
    ∨ (0 ≤ prim._type ∧ ∃ r1 r2, prim.check_start p errh = Except.ok r1
        ∧ r1.1.check_agree m r1.2 = Except.ok r2
        ∧ prim.check p m errh = check_finish prim._srcdst r2) := by
  unfold Primitive.check
  by_cases hneg : prim._type < 0
  · left
    rw [if_pos hneg]
    exact ⟨hneg, rfl⟩
  · right
    rw [if_neg hneg]
    have h0 : 0 ≤ prim._type := by omega
    cases hinf : prim.check_start p errh with
    | error e => exact Or.inl ⟨h0, e, rfl, rfl⟩
    | ok r1 =>
      right
      simp only []
      cases hag : r1.1.check_agree m r1.2 with
      | error e => exact Or.inl ⟨h0, r1, e, rfl, hag, rfl⟩
      | ok r2 => exact Or.inr ⟨h0, r1, r2, rfl, hag, rfl⟩

/-- `set_mask` returns 0, or the negative value of `errh->error` after
counting one error. -/
theorem set_mask_result (prim : Primitive) (full_mask shift provided_mask : Nat)
    (errh : ErrorHandler) :
    ((prim.set_mask full_mask shift provided_mask errh).1 = 0
      ∧ (prim.set_mask full_mask shift provided_mask errh).2.2.nerrors = errh.nerrors)
    ∨ ((prim.set_mask full_mask shift provided_mask errh).1 = -1
      ∧ (prim.set_mask full_mask shift provided_mask errh).2.2 = errh.error) := by
  unfold Primitive.set_mask
  simp only []
  split_ifs
  all_goals first
    | exact Or.inl ⟨rfl, rfl⟩
    | exact Or.inr ⟨rfl, rfl⟩

/-- A failed `set_mask_or_fail` gives -1 after one error. -/
theorem set_mask_or_fail_error (prim : Primitive) (full_mask provided_mask : Nat)
    (errh : ErrorHandler) (e : Int × ErrorHandler)
    (h : set_mask_or_fail prim full_mask provided_mask errh = Except.error e) :
    (prim.set_mask full_mask 0 provided_mask errh).1 < 0 ∧ e = (-1, errh.error) := by
  unfold set_mask_or_fail at h
  simp only [] at h
  split_ifs at h with h1
  refine ⟨h1, ?_⟩
  rw [← Except.error.inj h]
  rcases set_mask_result prim full_mask 0 provided_mask errh with ⟨h2, _⟩ | ⟨_, h3⟩
  · rw [h2] at h1
    exact absurd h1 (by decide)
  · rw [h3]

/-- Every early return of the `switch (_type)` gives the negative value of
`errh->error` after counting one error. -/
theorem check_agree_error (prim : Primitive) (m : Nat) (errh : ErrorHandler)
    (e : Int × ErrorHandler) (h : prim.check_agree m errh = Except.error e) :
    e = (-1, errh.error) := by
  have hE : ERROR_RESULT = -1 := rfl
  unfold Primitive.check_agree at h
  by_cases h1 : prim._type = TYPE_HOST
  · rw [if_pos h1] at h
    unfold Primitive.check_host at h
    split_ifs at h <;> rw [← Except.error.inj h, hE]
  rw [if_neg h1] at h
  by_cases h2 : prim._type = TYPE_NET
  · rw [if_pos h2] at h
    unfold Primitive.check_net at h
    split_ifs at h <;> rw [← Except.error.inj h, hE]
  rw [if_neg h2] at h
  by_cases h3 : prim._type = TYPE_PROTO
  · rw [if_pos h3] at h
    unfold Primitive.check_proto at h
    split_ifs at h
    · rw [← Except.error.inj h, hE]
    · rw [← Except.error.inj h, hE]
    · rw [← Except.error.inj h, hE]
    · split at h
      · rename_i e2 heq
        rw [← Except.error.inj h]
        exact (set_mask_or_fail_error _ _ _ _ _ heq).2
      · exact absurd h (by simp)
  rw [if_neg h3] at h
  by_cases h4 : prim._type = TYPE_PORT
  · rw [if_pos h4] at h
    unfold Primitive.check_port at h
    split_ifs at h
    · rw [← Except.error.inj h, hE]
    · rw [← Except.error.inj h, hE]
    · exact (set_mask_or_fail_error _ _ _ _ _ h).2
  rw [if_neg h4] at h
  by_cases h5 : prim._type = TYPE_TCPOPT
  · rw [if_pos h5] at h
    unfold Primitive.check_tcpopt at h
    split_ifs at h <;> rw [← Except.error.inj h, hE]
  rw [if_neg h5] at h
  by_cases h6 : prim._type = TYPE_IPECT
  · rw [if_pos h6] at h
    unfold Primitive.check_ipect at h
    split_ifs at h
    · rw [← Except.error.inj h, hE]
    · split at h
      · rename_i e2 heq
        rw [← Except.error.inj h]
        exact (set_mask_or_fail_error _ _ _ _ _ heq).2
      · exact absurd h (by simp)
  rw [if_neg h6] at h
  by_cases h7 : prim._type = TYPE_IPCE
  · rw [if_pos h7] at h
    unfold Primitive.check_ipce at h
    split_ifs at h
    rw [← Except.error.inj h, hE]
  rw [if_neg h7] at h
  by_cases h8 : prim._type = TYPE_IPFRAG
  · rw [if_pos h8] at h
    unfold Primitive.check_ipfrag at h
    split_ifs at h
    rw [← Except.error.inj h, hE]
  rw [if_neg h8] at h
  by_cases h9 : prim._type = TYPE_IPUNFRAG
  · rw [if_pos h9] at h
    unfold Primitive.check_ipunfrag at h
    split_ifs at h
    rw [← Except.error.inj h, hE]
  rw [if_neg h9] at h
  by_cases h10 : type_and prim._type TYPE_FIELD ≠ 0
  · rw [if_pos h10] at h
    unfold Primitive.check_field at h
    split_ifs at h
    · rw [← Except.error.inj h, hE]
    · exact (set_mask_or_fail_error _ _ _ _ _ h).2
  rw [if_neg h10] at h
  exact absurd h (by simp)

/-- Every early return of "set _type if it was not specified" counts one
error. -/
theorem check_infer_error (p : Primitive) (fuel : Nat) (prim : Primitive) (errh : ErrorHandler)
    (e : ErrorHandler) (h : Primitive.check_infer p fuel prim errh = Except.error e) :
    e = errh.error := by
  induction fuel generalizing prim with
  | zero =>
    unfold Primitive.check_infer at h
    exact (Except.error.inj h).symm
  | succ n ih =>
    unfold Primitive.check_infer at h
    split_ifs at h
    all_goals first
      | exact ih _ h
      | exact (Except.error.inj h).symm

/-- A successful inference reports nothing. -/
theorem check_infer_ok_errh (p : Primitive) (fuel : Nat) (prim : Primitive)
    (errh : ErrorHandler) (r : Primitive × ErrorHandler)
    (h : Primitive.check_infer p fuel prim errh = Except.ok r) : r.2 = errh := by
  induction fuel generalizing prim with
  | zero => exact absurd h (by simp [Primitive.check_infer])
  | succ n ih =>
    unfold Primitive.check_infer at h
    split_ifs at h
    all_goals first
      | exact ih _ h
      | rw [← Except.ok.inj h]

/-- A failed `check` returns a negative value; unless the type was erroneous
from the start (negative), exactly one error has been reported. -/
theorem check_fail (prim p : Primitive) (m : Nat) (errh : ErrorHandler)
    (h : (prim.check p m errh).1 < 0) :
    (prim.check p m errh).1 = -1
    ∧ (0 ≤ prim._type → (prim.check p m errh).2.2 = errh.error) := by
  rcases check_eq prim p m errh with ⟨h0, hc⟩ | ⟨_, e, hst, hc⟩ | ⟨_, r1, e, hst, hag, hc⟩
      | ⟨_, r1, r2, hst, hag, hc⟩
  · rw [hc]
    exact ⟨rfl, fun h1 => absurd h0 (by omega)⟩
  · rw [hc]
    refine ⟨rfl, fun _ => ?_⟩
    unfold Primitive.check_start at hst
    split_ifs at hst
    exact check_infer_error p 2 prim errh e hst
  · rw [hc]
    have he := check_agree_error r1.1 m r1.2 e hag
    rw [he]
    refine ⟨rfl, fun _ => ?_⟩
    unfold Primitive.check_start at hst
    split_ifs at hst with h0
    · rw [check_infer_ok_errh p 2 prim errh r1 hst]
    · rw [← Except.ok.inj hst]
  · rw [hc, (check_finish_keeps _ _).1] at h
    exact absurd h (by decide)

/-- The shorthand types are rewritten by their `case`. -/
theorem check_agree_shorthand (prim : Primitive) (m : Nat) (errh : ErrorHandler)
    (r : Primitive × ErrorHandler) (h : prim.check_agree m errh = Except.ok r) :
    (prim._type = TYPE_NET → r.1._type = TYPE_HOST)
    ∧ (prim._type = TYPE_IPUNFRAG → r.1._type = TYPE_IPFRAG)
    ∧ (prim._type = TYPE_IPECT ∨ prim._type = TYPE_IPCE → r.1._type = (FIELD_TOS : Int)) := by
  have hc := check_agree_cases prim m errh
  refine ⟨?_, ?_, ?_⟩
  · intro h1
    rw [hc.2.1 h1] at h
    unfold Primitive.check_net at h
    split_ifs at h <;> rw [← Except.ok.inj h]
  · intro h1
    rw [hc.2.2.2.2.2.2.2.2.1 h1] at h
    unfold Primitive.check_ipunfrag at h
    split_ifs at h
    rw [← Except.ok.inj h]
  · rintro (h1 | h1)
    · rw [hc.2.2.2.2.2.1 h1] at h
      obtain ⟨r2, _, hr⟩ := check_ipect_ok prim m errh r h
      rw [hr]
    · rw [hc.2.2.2.2.2.2.1 h1] at h
      unfold Primitive.check_ipce at h
      split_ifs at h
      rw [← Except.ok.inj h]

/-- The types of the parser: unset, a keyword of `type_entries` that is not a
syntax word, or a bit-field type. -/
theorem parser_type_cases (t : Int)
    (hty : t = 0 ∨ (∃ w d, query type_entries w = some d ∧ (d : Int) ≠ TYPE_SYNTAX ∧ t = d)
      ∨ type_and t TYPE_FIELD ≠ 0) :
    t = 0 ∨ t ∈ [TYPE_HOST, TYPE_PROTO, TYPE_IPFRAG, TYPE_PORT, TYPE_TCPOPT, TYPE_NET,
        TYPE_IPUNFRAG, TYPE_IPECT, TYPE_IPCE] ∨ type_and t TYPE_FIELD ≠ 0 := by
  rcases hty with h | ⟨w, d, hq, hs, ht⟩ | h
  · exact Or.inl h
  · right
    obtain ⟨e, he, hed⟩ := query_mem type_entries w d hq
    rcases type_entries_kinds e he with h1 | h1 | h1
    · rw [hed] at h1
      exact absurd h1 hs
    · rw [hed, ← ht] at h1
      exact Or.inl h1
    · rw [hed, ← ht] at h1
      exact Or.inr h1
  · exact Or.inr (Or.inr h)

/-- The type with which a primitive of the parser enters the
`switch (_type)`. -/
theorem check_start_type (prim p : Primitive) (errh : ErrorHandler)
    (r1 : Primitive × ErrorHandler)
    (hty : prim._type = 0
      ∨ (∃ w d, query type_entries w = some d ∧ (d : Int) ≠ TYPE_SYNTAX ∧ prim._type = d)
      ∨ type_and prim._type TYPE_FIELD ≠ 0)
    (hst : prim.check_start p errh = Except.ok r1) :
    r1.1._type ∈ [TYPE_HOST, TYPE_PROTO, TYPE_IPFRAG, TYPE_PORT, TYPE_TCPOPT,
        TYPE_NET, TYPE_IPUNFRAG, TYPE_IPECT, TYPE_IPCE] ∨ type_and r1.1._type TYPE_FIELD ≠ 0 := by
  unfold Primitive.check_start at hst
  by_cases h0 : prim._type = 0
  · rw [if_pos h0] at hst
    exact check_infer_type p 2 prim errh r1 hst
  · rw [if_neg h0] at hst
    rw [← Except.ok.inj hst]
    rcases parser_type_cases prim._type hty with h | h | h
    · exact absurd h h0
    · exact Or.inl h
    · exact Or.inr h

/-- The type of a successfully checked primitive. -/
theorem check_type (prim p : Primitive) (m : Nat) (errh : ErrorHandler)
    (hty : prim._type = 0
      ∨ (∃ w d, query type_entries w = some d ∧ (d : Int) ≠ TYPE_SYNTAX ∧ prim._type = d)
      ∨ type_and prim._type TYPE_FIELD ≠ 0)
    (hok : 0 ≤ (prim.check p m errh).1) :
    ((prim.check p m errh).2.1._type ∈ [TYPE_HOST, TYPE_PROTO, TYPE_PORT, TYPE_TCPOPT, TYPE_IPFRAG]
      ∨ type_and (prim.check p m errh).2.1._type TYPE_FIELD ≠ 0)
    ∧ (prim._type = TYPE_NET → (prim.check p m errh).2.1._type = TYPE_HOST)
    ∧ (prim._type = TYPE_IPUNFRAG → (prim.check p m errh).2.1._type = TYPE_IPFRAG)
    ∧ (prim._type = TYPE_IPECT ∨ prim._type = TYPE_IPCE →
        (prim.check p m errh).2.1._type = (FIELD_TOS : Int)) := by
  rcases check_eq prim p m errh with ⟨_, hc⟩ | ⟨_, e, _, hc⟩ | ⟨_, r1, e, _, hag, hc⟩
      | ⟨_, r1, r2, hst, hag, hc⟩
  · rw [hc] at hok
    exact absurd hok (by simp)
  · rw [hc] at hok
    exact absurd hok (by simp [ERROR_RESULT])
  · rw [hc, check_agree_error r1.1 m r1.2 e hag] at hok
    exact absurd hok (by simp)
  · rw [hc, (check_finish_keeps _ _).2.1]
    have hty1 := check_start_type prim p errh r1 hty hst
    have hsame : prim._type ≠ 0 → r1.1._type = prim._type := by
      intro h0
      unfold Primitive.check_start at hst
      rw [if_neg h0] at hst
      rw [← Except.ok.inj hst]
    have hsh := check_agree_shorthand r1.1 m r1.2 r2 hag
    refine ⟨?_, ?_, ?_, ?_⟩
    · rcases check_agree_type r1.1 m r1.2 r2 hag hty1 with h | h | h | h | h | h
      · left; rw [h]; decide
      · left; rw [h]; decide
      · left; rw [h]; decide
      · left; rw [h]; decide
      · left; rw [h]; decide
      · exact Or.inr h
    · intro h
      exact hsh.1 ((hsame (by rw [h]; decide)).trans h)
    · intro h
      exact hsh.2.1 ((hsame (by rw [h]; decide)).trans h)
    · intro h
      rcases h with h | h
      · exact hsh.2.2 (Or.inl ((hsame (by rw [h]; decide)).trans h))
      · exact hsh.2.2 (Or.inr ((hsame (by rw [h]; decide)).trans h))

/-! ## The mask after `Primitive::check` -/

/-- The natural mask of a bit-field type is `2 ^ nbits - 1` for a width
`nbits` between 1 and 32. -/
theorem field_mask_eq (t : Int) :
    ∃ n, 1 ≤ n ∧ n ≤ 32 ∧ n = (type_and t FIELD_LENGTH_MASK) + 1 ∧ field_mask t = 2 ^ n - 1 := by
  have hb : type_and t FIELD_LENGTH_MASK < 32 := by
    unfold type_and
    have : FIELD_LENGTH_MASK = 31 := by decide
    rw [this]
    exact Nat.lt_succ_of_le Nat.and_le_right
  refine ⟨type_and t FIELD_LENGTH_MASK + 1, by omega, by omega, rfl, ?_⟩
  unfold field_mask
  have hs : FIELD_LENGTH_SHIFT = 0 := rfl
  simp only [hs, Nat.shiftRight_zero]
  generalize type_and t FIELD_LENGTH_MASK = k at hb
  interval_cases k <;> decide

theorem field_mask_bounds (t : Int) : field_mask t ≠ 0 ∧ field_mask t < 2 ^ 32 := by
  obtain ⟨n, h1, h2, _, h⟩ := field_mask_eq t
  rw [h]
  have ha : 2 ^ 1 ≤ 2 ^ n := Nat.pow_le_pow_right (by norm_num) h1
  have hb : 2 ^ n ≤ 2 ^ 32 := Nat.pow_le_pow_right (by norm_num) h2
  constructor <;> omega

/-- After a successful `set_mask` without shift the mask is not zero, unless a
relation that is always true or always false has been folded into `= 0` under
mask 0. -/
theorem set_mask_mask (prim : Primitive) (full_mask provided_mask : Nat) (errh : ErrorHandler)
    (hf : full_mask ≠ 0) (hlt : full_mask < 2 ^ 32)
    (hok : 0 ≤ (prim.set_mask full_mask 0 provided_mask errh).1) :
    (prim.set_mask full_mask 0 provided_mask errh).2.1._mask ≠ 0
    ∨ ((prim._op = OP_GT ∨ prim._op = OP_LT)
      ∧ (prim.set_mask full_mask 0 provided_mask errh).2.1._op = OP_EQ
      ∧ (prim.set_mask full_mask 0 provided_mask errh).2.1._u = 0
      ∧ (prim.set_mask full_mask 0 provided_mask errh).2.1._mask = 0) := by
  have key : ∀ tm : Nat, tm &&& full_mask = tm → tm ≠ 0 → shl32 tm 0 ≠ 0 := by
    intro tm h1 h2
    have : tm ≤ full_mask := by
      rw [← h1]
      exact Nat.and_le_right
    unfold shl32
    simp only [Nat.zero_mod, Nat.shiftLeft_zero]
    rw [Nat.mod_eq_of_lt (by omega)]
    exact h2
  have htm : (if provided_mask ≠ 0 then provided_mask else full_mask) ≠ 0 := by
    split_ifs with h
    · exact h
    · exact hf
  unfold Primitive.set_mask at hok ⊢
  simp only [] at hok ⊢
  generalize (if provided_mask ≠ 0 then provided_mask else full_mask) = tm at hok htm ⊢
  by_cases h1 : tm &&& full_mask ≠ tm
  · rw [if_pos h1] at hok
    exact absurd hok (by simp [ERROR_RESULT])
  · rw [if_neg h1] at hok ⊢
    by_cases h2 : prim._op = OP_GT ∨ prim._op = OP_LT
    · rw [if_pos h2] at hok ⊢
      by_cases h3 : (prim._op = OP_LT ∧ (prim._u = 0 ∨ prim._u > tm))
          ∨ (prim._op = OP_GT ∧ prim._u ≥ tm)
      · rw [if_pos h3]
        exact Or.inr ⟨h2, rfl, rfl, rfl⟩
      · rw [if_neg h3]
        left
        split_ifs <;>
          · simp only []
            intro h0
            have hlow : (shl32 1 0 + 2 ^ 32 - 1) % 2 ^ 32 = 0 := by decide
            rw [hlow, Nat.or_zero] at h0
            exact key _ (not_not.mp h1) htm h0
    · rw [if_neg h2] at hok ⊢
      by_cases h4 : prim._u > full_mask
      · rw [if_pos h4] at hok
        exact absurd hok (by simp [ERROR_RESULT])
      · rw [if_neg h4]
        left
        exact key _ (not_not.mp h1) htm

/-- "set _type if it was not specified" leaves the operator, the value and the
mask alone. -/
theorem check_infer_keeps (p : Primitive) (fuel : Nat) (prim : Primitive) (errh : ErrorHandler)
    (r : Primitive × ErrorHandler) (h : Primitive.check_infer p fuel prim errh = Except.ok r) :
    r.1._op = prim._op ∧ r.1._op_negated = prim._op_negated ∧ r.1._u = prim._u
      ∧ r.1._mask = prim._mask := by
  induction fuel generalizing prim with
  | zero => exact absurd h (by simp [Primitive.check_infer])
  | succ n ih =>
    unfold Primitive.check_infer at h
    split_ifs at h
    all_goals first
      | (have hi := ih _ h; exact hi)
      | (rw [← Except.ok.inj h]; exact ⟨rfl, rfl, rfl, rfl⟩)

theorem check_start_keeps (prim p : Primitive) (errh : ErrorHandler)
    (r : Primitive × ErrorHandler) (h : prim.check_start p errh = Except.ok r) :
    r.1._op = prim._op ∧ r.1._op_negated = prim._op_negated ∧ r.1._u = prim._u
      ∧ r.1._mask = prim._mask := by
  unfold Primitive.check_start at h
  split_ifs at h
  · exact check_infer_keeps p 2 prim errh r h
  · rw [← Except.ok.inj h]
    exact ⟨rfl, rfl, rfl, rfl⟩

/-- The mask a successful `switch (_type)` leaves behind. -/
theorem check_agree_mask (prim : Primitive) (m : Nat) (errh : ErrorHandler)
    (r : Primitive × ErrorHandler) (h : prim.check_agree m errh = Except.ok r)
    (hty : prim._type ∈ [TYPE_HOST, TYPE_PROTO, TYPE_IPFRAG, TYPE_PORT, TYPE_TCPOPT, TYPE_NET,
        TYPE_IPUNFRAG, TYPE_IPECT, TYPE_IPCE] ∨ type_and prim._type TYPE_FIELD ≠ 0) :
    r.1._mask ≠ 0
    ∨ ((prim._op = OP_GT ∨ prim._op = OP_LT) ∧ r.1._op = OP_EQ ∧ r.1._u = 0 ∧ r.1._mask = 0)
    ∨ (r.1._type = TYPE_HOST ∧ r.1._data = TYPE_NET ∧ prim._mask = 0 ∧ m = 0 ∧ r.1._mask = 0)
    ∨ (r.1._type = TYPE_TCPOPT ∧ r.1._u = 0 ∧ r.1._mask = 0) := by
  have hc := check_agree_cases prim m errh
  have hk := operands_keep prim
  -- a successful `set_mask` on an operand that has the operator of `prim`
  have hset : ∀ (q : Primitive) (full : Nat) (r3 : Primitive × ErrorHandler),
      q._op = prim._op → full ≠ 0 → full < 2 ^ 32 →
      set_mask_or_fail q full m errh = Except.ok r3 →
      r3.1._mask ≠ 0
      ∨ ((prim._op = OP_GT ∨ prim._op = OP_LT) ∧ r3.1._op = OP_EQ ∧ r3.1._u = 0
          ∧ r3.1._mask = 0) := by
    intro q full r3 hq hf hlt hs
    have h1 := set_mask_or_fail_ok q full m errh r3 hs
    rw [h1.2]
    rw [← hq]
    exact set_mask_mask q full m errh hf hlt h1.1
  rcases hty with hty | hty
  · simp only [List.mem_cons, List.mem_singleton, List.not_mem_nil, or_false] at hty
    rcases hty with h1 | h1 | h1 | h1 | h1 | h1 | h1 | h1 | h1
    · rw [hc.1 h1] at h
      unfold Primitive.check_host at h
      left
      split_ifs at h with h2 h3 h4
      · rw [← Except.ok.inj h]
        exact h4
      · rw [← Except.ok.inj h]
        exact (by decide : (0xFFFFFFFF : Nat) ≠ 0)
    · rw [hc.2.2.1 h1] at h
      rcases check_proto_ok prim m errh r h with hr | ⟨r3, hs, hr⟩
      · left
        rw [hr, (set_transp_if_allowed_keeps _).2.1]
        exact (by decide : (0xFF : Nat) ≠ 0)
      · have hm := hset _ 0xFF r3 hk.2.1 (by decide) (by decide) hs
        have hkk := set_transp_if_allowed_keeps r3.1
        rw [hr, hkk.2.1, hkk.2.2.1, hkk.2.2.2.1]
        rcases hm with hm | hm
        · exact Or.inl hm
        · exact Or.inr (Or.inl hm)
    · rw [hc.2.2.2.2.2.2.2.1 h1] at h
      unfold Primitive.check_ipfrag at h
      split_ifs at h
      rw [← Except.ok.inj h]
      exact Or.inl (by decide : (1 : Nat) ≠ 0)
    · rw [hc.2.2.2.1 h1] at h
      rcases hset _ 0xFFFF r hk.2.2.2.1 (by decide) (by decide) (check_port_ok prim m errh r h)
        with hm | hm
      · exact Or.inl hm
      · exact Or.inr (Or.inl hm)
    · rw [hc.2.2.2.2.1 h1] at h
      unfold Primitive.check_tcpopt at h
      split_ifs at h
      rw [← Except.ok.inj h]
      by_cases hu : prim._u = 0
      · right; right; right
        exact ⟨hk.2.2.2.2.2.1.trans h1, hk.2.2.2.2.2.2.2.1.trans hu, hu⟩
      · exact Or.inl hu
    · rw [hc.2.1 h1] at h
      unfold Primitive.check_net at h
      split_ifs at h with h2 h3 h4
      · rw [← Except.ok.inj h]
        exact Or.inl h4
      · rw [← Except.ok.inj h]
        by_cases hz : prim._mask = 0
        · right; right; left
          exact ⟨rfl, not_not.mp h2, hz, not_not.mp h4, hz⟩
        · exact Or.inl hz
    · rw [hc.2.2.2.2.2.2.2.2.1 h1] at h
      unfold Primitive.check_ipunfrag at h
      split_ifs at h
      rw [← Except.ok.inj h]
      exact Or.inl (by decide : (1 : Nat) ≠ 0)
    · rw [hc.2.2.2.2.2.1 h1] at h
      obtain ⟨r2, hs, hr⟩ := check_ipect_ok prim m errh r h
      rw [hr]
      rcases hset _ 0x3 r2 hk.2.2.2.2.2.2.2.2.2 (by decide) (by decide) hs with hm | hm
      · exact Or.inl hm
      · exact Or.inr (Or.inl hm)
    · rw [hc.2.2.2.2.2.2.1 h1] at h
      unfold Primitive.check_ipce at h
      split_ifs at h
      rw [← Except.ok.inj h]
      exact Or.inl (by decide : IP_ECNMASK ≠ 0)
  · rw [hc.2.2.2.2.2.2.2.2.2 hty] at h
    have hb := field_mask_bounds prim._type
    rcases hset prim _ r rfl hb.1 hb.2 (check_field_ok prim m errh r h) with hm | hm
    · exact Or.inl hm
    · exact Or.inr (Or.inl hm)

/-- The mask of a successfully checked primitive of the parser. -/
theorem check_mask (prim p : Primitive) (m : Nat) (errh : ErrorHandler)
    (hty : prim._type = 0
      ∨ (∃ w d, query type_entries w = some d ∧ (d : Int) ≠ TYPE_SYNTAX ∧ prim._type = d)
      ∨ type_and prim._type TYPE_FIELD ≠ 0)
    (hok : 0 ≤ (prim.check p m errh).1) :
    (prim.check p m errh).2.1._mask ≠ 0
    ∨ ((prim._op = OP_GT ∨ prim._op = OP_LT) ∧ (prim.check p m errh).2.1._op = OP_EQ
        ∧ (prim.check p m errh).2.1._u = 0 ∧ (prim.check p m errh).2.1._mask = 0)
    ∨ ((prim.check p m errh).2.1._type = TYPE_HOST ∧ (prim.check p m errh).2.1._data = TYPE_NET
        ∧ prim._mask = 0 ∧ m = 0 ∧ (prim.check p m errh).2.1._mask = 0)
    ∨ ((prim.check p m errh).2.1._type = TYPE_TCPOPT ∧ (prim.check p m errh).2.1._u = 0
        ∧ (prim.check p m errh).2.1._mask = 0) := by
  rcases check_eq prim p m errh with ⟨_, hc⟩ | ⟨_, e, _, hc⟩ | ⟨_, r1, e, _, hag, hc⟩
      | ⟨_, r1, r2, hst, hag, hc⟩
  · rw [hc] at hok
    exact absurd hok (by simp)
  · rw [hc] at hok
    exact absurd hok (by simp [ERROR_RESULT])
  · rw [hc, check_agree_error r1.1 m r1.2 e hag] at hok
    exact absurd hok (by simp)
  · have hk := check_finish_keeps prim._srcdst r2
    have hd := check_finish_data prim._srcdst r2
    have hs := check_start_keeps prim p errh r1 hst
    have hm := check_agree_mask r1.1 m r1.2 r2 hag (check_start_type prim p errh r1 hty hst)
    rw [hc, hk.2.1, hk.2.2.1, hk.2.2.2.1, hk.2.2.2.2.1, hd]
    rw [hs.1, hs.2.2.2] at hm
    exact hm

/-! ## Operators and masks that `Primitive::check` rejects -/

/-- With an unset type and host, net or TCP-option data, the inferred type is
the kind of the data. -/
theorem check_start_of_data (prim p : Primitive) (errh : ErrorHandler)
    (r : Primitive × ErrorHandler) (hst : prim.check_start p errh = Except.ok r) :
    (prim._type ≠ 0 → r = (prim, errh))
    ∧ (prim._type = 0 → prim._data = TYPE_HOST ∨ prim._data = TYPE_NET
          ∨ prim._data = TYPE_TCPOPT →
        r.1._type = prim._data ∧ r.1._data = prim._data ∧ r.1._transp_proto = prim._transp_proto
          ∧ r.2 = errh) := by
  unfold Primitive.check_start at hst
  constructor
  · intro h0
    rw [if_neg h0] at hst
    exact (Except.ok.inj hst).symm
  · intro h0 hd
    rw [if_pos h0] at hst
    unfold Primitive.check_infer at hst
    rw [if_pos hd] at hst
    rw [← Except.ok.inj hst]
    exact ⟨rfl, rfl, rfl, rfl⟩

/-- The cases `host` and `net` return early on a relational operator, and the
case `tcp opt` on a relational operator, a negation or a provided mask. -/
theorem check_agree_rejects (prim : Primitive) (m : Nat) (errh : ErrorHandler)
    (h : ((prim._type = TYPE_HOST ∨ prim._type = TYPE_NET)
        ∧ (prim._op = OP_GT ∨ prim._op = OP_LT))
      ∨ (prim._type = TYPE_TCPOPT
        ∧ (prim._op ≠ OP_EQ ∨ prim._op_negated = true ∨ m ≠ 0))) :
    prim.check_agree m errh = Except.error (ERROR_RESULT, errh.error) := by
  have hc := check_agree_cases prim m errh
  rcases h with ⟨ht, hop⟩ | ⟨ht, hop⟩
  · have hne : prim._op ≠ OP_EQ := by
      rcases hop with h | h <;> rw [h] <;> decide
    rcases ht with ht | ht
    · rw [hc.1 ht]
      unfold Primitive.check_host
      split_ifs
      · rfl
      · rfl
    · rw [hc.2.1 ht]
      unfold Primitive.check_net
      split_ifs
      · rfl
      · rfl
  · rw [hc.2.2.2.2.1 ht]
    unfold Primitive.check_tcpopt
    split_ifs
    · rfl
    · rfl
    · rfl

/-- A failed `check` adds nothing: the tree and `prev_prim` stay as they are. -/
theorem add_if_valid_fail (le : Bool) (prim p : Primitive) (m : Nat) (negated : Bool)
    (tree : Builder) (errh : ErrorHandler) (h : (prim.check p m errh).1 < 0) :
    add_if_valid le prim p m negated tree errh
      = { tree := tree, prev_prim := p, errh := (prim.check p m errh).2.2 } := by
  unfold add_if_valid
  simp only []
  rw [if_neg (by omega)]

/-- `check` on a host or net primitive with `>` or `<`, or on a TCP-option
primitive with a relational operator, negation or mask. -/
theorem check_rejects (prim p : Primitive) (m : Nat) (errh : ErrorHandler)
    (h : ((prim._type = TYPE_HOST ∨ prim._type = TYPE_NET
          ∨ (prim._type = 0 ∧ (prim._data = TYPE_HOST ∨ prim._data = TYPE_NET)))
        ∧ (prim._op = OP_GT ∨ prim._op = OP_LT))
      ∨ ((prim._type = TYPE_TCPOPT ∨ (prim._type = 0 ∧ prim._data = TYPE_TCPOPT))
        ∧ (prim._op ≠ OP_EQ ∨ prim._op_negated = true ∨ m ≠ 0))) :
    (prim.check p m errh).1 < 0 ∧ (prim.check p m errh).2.2 = errh.error := by
  have hty0 : 0 ≤ prim._type := by
    rcases h with ⟨h1 | h1 | ⟨h1, _⟩, _⟩ | ⟨h1 | ⟨h1, _⟩, _⟩ <;> rw [h1] <;> decide
  have hneg : (prim.check p m errh).1 < 0 := by
    by_contra hok
    rcases check_eq prim p m errh with ⟨h0, _⟩ | ⟨_, e, _, hc⟩ | ⟨_, r1, e, _, hag, hc⟩
        | ⟨_, r1, r2, hst, hag, hc⟩
    · omega
    · rw [hc] at hok
      exact hok (by simp [ERROR_RESULT])
    · rw [hc, check_agree_error r1.1 m r1.2 e hag] at hok
      exact hok (by simp)
    · have hs := check_start_of_data prim p errh r1 hst
      have hk := check_start_keeps prim p errh r1 hst
      have hrej : ((r1.1._type = TYPE_HOST ∨ r1.1._type = TYPE_NET)
            ∧ (r1.1._op = OP_GT ∨ r1.1._op = OP_LT))
          ∨ (r1.1._type = TYPE_TCPOPT
            ∧ (r1.1._op ≠ OP_EQ ∨ r1.1._op_negated = true ∨ m ≠ 0)) := by
        rw [hk.1, hk.2.1]
        rcases h with ⟨ht, hop⟩ | ⟨ht, hop⟩
        · left
          refine ⟨?_, hop⟩
          rcases ht with ht | ht | ⟨ht, hd⟩
          · rw [hs.1 (by rw [ht]; decide)]
            exact Or.inl ht
          · rw [hs.1 (by rw [ht]; decide)]
            exact Or.inr ht
          · rcases hd with hd | hd
            · rw [(hs.2 ht (Or.inl hd)).1]
              exact Or.inl hd
            · rw [(hs.2 ht (Or.inr (Or.inl hd))).1]
              exact Or.inr hd
        · right
          refine ⟨?_, hop⟩
          rcases ht with ht | ⟨ht, hd⟩
          · rw [hs.1 (by rw [ht]; decide)]
            exact ht
          · rw [(hs.2 ht (Or.inr (Or.inr hd))).1]
            exact hd
      rw [check_agree_rejects r1.1 m r1.2 hrej] at hag
      exact absurd hag (by simp)
  exact ⟨hneg, (check_fail prim p m errh hneg).2 hty0⟩

/-! ## Shorthand directives and bit-fields in `Primitive::check` -/

/-- `check` on a primitive whose type is set: the `switch (_type)` and then
"fix _srcdst". -/
theorem check_of_typed (prim p : Primitive) (m : Nat) (errh : ErrorHandler)
    (h0 : 0 < prim._type) :
    prim.check p m errh
      = (match prim.check_agree m errh with
        | Except.error e => (e.1, prim, e.2)
        | Except.ok r2 => check_finish prim._srcdst r2) := by
  unfold Primitive.check Primitive.check_start
  rw [if_neg (by omega), if_neg (by omega)]

/-- When `set_mask` fails: the mask is out of range, or the operator is `=`
and the value is out of range. -/
theorem set_mask_fail_iff (prim : Primitive) (full_mask provided_mask : Nat)
    (errh : ErrorHandler) :
    (prim.set_mask full_mask 0 provided_mask errh).1 < 0 ↔
      ((if provided_mask ≠ 0 then provided_mask else full_mask) &&& full_mask
          ≠ (if provided_mask ≠ 0 then provided_mask else full_mask)
        ∨ (¬ (prim._op = OP_GT ∨ prim._op = OP_LT) ∧ prim._u > full_mask)) := by
  unfold Primitive.set_mask
  simp only []
  generalize (if provided_mask ≠ 0 then provided_mask else full_mask) = tm
  by_cases h1 : tm &&& full_mask ≠ tm
  · rw [if_pos h1]
    simp [ERROR_RESULT, h1]
  · rw [if_neg h1]
    by_cases h2 : prim._op = OP_GT ∨ prim._op = OP_LT
    · rw [if_pos h2]
      have hr : ¬ (tm &&& full_mask ≠ tm ∨ ¬ (prim._op = OP_GT ∨ prim._op = OP_LT)
          ∧ prim._u > full_mask) := by
        rintro (h | ⟨h, _⟩)
        · exact h1 h
        · exact h h2
      split_ifs <;> exact ⟨fun h => absurd h (by simp), fun h => absurd h hr⟩
    · rw [if_neg h2]
      by_cases h4 : prim._u > full_mask
      · rw [if_pos h4]
        simp [ERROR_RESULT, h2, h4]
      · rw [if_neg h4]
        simp [h1, h4]

/-- A successful `set_mask` with operator `=`: the value stays and the mask is
the provided mask, or the full mask when none was provided. -/
theorem set_mask_eq_ok (prim : Primitive) (full_mask provided_mask : Nat) (errh : ErrorHandler)
    (hop : ¬ (prim._op = OP_GT ∨ prim._op = OP_LT)) (hlt : full_mask < 2 ^ 32)
    (hin : (if provided_mask ≠ 0 then provided_mask else full_mask) &&& full_mask
      = (if provided_mask ≠ 0 then provided_mask else full_mask))
    (hu : prim._u ≤ full_mask) :
    prim.set_mask full_mask 0 provided_mask errh
      = (0, { prim with _u := prim._u,
                        _mask := if provided_mask ≠ 0 then provided_mask else full_mask }, errh) := by
  have hs : ∀ x, x ≤ full_mask → shl32 x 0 = x := by
    intro x hx
    unfold shl32
    simp only [Nat.zero_mod, Nat.shiftLeft_zero]
    exact Nat.mod_eq_of_lt (by omega)
  have htm : (if provided_mask ≠ 0 then provided_mask else full_mask) ≤ full_mask := by
    rw [← hin]
    exact Nat.and_le_right
  unfold Primitive.set_mask
  simp only []
  rw [if_neg (not_not.mpr hin), if_neg hop, if_neg (by omega), hs _ hu, hs _ htm]

theorem check_typed_error (prim p : Primitive) (m : Nat) (errh : ErrorHandler)
    (e : Int × ErrorHandler) (h0 : 0 < prim._type) (hag : prim.check_agree m errh = Except.error e) :
    prim.check p m errh = (e.1, prim, e.2) := by
  rw [check_of_typed prim p m errh h0, hag]

theorem check_typed_ok (prim p : Primitive) (m : Nat) (errh : ErrorHandler)
    (r : Primitive × ErrorHandler) (h0 : 0 < prim._type)
    (hag : prim.check_agree m errh = Except.ok r) :
    prim.check p m errh = check_finish prim._srcdst r := by
  rw [check_of_typed prim p m errh h0, hag]

/-- `ip ce`, `ip frag` and `ip unfrag`: `check` fails exactly when the
primitive has data; the operator and the provided mask are not looked at. -/
theorem check_ce_frag_unfrag (prim p : Primitive) (m : Nat) (errh : ErrorHandler)
    (hty : prim._type = TYPE_IPCE ∨ prim._type = TYPE_IPFRAG ∨ prim._type = TYPE_IPUNFRAG) :
    (prim._data ≠ TYPE_NONE →
      (prim.check p m errh).1 < 0 ∧ (prim.check p m errh).2.2 = errh.error)
    ∧ (prim._data = TYPE_NONE →
      (prim.check p m errh).1 = 0 ∧ (prim.check p m errh).2.2.nerrors = errh.nerrors
      ∧ (prim.check p m errh).2.1._op = prim._op
      ∧ (prim.check p m errh).2.1._mask = (if prim._type = TYPE_IPCE then IP_ECNMASK else 1)
      ∧ (prim.check p m errh).2.1._u = (if prim._type = TYPE_IPCE then IP_ECN_CE else prim._u)
      ∧ (prim.check p m errh).2.1._type
          = (if prim._type = TYPE_IPCE then (FIELD_TOS : Int) else TYPE_IPFRAG)
      ∧ (prim.check p m errh).2.1._op_negated
          = (if prim._type = TYPE_IPUNFRAG then true else prim._op_negated)) := by
  have hc := check_agree_cases prim m errh
  have h0 : 0 < prim._type := by
    rcases hty with h | h | h <;> rw [h] <;> decide
  constructor
  · intro hd
    have hag : prim.check_agree m errh = Except.error (ERROR_RESULT, errh.error) := by
      rcases hty with h | h | h
      · rw [hc.2.2.2.2.2.2.1 h]
        unfold Primitive.check_ipce
        rw [if_pos hd]
      · rw [hc.2.2.2.2.2.2.2.1 h]
        unfold Primitive.check_ipfrag
        rw [if_pos hd]
      · rw [hc.2.2.2.2.2.2.2.2.1 h]
        unfold Primitive.check_ipunfrag
        rw [if_pos hd]
    rw [check_typed_error prim p m errh _ h0 hag]
    exact ⟨by simp [ERROR_RESULT], rfl⟩
  · intro hd
    rcases hty with h | h | h
    · have hag : prim.check_agree m errh = Except.ok
          ({ prim with _mask := IP_ECNMASK, _u := IP_ECN_CE, _type := (FIELD_TOS : Int) },
            errh) := by
        rw [hc.2.2.2.2.2.2.1 h]
        unfold Primitive.check_ipce
        rw [if_neg (not_not.mpr hd)]
      have hk := check_finish_keeps prim._srcdst
        ({ prim with _mask := IP_ECNMASK, _u := IP_ECN_CE, _type := (FIELD_TOS : Int) }, errh)
      rw [check_typed_ok prim p m errh _ h0 hag, hk.1, hk.2.1, hk.2.2.1, hk.2.2.2.1,
        hk.2.2.2.2.1, hk.2.2.2.2.2.1, hk.2.2.2.2.2.2.2, if_pos h, if_pos h, if_pos h,
        if_neg (by rw [h]; decide)]
      exact ⟨rfl, rfl, rfl, rfl, rfl, rfl, rfl⟩
    · have hag : prim.check_agree m errh = Except.ok ({ prim with _mask := 1 }, errh) := by
        rw [hc.2.2.2.2.2.2.2.1 h]
        unfold Primitive.check_ipfrag
        rw [if_neg (not_not.mpr hd)]
      have hk := check_finish_keeps prim._srcdst ({ prim with _mask := 1 }, errh)
      rw [check_typed_ok prim p m errh _ h0 hag, hk.1, hk.2.1, hk.2.2.1, hk.2.2.2.1,
        hk.2.2.2.2.1, hk.2.2.2.2.2.1, hk.2.2.2.2.2.2.2, if_neg (by rw [h]; decide),
        if_neg (by rw [h]; decide), if_neg (by rw [h]; decide), if_neg (by rw [h]; decide)]
      exact ⟨rfl, rfl, rfl, rfl, rfl, h, rfl⟩
    · have hag : prim.check_agree m errh = Except.ok
          ({ prim with _op_negated := true, _mask := 1, _type := TYPE_IPFRAG }, errh) := by
        rw [hc.2.2.2.2.2.2.2.2.1 h]
        unfold Primitive.check_ipunfrag
        rw [if_neg (not_not.mpr hd)]
      have hk := check_finish_keeps prim._srcdst
        ({ prim with _op_negated := true, _mask := 1, _type := TYPE_IPFRAG }, errh)
      rw [check_typed_ok prim p m errh _ h0 hag, hk.1, hk.2.1, hk.2.2.1, hk.2.2.2.1,
        hk.2.2.2.2.1, hk.2.2.2.2.2.1, hk.2.2.2.2.2.2.2, if_neg (by rw [h]; decide),
        if_neg (by rw [h]; decide), if_neg (by rw [h]; decide), if_pos h]
      exact ⟨rfl, rfl, rfl, rfl, rfl, rfl, rfl⟩

/-- `ip ect` without data: `check` fails exactly when a provided mask has a
bit outside 0x3; with operator `=` it leaves value 0, the provided mask (or
0x3), the negation flag and the TOS bit-field type. -/
theorem check_ect (prim p : Primitive) (m : Nat) (errh : ErrorHandler)
    (hty : prim._type = TYPE_IPECT) (hd : prim._data = TYPE_NONE) :
    ((prim.check p m errh).1 < 0 ↔ (m ≠ 0 ∧ m &&& 3 ≠ m))
    ∧ ((prim.check p m errh).1 < 0 → (prim.check p m errh).2.2 = errh.error)
    ∧ (prim._op = OP_EQ → 0 ≤ (prim.check p m errh).1 →
        (prim.check p m errh).2.1._mask = (if m ≠ 0 then m else 3)
        ∧ (prim.check p m errh).2.1._u = 0
        ∧ (prim.check p m errh).2.1._op_negated = true
        ∧ (prim.check p m errh).2.1._type = (FIELD_TOS : Int)) := by
  have hc := check_agree_cases prim m errh
  have h0 : 0 < prim._type := by rw [hty]; decide
  have hopnd : prim.ipect_operand
      = { prim with _mask := IP_ECNMASK, _u := 0, _op_negated := true } := by
    unfold Primitive.ipect_operand
    rw [if_pos hd]
  have hrange : ((if m ≠ 0 then m else 3) &&& 3 ≠ (if m ≠ 0 then m else 3)) ↔
      (m ≠ 0 ∧ m &&& 3 ≠ m) := by
    by_cases hm : m ≠ 0
    · rw [if_pos hm]
      exact ⟨fun h => ⟨hm, h⟩, fun h => h.2⟩
    · rw [if_neg hm]
      exact ⟨fun h => absurd rfl h, fun h => absurd h.1 hm⟩
  have hfail := set_mask_fail_iff prim.ipect_operand 0x3 m errh
  have hu : ¬ (prim.ipect_operand._u > 3) := by
    rw [hopnd]
    simp
  have hfail2 : (prim.ipect_operand.set_mask 0x3 0 m errh).1 < 0 ↔ (m ≠ 0 ∧ m &&& 3 ≠ m) := by
    rw [hfail, ← hrange]
    constructor
    · rintro (h | ⟨_, h⟩)
      · exact h
      · exact absurd h hu
    · exact Or.inl
  have hagree : prim.check_agree m errh
      = (match set_mask_or_fail prim.ipect_operand 0x3 m errh with
        | Except.error e => Except.error e
        | Except.ok (prim2, errh2) =>
          Except.ok ({ prim2 with _type := (FIELD_TOS : Int) }, errh2)) := by
    rw [hc.2.2.2.2.2.1 hty]
    unfold Primitive.check_ipect
    rw [if_neg (by rw [hd]; decide)]
  cases hs : set_mask_or_fail prim.ipect_operand 0x3 m errh with
  | error e =>
    have he := set_mask_or_fail_error _ _ _ _ _ hs
    rw [hs] at hagree
    rw [check_typed_error prim p m errh e h0 hagree, he.2]
    refine ⟨⟨fun _ => hfail2.mp he.1, fun _ => by simp⟩, fun _ => rfl, ?_⟩
    intro _ h
    exact absurd h (by simp)
  | ok r2 =>
    have ho := set_mask_or_fail_ok _ _ _ _ _ hs
    rw [hs] at hagree
    have hk := check_finish_keeps prim._srcdst ({ r2.1 with _type := (FIELD_TOS : Int) }, r2.2)
    rw [check_typed_ok prim p m errh _ h0 hagree, hk.1, hk.2.1, hk.2.2.1, hk.2.2.2.1,
      hk.2.2.2.2.2.1]
    refine ⟨⟨fun h => absurd h (by decide), fun h => ?_⟩, fun h => absurd h (by decide), ?_⟩
    · have := hfail2.mpr h
      omega
    · intro hop _
      have hin : (if m ≠ 0 then m else 3) &&& 3 = (if m ≠ 0 then m else 3) := by
        by_contra hne
        have := hfail2.mpr (hrange.mp hne)
        omega
      have hop2 : ¬ (prim.ipect_operand._op = OP_GT ∨ prim.ipect_operand._op = OP_LT) := by
        rw [hopnd]
        simp only []
        rw [hop]
        decide
      have hset := set_mask_eq_ok prim.ipect_operand 0x3 m errh hop2 (by decide) hin
        (by omega)
      rw [ho.2, hset, hopnd]
      exact ⟨rfl, rfl, rfl, rfl⟩

/-- A bit-field primitive with operator `=` and integer data: `check` succeeds
exactly when the provided mask lies inside the natural mask and the value does
not exceed it. -/
theorem check_field_eq (prim p : Primitive) (m : Nat) (errh : ErrorHandler)
    (hty : type_and prim._type TYPE_FIELD ≠ 0) (h0 : 0 ≤ prim._type)
    (hd : prim._data = TYPE_INT) (hop : prim._op = OP_EQ) :
    (0 ≤ (prim.check p m errh).1 ↔
      (m &&& field_mask prim._type = m ∧ prim._u ≤ field_mask prim._type))
    ∧ (0 ≤ (prim.check p m errh).1 →
        (prim.check p m errh).2.1._mask = (if m ≠ 0 then m else field_mask prim._type)
        ∧ (prim.check p m errh).2.1._u = prim._u
        ∧ (prim.check p m errh).2.2.nerrors = errh.nerrors)
    ∧ ((prim.check p m errh).1 < 0 → (prim.check p m errh).2.2 = errh.error) := by
  have hc := check_agree_cases prim m errh
  have hpos : 0 < prim._type := by
    have := (field_type_ne prim._type hty).1
    omega
  have hb := field_mask_bounds prim._type
  have hop2 : ¬ (prim._op = OP_GT ∨ prim._op = OP_LT) := by
    rw [hop]
    decide
  have hrange : ((if m ≠ 0 then m else field_mask prim._type) &&& field_mask prim._type
      = (if m ≠ 0 then m else field_mask prim._type)) ↔ m &&& field_mask prim._type = m := by
    by_cases hm : m ≠ 0
    · rw [if_pos hm]
    · rw [if_neg hm, not_not.mp hm]
      simp
  have hfail := set_mask_fail_iff prim (field_mask prim._type) m errh
  have hagree : prim.check_agree m errh
      = set_mask_or_fail prim (field_mask prim._type) m errh := by
    rw [hc.2.2.2.2.2.2.2.2.2 hty]
    unfold Primitive.check_field
    rw [if_neg (by rw [hd]; simp)]
  cases hs : set_mask_or_fail prim (field_mask prim._type) m errh with
  | error e =>
    have he := set_mask_or_fail_error _ _ _ _ _ hs
    rw [hs] at hagree
    rw [check_typed_error prim p m errh e hpos hagree, he.2]
    have hf := hfail.mp he.1
    refine ⟨⟨fun h => absurd h (by simp), fun h => ?_⟩, fun h => absurd h (by simp),
      fun _ => rfl⟩
    exfalso
    rcases hf with hf | ⟨_, hf⟩
    · exact hf (hrange.mpr h.1)
    · omega
  | ok r2 =>
    have ho := set_mask_or_fail_ok _ _ _ _ _ hs
    rw [hs] at hagree
    have hk := check_finish_keeps prim._srcdst r2
    have hnf : ¬ ((if m ≠ 0 then m else field_mask prim._type) &&& field_mask prim._type
          ≠ (if m ≠ 0 then m else field_mask prim._type)
        ∨ (¬ (prim._op = OP_GT ∨ prim._op = OP_LT) ∧ prim._u > field_mask prim._type)) := by
      intro hh
      have := hfail.mpr hh
      omega
    have hin : (if m ≠ 0 then m else field_mask prim._type) &&& field_mask prim._type
        = (if m ≠ 0 then m else field_mask prim._type) := by
      by_contra hne
      exact hnf (Or.inl hne)
    have hu : prim._u ≤ field_mask prim._type := by
      by_contra hgt
      exact hnf (Or.inr ⟨hop2, by omega⟩)
    have hset := set_mask_eq_ok prim (field_mask prim._type) m errh hop2 hb.2 hin hu
    rw [check_typed_ok prim p m errh _ hpos hagree, hk.1, hk.2.2.1, hk.2.2.2.1,
      hk.2.2.2.2.2.2.2, ho.2, hset]
    exact ⟨⟨fun _ => ⟨hrange.mp hin, hu⟩, fun _ => le_refl _⟩, fun _ => ⟨rfl, rfl, rfl⟩,
      fun h => absurd h (by decide)⟩

/-! ## Juxtaposition (`case TYPE_INT:` of the first `switch` of `check`) -/

/-- The `proto`, `port` and bit-field cases keep the type. -/
theorem check_agree_keeps_type (prim : Primitive) (m : Nat) (errh : ErrorHandler)
    (r : Primitive × ErrorHandler) (h : prim.check_agree m errh = Except.ok r)
    (hty : type_and prim._type TYPE_FIELD ≠ 0 ∨ prim._type = TYPE_PROTO
      ∨ prim._type = TYPE_PORT) :
    r.1._type = prim._type := by
  have hc := check_agree_cases prim m errh
  rcases hty with h1 | h1 | h1
  · rw [hc.2.2.2.2.2.2.2.2.2 h1] at h
    rw [(set_mask_or_fail_ok _ _ _ _ _ (check_field_ok prim m errh r h)).2]
    exact (set_mask_keeps _ _ _ _ _).1
  · rw [hc.2.2.1 h1] at h
    rcases check_proto_ok prim m errh r h with hr | ⟨r3, hs, hr⟩
    · rw [hr, (set_transp_if_allowed_keeps _).1]
      exact (operands_keep prim).1
    · rw [hr, (set_transp_if_allowed_keeps _).1, (set_mask_or_fail_ok _ _ _ _ _ hs).2]
      simp only
      rw [(set_mask_keeps _ _ _ _ _).1]
      exact (operands_keep prim).1
  · rw [hc.2.2.2.1 h1] at h
    rw [(set_mask_or_fail_ok _ _ _ _ _ (check_port_ok prim m errh r h)).2]
    simp only
    rw [(set_mask_keeps _ _ _ _ _).1]
    exact (operands_keep prim).2.2.1

/-- A bare integer after a bit-field, protocol or port primitive: the first
`switch` gives it the type of the previous primitive. -/
theorem check_start_int (prim p : Primitive) (errh : ErrorHandler)
    (ht : prim._type = 0) (hd : prim._data = TYPE_INT)
    (hp : type_and p._type TYPE_FIELD ≠ 0 ∨ p._type = TYPE_PROTO ∨ p._type = TYPE_PORT) :
    ∃ r1, prim.check_start p errh = Except.ok (r1, errh) ∧ r1._type = p._type
      ∧ r1._data = p._type ∧ r1._u = prim._u ∧ r1._op = prim._op
      ∧ (p._type = TYPE_PORT →
          r1._srcdst = (if prim._srcdst = 0 then p._srcdst else prim._srcdst)
          ∧ r1._transp_proto
              = (if prim._transp_proto = UNKNOWN then p._transp_proto
                 else prim._transp_proto)) := by
  have hcond : ¬ (type_and p._type TYPE_FIELD = 0 ∧ p._type ≠ TYPE_PROTO
      ∧ p._type ≠ TYPE_PORT) := by
    rintro ⟨h1, h2, h3⟩
    rcases hp with h | h | h
    · exact h h1
    · exact h2 h
    · exact h3 h
  have hstep : prim.check_start p errh
      = Primitive.check_infer p 1 { prim with _data := p._type } errh := by
    unfold Primitive.check_start
    rw [if_pos ht]
    conv_lhs => unfold Primitive.check_infer
    rw [if_neg (by rw [hd]; decide), if_neg (by rw [hd]; decide), if_neg (by rw [hd]; decide),
      if_pos hd, if_neg hcond]
  rw [hstep]
  unfold Primitive.check_infer
  simp only []
  rcases hp with h | h | h
  · have hn := field_type_ne p._type h
    rw [if_neg (by tauto), if_neg hn.2.2.2.1, if_neg hn.2.2.2.2.1, if_neg hn.2.2.2.2.2.2.2.2.2.2,
      if_neg (show ¬ p._type = TYPE_NONE from hn.1), if_pos h]
    exact ⟨_, rfl, rfl, rfl, rfl, rfl, fun h2 => absurd h2 hn.2.2.2.2.1⟩
  · rw [if_neg (by rw [h]; decide), if_pos h]
    exact ⟨_, rfl, h.symm, rfl, rfl, rfl, fun h2 => absurd (h.symm.trans h2) (by decide)⟩
  · rw [if_neg (by rw [h]; decide), if_neg (by rw [h]; decide), if_pos h]
    exact ⟨_, rfl, h.symm, rfl, rfl, rfl, fun _ => ⟨rfl, rfl⟩⟩

/-- A bare integer after any other primitive, or after none: `check` fails
with one error. -/
theorem check_int_fails (prim p : Primitive) (m : Nat) (errh : ErrorHandler)
    (ht : prim._type = 0) (hd : prim._data = TYPE_INT)
    (hp : ¬ (type_and p._type TYPE_FIELD ≠ 0 ∨ p._type = TYPE_PROTO ∨ p._type = TYPE_PORT)) :
    prim.check p m errh = (ERROR_RESULT, prim, errh.error) := by
  have hcond : type_and p._type TYPE_FIELD = 0 ∧ p._type ≠ TYPE_PROTO
      ∧ p._type ≠ TYPE_PORT := by
    push_neg at hp
    exact hp
  have hstart : prim.check_start p errh = Except.error errh.error := by
    unfold Primitive.check_start
    rw [if_pos ht]
    unfold Primitive.check_infer
    rw [if_neg (by rw [hd]; decide), if_neg (by rw [hd]; decide), if_neg (by rw [hd]; decide),
      if_pos hd, if_pos hcond]
  unfold Primitive.check
  rw [if_neg (by rw [ht]; decide), hstart]

/-- C15: for every primitive of the parser (type unset, or the value of a
keyword of `type_entries` that is not a syntax word, or a bit-field type),
every previous primitive and every provided mask: when `check` succeeds, the
resulting type is host, protocol, port, TCP option or fragment, or has the
bit-field flag; so it is not unset, not a syntax keyword, and none of net,
unfrag, ect, ce.  A net primitive becomes host, unfrag becomes frag, and ect
and ce become the TOS bit-field. -/
theorem check_normalizes_type (prim p : Primitive) (m : Nat) (errh : ErrorHandler)
    (hty : prim._type = 0
      ∨ (∃ w d, query type_entries w = some d ∧ (d : Int) ≠ TYPE_SYNTAX ∧ prim._type = d)
      ∨ type_and prim._type TYPE_FIELD ≠ 0)
    (hok : 0 ≤ (prim.check p m errh).1) :
    ((prim.check p m errh).2.1._type ∈ [TYPE_HOST, TYPE_PROTO, TYPE_PORT, TYPE_TCPOPT, TYPE_IPFRAG]
      ∨ type_and (prim.check p m errh).2.1._type TYPE_FIELD ≠ 0)
    ∧ (prim.check p m errh).2.1._type ∉ [TYPE_NONE, TYPE_TYPE, TYPE_SYNTAX, TYPE_INT, TYPE_NET,
        TYPE_IPUNFRAG, TYPE_IPECT, TYPE_IPCE]
    ∧ (prim._type = TYPE_NET → (prim.check p m errh).2.1._type = TYPE_HOST)
    ∧ (prim._type = TYPE_IPUNFRAG → (prim.check p m errh).2.1._type = TYPE_IPFRAG)
    ∧ (prim._type = TYPE_IPECT ∨ prim._type = TYPE_IPCE →
        (prim.check p m errh).2.1._type = (FIELD_TOS : Int)) := by
  have h := check_type prim p m errh hty hok
  refine ⟨h.1, ?_, h.2.1, h.2.2.1, h.2.2.2⟩
  intro hmem
  rcases h.1 with h1 | h1
  · simp only [List.mem_cons, List.mem_singleton, List.not_mem_nil, or_false] at h1 hmem
    rcases h1 with h1 | h1 | h1 | h1 | h1 <;>
      · rw [h1] at hmem
        exact absurd hmem (by decide)
  · simp only [List.mem_cons, List.mem_singleton, List.not_mem_nil, or_false] at hmem
    rcases hmem with h2 | h2 | h2 | h2 | h2 | h2 | h2 | h2 <;>
      · rw [h2] at h1
        exact h1 (by decide)

/-- C15 on the net primitive of `src 10.0.0.0/8`: it becomes a host test. -/
theorem check_normalizes_type_witness :
    (Primitive.check (src_net_10_prim true) Primitive.clear 0 ⟨0, 0⟩).2.1._type = TYPE_HOST
    ∧ (Primitive.check (src_net_10_prim true) Primitive.clear 0 ⟨0, 0⟩).2.1._type
        ∉ [TYPE_NONE, TYPE_TYPE, TYPE_SYNTAX, TYPE_INT, TYPE_NET, TYPE_IPUNFRAG, TYPE_IPECT,
            TYPE_IPCE] :=
  ⟨by decide,
   (check_normalizes_type (src_net_10_prim true) Primitive.clear 0 ⟨0, 0⟩ (Or.inl rfl)
      (by decide)).2.1⟩

/-- C16 as stated fails: `check` succeeds and leaves mask 0 for `port > 65535`
(the relation is folded by `set_mask`), for `src net 0.0.0.0/0` (the mask of
the prefix is kept) and for `tcp opt 0` (the mask is the value). -/
theorem check_zero_mask_counterexample :
    ((port_above_all_prim.check Primitive.clear 0 ⟨0, 0⟩).1 = 0
      ∧ (port_above_all_prim.check Primitive.clear 0 ⟨0, 0⟩).2.1._mask = 0)
    ∧ ((net_zero_prim.check Primitive.clear 0 ⟨0, 0⟩).1 = 0
      ∧ (net_zero_prim.check Primitive.clear 0 ⟨0, 0⟩).2.1._mask = 0)
    ∧ ((tcpopt_zero_prim.check Primitive.clear 0 ⟨0, 0⟩).1 = 0
      ∧ (tcpopt_zero_prim.check Primitive.clear 0 ⟨0, 0⟩).2.1._mask = 0) := by
  decide

/-- C16 (amended): for every primitive of the parser (its type as in C15),
every previous primitive and every provided mask: when `check` succeeds the
resulting mask is not zero, except in three cases in which it is zero:
`set_mask` has folded a relation `>` or `<` that is always true or always false
into `= 0`; the primitive is a net whose own mask is zero and no mask was
provided; the primitive is a TCP-option test with value 0. -/
theorem check_mask_nonzero (prim p : Primitive) (m : Nat) (errh : ErrorHandler)
    (hty : prim._type = 0
      ∨ (∃ w d, query type_entries w = some d ∧ (d : Int) ≠ TYPE_SYNTAX ∧ prim._type = d)
      ∨ type_and prim._type TYPE_FIELD ≠ 0)
    (hok : 0 ≤ (prim.check p m errh).1) :
    (prim.check p m errh).2.1._mask ≠ 0
    ∨ ((prim._op = OP_GT ∨ prim._op = OP_LT) ∧ (prim.check p m errh).2.1._op = OP_EQ
        ∧ (prim.check p m errh).2.1._u = 0 ∧ (prim.check p m errh).2.1._mask = 0)
    ∨ ((prim.check p m errh).2.1._type = TYPE_HOST ∧ (prim.check p m errh).2.1._data = TYPE_NET
        ∧ prim._mask = 0 ∧ m = 0 ∧ (prim.check p m errh).2.1._mask = 0)
    ∨ ((prim.check p m errh).2.1._type = TYPE_TCPOPT ∧ (prim.check p m errh).2.1._u = 0
        ∧ (prim.check p m errh).2.1._mask = 0) :=
  check_mask prim p m errh hty hok

/-- C16 (amended) on `port > 1023` with previous primitive cleared: the mask is
0xFFFF. -/
theorem check_mask_nonzero_witness :
    (Primitive.check { port_above_all_prim with _u := 1023 } Primitive.clear 0 ⟨0, 0⟩).2.1._mask
      = 0xFFFF
    ∧ ((Primitive.check { port_above_all_prim with _u := 1023 } Primitive.clear 0
          ⟨0, 0⟩).2.1._mask ≠ 0
      ∨ ((({ port_above_all_prim with _u := 1023 } : Primitive)._op = OP_GT
          ∨ ({ port_above_all_prim with _u := 1023 } : Primitive)._op = OP_LT)
        ∧ (Primitive.check { port_above_all_prim with _u := 1023 } Primitive.clear 0
            ⟨0, 0⟩).2.1._op = OP_EQ
        ∧ (Primitive.check { port_above_all_prim with _u := 1023 } Primitive.clear 0
            ⟨0, 0⟩).2.1._u = 0
        ∧ (Primitive.check { port_above_all_prim with _u := 1023 } Primitive.clear 0
            ⟨0, 0⟩).2.1._mask = 0)
      ∨ ((Primitive.check { port_above_all_prim with _u := 1023 } Primitive.clear 0
            ⟨0, 0⟩).2.1._type = TYPE_HOST
        ∧ (Primitive.check { port_above_all_prim with _u := 1023 } Primitive.clear 0
            ⟨0, 0⟩).2.1._data = TYPE_NET
        ∧ ({ port_above_all_prim with _u := 1023 } : Primitive)._mask = 0 ∧ 0 = 0
        ∧ (Primitive.check { port_above_all_prim with _u := 1023 } Primitive.clear 0
            ⟨0, 0⟩).2.1._mask = 0)
      ∨ ((Primitive.check { port_above_all_prim with _u := 1023 } Primitive.clear 0
            ⟨0, 0⟩).2.1._type = TYPE_TCPOPT
        ∧ (Primitive.check { port_above_all_prim with _u := 1023 } Primitive.clear 0
            ⟨0, 0⟩).2.1._u = 0
        ∧ (Primitive.check { port_above_all_prim with _u := 1023 } Primitive.clear 0
            ⟨0, 0⟩).2.1._mask = 0)) :=
  ⟨by decide,
   check_mask_nonzero { port_above_all_prim with _u := 1023 } Primitive.clear 0 ⟨0, 0⟩
     (Or.inr (Or.inl ⟨"port", 13, by decide, by decide, by decide⟩)) (by decide)⟩

/-- C17: for every primitive that is a host or net test (its type, or with an
unset type its data, is host or net) with operator `>` or `<`, and for every
TCP-option primitive (type, or with an unset type data, TCP option) with an
operator other than `=`, a negation or a provided mask: `check` returns a
negative value after reporting exactly one error, and `parse_factor` then adds
no tests: the tree and `prev_prim` stay as they were. -/
theorem check_rejects_relational (le : Bool) (prim p : Primitive) (m : Nat) (negated : Bool)
    (tree : Builder) (errh : ErrorHandler)
    (h : ((prim._type = TYPE_HOST ∨ prim._type = TYPE_NET
          ∨ (prim._type = 0 ∧ (prim._data = TYPE_HOST ∨ prim._data = TYPE_NET)))
        ∧ (prim._op = OP_GT ∨ prim._op = OP_LT))
      ∨ ((prim._type = TYPE_TCPOPT ∨ (prim._type = 0 ∧ prim._data = TYPE_TCPOPT))
        ∧ (prim._op ≠ OP_EQ ∨ prim._op_negated = true ∨ m ≠ 0))) :
    (prim.check p m errh).1 < 0
    ∧ (prim.check p m errh).2.2 = errh.error
    ∧ add_if_valid le prim p m negated tree errh
        = { tree := tree, prev_prim := p, errh := errh.error } := by
  have hr := check_rejects prim p m errh h
  refine ⟨hr.1, hr.2, ?_⟩
  rw [add_if_valid_fail le prim p m negated tree errh hr.1, hr.2]

/-- C17 on the net primitive of `src 10.0.0.0/8` with operator `>`. -/
theorem check_rejects_relational_witness :
    (Primitive.check { src_net_10_prim true with _op := OP_GT } Primitive.clear 0 ⟨0, 0⟩).1 < 0
    ∧ (Primitive.check { src_net_10_prim true with _op := OP_GT } Primitive.clear 0 ⟨0, 0⟩).2.2
        = ErrorHandler.error ⟨0, 0⟩
    ∧ add_if_valid true { src_net_10_prim true with _op := OP_GT } Primitive.clear 0 false
        [[]] ⟨0, 0⟩
        = { tree := [[]], prev_prim := Primitive.clear, errh := ErrorHandler.error ⟨0, 0⟩ } :=
  check_rejects_relational true { src_net_10_prim true with _op := OP_GT } Primitive.clear 0
    false [[]] ⟨0, 0⟩ (Or.inl ⟨Or.inr (Or.inr ⟨rfl, Or.inr rfl⟩), Or.inl rfl⟩)

/-- C18 as stated fails: `ip ce`, `ip frag` and `ip unfrag` with operator `>`
and provided mask 1, and `ip ect` with provided mask 1, pass `check` without
any error. -/
theorem check_shorthand_counterexample :
    (shorthand_prim TYPE_IPCE OP_GT).check Primitive.clear 1 ⟨0, 0⟩
      = (0, { shorthand_prim TYPE_IPCE OP_GT with
                _mask := 3, _u := 3, _type := (FIELD_TOS : Int) }, ⟨0, 0⟩)
    ∧ ((shorthand_prim TYPE_IPFRAG OP_GT).check Primitive.clear 1 ⟨0, 0⟩).1 = 0
    ∧ ((shorthand_prim TYPE_IPFRAG OP_GT).check Primitive.clear 1 ⟨0, 0⟩).2.2 = ⟨0, 0⟩
    ∧ ((shorthand_prim TYPE_IPUNFRAG OP_LT).check Primitive.clear 1 ⟨0, 0⟩).1 = 0
    ∧ ((shorthand_prim TYPE_IPUNFRAG OP_LT).check Primitive.clear 1 ⟨0, 0⟩).2.2 = ⟨0, 0⟩
    ∧ ((shorthand_prim TYPE_IPECT OP_EQ).check Primitive.clear 1 ⟨0, 0⟩).1 = 0
    ∧ ((shorthand_prim TYPE_IPECT OP_EQ).check Primitive.clear 1 ⟨0, 0⟩).2.2 = ⟨0, 0⟩
    ∧ ((shorthand_prim TYPE_IPECT OP_GT).check Primitive.clear 0 ⟨0, 0⟩).1 = 0
    ∧ ((shorthand_prim TYPE_IPECT OP_GT).check Primitive.clear 0 ⟨0, 0⟩).2.2 = ⟨0, 0⟩ := by
  decide

/-- C18 (amended): for the shorthand directives `ip ce`, `ip frag` and
`ip unfrag`, `check` fills in the mask and the value itself (ce: mask 3,
value 3, TOS bit-field; frag: mask 1; unfrag: mask 1, negated, type frag) and
rejects data: it fails with one error exactly when the primitive carries data,
whatever the operator and the provided mask, which it does not look at.  For
`ip ect` without data it sets value 0, the negation and mask 3 and calls
`set_mask` under the full mask 3: it fails, with one error, exactly when the
provided mask has a bit outside 3, and with operator `=` it leaves value 0, the
provided mask (3 when none was provided), the negation and the TOS bit-field
type. -/
theorem check_shorthand (prim p : Primitive) (m : Nat) (errh : ErrorHandler) :
    (prim._type = TYPE_IPCE ∨ prim._type = TYPE_IPFRAG ∨ prim._type = TYPE_IPUNFRAG →
      (prim._data ≠ TYPE_NONE →
        (prim.check p m errh).1 < 0 ∧ (prim.check p m errh).2.2 = errh.error)
      ∧ (prim._data = TYPE_NONE →
        (prim.check p m errh).1 = 0 ∧ (prim.check p m errh).2.2.nerrors = errh.nerrors
        ∧ (prim.check p m errh).2.1._op = prim._op
        ∧ (prim.check p m errh).2.1._mask = (if prim._type = TYPE_IPCE then IP_ECNMASK else 1)
        ∧ (prim.check p m errh).2.1._u = (if prim._type = TYPE_IPCE then IP_ECN_CE else prim._u)
        ∧ (prim.check p m errh).2.1._type
            = (if prim._type = TYPE_IPCE then (FIELD_TOS : Int) else TYPE_IPFRAG)
        ∧ (prim.check p m errh).2.1._op_negated
            = (if prim._type = TYPE_IPUNFRAG then true else prim._op_negated)))
    ∧ (prim._type = TYPE_IPECT ∧ prim._data = TYPE_NONE →
      ((prim.check p m errh).1 < 0 ↔ (m ≠ 0 ∧ m &&& 3 ≠ m))
      ∧ ((prim.check p m errh).1 < 0 → (prim.check p m errh).2.2 = errh.error)
      ∧ (prim._op = OP_EQ → 0 ≤ (prim.check p m errh).1 →
          (prim.check p m errh).2.1._mask = (if m ≠ 0 then m else 3)
          ∧ (prim.check p m errh).2.1._u = 0
          ∧ (prim.check p m errh).2.1._op_negated = true
          ∧ (prim.check p m errh).2.1._type = (FIELD_TOS : Int))) :=
  ⟨fun h => check_ce_frag_unfrag prim p m errh h, fun h => check_ect prim p m errh h.1 h.2⟩

/-- C19: for every bit-field primitive (type with the bit-field flag and sign
bit clear, declared width `n = (type & FIELD_LENGTH_MASK) + 1` bits) with
operator `=`, integer data, value `v = _u` and provided mask `p`: `check`
succeeds iff `p` has no bit outside `2 ^ n - 1` and `v <= 2 ^ n - 1`; on
success no error is reported, the mask is `p` when `p` is not zero and
`2 ^ n - 1` otherwise, and the value is `v`; otherwise `check` returns a
negative value after reporting one error. -/
theorem check_bit_field (prim p : Primitive) (m n : Nat) (errh : ErrorHandler)
    (hty : type_and prim._type TYPE_FIELD ≠ 0) (h0 : 0 ≤ prim._type)
    (hn : n = type_and prim._type FIELD_LENGTH_MASK + 1)
    (hd : prim._data = TYPE_INT) (hop : prim._op = OP_EQ) :
    (0 ≤ (prim.check p m errh).1 ↔ (m &&& (2 ^ n - 1) = m ∧ prim._u ≤ 2 ^ n - 1))
    ∧ (0 ≤ (prim.check p m errh).1 →
        (prim.check p m errh).2.1._mask = (if m ≠ 0 then m else 2 ^ n - 1)
        ∧ (prim.check p m errh).2.1._u = prim._u
        ∧ (prim.check p m errh).2.2.nerrors = errh.nerrors)
    ∧ (¬ 0 ≤ (prim.check p m errh).1 →
        (prim.check p m errh).1 < 0 ∧ (prim.check p m errh).2.2 = errh.error) := by
  obtain ⟨n2, _, _, hn2, hfm⟩ := field_mask_eq prim._type
  have hnn : n = n2 := by rw [hn, hn2]
  have h := check_field_eq prim p m errh hty h0 hd hop
  rw [hfm, ← hnn] at h
  exact ⟨h.1, h.2.1, fun hneg => ⟨by omega, h.2.2 (by omega)⟩⟩

/-- C19 on `ip ttl`: an 8-bit field with value 64 and provided mask 0xF0. -/
theorem check_bit_field_witness :
    0 ≤ (Primitive.check { shorthand_prim (FIELD_TTL : Int) OP_EQ with
            _data := TYPE_INT, _u := 64 } Primitive.clear 0xF0 ⟨0, 0⟩).1
    ∧ (Primitive.check { shorthand_prim (FIELD_TTL : Int) OP_EQ with
            _data := TYPE_INT, _u := 64 } Primitive.clear 0xF0 ⟨0, 0⟩).2.1._mask = 0xF0 :=
  ⟨((check_bit_field { shorthand_prim (FIELD_TTL : Int) OP_EQ with _data := TYPE_INT, _u := 64 }
      Primitive.clear 0xF0 8 ⟨0, 0⟩ (by decide) (by decide) (by decide) rfl rfl).1).mpr
      (by decide),
   by decide⟩

/-- C20: for every primitive with no type of its own whose data is a bare
integer: when the type of the previous primitive `p` is a bit-field type,
protocol or port, the first `switch` of `check` succeeds without error and
gives the primitive that type (a port primitive also takes the qualifier and
the transport protocol of `p` where its own are unset), and the type is still
that of `p` whenever `check` succeeds; when `p` has any other type, or is the
cleared primitive, `check` returns a negative value after reporting one
error. -/
theorem check_juxtaposition (prim p : Primitive) (m : Nat) (errh : ErrorHandler)
    (ht : prim._type = 0) (hd : prim._data = TYPE_INT) :
    (type_and p._type TYPE_FIELD ≠ 0 ∨ p._type = TYPE_PROTO ∨ p._type = TYPE_PORT →
      (∃ r1, prim.check_start p errh = Except.ok (r1, errh) ∧ r1._type = p._type
        ∧ (p._type = TYPE_PORT →
            r1._srcdst = (if prim._srcdst = 0 then p._srcdst else prim._srcdst)
            ∧ r1._transp_proto
                = (if prim._transp_proto = UNKNOWN then p._transp_proto
                   else prim._transp_proto)))
      ∧ (0 ≤ (prim.check p m errh).1 → (prim.check p m errh).2.1._type = p._type))
    ∧ (¬ (type_and p._type TYPE_FIELD ≠ 0 ∨ p._type = TYPE_PROTO ∨ p._type = TYPE_PORT) →
      (prim.check p m errh).1 < 0 ∧ (prim.check p m errh).2.2 = errh.error)
    ∧ (Primitive.clear._type = 0 ∧ (prim.check Primitive.clear m errh).1 < 0) := by
  refine ⟨fun hp => ?_, fun hp => ?_, rfl, ?_⟩
  · obtain ⟨r1, hst, hty, _, _, _, hport⟩ := check_start_int prim p errh ht hd hp
    refine ⟨⟨r1, hst, hty, hport⟩, fun hok => ?_⟩
    rcases check_eq prim p m errh with ⟨_, hc⟩ | ⟨_, e, hst2, hc⟩ | ⟨_, r, e, _, hag, hc⟩
        | ⟨_, r, r2, hst2, hag, hc⟩
    · rw [hc] at hok
      exact absurd hok (by simp)
    · rw [hc] at hok
      exact absurd hok (by simp [ERROR_RESULT])
    · rw [hc, check_agree_error r.1 m r.2 e hag] at hok
      exact absurd hok (by simp)
    · rw [hst] at hst2
      have hr : r = (r1, errh) := (Except.ok.inj hst2).symm
      rw [hr] at hag
      rw [hc, (check_finish_keeps _ _).2.1,
        check_agree_keeps_type r1 m errh r2 hag (by rw [hty]; exact hp), hty]
  · rw [check_int_fails prim p m errh ht hd hp]
    exact ⟨by simp [ERROR_RESULT], rfl⟩
  · rw [check_int_fails prim Primitive.clear m errh ht hd (by decide)]
    simp [ERROR_RESULT]

/-- C20 on `src port 80 443`: the bare `443` becomes a source-port test. -/
theorem check_juxtaposition_witness :
    ((bare_int_prim 443).check src_port_80_prim 0 ⟨0, 0⟩).2.1._type = TYPE_PORT
    ∧ (bare_int_prim 443).check src_port_80_prim 0 ⟨0, 0⟩
        = (0, { src_port_80_prim with _u := 443 }, ⟨0, 0⟩) :=
  ⟨((check_juxtaposition (bare_int_prim 443) src_port_80_prim 0 ⟨0, 0⟩ rfl rfl).1
      (Or.inr (Or.inr rfl))).2 (by decide),
   by decide⟩

/-! ## Bracket expressions (`parse_brackets`) -/

theorem toInt32_toU32 (x : Int) (h1 : -2 ^ 31 ≤ x) (h2 : x < 2 ^ 31) : toInt32 (toU32 x) = x := by
  unfold toInt32 toU32
  have hm : ((x % 2 ^ 32).toNat : Int) = x % 2 ^ 32 := Int.toNat_of_nonneg (Int.emod_nonneg _ (by norm_num))
  have hlt : x % 2 ^ 32 < 2 ^ 32 := Int.emod_lt_of_pos _ (by norm_num)
  have hn : (x % 2 ^ 32).toNat % 2 ^ 32 = (x % 2 ^ 32).toNat := Nat.mod_eq_of_lt (by omega)
  rw [hn]
  split_ifs with h <;> omega

theorem toU32_lt (x : Int) : toU32 x < 2 ^ 32 := by
  unfold toU32
  have hlt : x % 2 ^ 32 < 2 ^ 32 := Int.emod_lt_of_pos _ (by norm_num)
  omega

theorem and_word_mask (m : Nat) (hm : m < 2 ^ 32) : m &&& (2 ^ 32 - 32) = m / 32 * 32 := by
  have h := and_not32_low m 5 hm
  have e : not32 (2 ^ 5 - 1) = 2 ^ 32 - 32 := by decide
  rw [e] at h
  rw [h, Nat.shiftRight_eq_div_pow, Nat.shiftLeft_eq]

/-- Two `int`s have the same bits above bit 4 iff they lie in the same aligned
group of 32. -/
theorem same_word_iff (x y : Int) (hx1 : -2 ^ 31 ≤ x) (hx2 : x < 2 ^ 31)
    (hy1 : -2 ^ 31 ≤ y) (hy2 : y < 2 ^ 31) :
    toU32 x &&& (2 ^ 32 - 32) = toU32 y &&& (2 ^ 32 - 32) ↔ x / 32 = y / 32 := by
  rw [and_word_mask _ (toU32_lt x), and_word_mask _ (toU32_lt y)]
  unfold toU32
  omega

/-- A combination without `:` and `,` is parsed as `[POS]`. -/
theorem parse_combination_pos (env : Env) (a : List Char) (P : Int)
    (hcolon : ':' ∉ a) (hcomma : ',' ∉ a) (hP : env.cp_integer (String.mk a) = some P) :
    parse_combination env a = some (P, 1) := by
  unfold parse_combination
  simp only []
  rw [List.indexOf_of_not_mem hcolon, List.indexOf_of_not_mem hcomma,
    if_neg (by omega), if_neg (by omega), hP]

/-- A combination `POS:LEN` with both parts present. -/
theorem parse_combination_pos_len (env : Env) (a b : List Char) (P L : Int)
    (hcolon : ':' ∉ a) (ha : a ≠ []) (hb : b ≠ [])
    (hP : env.cp_integer (String.mk a) = some P) (hL : env.cp_integer (String.mk b) = some L) :
    parse_combination env (a ++ ':' :: b) = some (P, L) := by
  unfold parse_combination
  simp only []
  have hi : (a ++ ':' :: b).indexOf ':' = a.length := by
    rw [List.indexOf_append_of_not_mem hcolon, List.indexOf_cons_self]; rfl
  have hb2 : 0 < b.length := List.length_pos.mpr hb
  rw [hi, if_pos (by simp only [List.length_append, List.length_cons]; omega)]
  have ht : (a ++ ':' :: b).take a.length = a := List.take_left _ _
  have hd : (a ++ ':' :: b).drop (a.length + 1) = b := by
    rw [← List.drop_drop, List.drop_left]; rfl
  rw [ht, hd]
  unfold cp_integer_range
  rw [if_neg ha, if_neg hb, hP, hL]

/-- What `non_syntax_error` does with a byte position and length that do not
overflow when turned into bits. -/
theorem non_syntax_error_eq (prim : Primitive) (P L : Int) (errh : ErrorHandler)
    (hP1 : -2 ^ 27 ≤ P) (hP2 : P < 2 ^ 27) (hL1 : -2 ^ 27 ≤ L) (hL2 : L < 2 ^ 27) :
    non_syntax_error prim P L errh =
      if 1 ≤ L ∧ L ≤ 4 ∧ P / 4 = (P + L - 1) / 4 then
        prim.set_type (field_type_word (if prim._transp_proto = UNKNOWN then 0
          else prim._transp_proto) (8 * P) (8 * L)) errh
      else (prim, errh.error) := by
  unfold non_syntax_error
  simp only []
  rw [toInt32_toU32 (P * 8) (by omega) (by omega), toInt32_toU32 (L * 8) (by omega) (by omega)]
  by_cases hlen : L * 8 < 1 ∨ L * 8 > 32
  · have h2 : ¬ (1 ≤ L ∧ L ≤ 4 ∧ P / 4 = (P + L - 1) / 4) := by omega
    rw [if_pos hlen, if_neg h2]
  · rw [if_neg hlen]
    have hw := same_word_iff (P * 8) (P * 8 + L * 8 - 1) (by omega) (by omega) (by omega) (by omega)
    by_cases hsame : P / 4 = (P + L - 1) / 4
    · have h1 : ¬ (toU32 (P * 8) &&& (2 ^ 32 - 32) ≠ toU32 (P * 8 + L * 8 - 1) &&& (2 ^ 32 - 32)) := by
        rw [not_not, hw]; omega
      have h2 : 1 ≤ L ∧ L ≤ 4 ∧ P / 4 = (P + L - 1) / 4 := ⟨by omega, by omega, hsame⟩
      rw [if_neg h1, if_pos h2, Int.mul_comm P 8, Int.mul_comm L 8]
    · have h1 : toU32 (P * 8) &&& (2 ^ 32 - 32) ≠ toU32 (P * 8 + L * 8 - 1) &&& (2 ^ 32 - 32) := by
        rw [Ne, hw]; omega
      have h2 : ¬ (1 ≤ L ∧ L ≤ 4 ∧ P / 4 = (P + L - 1) / 4) := fun h => hsame h.2.2
      rw [if_pos h1, if_neg h2]

theorem toU32_toInt32 (x : Nat) : toU32 (toInt32 x) = x % 2 ^ 32 := by
  unfold toInt32 toU32
  have h : x % 2 ^ 32 < 2 ^ 32 := Nat.mod_lt _ (by norm_num)
  split_ifs <;> omega

/-- Every type word built by `parse_brackets` carries the flag `TYPE_FIELD`. -/
theorem field_type_word_flag (transp fieldpos len : Int) :
    type_and (field_type_word transp fieldpos len) TYPE_FIELD ≠ 0 := by
  unfold type_and field_type_word
  rw [toU32_toInt32]
  intro h
  have hb : ((TYPE_FIELD ||| shl32 (toU32 transp) FIELD_PROTO_SHIFT
      ||| shl32 (toU32 fieldpos) FIELD_OFFSET_SHIFT
      ||| shl32 (toU32 (len - 1)) FIELD_LENGTH_SHIFT) % 2 ^ 32 &&& TYPE_FIELD).testBit 30 = true := by
    rw [Nat.testBit_and, Nat.testBit_mod_two_pow, Nat.testBit_or, Nat.testBit_or, Nat.testBit_or]
    have : TYPE_FIELD.testBit 30 = true := by decide
    simp [this]
  rw [h] at hb
  simp at hb

/-- The result of `parse_brackets` on a bracket expression that has its closing
bracket and whose text parses as position `P` and length `L`. -/
theorem parse_brackets_eq (env : Env) (prim : Primitive) (words : List String) (pos : Nat)
    (errh : ErrorHandler) (P L : Int)
    (hclose : (collect_brackets env words words.length (pos + 1) []).1 < words.length)
    (hparse : parse_combination env (collect_brackets env words words.length (pos + 1) []).2
      = some (P, L))
    (hP1 : -2 ^ 27 ≤ P) (hP2 : P < 2 ^ 27) (hL1 : -2 ^ 27 ≤ L) (hL2 : L < 2 ^ 27) :
    parse_brackets env prim words pos errh =
      if 1 ≤ L ∧ L ≤ 4 ∧ P / 4 = (P + L - 1) / 4 then
        ((collect_brackets env words words.length (pos + 1) []).1 + 1,
          prim.set_type (field_type_word (if prim._transp_proto = UNKNOWN then 0
            else prim._transp_proto) (8 * P) (8 * L)) errh)
      else ((collect_brackets env words words.length (pos + 1) []).1 + 1, prim, errh.error) := by
  unfold parse_brackets
  simp only []
  rw [if_neg (by omega), hparse]
  simp only []
  rw [non_syntax_error_eq prim P L errh hP1 hP2 hL1 hL2]
  split_ifs <;> rfl

/-- The three parts of the bracket contract, from `parse_brackets_eq`. -/
theorem parse_brackets_contract (env : Env) (prim : Primitive) (words : List String) (pos : Nat)
    (errh : ErrorHandler) (P L : Int)
    (hnone : prim._type = TYPE_NONE)
    (hclose : (collect_brackets env words words.length (pos + 1) []).1 < words.length)
    (hparse : parse_combination env (collect_brackets env words words.length (pos + 1) []).2
      = some (P, L))
    (hP1 : -2 ^ 27 ≤ P) (hP2 : P < 2 ^ 27) (hL1 : -2 ^ 27 ≤ L) (hL2 : L < 2 ^ 27) :
    (type_and (parse_brackets env prim words pos errh).2.1._type TYPE_FIELD ≠ 0
        ↔ (1 ≤ L ∧ L ≤ 4 ∧ P / 4 = (P + L - 1) / 4)) ∧
      ((1 ≤ L ∧ L ≤ 4 ∧ P / 4 = (P + L - 1) / 4) →
        (parse_brackets env prim words pos errh).2.1._type
            = field_type_word (if prim._transp_proto = UNKNOWN then 0 else prim._transp_proto)
                (8 * P) (8 * L)
          ∧ (parse_brackets env prim words pos errh).2.2 = errh) ∧
      (¬ (1 ≤ L ∧ L ≤ 4 ∧ P / 4 = (P + L - 1) / 4) →
        (parse_brackets env prim words pos errh).2.1._type = TYPE_NONE
          ∧ (parse_brackets env prim words pos errh).2.2 = errh.error) := by
  rw [parse_brackets_eq env prim words pos errh P L hclose hparse hP1 hP2 hL1 hL2]
  by_cases hfit : 1 ≤ L ∧ L ≤ 4 ∧ P / 4 = (P + L - 1) / 4
  · rw [if_pos hfit]
    have ht : prim._type = 0 := hnone
    refine ⟨⟨fun _ => hfit, fun _ => ?_⟩, fun _ => ⟨rfl, ?_⟩, fun h => absurd hfit h⟩
    · exact field_type_word_flag _ _ _
    · simp [Primitive.set_type, ht]
  · rw [if_neg hfit]
    refine ⟨⟨fun h => ?_, fun h => absurd h hfit⟩, fun h => absurd h hfit, fun _ => ⟨hnone, rfl⟩⟩
    exfalso
    apply h
    simp only [hnone]
    decide

theorem field_word_value (t f l : Nat) (ht : t < 512) (hf : f < 65536) (hl1 : 1 ≤ l)
    (hl2 : l ≤ 32) :
    TYPE_FIELD ||| shl32 (toU32 (t : Int)) FIELD_PROTO_SHIFT
        ||| shl32 (toU32 (f : Int)) FIELD_OFFSET_SHIFT
        ||| shl32 (toU32 ((l : Int) - 1)) FIELD_LENGTH_SHIFT
      = 2 ^ 30 * 1 + (2 ^ 21 * t + (2 ^ 5 * f + (l - 1))) := by
  have e1 : toU32 (t : Int) = t := by unfold toU32; omega
  have e2 : toU32 (f : Int) = f := by unfold toU32; omega
  have e3 : toU32 ((l : Int) - 1) = l - 1 := by unfold toU32; omega
  have s1 : shl32 t FIELD_PROTO_SHIFT = 2 ^ 21 * t := by
    unfold shl32 FIELD_PROTO_SHIFT
    rw [Nat.shiftLeft_eq]
    norm_num
    omega
  have s2 : shl32 f FIELD_OFFSET_SHIFT = 2 ^ 5 * f := by
    unfold shl32 FIELD_OFFSET_SHIFT
    rw [Nat.shiftLeft_eq]
    norm_num
    omega
  have s3 : shl32 (l - 1) FIELD_LENGTH_SHIFT = l - 1 := by
    unfold shl32 FIELD_LENGTH_SHIFT
    rw [Nat.shiftLeft_eq]
    norm_num
    omega
  rw [e1, e2, e3, s1, s2, s3]
  have tf : TYPE_FIELD = 2 ^ 30 * 1 := by decide
  rw [tf, Nat.lor_assoc, Nat.lor_assoc]
  rw [← Nat.mul_add_lt_is_or (by omega : l - 1 < 2 ^ 5) f]
  rw [← Nat.mul_add_lt_is_or (by omega : 2 ^ 5 * f + (l - 1) < 2 ^ 21) t]
  rw [← Nat.mul_add_lt_is_or (by omega : 2 ^ 21 * t + (2 ^ 5 * f + (l - 1)) < 2 ^ 30) 1]

/-- The type word of a bit field decodes to the offset, the length and the
protocol it was built from, as long as the offset fits 16 bits and the
protocol 9 bits. -/
theorem field_type_word_decode (t f l : Nat) (ht : t < 512) (hf : f < 65536) (hl1 : 1 ≤ l)
    (hl2 : l ≤ 32) :
    0 ≤ field_type_word t f l
    ∧ (type_and (field_type_word t f l) FIELD_OFFSET_MASK) >>> FIELD_OFFSET_SHIFT = f
    ∧ (type_and (field_type_word t f l) FIELD_LENGTH_MASK) >>> FIELD_LENGTH_SHIFT + 1 = l
    ∧ (type_and (field_type_word t f l) FIELD_PROTO_MASK) >>> FIELD_PROTO_SHIFT = t := by
  have hv := field_word_value t f l ht hf hl1 hl2
  have m1 : FIELD_OFFSET_MASK = (2 ^ 16 - 1) <<< 5 := by decide
  have m2 : FIELD_LENGTH_MASK = 2 ^ 5 - 1 := by decide
  have m3 : FIELD_PROTO_MASK = (2 ^ 9 - 1) <<< 21 := by decide
  have k1 : ∀ x m s : Nat, (x &&& (m <<< s)) >>> s = (x >>> s) &&& m := by
    intro x m s
    apply Nat.eq_of_testBit_eq
    intro i
    simp [Nat.testBit_shiftRight, Nat.testBit_shiftLeft]
  refine ⟨?_, ?_, ?_, ?_⟩
  · unfold field_type_word
    rw [hv]
    unfold toInt32
    split_ifs <;> omega
  · unfold type_and field_type_word
    rw [toU32_toInt32, hv, m1]
    unfold FIELD_OFFSET_SHIFT
    rw [k1, Nat.and_pow_two_sub_one_eq_mod, Nat.shiftRight_eq_div_pow]
    omega
  · unfold type_and field_type_word
    rw [toU32_toInt32, hv, m2]
    unfold FIELD_LENGTH_SHIFT
    rw [Nat.and_pow_two_sub_one_eq_mod, Nat.shiftRight_eq_div_pow]
    omega
  · unfold type_and field_type_word
    rw [toU32_toInt32, hv, m3]
    unfold FIELD_PROTO_SHIFT
    rw [k1, Nat.and_pow_two_sub_one_eq_mod, Nat.shiftRight_eq_div_pow]
    omega

/-- The word offset and the bit offset that `add_exprs` takes from the bit
offset `8 * p` of a field. -/
theorem field_test_place (p : Nat) (hp : p < 8192) :
    ((8 * p) >>> 3) &&& (2 ^ 32 - 4) = 4 * (p / 4) ∧ (8 * p) &&& 0x1F = 8 * (p % 4) := by
  constructor
  · have e1 : (8 * p) >>> 3 = p := by
      rw [Nat.shiftRight_eq_div_pow]; omega
    have e2 : (2 ^ 32 - 4 : Nat) = not32 (2 ^ 2 - 1) := by decide
    rw [e1, e2, and_not32_low p 2 (by omega), Nat.shiftRight_eq_div_pow, Nat.shiftLeft_eq]
    omega
  · have e : (0x1F : Nat) = 2 ^ 5 - 1 := by decide
    rw [e, Nat.and_pow_two_sub_one_eq_mod]
    omega

/-- C21 fails for a negative position: for `ip[-4:4]` (four bytes in one aligned
word before the header) `parse_brackets` reports no error and sets the type to
-993, a value with bit 31 set, which is not a bit-field type; `check` takes a
negative type for erroneous and fails without a message, so the clause
`allow ip[-4:4] = 0` is configured without any error and without any test. -/
theorem parse_brackets_negative_position :
    parse_brackets sample_env Primitive.clear ["allow", "ip", "[", "-4:4", "]", "=", "0"] 2
        ⟨0, 0⟩
      = (5, { Primitive.clear with _type := -993 }, ⟨0, 0⟩)
    ∧ (Primitive.check { Primitive.clear with _type := -993, _data := TYPE_INT }
        Primitive.clear 0 ⟨0, 0⟩).1 < 0
    ∧ (Primitive.check { Primitive.clear with _type := -993, _data := TYPE_INT }
        Primitive.clear 0 ⟨0, 0⟩).2.2 = ⟨0, 0⟩
    ∧ configure true sample_env ["allow ip[-4:4] = 0"] 1 ⟨0, 0⟩ = some (0, [[]], ⟨0, 0⟩) := by
  decide

/-- The type word built for position `P`, length `L` (in bytes) and protocol
`t`, with `P` below 8192. -/
theorem field_type_word_bytes (t P L : Int) (ht1 : 0 ≤ t) (ht2 : t < 512) (hP1 : 0 ≤ P)
    (hP2 : P < 8192) (hL1 : 1 ≤ L) (hL2 : L ≤ 4) :
    0 ≤ field_type_word t (8 * P) (8 * L)
    ∧ (((type_and (field_type_word t (8 * P) (8 * L)) FIELD_OFFSET_MASK)
        >>> FIELD_OFFSET_SHIFT : Nat) : Int) = 8 * P
    ∧ (((type_and (field_type_word t (8 * P) (8 * L)) FIELD_LENGTH_MASK)
        >>> FIELD_LENGTH_SHIFT + 1 : Nat) : Int) = 8 * L
    ∧ (((type_and (field_type_word t (8 * P) (8 * L)) FIELD_PROTO_MASK)
        >>> FIELD_PROTO_SHIFT : Nat) : Int) = t
    ∧ ((((type_and (field_type_word t (8 * P) (8 * L)) FIELD_OFFSET_MASK)
        >>> FIELD_OFFSET_SHIFT >>> 3) &&& (2 ^ 32 - 4) : Nat) : Int) = 4 * (P / 4)
    ∧ ((((type_and (field_type_word t (8 * P) (8 * L)) FIELD_OFFSET_MASK)
        >>> FIELD_OFFSET_SHIFT) &&& 0x1F : Nat) : Int) = 8 * (P % 4) := by
  obtain ⟨t, rfl⟩ := Int.eq_ofNat_of_zero_le ht1
  obtain ⟨P, rfl⟩ := Int.eq_ofNat_of_zero_le hP1
  obtain ⟨L, rfl⟩ := Int.eq_ofNat_of_zero_le (by omega : 0 ≤ L)
  have e1 : (8 : Int) * (P : Int) = ((8 * P : Nat) : Int) := by push_cast; rfl
  have e2 : (8 : Int) * (L : Int) = ((8 * L : Nat) : Int) := by push_cast; rfl
  rw [e1, e2]
  obtain ⟨h1, h2, h3, h4⟩ :=
    field_type_word_decode t (8 * P) (8 * L) (by omega) (by omega) (by omega) (by omega)
  have hq := field_test_place P (by omega)
  refine ⟨h1, by rw [h2], by rw [h3], by rw [h4], ?_, ?_⟩
  · rw [h2, hq.1]; push_cast; rfl
  · rw [h2, hq.2]; push_cast; rfl

/-- C29 holds for positions below 8192 and fails from 8192 on.  For a bracket
expression that `parse_brackets` accepts with position `0 ≤ P < 8192` and
length `L`, the type built is a non-negative `TYPE_FIELD` value that decodes
to bit offset `8 * P`, bit length `8 * L` and the protocol of the primitive,
no error is reported, and the word offset and bit offset that `add_exprs`
takes from it are `4 * (P / 4)` and `8 * (P % 4)`, with
`8 * (P % 4) + 8 * L ≤ 32`.  `parse_brackets` also accepts `ip[8192]` without an
error, but the bit offset 65536 does not fit the 16 bits the type word has for
it and runs into the protocol bits: `add_exprs` decodes bit offset 0 and
transport protocol 1, so the clause `allow ip[8192] = 0` tests byte 0 of the
transport header (with the first-fragment test in front), where
`allow ip[9] = 6` tests byte 9 of the IP header. -/
theorem bitfield_offset_overflow (env : Env) (prim : Primitive) (words : List String)
    (pos : Nat) (errh : ErrorHandler) (P L : Int)
    (hnone : prim._type = TYPE_NONE)
    (hclose : (collect_brackets env words words.length (pos + 1) []).1 < words.length)
    (hparse : parse_combination env (collect_brackets env words words.length (pos + 1) []).2
      = some (P, L))
    (hP1 : 0 ≤ P) (hP2 : P < 8192) (hfit : 1 ≤ L ∧ L ≤ 4 ∧ P / 4 = (P + L - 1) / 4)
    (htransp : prim._transp_proto = UNKNOWN
      ∨ (0 ≤ prim._transp_proto ∧ prim._transp_proto < 512)) :
    ((parse_brackets env prim words pos errh).2.2 = errh
      ∧ 0 ≤ (parse_brackets env prim words pos errh).2.1._type
      ∧ type_and (parse_brackets env prim words pos errh).2.1._type TYPE_FIELD ≠ 0
      ∧ (((type_and (parse_brackets env prim words pos errh).2.1._type FIELD_OFFSET_MASK)
          >>> FIELD_OFFSET_SHIFT : Nat) : Int) = 8 * P
      ∧ (((type_and (parse_brackets env prim words pos errh).2.1._type FIELD_LENGTH_MASK)
          >>> FIELD_LENGTH_SHIFT + 1 : Nat) : Int) = 8 * L
      ∧ (((type_and (parse_brackets env prim words pos errh).2.1._type FIELD_PROTO_MASK)
          >>> FIELD_PROTO_SHIFT : Nat) : Int)
        = (if prim._transp_proto = UNKNOWN then 0 else prim._transp_proto)
      ∧ ((((type_and (parse_brackets env prim words pos errh).2.1._type FIELD_OFFSET_MASK)
          >>> FIELD_OFFSET_SHIFT >>> 3) &&& (2 ^ 32 - 4) : Nat) : Int) = 4 * (P / 4)
      ∧ ((((type_and (parse_brackets env prim words pos errh).2.1._type FIELD_OFFSET_MASK)
          >>> FIELD_OFFSET_SHIFT) &&& 0x1F : Nat) : Int) = 8 * (P % 4)
      ∧ 8 * (P % 4) + 8 * L ≤ 32)
    ∧ parse_brackets sample_env Primitive.clear ["allow", "ip", "[", "8192", "]", "=", "0"] 2
        ⟨0, 0⟩
      = (5, { Primitive.clear with _type := field_type_word 0 (8 * 8192) 8 }, ⟨0, 0⟩)
    ∧ 0 ≤ field_type_word 0 (8 * 8192) 8
    ∧ (type_and (field_type_word 0 (8 * 8192) 8) FIELD_OFFSET_MASK) >>> FIELD_OFFSET_SHIFT = 0
    ∧ (type_and (field_type_word 0 (8 * 8192) 8) FIELD_PROTO_MASK) >>> FIELD_PROTO_SHIFT = 1
    ∧ configure true sample_env ["allow ip[8192] = 0"] 1 ⟨0, 0⟩
      = some ((0 : Int), ([[Expr.route (Expr.route
          (Expr.and (Expr.leaf 4 0 0xFF1F0000) (Expr.leaf 64 0 0xFF)) 0 FAILURE) (-1) (-1)]]
            : Builder), (⟨0, 0⟩ : ErrorHandler))
    ∧ configure true sample_env ["allow ip[9] = 6"] 1 ⟨0, 0⟩
      = some ((0 : Int), ([[Expr.route (Expr.route (Expr.leaf 8 0x600 0xFF00) 0 FAILURE)
          (-1) (-1)]] : Builder), (⟨0, 0⟩ : ErrorHandler)) := by
  have hc := (parse_brackets_contract env prim words pos errh P L hnone hclose hparse
    (by omega) (by omega) (by omega) (by omega)).2.1 hfit
  have ht : 0 ≤ (if prim._transp_proto = UNKNOWN then 0 else prim._transp_proto)
      ∧ (if prim._transp_proto = UNKNOWN then 0 else prim._transp_proto) < 512 := by
    rcases htransp with h | h
    · rw [if_pos h]; omega
    · by_cases hu : prim._transp_proto = UNKNOWN
      · rw [if_pos hu]; omega
      · rw [if_neg hu]; exact h
  have hd := field_type_word_bytes _ P L ht.1 ht.2 hP1 hP2 hfit.1 hfit.2.1
  refine ⟨⟨hc.2, ?_, ?_, ?_, ?_, ?_, ?_, ?_, by omega⟩, by decide, by decide, by decide,
    by decide, by decide, by decide⟩
  · rw [hc.1]; exact hd.1
  · rw [hc.1]; exact field_type_word_flag _ _ _
  · rw [hc.1]; exact hd.2.1
  · rw [hc.1]; exact hd.2.2.1
  · rw [hc.1]; exact hd.2.2.2.1
  · rw [hc.1]; exact hd.2.2.2.2.1
  · rw [hc.1]; exact hd.2.2.2.2.2

theorem bitfield_offset_overflow_witness :
    ((parse_brackets sample_env Primitive.clear ["allow", "ip", "[", "9", "]", "=", "6"] 2
        ⟨0, 0⟩).2.2 = ⟨0, 0⟩
      ∧ 0 ≤ (parse_brackets sample_env Primitive.clear ["allow", "ip", "[", "9", "]", "=", "6"]
          2 ⟨0, 0⟩).2.1._type
      ∧ type_and (parse_brackets sample_env Primitive.clear
          ["allow", "ip", "[", "9", "]", "=", "6"] 2 ⟨0, 0⟩).2.1._type TYPE_FIELD ≠ 0
      ∧ (((type_and (parse_brackets sample_env Primitive.clear
          ["allow", "ip", "[", "9", "]", "=", "6"] 2 ⟨0, 0⟩).2.1._type FIELD_OFFSET_MASK)
            >>> FIELD_OFFSET_SHIFT : Nat) : Int) = 8 * 9
      ∧ (((type_and (parse_brackets sample_env Primitive.clear
          ["allow", "ip", "[", "9", "]", "=", "6"] 2 ⟨0, 0⟩).2.1._type FIELD_LENGTH_MASK)
            >>> FIELD_LENGTH_SHIFT + 1 : Nat) : Int) = 8 * 1
      ∧ (((type_and (parse_brackets sample_env Primitive.clear
          ["allow", "ip", "[", "9", "]", "=", "6"] 2 ⟨0, 0⟩).2.1._type FIELD_PROTO_MASK)
            >>> FIELD_PROTO_SHIFT : Nat) : Int)
        = (if Primitive.clear._transp_proto = UNKNOWN then 0
            else Primitive.clear._transp_proto)
      ∧ ((((type_and (parse_brackets sample_env Primitive.clear
          ["allow", "ip", "[", "9", "]", "=", "6"] 2 ⟨0, 0⟩).2.1._type FIELD_OFFSET_MASK)
            >>> FIELD_OFFSET_SHIFT >>> 3) &&& (2 ^ 32 - 4) : Nat) : Int) = 4 * (9 / 4)
      ∧ ((((type_and (parse_brackets sample_env Primitive.clear
          ["allow", "ip", "[", "9", "]", "=", "6"] 2 ⟨0, 0⟩).2.1._type FIELD_OFFSET_MASK)
            >>> FIELD_OFFSET_SHIFT) &&& 0x1F : Nat) : Int) = 8 * (9 % 4)
      ∧ (8 : Int) * (9 % 4) + 8 * 1 ≤ 32) :=
  (bitfield_offset_overflow sample_env Primitive.clear ["allow", "ip", "[", "9", "]", "=", "6"]
    2 ⟨0, 0⟩ 9 1 (by decide) (by decide) (by decide) (by decide) (by decide) (by decide)
    (by decide)).1

/-! ## The parser stays inside the word list -/

theorem collect_brackets_pos (env : Env) (words : List String) :
    ∀ (fuel pos : Nat) (combination : List Char), pos ≤ words.length →
      pos ≤ (collect_brackets env words fuel pos combination).1
        ∧ (collect_brackets env words fuel pos combination).1 ≤ words.length := by
  intro fuel
  induction fuel with
  | zero => intro pos c h; exact ⟨Nat.le_refl _, h⟩
  | succ n ih =>
    intro pos c h
    unfold collect_brackets
    split_ifs with hc
    · have hi := ih (pos + 1) (c ++ (word_at env words pos).data) (by omega)
      exact ⟨by omega, hi.2⟩
    · exact ⟨Nat.le_refl _, h⟩

theorem parse_brackets_pos (env : Env) (prim : Primitive) (words : List String) (pos : Nat)
    (errh : ErrorHandler) (h : pos + 1 ≤ words.length) :
    pos + 1 ≤ (parse_brackets env prim words pos errh).1
      ∧ (parse_brackets env prim words pos errh).1 ≤ words.length := by
  have hb := collect_brackets_pos env words words.length (pos + 1) [] h
  unfold parse_brackets
  simp only []
  split_ifs with hc
  · exact ⟨Nat.le_refl _, h⟩
  · cases hp : parse_combination env (collect_brackets env words words.length (pos + 1) []).2 with
    | none => simp only []; omega
    | some v => simp only []; omega

theorem collect_qualifiers_pos (env : Env) (words : List String) :
    ∀ (fuel pos : Nat) (prim : Primitive) (negated : Bool) (errh : ErrorHandler),
      pos ≤ words.length →
      pos ≤ (collect_qualifiers env words fuel pos prim negated errh).1
        ∧ (collect_qualifiers env words fuel pos prim negated errh).1 ≤ words.length := by
  intro fuel
  induction fuel with
  | zero => intro pos prim negated errh h; exact ⟨Nat.le_refl _, h⟩
  | succ n ih =>
    intro pos prim negated errh h
    unfold collect_qualifiers
    simp only []
    split_ifs with h1 h2 h3 h4 h5 h6 h7 h8 h9 h10 h11
    all_goals first
      | exact ⟨Nat.le_refl _, h⟩
      | exact ⟨le_trans (by omega) (ih (pos + 1) _ _ _ (by omega)).1,
          (ih (pos + 1) _ _ _ (by omega)).2⟩
      | exact ⟨le_trans (by omega) (ih (pos + 2 + 1) _ _ _ (by omega)).1,
          (ih (pos + 2 + 1) _ _ _ (by omega)).2⟩

theorem word_before_last_ne (env : Env) (words : List String) (pos : Nat)
    (h : word_before_last env words pos ≠ "") : pos + 1 < words.length := by
  unfold word_before_last at h
  split_ifs at h with hc
  · exact absurd rfl h
  · omega

theorem optional_brackets_pos (env : Env) (words : List String) (first_pos pos : Nat)
    (prim : Primitive) (errh : ErrorHandler) (h : pos ≤ words.length) :
    pos ≤ (optional_brackets env words first_pos pos prim errh).1
      ∧ (optional_brackets env words first_pos pos prim errh).1 ≤ words.length
      ∧ (optional_brackets env words first_pos pos prim errh).2.2.2
        = word_before_last env words (optional_brackets env words first_pos pos prim errh).1 := by
  unfold optional_brackets
  simp only []
  split_ifs with hc
  · have hw := word_before_last_ne env words pos (by rw [hc.1]; decide)
    have hb := parse_brackets_pos env prim words pos errh (by omega)
    exact ⟨by omega, hb.2, rfl⟩
  · exact ⟨Nat.le_refl _, h, rfl⟩

theorem optional_bitmask_pos (env : Env) (words : List String) (pos : Nat) (wd : String)
    (errh : ErrorHandler) (h : pos ≤ words.length) (hwd : wd = word_before_last env words pos) :
    pos ≤ (optional_bitmask env words pos wd errh).1
      ∧ (optional_bitmask env words pos wd errh).1 ≤ words.length
      ∧ (optional_bitmask env words pos wd errh).2.1
        = word_before_last env words (optional_bitmask env words pos wd errh).1 := by
  unfold optional_bitmask
  by_cases hc : wd = "&" ∧ (pos : Int) < (words.length : Int) - 1
      ∧ (env.cp_unsigned (word_at env words (pos + 1))).isSome
  · rw [if_pos hc]
    exact ⟨by dsimp only; omega, by dsimp only; omega, rfl⟩
  · rw [if_neg hc]
    exact ⟨Nat.le_refl _, h, hwd⟩

theorem optional_relop_pos (env : Env) (words : List String) (prim : Primitive) (pos : Nat)
    (wd : String) (h : pos ≤ words.length) (hwd : wd = word_before_last env words pos) :
    pos ≤ (optional_relop prim wd pos).2 ∧ (optional_relop prim wd pos).2 ≤ words.length := by
  unfold optional_relop
  split_ifs with h1 h2 h3 h4 h5 h6
  all_goals first
    | exact ⟨Nat.le_refl _, h⟩
    | (have hw := word_before_last_ne env words pos (by rw [← hwd]; first
          | (rcases h1 with h1 | h1 <;> rw [h1] <;> decide)
          | (rw [h2]; decide) | (rw [h3]; decide) | (rw [h4]; decide) | (rw [h5]; decide)
          | (rw [h6]; decide))
       exact ⟨by simp, by simp; omega⟩)

theorem collect_data_pos (le : Bool) (env : Env) (words : List String) (pos : Nat)
    (prim : Primitive) (errh : ErrorHandler) (h : pos ≤ words.length) :
    pos ≤ (collect_data le env words pos prim errh).1
      ∧ (collect_data le env words pos prim errh).1 ≤ words.length := by
  unfold collect_data
  by_cases h1 : pos < words.length
  · rw [if_pos h1]
    dsimp only
    repeat' split
    all_goals (constructor <;> dsimp only <;> omega)
  · rw [if_neg h1]
    exact ⟨Nat.le_refl _, h⟩

theorem parse_primitive_pos (le : Bool) (env : Env) (words : List String) (pos : Nat)
    (negated : Bool) (st : PState) (h : pos ≤ words.length) :
    pos ≤ (parse_primitive le env words pos negated st).1
      ∧ (parse_primitive le env words pos negated st).1 ≤ words.length := by
  have hq := collect_qualifiers_pos env words words.length pos Primitive.clear negated st.errh h
  unfold parse_primitive
  dsimp only
  generalize collect_qualifiers env words words.length pos Primitive.clear negated st.errh = q at hq
  have hb := optional_brackets_pos env words pos q.1 q.2.1 q.2.2.2 hq.2
  generalize optional_brackets env words pos q.1 q.2.1 q.2.2.2 = b at hb
  have hm := optional_bitmask_pos env words b.1 b.2.2.2 b.2.2.1 hb.2.1 hb.2.2
  generalize optional_bitmask env words b.1 b.2.2.2 b.2.2.1 = m at hm
  have hr := optional_relop_pos env words b.2.1 m.1 m.2.1 hm.2.1 hm.2.2
  generalize optional_relop b.2.1 m.2.1 m.1 = r at hr
  have hd := collect_data_pos le env words r.2 r.1 m.2.2.2 hr.2
  generalize collect_data le env words r.2 r.1 m.2.2.2 = d at hd
  split_ifs <;> dsimp only <;> omega

/-! ## The parser terminates -/

/-- With enough fuel for the words that are left, every parsing function
returns a position between its start position and the end of the list. -/
theorem parser_total_all (le : Bool) (env : Env) (words : List String) : ∀ (fuel : Nat),
    (∀ (pos : Nat) (negated : Bool) (st : PState), pos ≤ words.length →
      7 * (words.length - pos) + 1 ≤ fuel →
      ∃ q st', parse_factor le env words fuel pos negated st = some (q, st')
        ∧ pos ≤ q ∧ q ≤ words.length) ∧
    (∀ (pos : Nat) (blank_ok : Bool) (st : PState), pos ≤ words.length →
      7 * (words.length - pos) + 2 ≤ fuel →
      ∃ q b st', parse_term_loop le env words fuel pos blank_ok st = some (q, b, st')
        ∧ pos ≤ q ∧ q ≤ words.length) ∧
    (∀ (pos : Nat) (st : PState), pos ≤ words.length →
      7 * (words.length - pos) + 3 ≤ fuel →
      ∃ q st', parse_term le env words fuel pos st = some (q, st')
        ∧ pos ≤ q ∧ q ≤ words.length) ∧
    (∀ (pos : Nat) (st : PState), pos ≤ words.length →
      7 * (words.length - pos) + 4 ≤ fuel →
      ∃ q st', parse_orexpr_loop le env words fuel pos st = some (q, st')
        ∧ pos ≤ q ∧ q ≤ words.length) ∧
    (∀ (pos : Nat) (st : PState), pos ≤ words.length →
      7 * (words.length - pos) + 5 ≤ fuel →
      ∃ q st', parse_orexpr le env words fuel pos st = some (q, st')
        ∧ pos ≤ q ∧ q ≤ words.length) ∧
    (∀ (pos : Nat) (st : PState), pos ≤ words.length →
      7 * (words.length - pos) + 6 ≤ fuel →
      ∃ q st', parse_expr_loop le env words fuel pos st = some (q, st')
        ∧ pos ≤ q ∧ q ≤ words.length) ∧
    (∀ (pos : Nat) (st : PState), pos ≤ words.length →
      7 * (words.length - pos) + 7 ≤ fuel →
      ∃ q st', parse_expr le env words fuel pos st = some (q, st')
        ∧ pos ≤ q ∧ q ≤ words.length) := by
  intro fuel
  induction fuel with
  | zero =>
    refine ⟨?_, ?_, ?_, ?_, ?_, ?_, ?_⟩ <;> intros <;> omega
  | succ n ih =>
    obtain ⟨ihF, ihTL, ihT, ihOL, ihO, ihEL, ihE⟩ := ih
    refine ⟨?_, ?_, ?_, ?_, ?_, ?_, ?_⟩
    · -- parse_factor
      intro pos negated st hp hf
      rw [parse_factor]
      by_cases h1 : pos ≥ words.length ∨ word_at env words pos = ")"
          ∨ word_at env words pos = "||" ∨ word_at env words pos = "or"
          ∨ word_at env words pos = "?" ∨ word_at env words pos = ":"
      · rw [if_pos h1]
        exact ⟨_, _, rfl, Nat.le_refl _, hp⟩
      rw [if_neg h1]
      have hlt : pos < words.length := by
        by_contra hc
        exact h1 (Or.inl (by omega))
      by_cases h2 : word_at env words pos = "true"
      · rw [if_pos h2]
        exact ⟨_, _, rfl, by omega, by omega⟩
      rw [if_neg h2]
      by_cases h3 : word_at env words pos = "false"
      · rw [if_pos h3]
        exact ⟨_, _, rfl, by omega, by omega⟩
      rw [if_neg h3]
      by_cases h4 : word_at env words pos = "not" ∨ word_at env words pos = "!"
      · rw [if_pos h4]
        obtain ⟨q, st', he, hq1, hq2⟩ := ihF (pos + 1) (!negated) st (by omega) (by omega)
        rw [he]
        exact ⟨_, _, rfl, by omega, hq2⟩
      rw [if_neg h4]
      by_cases h5 : word_at env words pos = "("
      · rw [if_pos h5]
        obtain ⟨q, st', he, hq1, hq2⟩ := ihE (pos + 1) st (by omega) (by omega)
        rw [he]
        dsimp only
        refine ⟨_, _, rfl, ?_, ?_⟩
        · split_ifs <;> omega
        · split_ifs with hm
          · exact hq2
          · simp at hm
            omega
      rw [if_neg h5]
      have hpp := parse_primitive_pos le env words pos negated st hp
      exact ⟨_, _, rfl, hpp.1, hpp.2⟩
    · -- parse_term_loop
      intro pos blank_ok st hp hf
      rw [parse_term_loop]
      obtain ⟨next, st', he, hq1, hq2⟩ := ihF pos false st hp (by omega)
      rw [he]
      dsimp only
      split_ifs with h1 h2
      · exact ⟨_, _, _, rfl, Nat.le_refl _, hp⟩
      · obtain ⟨q, b, st2, he2, hq3, hq4⟩ := ihTL (next + 1) false st' (by omega) (by omega)
        exact ⟨q, b, st2, he2, by omega, hq4⟩
      · obtain ⟨q, b, st2, he2, hq3, hq4⟩ := ihTL next true st' (by omega) (by omega)
        exact ⟨q, b, st2, he2, by omega, hq4⟩
    · -- parse_term
      intro pos st hp hf
      rw [parse_term]
      obtain ⟨q, b, st', he, hq1, hq2⟩ := ihTL pos false
        { st with tree := start_expr_subtree st.tree } hp (by omega)
      rw [he]
      exact ⟨_, _, rfl, hq1, hq2⟩
    · -- parse_orexpr_loop
      intro pos st hp hf
      rw [parse_orexpr_loop]
      obtain ⟨next, st', he, hq1, hq2⟩ := ihT pos st hp (by omega)
      rw [he]
      dsimp only
      split_ifs with h1 h2
      · exact ⟨_, _, rfl, hq1, hq2⟩
      · obtain ⟨q, st2, he2, hq3, hq4⟩ := ihOL (next + 1) st' (by omega) (by omega)
        exact ⟨q, st2, he2, by omega, hq4⟩
      · exact ⟨_, _, rfl, hq1, hq2⟩
    · -- parse_orexpr
      intro pos st hp hf
      rw [parse_orexpr]
      obtain ⟨q, st', he, hq1, hq2⟩ := ihOL pos
        { st with tree := start_expr_subtree st.tree } hp (by omega)
      rw [he]
      exact ⟨_, _, rfl, hq1, hq2⟩
    · -- parse_expr_loop
      intro pos st hp hf
      rw [parse_expr_loop]
      obtain ⟨next, st', he, hq1, hq2⟩ := ihO pos st hp (by omega)
      rw [he]
      dsimp only
      split_ifs with h1 h2
      · exact ⟨_, _, rfl, hq1, hq2⟩
      · exact ⟨_, _, rfl, hq1, hq2⟩
      · obtain ⟨q, st2, he2, hq3, hq4⟩ := ihE (next + 1) st' (by omega) (by omega)
        rw [he2]
        dsimp only
        split_ifs with h3
        · obtain ⟨q3, st3, he3, hq5, hq6⟩ := ihEL (q + 1) st2 (by omega) (by omega)
          exact ⟨q3, st3, he3, by omega, hq6⟩
        · exact ⟨_, _, rfl, by omega, hq4⟩
    · -- parse_expr
      intro pos st hp hf
      rw [parse_expr]
      obtain ⟨q, st', he, hq1, hq2⟩ := ihEL pos
        { st with tree := start_expr_subtree st.tree } hp (by omega)
      rw [he]
      exact ⟨_, _, rfl, hq1, hq2⟩

/-! ## The parser reads no word outside the list

A read of `words[i]` with `i` outside the vector gives `env.past_end` in the
model; the result of every parsing function is the same whatever that string
is, so no such read is ever used. -/

theorem word_at_junk (env : Env) (junk : String) (words : List String) (pos : Nat)
    (h : pos < words.length) :
    word_at (env.with_past_end junk) words pos = word_at env words pos := by
  unfold word_at
  rw [List.getD_eq_getElem _ _ h, List.getD_eq_getElem _ _ h]

theorem lookup_junk (env : Env) (junk : String) (word : String) (type proto : Int) (data : Nat)
    (report : Bool) (errh : ErrorHandler) :
    lookup (env.with_past_end junk) word type proto data report errh
      = lookup env word type proto data report errh := rfl

theorem parse_combination_junk (env : Env) (junk : String) (c : List Char) :
    parse_combination (env.with_past_end junk) c = parse_combination env c := rfl

theorem word_before_last_junk (env : Env) (junk : String) (words : List String) (pos : Nat) :
    word_before_last (env.with_past_end junk) words pos = word_before_last env words pos := by
  unfold word_before_last
  by_cases h : (pos : Int) ≥ (words.length : Int) - 1
  · rw [if_pos h, if_pos h]
  · rw [if_neg h, if_neg h, word_at_junk env junk words pos (by omega)]

theorem collect_brackets_junk (env : Env) (junk : String) (words : List String) :
    ∀ (fuel pos : Nat) (combination : List Char),
      collect_brackets (env.with_past_end junk) words fuel pos combination
        = collect_brackets env words fuel pos combination := by
  intro fuel
  induction fuel with
  | zero => intro pos c; rfl
  | succ n ih =>
    intro pos c
    unfold collect_brackets
    by_cases h : pos < words.length
    · rw [word_at_junk env junk words pos h, ih]
    · rw [if_neg (fun hc => h hc.1), if_neg (fun hc => h hc.1)]

theorem parse_brackets_junk (env : Env) (junk : String) (prim : Primitive) (words : List String)
    (pos : Nat) (errh : ErrorHandler) :
    parse_brackets (env.with_past_end junk) prim words pos errh
      = parse_brackets env prim words pos errh := by
  unfold parse_brackets
  simp only [collect_brackets_junk, parse_combination_junk]

theorem optional_brackets_junk (env : Env) (junk : String) (words : List String)
    (first_pos pos : Nat) (prim : Primitive) (errh : ErrorHandler) :
    optional_brackets (env.with_past_end junk) words first_pos pos prim errh
      = optional_brackets env words first_pos pos prim errh := by
  unfold optional_brackets
  simp only [word_before_last_junk, parse_brackets_junk]

theorem optional_bitmask_junk (env : Env) (junk : String) (words : List String) (pos : Nat)
    (wd : String) (errh : ErrorHandler) :
    optional_bitmask (env.with_past_end junk) words pos wd errh
      = optional_bitmask env words pos wd errh := by
  unfold optional_bitmask
  have hc : (env.with_past_end junk).cp_unsigned = env.cp_unsigned := rfl
  by_cases h : (pos : Int) < (words.length : Int) - 1
  · rw [word_at_junk env junk words (pos + 1) (by omega), word_before_last_junk, hc]
  · rw [if_neg (fun hc => h hc.2.1), if_neg (fun hc => h hc.2.1)]

theorem collect_data_junk (le : Bool) (env : Env) (junk : String) (words : List String)
    (pos : Nat) (prim : Primitive) (errh : ErrorHandler) :
    collect_data le (env.with_past_end junk) words pos prim errh
      = collect_data le env words pos prim errh := by
  unfold collect_data
  have h1 : (env.with_past_end junk).cp_integer = env.cp_integer := rfl
  have h2 : (env.with_past_end junk).cp_ip_address = env.cp_ip_address := rfl
  have h3 : Env.cp_ip_prefix (env.with_past_end junk) = env.cp_ip_prefix := rfl
  by_cases h : pos < words.length
  · rw [if_pos h, if_pos h, word_at_junk env junk words pos h]
    simp only [lookup_junk, h1, h2, h3]
    by_cases hm : ((pos + 1 : Nat) : Int) < (words.length : Int) - 1
    · rw [word_at_junk env junk words (pos + 1) (by omega),
        word_at_junk env junk words (pos + 1 + 1) (by omega)]
    · have e : ∀ (A B : Prop), (((pos + 1 : Nat) : Int) < (words.length : Int) - 1 ∧ A ∧ B)
          = False := fun A B => eq_false (fun hc => hm hc.1)
      simp only [e, if_false]
  · rw [if_neg h, if_neg h]

theorem collect_qualifiers_junk (env : Env) (junk : String) (words : List String) :
    ∀ (fuel pos : Nat) (prim : Primitive) (negated : Bool) (errh : ErrorHandler),
      collect_qualifiers (env.with_past_end junk) words fuel pos prim negated errh
        = collect_qualifiers env words fuel pos prim negated errh := by
  intro fuel
  induction fuel with
  | zero => intro pos prim negated errh; rfl
  | succ n ih =>
    intro pos prim negated errh
    unfold collect_qualifiers
    by_cases h : pos < words.length
    · rw [if_pos h, if_pos h, word_at_junk env junk words pos h]
      simp only [lookup_junk, ih]
      by_cases h2 : (pos : Int) < (words.length : Int) - 2
      · rw [word_at_junk env junk words (pos + 2) (by omega),
          word_at_junk env junk words (pos + 1) (by omega)]
      · have e : ∀ (A : Prop), ((pos : Int) < (words.length : Int) - 2 ∧ A) = False :=
          fun A => eq_false (fun hc => h2 hc.1)
        simp only [e, if_false]
    · rw [if_neg h, if_neg h]

theorem parse_primitive_junk (le : Bool) (env : Env) (junk : String) (words : List String)
    (pos : Nat) (negated : Bool) (st : PState) :
    parse_primitive le (env.with_past_end junk) words pos negated st
      = parse_primitive le env words pos negated st := by
  unfold parse_primitive
  simp only [collect_qualifiers_junk, optional_brackets_junk, optional_bitmask_junk,
    collect_data_junk]

/-- No parsing function depends on what a read past the end of the word list
would give. -/
theorem parser_junk_all (le : Bool) (env : Env) (junk : String) (words : List String) :
    ∀ (fuel : Nat),
    (∀ (pos : Nat) (negated : Bool) (st : PState),
      parse_factor le (env.with_past_end junk) words fuel pos negated st
        = parse_factor le env words fuel pos negated st) ∧
    (∀ (pos : Nat) (blank_ok : Bool) (st : PState),
      parse_term_loop le (env.with_past_end junk) words fuel pos blank_ok st
        = parse_term_loop le env words fuel pos blank_ok st) ∧
    (∀ (pos : Nat) (st : PState),
      parse_term le (env.with_past_end junk) words fuel pos st
        = parse_term le env words fuel pos st) ∧
    (∀ (pos : Nat) (st : PState),
      parse_orexpr_loop le (env.with_past_end junk) words fuel pos st
        = parse_orexpr_loop le env words fuel pos st) ∧
    (∀ (pos : Nat) (st : PState),
      parse_orexpr le (env.with_past_end junk) words fuel pos st
        = parse_orexpr le env words fuel pos st) ∧
    (∀ (pos : Nat) (st : PState),
      parse_expr_loop le (env.with_past_end junk) words fuel pos st
        = parse_expr_loop le env words fuel pos st) ∧
    (∀ (pos : Nat) (st : PState),
      parse_expr le (env.with_past_end junk) words fuel pos st
        = parse_expr le env words fuel pos st) := by
  intro fuel
  induction fuel with
  | zero =>
    refine ⟨?_, ?_, ?_, ?_, ?_, ?_, ?_⟩ <;> intros <;> rfl
  | succ n ih =>
    obtain ⟨ihF, ihTL, ihT, ihOL, ihO, ihEL, ihE⟩ := ih
    refine ⟨?_, ?_, ?_, ?_, ?_, ?_, ?_⟩
    · -- parse_factor
      intro pos negated st
      rw [parse_factor, parse_factor]
      by_cases h : pos < words.length
      · rw [word_at_junk env junk words pos h]
        simp only [ihF, ihE, parse_primitive_junk]
        cases he : parse_expr le env words n (pos + 1) st with
        | none => rfl
        | some r =>
          obtain ⟨next, st'⟩ := r
          dsimp only
          by_cases h2 : next < words.length
          · rw [word_at_junk env junk words next h2]
          · have e1 : decide (next ≥ words.length) = true := by simp; omega
            simp only [e1, Bool.true_or]
      · have e1 : pos ≥ words.length := by omega
        rw [if_pos (Or.inl e1), if_pos (Or.inl e1)]
    · -- parse_term_loop
      intro pos blank_ok st
      rw [parse_term_loop, parse_term_loop, ihF]
      cases he : parse_factor le env words n pos false st with
      | none => rfl
      | some r =>
        obtain ⟨next, st'⟩ := r
        dsimp only
        simp only [ihTL]
        by_cases h2 : next < words.length
        · rw [word_at_junk env junk words next h2]
        · have e : ∀ (A : Prop), (next < words.length ∧ A) = False :=
            fun A => eq_false (fun hc => h2 hc.1)
          simp only [e]
    · -- parse_term
      intro pos st
      rw [parse_term, parse_term, ihTL]
    · -- parse_orexpr_loop
      intro pos st
      rw [parse_orexpr_loop, parse_orexpr_loop, ihT]
      cases he : parse_term le env words n pos st with
      | none => rfl
      | some r =>
        obtain ⟨next, st'⟩ := r
        dsimp only
        simp only [ihOL]
        by_cases h2 : next < words.length
        · rw [word_at_junk env junk words next h2]
        · have e1 : next ≥ words.length := by omega
          rw [if_pos e1, if_pos e1]
    · -- parse_orexpr
      intro pos st
      rw [parse_orexpr, parse_orexpr, ihOL]
    · -- parse_expr_loop
      intro pos st
      rw [parse_expr_loop, parse_expr_loop, ihO]
      cases he : parse_orexpr le env words n pos st with
      | none => rfl
      | some r =>
        obtain ⟨next, st'⟩ := r
        dsimp only
        simp only [ihE, ihEL]
        by_cases h2 : next < words.length
        · rw [word_at_junk env junk words next h2]
          cases he2 : parse_expr le env words n (next + 1) st' with
          | none => rfl
          | some r2 =>
            obtain ⟨q, st2⟩ := r2
            dsimp only
            by_cases h3 : q < words.length
            · rw [word_at_junk env junk words q h3]
            · have e : ∀ (A B : Prop), (A ∧ q < words.length ∧ B) = False :=
                fun A B => eq_false (fun hc => h3 hc.2.1)
              simp only [e]
        · have e1 : next ≥ words.length := by omega
          rw [if_pos e1, if_pos e1]
    · -- parse_expr
      intro pos st
      rw [parse_expr, parse_expr, ihEL]

/-! ## Where `parse_term` stops -/

/-- The loop of `parse_term` ends at a position where the last call of
`parse_factor` made no progress. -/
theorem parse_term_loop_stop (le : Bool) (env : Env) (words : List String) :
    ∀ (fuel pos : Nat) (blank_ok : Bool) (st : PState) (q : Nat) (b : Bool) (st' : PState),
      parse_term_loop le env words fuel pos blank_ok st = some (q, b, st') →
      ∃ f st0, parse_factor le env words f q false st0 = some (q, st') := by
  intro fuel
  induction fuel with
  | zero =>
    intro pos blank_ok st q b st' h
    rw [parse_term_loop] at h
    exact absurd h (by simp)
  | succ n ih =>
    intro pos blank_ok st q b st' h
    rw [parse_term_loop] at h
    cases he : parse_factor le env words n pos false st with
    | none =>
      rw [he] at h
      exact absurd h (by simp)
    | some r =>
      obtain ⟨next, st1⟩ := r
      rw [he] at h
      dsimp only at h
      by_cases h1 : next = pos
      · rw [if_pos h1] at h
        simp only [Option.some.injEq, Prod.mk.injEq] at h
        obtain ⟨hq, _, hs⟩ := h
        subst h1
        subst hq
        subst hs
        exact ⟨n, st, he⟩
      · rw [if_neg h1] at h
        split_ifs at h
        · exact ih _ _ _ _ _ _ h
        · exact ih _ _ _ _ _ _ h

theorem parse_term_stop (le : Bool) (env : Env) (words : List String) (fuel pos : Nat)
    (st : PState) (q : Nat) (st' : PState)
    (h : parse_term le env words fuel pos st = some (q, st')) :
    ∃ f st0 st1, parse_factor le env words f q false st0 = some (q, st1) := by
  cases fuel with
  | zero =>
    rw [parse_term] at h
    exact absurd h (by simp)
  | succ n =>
    rw [parse_term] at h
    cases he : parse_term_loop le env words n pos false
        { st with tree := start_expr_subtree st.tree } with
    | none =>
      rw [he] at h
      exact absurd h (by simp)
    | some r =>
      obtain ⟨q2, b, st2⟩ := r
      rw [he] at h
      simp only [Option.some.injEq, Prod.mk.injEq] at h
      obtain ⟨f, st0, hf⟩ := parse_term_loop_stop le env words n pos false _ q2 b st2 he
      rw [h.1] at hf
      exact ⟨f, st0, st2, hf⟩

/-- One round of the loop of `parse_term`: it ends in this round exactly when
`parse_factor` returns the position it was given. -/
theorem parse_term_loop_step (le : Bool) (env : Env) (words : List String) (fuel pos : Nat)
    (blank_ok : Bool) (st : PState) (hp : pos ≤ words.length)
    (hf : 7 * (words.length - pos) + 1 ≤ fuel) :
    ∃ next st1, parse_factor le env words fuel pos false st = some (next, st1)
      ∧ (parse_term_loop le env words (fuel + 1) pos blank_ok st = some (pos, blank_ok, st1)
          ↔ next = pos) := by
  obtain ⟨next, st1, he, hq1, hq2⟩ := (parser_total_all le env words fuel).1 pos false st hp hf
  refine ⟨next, st1, he, ?_⟩
  rw [parse_term_loop, he]
  dsimp only
  by_cases h1 : next = pos
  · rw [if_pos h1]
    exact ⟨fun _ => h1, fun _ => rfl⟩
  · rw [if_neg h1]
    refine ⟨fun h => ?_, fun h => absurd h h1⟩
    exfalso
    have hmono : ∀ (p2 : Nat) (b2 : Bool), pos < p2 → p2 ≤ words.length →
        parse_term_loop le env words fuel p2 b2 st1 ≠ some (pos, blank_ok, st1) := by
      intro p2 b2 hlt hle hc
      obtain ⟨q, b, st2, he2, hq3, hq4⟩ :=
        (parser_total_all le env words fuel).2.1 p2 b2 st1 hle (by omega)
      rw [he2] at hc
      simp only [Option.some.injEq, Prod.mk.injEq] at hc
      omega
    split_ifs at h with h2
    · exact hmono (next + 1) false (by omega) (by omega) h
    · exact hmono next true (by omega) hq2 h

/-- C30: for every word list, every start position `p` inside it (or at its
end) and fuel enough for the words left, `parse_expr`, `parse_orexpr`,
`parse_term` and `parse_factor` return, at a position `q` with
`p ≤ q ≤ words.size()`; their results do not depend on what a read of the word
list past its end would give, so they use no such read; and the loop of
`parse_term` ends in a round exactly when `parse_factor` returns the position it
was given, so where `parse_term` stops `parse_factor` makes no progress. -/
theorem parser_total_in_bounds (le : Bool) (env : Env) (words : List String) (p fuel : Nat)
    (negated : Bool) (st : PState) (junk : String)
    (hp : p ≤ words.length) (hfuel : 7 * (words.length - p) + 7 ≤ fuel) :
    (∃ q st', parse_expr le env words fuel p st = some (q, st') ∧ p ≤ q ∧ q ≤ words.length)
    ∧ (∃ q st', parse_orexpr le env words fuel p st = some (q, st') ∧ p ≤ q ∧ q ≤ words.length)
    ∧ (∃ q st', parse_term le env words fuel p st = some (q, st') ∧ p ≤ q ∧ q ≤ words.length
        ∧ ∃ f st0 st1, parse_factor le env words f q false st0 = some (q, st1))
    ∧ (∃ q st', parse_factor le env words fuel p negated st = some (q, st')
        ∧ p ≤ q ∧ q ≤ words.length)
    ∧ parse_expr le (env.with_past_end junk) words fuel p st = parse_expr le env words fuel p st
    ∧ parse_orexpr le (env.with_past_end junk) words fuel p st
        = parse_orexpr le env words fuel p st
    ∧ parse_term le (env.with_past_end junk) words fuel p st = parse_term le env words fuel p st
    ∧ parse_factor le (env.with_past_end junk) words fuel p negated st
        = parse_factor le env words fuel p negated st
    ∧ (∀ (blank_ok : Bool), ∃ next st1,
        parse_factor le env words fuel p false st = some (next, st1)
        ∧ (parse_term_loop le env words (fuel + 1) p blank_ok st = some (p, blank_ok, st1)
            ↔ next = p)) := by
  have ht := parser_total_all le env words fuel
  have hj := parser_junk_all le env junk words fuel
  obtain ⟨q, st', he, hq1, hq2⟩ := ht.2.2.1 p st hp (by omega)
  exact ⟨ht.2.2.2.2.2.2 p st hp hfuel, ht.2.2.2.2.1 p st hp (by omega),
    ⟨q, st', he, hq1, hq2, parse_term_stop le env words fuel p st q st' he⟩,
    ht.1 p negated st hp (by omega), hj.2.2.2.2.2.2 p st, hj.2.2.2.2.1 p st, hj.2.2.1 p st,
    hj.1 p negated st,
    fun blank_ok => parse_term_loop_step le env words fuel p blank_ok st hp (by omega)⟩

theorem parser_total_in_bounds_witness :
    (∃ q st', parse_expr true sample_env ["allow", "tcp", "&&", "(", "dst", "port", "80", ")"] 63
          1 ⟨[[]], Primitive.clear, ⟨0, 0⟩⟩ = some (q, st') ∧ 1 ≤ q ∧ q ≤ 8)
    ∧ (∃ q st', parse_factor true sample_env
          ["allow", "tcp", "&&", "(", "dst", "port", "80", ")"] 63 1 false
          ⟨[[]], Primitive.clear, ⟨0, 0⟩⟩ = some (q, st') ∧ 1 ≤ q ∧ q ≤ 8) :=
  have h := parser_total_in_bounds true sample_env
    ["allow", "tcp", "&&", "(", "dst", "port", "80", ")"] 1 63 false
    ⟨[[]], Primitive.clear, ⟨0, 0⟩⟩ "junk" (by decide) (by decide)
  ⟨h.1, h.2.2.2.1⟩

/-! ## The error count never goes down -/

theorem error_ge (errh : ErrorHandler) : errh.nerrors ≤ errh.error.nerrors := by
  unfold ErrorHandler.error
  exact Nat.le_succ _

theorem warning_ge (errh : ErrorHandler) : errh.nerrors ≤ errh.warning.nerrors := by
  unfold ErrorHandler.warning
  exact Nat.le_refl _

theorem set_mask_errors (prim : Primitive) (full_mask shift provided_mask : Nat)
    (errh : ErrorHandler) :
    errh.nerrors ≤ (prim.set_mask full_mask shift provided_mask errh).2.2.nerrors := by
  unfold Primitive.set_mask
  dsimp only
  split_ifs <;> first | exact Nat.le_refl _ | exact error_ge _

theorem set_mask_or_fail_errors (prim : Primitive) (full_mask provided_mask : Nat)
    (errh : ErrorHandler) :
    (∀ e, set_mask_or_fail prim full_mask provided_mask errh = Except.error e →
      errh.nerrors ≤ e.2.nerrors)
    ∧ (∀ x, set_mask_or_fail prim full_mask provided_mask errh = Except.ok x →
      errh.nerrors ≤ x.2.nerrors) := by
  have h := set_mask_errors prim full_mask 0 provided_mask errh
  unfold set_mask_or_fail
  dsimp only
  constructor
  · intro e he
    split_ifs at he
    · cases he
      exact h
  · intro x hx
    split_ifs at hx
    · cases hx
      exact h

theorem check_host_errors (prim : Primitive) (provided_mask : Nat) (errh : ErrorHandler) :
    (∀ e, prim.check_host provided_mask errh = Except.error e → errh.nerrors ≤ e.2.nerrors)
    ∧ (∀ x, prim.check_host provided_mask errh = Except.ok x → errh.nerrors ≤ x.2.nerrors) := by
  have hE := error_ge errh
  unfold Primitive.check_host
  constructor
  · intro e he
    split_ifs at he <;> first
      | (cases he; exact hE)
      | (cases he; exact Nat.le_refl _)
  · intro x hx
    split_ifs at hx <;> first
      | (cases hx; exact hE)
      | (cases hx; exact Nat.le_refl _)

theorem check_net_errors (prim : Primitive) (provided_mask : Nat) (errh : ErrorHandler) :
    (∀ e, prim.check_net provided_mask errh = Except.error e → errh.nerrors ≤ e.2.nerrors)
    ∧ (∀ x, prim.check_net provided_mask errh = Except.ok x → errh.nerrors ≤ x.2.nerrors) := by
  have hE := error_ge errh
  unfold Primitive.check_net
  constructor
  · intro e he
    split_ifs at he <;> first
      | (cases he; exact hE)
      | (cases he; exact Nat.le_refl _)
  · intro x hx
    split_ifs at hx <;> first
      | (cases hx; exact hE)
      | (cases hx; exact Nat.le_refl _)

theorem check_tcpopt_errors (prim : Primitive) (provided_mask : Nat) (errh : ErrorHandler) :
    (∀ e, prim.check_tcpopt provided_mask errh = Except.error e → errh.nerrors ≤ e.2.nerrors)
    ∧ (∀ x, prim.check_tcpopt provided_mask errh = Except.ok x → errh.nerrors ≤ x.2.nerrors) := by
  have hE := error_ge errh
  unfold Primitive.check_tcpopt
  constructor
  · intro e he
    split_ifs at he <;> first
      | (cases he; exact hE)
      | (cases he; exact Nat.le_refl _)
  · intro x hx
    split_ifs at hx <;> first
      | (cases hx; exact hE)
      | (cases hx; exact Nat.le_refl _)

theorem check_ipce_errors (prim : Primitive) (errh : ErrorHandler) :
    (∀ e, prim.check_ipce errh = Except.error e → errh.nerrors ≤ e.2.nerrors)
    ∧ (∀ x, prim.check_ipce errh = Except.ok x → errh.nerrors ≤ x.2.nerrors) := by
  have hE := error_ge errh
  unfold Primitive.check_ipce
  constructor
  · intro e he
    split_ifs at he <;> first
      | (cases he; exact hE)
      | (cases he; exact Nat.le_refl _)
  · intro x hx
    split_ifs at hx <;> first
      | (cases hx; exact hE)
      | (cases hx; exact Nat.le_refl _)

theorem check_ipfrag_errors (prim : Primitive) (errh : ErrorHandler) :
    (∀ e, prim.check_ipfrag errh = Except.error e → errh.nerrors ≤ e.2.nerrors)
    ∧ (∀ x, prim.check_ipfrag errh = Except.ok x → errh.nerrors ≤ x.2.nerrors) := by
  have hE := error_ge errh
  unfold Primitive.check_ipfrag
  constructor
  · intro e he
    split_ifs at he <;> first
      | (cases he; exact hE)
      | (cases he; exact Nat.le_refl _)
  · intro x hx
    split_ifs at hx <;> first
      | (cases hx; exact hE)
      | (cases hx; exact Nat.le_refl _)

theorem check_ipunfrag_errors (prim : Primitive) (errh : ErrorHandler) :
    (∀ e, prim.check_ipunfrag errh = Except.error e → errh.nerrors ≤ e.2.nerrors)
    ∧ (∀ x, prim.check_ipunfrag errh = Except.ok x → errh.nerrors ≤ x.2.nerrors) := by
  have hE := error_ge errh
  unfold Primitive.check_ipunfrag
  constructor
  · intro e he
    split_ifs at he <;> first
      | (cases he; exact hE)
      | (cases he; exact Nat.le_refl _)
  · intro x hx
    split_ifs at hx <;> first
      | (cases hx; exact hE)
      | (cases hx; exact Nat.le_refl _)

theorem check_proto_errors (prim : Primitive) (provided_mask : Nat) (errh : ErrorHandler) :
    (∀ e, prim.check_proto provided_mask errh = Except.error e → errh.nerrors ≤ e.2.nerrors)
    ∧ (∀ x, prim.check_proto provided_mask errh = Except.ok x → errh.nerrors ≤ x.2.nerrors) := by
  have hE := error_ge errh
  have sm := set_mask_or_fail_errors prim.proto_operand 0xFF provided_mask errh
  unfold Primitive.check_proto
  constructor
  · intro e he
    split_ifs at he <;> first
      | (cases he; exact hE)
      | exact sm.1 e he
      | (cases hs : set_mask_or_fail prim.proto_operand 0xFF provided_mask errh with
         | error e2 => rw [hs] at he; cases he; exact sm.1 _ hs
         | ok x2 => rw [hs] at he; cases he)
  · intro x hx
    split_ifs at hx <;> first
      | (cases hx; exact hE)
      | (cases hx; exact Nat.le_refl _)
      | exact sm.2 x hx
      | (cases hs : set_mask_or_fail prim.proto_operand 0xFF provided_mask errh with
         | error e2 => rw [hs] at hx; cases hx
         | ok x2 => rw [hs] at hx; cases hx; first | exact sm.2 _ hs | exact sm.2 x2 hs)

theorem check_port_errors (prim : Primitive) (provided_mask : Nat) (errh : ErrorHandler) :
    (∀ e, prim.check_port provided_mask errh = Except.error e → errh.nerrors ≤ e.2.nerrors)
    ∧ (∀ x, prim.check_port provided_mask errh = Except.ok x → errh.nerrors ≤ x.2.nerrors) := by
  have hE := error_ge errh
  have sm := set_mask_or_fail_errors prim.port_operand 0xFFFF provided_mask errh
  unfold Primitive.check_port
  constructor
  · intro e he
    split_ifs at he <;> first
      | (cases he; exact hE)
      | exact sm.1 e he
      | (cases hs : set_mask_or_fail prim.port_operand 0xFFFF provided_mask errh with
         | error e2 => rw [hs] at he; cases he; exact sm.1 _ hs
         | ok x2 => rw [hs] at he; cases he)
  · intro x hx
    split_ifs at hx <;> first
      | (cases hx; exact hE)
      | (cases hx; exact Nat.le_refl _)
      | exact sm.2 x hx
      | (cases hs : set_mask_or_fail prim.port_operand 0xFFFF provided_mask errh with
         | error e2 => rw [hs] at hx; cases hx
         | ok x2 => rw [hs] at hx; cases hx; first | exact sm.2 _ hs | exact sm.2 x2 hs)

theorem check_ipect_errors (prim : Primitive) (provided_mask : Nat) (errh : ErrorHandler) :
    (∀ e, prim.check_ipect provided_mask errh = Except.error e → errh.nerrors ≤ e.2.nerrors)
    ∧ (∀ x, prim.check_ipect provided_mask errh = Except.ok x → errh.nerrors ≤ x.2.nerrors) := by
  have hE := error_ge errh
  have sm := set_mask_or_fail_errors prim.ipect_operand 0x3 provided_mask errh
  unfold Primitive.check_ipect
  constructor
  · intro e he
    split_ifs at he <;> first
      | (cases he; exact hE)
      | exact sm.1 e he
      | (cases hs : set_mask_or_fail prim.ipect_operand 0x3 provided_mask errh with
         | error e2 => rw [hs] at he; cases he; exact sm.1 _ hs
         | ok x2 => rw [hs] at he; cases he)
  · intro x hx
    split_ifs at hx <;> first
      | (cases hx; exact hE)
      | (cases hx; exact Nat.le_refl _)
      | exact sm.2 x hx
      | (cases hs : set_mask_or_fail prim.ipect_operand 0x3 provided_mask errh with
         | error e2 => rw [hs] at hx; cases hx
         | ok x2 => rw [hs] at hx; cases hx; first | exact sm.2 _ hs | exact sm.2 x2 hs)

theorem check_field_errors (prim : Primitive) (provided_mask : Nat) (errh : ErrorHandler) :
    (∀ e, prim.check_field provided_mask errh = Except.error e → errh.nerrors ≤ e.2.nerrors)
    ∧ (∀ x, prim.check_field provided_mask errh = Except.ok x → errh.nerrors ≤ x.2.nerrors) := by
  have hE := error_ge errh
  have sm := set_mask_or_fail_errors prim (field_mask prim._type) provided_mask errh
  unfold Primitive.check_field
  constructor
  · intro e he
    split_ifs at he <;> first
      | (cases he; exact hE)
      | exact sm.1 e he
      | (cases hs : set_mask_or_fail prim (field_mask prim._type) provided_mask errh with
         | error e2 => rw [hs] at he; cases he; exact sm.1 _ hs
         | ok x2 => rw [hs] at he; cases he)
  · intro x hx
    split_ifs at hx <;> first
      | (cases hx; exact hE)
      | (cases hx; exact Nat.le_refl _)
      | exact sm.2 x hx
      | (cases hs : set_mask_or_fail prim (field_mask prim._type) provided_mask errh with
         | error e2 => rw [hs] at hx; cases hx
         | ok x2 => rw [hs] at hx; cases hx; first | exact sm.2 _ hs | exact sm.2 x2 hs)

theorem check_agree_errors (prim : Primitive) (provided_mask : Nat) (errh : ErrorHandler) :
    (∀ e, prim.check_agree provided_mask errh = Except.error e → errh.nerrors ≤ e.2.nerrors)
    ∧ (∀ x, prim.check_agree provided_mask errh = Except.ok x → errh.nerrors ≤ x.2.nerrors) := by
  unfold Primitive.check_agree
  by_cases h1 : prim._type = TYPE_HOST
  · rw [if_pos h1]
    exact check_host_errors prim provided_mask errh
  rw [if_neg h1]
  by_cases h2 : prim._type = TYPE_NET
  · rw [if_pos h2]
    exact check_net_errors prim provided_mask errh
  rw [if_neg h2]
  by_cases h3 : prim._type = TYPE_PROTO
  · rw [if_pos h3]
    exact check_proto_errors prim provided_mask errh
  rw [if_neg h3]
  by_cases h4 : prim._type = TYPE_PORT
  · rw [if_pos h4]
    exact check_port_errors prim provided_mask errh
  rw [if_neg h4]
  by_cases h5 : prim._type = TYPE_TCPOPT
  · rw [if_pos h5]
    exact check_tcpopt_errors prim provided_mask errh
  rw [if_neg h5]
  by_cases h6 : prim._type = TYPE_IPECT
  · rw [if_pos h6]
    exact check_ipect_errors prim provided_mask errh
  rw [if_neg h6]
  by_cases h7 : prim._type = TYPE_IPCE
  · rw [if_pos h7]
    exact check_ipce_errors prim errh
  rw [if_neg h7]
  by_cases h8 : prim._type = TYPE_IPFRAG
  · rw [if_pos h8]
    exact check_ipfrag_errors prim errh
  rw [if_neg h8]
  by_cases h9 : prim._type = TYPE_IPUNFRAG
  · rw [if_pos h9]
    exact check_ipunfrag_errors prim errh
  rw [if_neg h9]
  by_cases h10 : type_and prim._type TYPE_FIELD ≠ 0
  · rw [if_pos h10]
    exact check_field_errors prim provided_mask errh
  rw [if_neg h10]
  constructor
  · intro e he
    cases he
  · intro x hx
    cases hx
    exact Nat.le_refl _

theorem check_infer_errors (p : Primitive) :
    ∀ (fuel : Nat) (prim : Primitive) (errh : ErrorHandler),
      (∀ e, Primitive.check_infer p fuel prim errh = Except.error e → errh.nerrors ≤ e.nerrors)
      ∧ (∀ x, Primitive.check_infer p fuel prim errh = Except.ok x →
        errh.nerrors ≤ x.2.nerrors) := by
  intro fuel
  induction fuel with
  | zero =>
    intro prim errh
    unfold Primitive.check_infer
    constructor
    · intro e he
      cases he
      exact error_ge errh
    · intro x hx
      cases hx
  | succ n ih =>
    intro prim errh
    have hE := error_ge errh
    unfold Primitive.check_infer
    constructor
    · intro e he
      split_ifs at he <;> first
        | (cases he; exact hE)
        | exact (ih _ _).1 e he
    · intro x hx
      split_ifs at hx <;> first
        | (cases hx; exact Nat.le_refl _)
        | exact (ih _ _).2 x hx

theorem check_errors (prim p : Primitive) (provided_mask : Nat) (errh : ErrorHandler) :
    errh.nerrors ≤ (prim.check p provided_mask errh).2.2.nerrors := by
  unfold Primitive.check
  split_ifs with h0
  · exact Nat.le_refl _
  · cases hs : prim.check_start p errh with
    | error e1 =>
      dsimp only
      unfold Primitive.check_start at hs
      split_ifs at hs
      · exact (check_infer_errors p 2 prim errh).1 e1 hs
    | ok r1 =>
      have h1 : errh.nerrors ≤ r1.2.nerrors := by
        unfold Primitive.check_start at hs
        split_ifs at hs
        · exact (check_infer_errors p 2 prim errh).2 r1 hs
        · cases hs
          exact Nat.le_refl _
      dsimp only
      cases ha : r1.1.check_agree provided_mask r1.2 with
      | error e =>
        dsimp only
        exact le_trans h1 ((check_agree_errors r1.1 provided_mask r1.2).1 e ha)
      | ok r2 =>
        dsimp only
        have h2 := (check_agree_errors r1.1 provided_mask r1.2).2 r2 ha
        unfold check_finish
        split_ifs <;> first
          | exact le_trans h1 h2
          | exact le_trans h1 (le_trans h2 (warning_ge _))

theorem lookup_errors (env : Env) (word : String) (type proto : Int) (data : Nat)
    (report : Bool) (errh : ErrorHandler) :
    errh.nerrors ≤ (lookup env word type proto data report errh).2.2.nerrors := by
  unfold lookup
  dsimp only
  split
  · exact Nat.le_refl _
  · split_ifs <;> first | exact Nat.le_refl _ | exact error_ge _

theorem set_type_errors (prim : Primitive) (x : Int) (errh : ErrorHandler) :
    errh.nerrors ≤ (prim.set_type x errh).2.nerrors := by
  unfold Primitive.set_type
  dsimp only
  split_ifs <;> first | exact Nat.le_refl _ | exact error_ge _

theorem set_srcdst_errors (prim : Primitive) (x : Int) (errh : ErrorHandler) :
    errh.nerrors ≤ (prim.set_srcdst x errh).2.nerrors := by
  unfold Primitive.set_srcdst
  dsimp only
  split_ifs <;> first | exact Nat.le_refl _ | exact error_ge _

theorem set_transp_proto_errors (prim : Primitive) (x : Int) (errh : ErrorHandler) :
    errh.nerrors ≤ (prim.set_transp_proto x errh).2.nerrors := by
  unfold Primitive.set_transp_proto
  dsimp only
  split_ifs <;> first | exact Nat.le_refl _ | exact error_ge _

set_option maxHeartbeats 1600000 in
theorem collect_qualifiers_errors (env : Env) (words : List String) :
    ∀ (fuel pos : Nat) (prim : Primitive) (negated : Bool) (errh : ErrorHandler),
      errh.nerrors ≤ (collect_qualifiers env words fuel pos prim negated errh).2.2.2.nerrors := by
  intro fuel
  induction fuel with
  | zero => intro pos prim negated errh; exact Nat.le_refl _
  | succ n ih =>
    intro pos prim negated errh
    unfold collect_qualifiers
    dsimp only
    split_ifs
    all_goals first
      | exact Nat.le_refl _
      | exact ih _ _ _ _
      | exact le_trans (set_srcdst_errors _ _ _) (ih _ _ _ _)
      | exact le_trans (set_transp_proto_errors _ _ _) (ih _ _ _ _)
      | exact le_trans (set_type_errors _ _ _) (ih _ _ _ _)
      | exact le_trans (le_trans (set_type_errors _ _ _) (set_transp_proto_errors _ _ _))
          (ih _ _ _ _)

theorem non_syntax_error_errors (prim : Primitive) (fieldpos len : Int) (errh : ErrorHandler) :
    errh.nerrors ≤ (non_syntax_error prim fieldpos len errh).2.nerrors := by
  unfold non_syntax_error
  dsimp only
  split_ifs <;> first | exact error_ge _ | exact set_type_errors _ _ _

theorem parse_brackets_errors (env : Env) (prim : Primitive) (words : List String) (pos : Nat)
    (errh : ErrorHandler) :
    errh.nerrors ≤ (parse_brackets env prim words pos errh).2.2.nerrors := by
  unfold parse_brackets
  dsimp only
  split_ifs
  · exact error_ge _
  · split
    · exact error_ge _
    · exact non_syntax_error_errors _ _ _ _

theorem optional_brackets_errors (env : Env) (words : List String) (first_pos pos : Nat)
    (prim : Primitive) (errh : ErrorHandler) :
    errh.nerrors ≤ (optional_brackets env words first_pos pos prim errh).2.2.1.nerrors := by
  unfold optional_brackets
  dsimp only
  split_ifs
  · exact parse_brackets_errors _ _ _ _ _
  · exact Nat.le_refl _

theorem optional_bitmask_errors (env : Env) (words : List String) (pos : Nat) (wd : String)
    (errh : ErrorHandler) :
    errh.nerrors ≤ (optional_bitmask env words pos wd errh).2.2.2.nerrors := by
  unfold optional_bitmask
  dsimp only
  split_ifs <;> first | exact Nat.le_refl _ | exact error_ge _

theorem collect_data_errors (le : Bool) (env : Env) (words : List String) (pos : Nat)
    (prim : Primitive) (errh : ErrorHandler) :
    errh.nerrors ≤ (collect_data le env words pos prim errh).2.2.nerrors := by
  have hl := lookup_errors env (word_at env words pos) prim._type prim._transp_proto 0 true errh
  unfold collect_data
  by_cases h1 : pos < words.length
  · rw [if_pos h1]
    dsimp only
    repeat' split
    all_goals first
      | exact hl
      | exact le_trans hl (error_ge _)
  · rw [if_neg h1]

theorem add_if_valid_errors (le : Bool) (prim prev_prim : Primitive) (provided_mask : Nat)
    (negated : Bool) (tree : Builder) (errh : ErrorHandler) :
    errh.nerrors ≤ (add_if_valid le prim prev_prim provided_mask negated tree errh).errh.nerrors := by
  have h := check_errors prim prev_prim provided_mask errh
  unfold add_if_valid
  dsimp only
  split_ifs <;> exact h

theorem parse_primitive_errors (le : Bool) (env : Env) (words : List String) (pos : Nat)
    (negated : Bool) (st : PState) :
    st.errh.nerrors ≤ (parse_primitive le env words pos negated st).2.errh.nerrors := by
  have hq := collect_qualifiers_errors env words words.length pos Primitive.clear negated st.errh
  unfold parse_primitive
  dsimp only
  generalize collect_qualifiers env words words.length pos Primitive.clear negated st.errh = q at hq
  have hb := optional_brackets_errors env words pos q.1 q.2.1 q.2.2.2
  generalize optional_brackets env words pos q.1 q.2.1 q.2.2.2 = b at hb
  have hm := optional_bitmask_errors env words b.1 b.2.2.2 b.2.2.1
  generalize optional_bitmask env words b.1 b.2.2.2 b.2.2.1 = m at hm
  generalize optional_relop b.2.1 m.2.1 m.1 = r
  have hd := collect_data_errors le env words r.2 r.1 m.2.2.2
  generalize collect_data le env words r.2 r.1 m.2.2.2 = d at hd
  have hchain : st.errh.nerrors ≤ d.2.2.nerrors := le_trans hq (le_trans hb (le_trans hm hd))
  split_ifs <;> first
    | exact le_trans hchain (error_ge _)
    | exact le_trans hchain (add_if_valid_errors _ _ _ _ _ _ _)

/-- No parsing function lowers the error count. -/
theorem parser_errors_all (le : Bool) (env : Env) (words : List String) : ∀ (fuel : Nat),
    (∀ (pos : Nat) (negated : Bool) (st : PState) (q : Nat) (st' : PState),
      parse_factor le env words fuel pos negated st = some (q, st') →
      st.errh.nerrors ≤ st'.errh.nerrors) ∧
    (∀ (pos : Nat) (blank_ok : Bool) (st : PState) (q : Nat) (b : Bool) (st' : PState),
      parse_term_loop le env words fuel pos blank_ok st = some (q, b, st') →
      st.errh.nerrors ≤ st'.errh.nerrors) ∧
    (∀ (pos : Nat) (st : PState) (q : Nat) (st' : PState),
      parse_term le env words fuel pos st = some (q, st') →
      st.errh.nerrors ≤ st'.errh.nerrors) ∧
    (∀ (pos : Nat) (st : PState) (q : Nat) (st' : PState),
      parse_orexpr_loop le env words fuel pos st = some (q, st') →
      st.errh.nerrors ≤ st'.errh.nerrors) ∧
    (∀ (pos : Nat) (st : PState) (q : Nat) (st' : PState),
      parse_orexpr le env words fuel pos st = some (q, st') →
      st.errh.nerrors ≤ st'.errh.nerrors) ∧
    (∀ (pos : Nat) (st : PState) (q : Nat) (st' : PState),
      parse_expr_loop le env words fuel pos st = some (q, st') →
      st.errh.nerrors ≤ st'.errh.nerrors) ∧
    (∀ (pos : Nat) (st : PState) (q : Nat) (st' : PState),
      parse_expr le env words fuel pos st = some (q, st') →
      st.errh.nerrors ≤ st'.errh.nerrors) := by
  intro fuel
  induction fuel with
  | zero =>
    refine ⟨?_, ?_, ?_, ?_, ?_, ?_, ?_⟩
    · intro pos negated st q st' h
      rw [parse_factor] at h
      cases h
    · intro pos blank_ok st q b st' h
      rw [parse_term_loop] at h
      cases h
    · intro pos st q st' h
      rw [parse_term] at h
      cases h
    · intro pos st q st' h
      rw [parse_orexpr_loop] at h
      cases h
    · intro pos st q st' h
      rw [parse_orexpr] at h
      cases h
    · intro pos st q st' h
      rw [parse_expr_loop] at h
      cases h
    · intro pos st q st' h
      rw [parse_expr] at h
      cases h
  | succ n ih =>
    obtain ⟨ihF, ihTL, ihT, ihOL, ihO, ihEL, ihE⟩ := ih
    refine ⟨?_, ?_, ?_, ?_, ?_, ?_, ?_⟩
    · -- parse_factor
      intro pos negated st q st' h
      rw [parse_factor] at h
      by_cases h1 : pos ≥ words.length ∨ word_at env words pos = ")"
          ∨ word_at env words pos = "||" ∨ word_at env words pos = "or"
          ∨ word_at env words pos = "?" ∨ word_at env words pos = ":"
      · rw [if_pos h1] at h
        simp only [Option.some.injEq, Prod.mk.injEq] at h
        rw [← h.2]
      rw [if_neg h1] at h
      by_cases h2 : word_at env words pos = "true"
      · rw [if_pos h2] at h
        simp only [Option.some.injEq, Prod.mk.injEq] at h
        rw [← h.2]
      rw [if_neg h2] at h
      by_cases h3 : word_at env words pos = "false"
      · rw [if_pos h3] at h
        simp only [Option.some.injEq, Prod.mk.injEq] at h
        rw [← h.2]
      rw [if_neg h3] at h
      by_cases h4 : word_at env words pos = "not" ∨ word_at env words pos = "!"
      · rw [if_pos h4] at h
        cases he : parse_factor le env words n (pos + 1) (!negated) st with
        | none =>
          rw [he] at h
          cases h
        | some r =>
          have hi := ihF _ _ _ r.1 r.2 he
          rw [he] at h
          simp only [Option.some.injEq, Prod.mk.injEq] at h
          rw [← h.2]
          split_ifs
          · exact le_trans hi (error_ge _)
          · exact hi
      rw [if_neg h4] at h
      by_cases h5 : word_at env words pos = "("
      · rw [if_pos h5] at h
        cases he : parse_expr le env words n (pos + 1) st with
        | none =>
          rw [he] at h
          cases h
        | some r =>
          have hi := ihE _ _ r.1 r.2 he
          rw [he] at h
          simp only [Option.some.injEq, Prod.mk.injEq] at h
          rw [← h.2]
          dsimp only
          split_ifs <;> first
            | exact hi
            | exact le_trans hi (error_ge _)
            | exact le_trans hi (le_trans (error_ge _) (error_ge _))
      rw [if_neg h5] at h
      simp only [Option.some.injEq] at h
      have hp := parse_primitive_errors le env words pos negated st
      rw [h] at hp
      exact hp
    · -- parse_term_loop
      intro pos blank_ok st q b st' h
      rw [parse_term_loop] at h
      cases he : parse_factor le env words n pos false st with
      | none =>
        rw [he] at h
        cases h
      | some r =>
        have hi := ihF _ _ _ r.1 r.2 he
        rw [he] at h
        dsimp only at h
        split_ifs at h
        · simp only [Option.some.injEq, Prod.mk.injEq] at h
          rw [← h.2.2]
          exact hi
        · exact le_trans hi (ihTL _ _ _ _ _ _ h)
        · exact le_trans hi (ihTL _ _ _ _ _ _ h)
    · -- parse_term
      intro pos st q st' h
      rw [parse_term] at h
      cases he : parse_term_loop le env words n pos false
          { st with tree := start_expr_subtree st.tree } with
      | none =>
        rw [he] at h
        cases h
      | some r =>
        have hi := ihTL _ _ _ r.1 r.2.1 r.2.2 he
        rw [he] at h
        simp only [Option.some.injEq, Prod.mk.injEq] at h
        rw [← h.2]
        dsimp only
        split_ifs
        · exact le_trans hi (error_ge _)
        · exact hi
    · -- parse_orexpr_loop
      intro pos st q st' h
      rw [parse_orexpr_loop] at h
      cases he : parse_term le env words n pos st with
      | none =>
        rw [he] at h
        cases h
      | some r =>
        have hi := ihT _ _ r.1 r.2 he
        rw [he] at h
        dsimp only at h
        split_ifs at h
        · simp only [Option.some.injEq, Prod.mk.injEq] at h
          rw [← h.2]
          exact hi
        · exact le_trans hi (ihOL _ _ _ _ h)
        · simp only [Option.some.injEq, Prod.mk.injEq] at h
          rw [← h.2]
          exact hi
    · -- parse_orexpr
      intro pos st q st' h
      rw [parse_orexpr] at h
      cases he : parse_orexpr_loop le env words n pos
          { st with tree := start_expr_subtree st.tree } with
      | none =>
        rw [he] at h
        cases h
      | some r =>
        have hi := ihOL _ _ r.1 r.2 he
        rw [he] at h
        simp only [Option.some.injEq, Prod.mk.injEq] at h
        rw [← h.2]
        exact hi
    · -- parse_expr_loop
      intro pos st q st' h
      rw [parse_expr_loop] at h
      cases he : parse_orexpr le env words n pos st with
      | none =>
        rw [he] at h
        cases h
      | some r =>
        have hi := ihO _ _ r.1 r.2 he
        rw [he] at h
        dsimp only at h
        split_ifs at h
        · simp only [Option.some.injEq, Prod.mk.injEq] at h
          rw [← h.2]
          exact hi
        · simp only [Option.some.injEq, Prod.mk.injEq] at h
          rw [← h.2]
          exact hi
        · cases he2 : parse_expr le env words n (r.1 + 1) r.2 with
          | none =>
            rw [he2] at h
            cases h
          | some r2 =>
            have hi2 := ihE _ _ r2.1 r2.2 he2
            rw [he2] at h
            dsimp only at h
            split_ifs at h
            · exact le_trans hi (le_trans hi2 (ihEL _ _ _ _ h))
            · simp only [Option.some.injEq, Prod.mk.injEq] at h
              rw [← h.2]
              exact le_trans hi (le_trans hi2 (error_ge _))
    · -- parse_expr
      intro pos st q st' h
      rw [parse_expr] at h
      cases he : parse_expr_loop le env words n pos
          { st with tree := start_expr_subtree st.tree } with
      | none =>
        rw [he] at h
        cases h
      | some r =>
        have hi := ihEL _ _ r.1 r.2 he
        rw [he] at h
        simp only [Option.some.injEq, Prod.mk.injEq] at h
        rw [← h.2]
        exact hi

/-! ## `configure` returns -/

theorem configure_clause_total (le : Bool) (env : Env) (noutputs : Int) (words : List String)
    (tree : Builder) (errh : ErrorHandler) :
    ∃ tree' errh', configure_clause le env noutputs words tree errh = some (tree', errh') := by
  unfold configure_clause
  by_cases h0 : words.length = 0
  · rw [if_pos h0]
    exact ⟨_, _, rfl⟩
  · rw [if_neg h0]
    dsimp only
    split_ifs with h1
    · exact ⟨_, _, rfl⟩
    · obtain ⟨q, st', he, _, _⟩ := (parser_total_all le env words (parse_fuel words)).2.2.2.2.2.2 1
        { tree := start_expr_subtree tree, prev_prim := Primitive.clear,
          errh := (resolve_slot env (word_at env words 0) noutputs errh).2 }
        (by omega) (by unfold parse_fuel; omega)
      rw [he]
      exact ⟨_, _, rfl⟩

theorem configure_loop_total (le : Bool) (env : Env) (noutputs : Int) :
    ∀ (clauses : List (List String)) (tree : Builder) (errh : ErrorHandler),
      ∃ tree' errh', configure_loop le env noutputs clauses tree errh = some (tree', errh') := by
  intro clauses
  induction clauses with
  | nil => intro tree errh; exact ⟨_, _, rfl⟩
  | cons words more ih =>
    intro tree errh
    obtain ⟨t1, e1, h1⟩ := configure_clause_total le env noutputs words tree errh
    unfold configure_loop
    rw [h1]
    exact ih t1 e1

/-- `configure` returns 0 when the error count is what it was before and -1
otherwise. -/
theorem configure_words_total (le : Bool) (env : Env) (clauses : List (List String))
    (noutputs : Int) (errh : ErrorHandler) :
    ∃ code tree errh', configure_words le env clauses noutputs errh = some (code, tree, errh')
      ∧ (code = 0 ↔ errh'.nerrors = errh.nerrors) ∧ (code = 0 ∨ code = -1) := by
  obtain ⟨t1, e1, h1⟩ := configure_loop_total le env noutputs clauses init_expr_subtree errh
  unfold configure_words
  dsimp only
  rw [h1]
  refine ⟨_, _, _, rfl, ?_, ?_⟩
  · split_ifs with h
    · exact ⟨fun _ => h, fun _ => rfl⟩
    · exact ⟨fun hc => absurd hc (by decide), fun hc => absurd hc h⟩
  · split_ifs
    · exact Or.inl rfl
    · exact Or.inr rfl

/-- The slot of each kind of action word. -/
theorem resolve_slot_cases (env : Env) (slotwd : String) (N : Int) (cerrh : ErrorHandler) :
    (slotwd = "allow" → (resolve_slot env slotwd N cerrh).1 = 0)
    ∧ (slotwd = "drop" ∨ slotwd = "deny" →
        (resolve_slot env slotwd N cerrh).1 = N
          ∧ (resolve_slot env slotwd N cerrh).2.nerrors = cerrh.nerrors)
    ∧ (slotwd ≠ "allow" → slotwd ≠ "deny" → slotwd ≠ "drop" →
        (∀ (k : Int), env.cp_integer slotwd = some k → 0 ≤ k → k < N →
            resolve_slot env slotwd N cerrh = (k, cerrh))
          ∧ (∀ (k : Int), env.cp_integer slotwd = some k → k < 0 ∨ N ≤ k →
            resolve_slot env slotwd N cerrh = (N, cerrh.error))
          ∧ (env.cp_integer slotwd = none → resolve_slot env slotwd N cerrh = (N, cerrh.error))) := by
  refine ⟨fun h => ?_, fun h => ?_, fun h1 h2 h3 => ⟨fun k hk h4 h5 => ?_, fun k hk h4 => ?_,
    fun hk => ?_⟩⟩
  · unfold resolve_slot
    rw [if_pos h]
  · unfold resolve_slot
    rcases h with h | h
    · subst h
      rw [if_neg (by decide), if_neg (by decide), if_pos rfl]
      exact ⟨rfl, rfl⟩
    · subst h
      rw [if_neg (by decide), if_pos rfl]
      refine ⟨rfl, ?_⟩
      dsimp only
      split_ifs <;> rfl
  · unfold resolve_slot
    rw [if_neg h1, if_neg h2, if_neg h3, hk]
    dsimp only
    rw [if_neg (by omega)]
  · unfold resolve_slot
    rw [if_neg h1, if_neg h2, if_neg h3, hk]
    dsimp only
    rw [if_pos (by omega)]
  · unfold resolve_slot
    rw [if_neg h1, if_neg h2, if_neg h3, hk]

theorem resolve_slot_errors (env : Env) (slotwd : String) (N : Int) (cerrh : ErrorHandler) :
    cerrh.nerrors ≤ (resolve_slot env slotwd N cerrh).2.nerrors := by
  unfold resolve_slot
  split_ifs
  · exact error_ge _
  · exact Nat.le_refl _
  · exact warning_ge _
  · exact Nat.le_refl _
  · exact Nat.le_refl _
  · split
    · split_ifs
      · exact error_ge _
      · exact Nat.le_refl _
    · exact error_ge _

/-- The action words for which the "get slot" block reports an error. -/
theorem resolve_slot_reports (env : Env) (slotwd : String) (N : Int) (cerrh : ErrorHandler)
    (hbad : (slotwd = "allow" ∧ N = 0)
      ∨ (slotwd ≠ "allow" ∧ slotwd ≠ "deny" ∧ slotwd ≠ "drop"
        ∧ (env.cp_integer slotwd = none
          ∨ ∃ k : Int, env.cp_integer slotwd = some k ∧ (k < 0 ∨ N ≤ k)))) :
    (resolve_slot env slotwd N cerrh).2 = cerrh.error := by
  unfold resolve_slot
  rcases hbad with ⟨h1, h2⟩ | ⟨h1, h2, h3, h4⟩
  · rw [if_pos h1, if_pos h2]
  · rw [if_neg h1, if_neg h2, if_neg h3]
    rcases h4 with h | ⟨k, hk, hr⟩
    · rw [h]
    · rw [hk]
      dsimp only
      rw [if_pos (by omega)]

/-- One clause never lowers the error count; an empty clause and a clause whose
action word is refused raise it. -/
theorem configure_clause_errors (le : Bool) (env : Env) (N : Int) (words : List String)
    (tree : Builder) (errh : ErrorHandler) (tree' : Builder) (errh' : ErrorHandler)
    (h : configure_clause le env N words tree errh = some (tree', errh')) :
    errh.nerrors ≤ errh'.nerrors
    ∧ (words = [] → errh.nerrors < errh'.nerrors)
    ∧ (words ≠ [] → (resolve_slot env (word_at env words 0) N errh).2.nerrors
        ≤ errh'.nerrors) := by
  have hr := resolve_slot_errors env (word_at env words 0) N errh
  unfold configure_clause at h
  by_cases h0 : words.length = 0
  · rw [if_pos h0] at h
    simp only [Option.some.injEq, Prod.mk.injEq] at h
    rw [← h.2]
    have hw : words = [] := List.length_eq_zero.mp h0
    refine ⟨error_ge _, fun _ => ?_, fun hne => absurd hw hne⟩
    unfold ErrorHandler.error
    exact Nat.lt_succ_self _
  · rw [if_neg h0] at h
    have hw : words ≠ [] := fun hc => h0 (by rw [hc]; rfl)
    dsimp only at h
    have key : (resolve_slot env (word_at env words 0) N errh).2.nerrors ≤ errh'.nerrors := by
      split_ifs at h with h1
      · simp only [Option.some.injEq, Prod.mk.injEq] at h
        rw [← h.2]
      · cases he : parse_expr le env words (parse_fuel words) 1
            { tree := start_expr_subtree tree, prev_prim := Primitive.clear,
              errh := (resolve_slot env (word_at env words 0) N errh).2 } with
        | none =>
          rw [he] at h
          cases h
        | some r =>
          have hi := (parser_errors_all le env words (parse_fuel words)).2.2.2.2.2.2
            _ _ r.1 r.2 he
          rw [he] at h
          simp only [Option.some.injEq, Prod.mk.injEq] at h
          rw [← h.2]
          split_ifs
          · exact le_trans hi (error_ge _)
          · exact hi
    exact ⟨le_trans hr key, fun hc => absurd hc hw, fun _ => key⟩

theorem configure_loop_errors (le : Bool) (env : Env) (N : Int) :
    ∀ (clauses : List (List String)) (tree : Builder) (errh : ErrorHandler) (tree' : Builder)
      (errh' : ErrorHandler),
      configure_loop le env N clauses tree errh = some (tree', errh') →
      errh.nerrors ≤ errh'.nerrors
      ∧ ∀ words, words ∈ clauses →
          (words = [] ∨ (word_at env words 0 = "allow" ∧ N = 0)
            ∨ (word_at env words 0 ≠ "allow" ∧ word_at env words 0 ≠ "deny"
              ∧ word_at env words 0 ≠ "drop"
              ∧ (env.cp_integer (word_at env words 0) = none
                ∨ ∃ k : Int, env.cp_integer (word_at env words 0) = some k
                    ∧ (k < 0 ∨ N ≤ k)))) →
          errh.nerrors < errh'.nerrors := by
  intro clauses
  induction clauses with
  | nil =>
    intro tree errh tree' errh' h
    unfold configure_loop at h
    simp only [Option.some.injEq, Prod.mk.injEq] at h
    rw [← h.2]
    exact ⟨Nat.le_refl _, fun words hw => absurd hw (List.not_mem_nil _)⟩
  | cons c more ih =>
    intro tree errh tree' errh' h
    unfold configure_loop at h
    cases hc : configure_clause le env N c tree errh with
    | none =>
      rw [hc] at h
      cases h
    | some r =>
      rw [hc] at h
      dsimp only at h
      obtain ⟨h1, h2, h3⟩ := configure_clause_errors le env N c tree errh r.1 r.2 hc
      obtain ⟨h4, h5⟩ := ih r.1 r.2 tree' errh' h
      refine ⟨le_trans h1 h4, fun words hw hbad => ?_⟩
      rcases List.mem_cons.mp hw with heq | hin
      · subst heq
        by_cases hw0 : words = []
        · exact lt_of_lt_of_le (h2 hw0) h4
        · rcases hbad with hb | hb
          · exact absurd hb hw0
          · have hrep := resolve_slot_reports env (word_at env words 0) N errh hb
            have h3' := h3 hw0
            rw [hrep] at h3'
            have hlt : errh.nerrors < errh.error.nerrors := by
              unfold ErrorHandler.error
              exact Nat.lt_succ_self _
            omega
      · exact lt_of_le_of_lt h1 (h5 words hin hbad)

/-- `configure` fails when a clause is empty or has an action word that is
refused. -/
theorem configure_words_fails (le : Bool) (env : Env) (clauses : List (List String)) (N : Int)
    (errh : ErrorHandler) (code : Int) (tree : Builder) (errh' : ErrorHandler)
    (h : configure_words le env clauses N errh = some (code, tree, errh')) :
    errh.nerrors ≤ errh'.nerrors
    ∧ ∀ words, words ∈ clauses →
        (words = [] ∨ (word_at env words 0 = "allow" ∧ N = 0)
          ∨ (word_at env words 0 ≠ "allow" ∧ word_at env words 0 ≠ "deny"
            ∧ word_at env words 0 ≠ "drop"
            ∧ (env.cp_integer (word_at env words 0) = none
              ∨ ∃ k : Int, env.cp_integer (word_at env words 0) = some k
                  ∧ (k < 0 ∨ N ≤ k)))) →
        code = -1 := by
  unfold configure_words at h
  dsimp only at h
  cases hl : configure_loop le env N clauses init_expr_subtree errh with
  | none =>
    rw [hl] at h
    cases h
  | some r =>
    rw [hl] at h
    simp only [Option.some.injEq, Prod.mk.injEq] at h
    obtain ⟨h1, h2⟩ := configure_loop_errors le env N clauses init_expr_subtree errh r.1 r.2 hl
    obtain ⟨hc, _, he⟩ := h
    rw [← he]
    refine ⟨h1, fun words hw hbad => ?_⟩
    have hlt := h2 words hw hbad
    rw [← hc, if_neg (by omega)]

/-- A clause is routed to the slot the "get slot" block gives for its first
word. -/
theorem configure_clause_slot (le : Bool) (env : Env) (N : Int) (words : List String)
    (tree : Builder) (errh : ErrorHandler) (hw : words ≠ []) :
    ∃ t0 errh', configure_clause le env N words tree errh
      = some (finish_expr_subtree t0 Combiner.C_AND
          (-(resolve_slot env (word_at env words 0) N errh).1) FAILURE, errh')
      ∧ (resolve_slot env (word_at env words 0) N errh).2.nerrors ≤ errh'.nerrors := by
  obtain ⟨t1, e1, h1⟩ := configure_clause_total le env N words tree errh
  have hmono := (configure_clause_errors le env N words tree errh t1 e1 h1).2.2 hw
  have h0 : ¬ words.length = 0 := fun hc => hw (List.length_eq_zero.mp hc)
  unfold configure_clause at h1 ⊢
  rw [if_neg h0] at h1 ⊢
  dsimp only at h1 ⊢
  split_ifs at h1 ⊢ with hwild
  · simp only [Option.some.injEq, Prod.mk.injEq] at h1
    rw [← h1.2] at hmono
    exact ⟨_, _, rfl, hmono⟩
  · cases he : parse_expr le env words (parse_fuel words) 1
        { tree := start_expr_subtree tree, prev_prim := Primitive.clear,
          errh := (resolve_slot env (word_at env words 0) N errh).2 } with
    | none =>
      rw [he] at h1
      cases h1
    | some r =>
      rw [he] at h1
      simp only [Option.some.injEq, Prod.mk.injEq] at h1
      rw [← h1.2] at hmono
      exact ⟨_, _, rfl, hmono⟩

/-- C22: on an element with `N ≥ 0` outputs the "get slot" block of `configure`
resolves `allow` to port 0, `drop` and `deny` to the drop slot `N` without an
error, a word that `cp_integer` reads as `k` with `0 ≤ k < N` to port `k`
without an error, and reports one error and uses the drop slot `N` for an
integer outside `[0, N)` and for every other word; the slot is always in
`[0, N]`.  Every non-empty clause is routed to the slot this block gives for its
first word, and keeps the errors the block reported.  `configure` returns on
every list of clauses, never with fewer errors than before, with 0 iff the error
count after the clauses is what it was before and with -1 otherwise; so it
returns -1 whenever a clause is empty or has an action word that is refused. -/
theorem configure_slots (le : Bool) (env : Env) (N : Int) (slotwd : String)
    (cerrh : ErrorHandler) (clauses : List (List String)) (errh : ErrorHandler) (hN : 0 ≤ N) :
    (slotwd = "allow" → (resolve_slot env slotwd N cerrh).1 = 0)
    ∧ (slotwd = "drop" ∨ slotwd = "deny" →
        (resolve_slot env slotwd N cerrh).1 = N
          ∧ (resolve_slot env slotwd N cerrh).2.nerrors = cerrh.nerrors)
    ∧ (slotwd ≠ "allow" → slotwd ≠ "deny" → slotwd ≠ "drop" →
        (∀ (k : Int), env.cp_integer slotwd = some k → 0 ≤ k → k < N →
            resolve_slot env slotwd N cerrh = (k, cerrh))
          ∧ (∀ (k : Int), env.cp_integer slotwd = some k → k < 0 ∨ N ≤ k →
            resolve_slot env slotwd N cerrh = (N, cerrh.error))
          ∧ (env.cp_integer slotwd = none → resolve_slot env slotwd N cerrh = (N, cerrh.error)))
    ∧ (0 ≤ (resolve_slot env slotwd N cerrh).1 ∧ (resolve_slot env slotwd N cerrh).1 ≤ N)
    ∧ (∀ (words : List String) (tree : Builder), words ≠ [] →
        ∃ t0 errh', configure_clause le env N words tree cerrh
          = some (finish_expr_subtree t0 Combiner.C_AND
              (-(resolve_slot env (word_at env words 0) N cerrh).1) FAILURE, errh')
          ∧ (resolve_slot env (word_at env words 0) N cerrh).2.nerrors ≤ errh'.nerrors)
    ∧ ∃ code tree errh', configure_words le env clauses N errh = some (code, tree, errh')
        ∧ (code = 0 ↔ errh'.nerrors = errh.nerrors) ∧ (code = 0 ∨ code = -1)
        ∧ errh.nerrors ≤ errh'.nerrors
        ∧ ∀ words, words ∈ clauses →
            (words = [] ∨ (word_at env words 0 = "allow" ∧ N = 0)
              ∨ (word_at env words 0 ≠ "allow" ∧ word_at env words 0 ≠ "deny"
                ∧ word_at env words 0 ≠ "drop"
                ∧ (env.cp_integer (word_at env words 0) = none
                  ∨ ∃ k : Int, env.cp_integer (word_at env words 0) = some k
                      ∧ (k < 0 ∨ N ≤ k)))) →
            code = -1 := by
  have h := resolve_slot_cases env slotwd N cerrh
  obtain ⟨code, tree, errh', hc, h1, h2⟩ := configure_words_total le env clauses N errh
  have hf := configure_words_fails le env clauses N errh code tree errh' hc
  exact ⟨h.1, h.2.1, h.2.2, resolve_slot_range env slotwd N cerrh hN,
    fun words tree hw => configure_clause_slot le env N words tree cerrh hw,
    code, tree, errh', hc, h1, h2, hf.1, hf.2⟩

set_option maxHeartbeats 4000000 in
theorem configure_slots_witness :
    (configure_words true sample_env [["allow", "tcp"], ["7", "udp"]] 2 ⟨0, 0⟩).map
        (fun r => (r.1, r.2.2)) = some (-1, ⟨1, 0⟩)
    ∧ resolve_slot sample_env "7" 2 ⟨0, 0⟩ = (2, ErrorHandler.error ⟨0, 0⟩)
    ∧ ∃ code tree errh',
        configure_words true sample_env [["allow", "tcp"], ["7", "udp"]] 2 ⟨0, 0⟩
          = some (code, tree, errh')
        ∧ code = -1 := by
  have h := configure_slots true sample_env 2 "7" ⟨0, 0⟩ [["allow", "tcp"], ["7", "udp"]]
    ⟨0, 0⟩ (by decide)
  obtain ⟨_, _, h3, _, _, code, tree, errh', hc, _, _, _, hbad⟩ := h
  have hw : word_at sample_env ["7", "udp"] 0 = "7" := rfl
  have hk : sample_env.cp_integer "7" = some 7 := by decide
  refine ⟨by decide, (h3 (by decide) (by decide) (by decide)).2.1 7 hk (Or.inr (by decide)),
    code, tree, errh', hc, hbad ["7", "udp"] (by simp) (Or.inr (Or.inr ?_))⟩
  rw [hw]
  exact ⟨by decide, by decide, by decide, Or.inr ⟨7, hk, Or.inr (by decide)⟩⟩

theorem swo_asymm {α : Type} {comp : α → α → Bool} (h : strict_weak_order comp) (x y : α)
    (hxy : comp x y = true) : comp y x = false := by
  cases hyx : comp y x
  · rfl
  · have := h.2.1 x y x hxy hyx
    rw [h.1 x] at this; cases this

theorem swo_negtrans {α : Type} {comp : α → α → Bool} (h : strict_weak_order comp) (x y z : α)
    (hxy : comp x y = false) (hyz : comp y z = false) : comp x z = false := by
  cases hxz : comp x z
  · rfl
  · exfalso
    have h1 : comp y x = false := by
      cases hyx : comp y x
      · rfl
      · have := h.2.1 y x z hyx hxz
        rw [hyz] at this; cases this
    have h2 : comp z y = false := by
      cases hzy : comp z y
      · rfl
      · have := h.2.1 x z y hxz hzy
        rw [hxy] at this; cases this
    have := (h.2.2 x y z hxy h1 hyz h2).1
    rw [hxz] at this; cases this

theorem less_strict_weak_order : strict_weak_order less := by
  refine ⟨?_, ?_, ?_⟩
  · intro x; simp [less]
  · intro x y z; simp only [less, decide_eq_true_eq]; omega
  · intro x y z; simp only [less, decide_eq_false_iff_not]; omega

theorem swap_at_length {α : Type} (a : List α) (i j : Nat) :
    (swap_at a i j).length = a.length := by
  unfold swap_at
  split
  · simp
  · rfl

theorem swap_at_get {α : Type} (a : List α) (i j : Nat) (hi : i < a.length) (hj : j < a.length)
    (k : Nat) : (swap_at a i j)[k]? = a[transpose i j k]? := by
  unfold swap_at transpose
  rw [List.getElem?_eq_getElem hi, List.getElem?_eq_getElem hj]
  dsimp only
  rw [List.getElem?_set, List.getElem?_set, List.length_set]
  by_cases h1 : j = k
  · subst h1
    rw [if_pos rfl, if_pos hj]
    by_cases h2 : j = i
    · subst h2; rw [if_pos rfl]; exact (List.getElem?_eq_getElem hj).symm
    · rw [if_neg h2, if_pos rfl]; exact (List.getElem?_eq_getElem hi).symm
  · rw [if_neg h1]
    by_cases h2 : i = k
    · subst h2; rw [if_pos rfl, if_pos hi, if_pos rfl]; exact (List.getElem?_eq_getElem hj).symm
    · rw [if_neg h2, if_neg (fun h => h2 h.symm), if_neg (fun h => h1 h.symm)]

theorem set_perm_cons {α : Type} (h : α) : ∀ (t : List α) (k : Nat) (y : α), t[k]? = some y →
    List.Perm (y :: t.set k h) (h :: t) := by
  intro t
  induction t with
  | nil => intro k y hy; simp at hy
  | cons z t ih =>
    intro k y hy
    cases k with
    | zero =>
      simp only [List.getElem?_cons_zero, Option.some.injEq] at hy
      subst hy
      simp only [List.set_cons_zero]
      exact List.Perm.swap _ _ _
    | succ k =>
      simp only [List.getElem?_cons_succ] at hy
      simp only [List.set_cons_succ]
      exact ((List.Perm.swap z y _).trans ((ih k y hy).cons z)).trans (List.Perm.swap h z _)

theorem swap_at_perm {α : Type} : ∀ (a : List α) (i j : Nat), List.Perm (swap_at a i j) a := by
  intro a
  induction a with
  | nil => intro i j; simp [swap_at]
  | cons h t ih =>
    intro i j
    by_cases hi : i < (h :: t).length
    swap
    · unfold swap_at; rw [List.getElem?_eq_none (by omega)]
    by_cases hj : j < (h :: t).length
    swap
    · unfold swap_at; rw [List.getElem?_eq_none (Nat.le_of_not_lt hj)]
      split
      · rename_i heq; simp at heq
      · exact List.Perm.refl _
    unfold swap_at
    rw [List.getElem?_eq_getElem hi, List.getElem?_eq_getElem hj]
    dsimp only
    cases i with
    | zero =>
      cases j with
      | zero => simp
      | succ j =>
        simp only [List.getElem_cons_zero, List.getElem_cons_succ, List.set_cons_zero,
          List.set_cons_succ]
        exact set_perm_cons h t j _ (List.getElem?_eq_getElem _)
    | succ i =>
      cases j with
      | zero =>
        simp only [List.getElem_cons_zero, List.getElem_cons_succ, List.set_cons_zero,
          List.set_cons_succ]
        exact set_perm_cons h t i _ (List.getElem?_eq_getElem _)
      | succ j =>
        simp only [List.getElem_cons_succ, List.set_cons_succ]
        have hi2 : i < t.length := by simpa using hi
        have hj2 : j < t.length := by simpa using hj
        have := ih i j
        unfold swap_at at this
        rw [List.getElem?_eq_getElem hi2, List.getElem?_eq_getElem hj2] at this
        exact this.cons h
theorem comp_at_swap {α : Type} (comp : α → α → Bool) (a : List α) (i j : Nat)
    (hi : i < a.length) (hj : j < a.length) (k l : Nat) :
    comp_at comp (swap_at a i j) k l = comp_at comp a (transpose i j k) (transpose i j l) := by
  unfold comp_at
  rw [swap_at_get a i j hi hj, swap_at_get a i j hi hj]

theorem comp_at_asymm {α : Type} {comp : α → α → Bool} (h : strict_weak_order comp)
    (a : List α) (i j : Nat) (hij : comp_at comp a i j = true) : comp_at comp a j i = false := by
  unfold comp_at at hij ⊢
  cases hi : a[i]? with
  | none => rw [hi] at hij; cases hij
  | some x =>
    cases hj : a[j]? with
    | none => rfl
    | some y =>
      rw [hi, hj] at hij
      exact swo_asymm h x y hij

theorem comp_at_trans {α : Type} {comp : α → α → Bool} (h : strict_weak_order comp)
    (a : List α) (i j k : Nat) (hij : comp_at comp a i j = true)
    (hjk : comp_at comp a j k = true) : comp_at comp a i k = true := by
  unfold comp_at at hij hjk ⊢
  cases hi : a[i]? with
  | none => rw [hi] at hij; cases hij
  | some x =>
    cases hj : a[j]? with
    | none => rw [hj] at hjk; cases hjk
    | some y =>
      cases hk : a[k]? with
      | none => rw [hj, hk] at hjk; cases hjk
      | some z =>
        rw [hi, hj] at hij
        rw [hj, hk] at hjk
        exact h.2.1 x y z hij hjk

theorem comp_at_negtrans {α : Type} {comp : α → α → Bool} (h : strict_weak_order comp)
    (a : List α) (i j k : Nat) (hj : j < a.length) (hij : comp_at comp a i j = false)
    (hjk : comp_at comp a j k = false) : comp_at comp a i k = false := by
  unfold comp_at at hij hjk ⊢
  rw [List.getElem?_eq_getElem hj] at hij hjk
  cases hi : a[i]? with
  | none => rfl
  | some x =>
    cases hk : a[k]? with
    | none => rfl
    | some z =>
      rw [hi] at hij
      rw [hk] at hjk
      exact swo_negtrans h x _ z hij hjk

/-- A failed comparison that would contradict transitivity. -/
theorem comp_at_not_below {α : Type} {comp : α → α → Bool} (h : strict_weak_order comp)
    (a : List α) (i j k : Nat) (hjk : comp_at comp a j k = true)
    (hik : comp_at comp a i k = false) : comp_at comp a i j = false := by
  cases hij : comp_at comp a i j
  · rfl
  · rw [comp_at_trans h a i j k hij hjk] at hik; cases hik

theorem heap_up_step {α : Type} {comp : α → α → Bool} (h : strict_weak_order comp)
    (a : List α) (size i : Nat) (hi : i < size) (hs : size ≤ a.length) (hpos : 0 < i)
    (hc : comp_at comp a i ((i - 1) / 2) = true) (hx : heap_except comp a size i) :
    heap_except comp (swap_at a i ((i - 1) / 2)) size ((i - 1) / 2)
    ∧ (∀ j < size, 0 < j → (j - 1) / 2 = (i - 1) / 2 →
        comp_at comp (swap_at a i ((i - 1) / 2)) j ((i - 1) / 2) = false) := by
  have hia : i < a.length := by omega
  have hpa : (i - 1) / 2 < a.length := by omega
  refine ⟨⟨?_, ?_⟩, ?_⟩
  · intro j hj hj0 hjp hqp
    rw [comp_at_swap comp a _ _ hia hpa]
    have hji : j ≠ i := by intro e; rw [e] at hqp; exact hqp rfl
    have e1 : transpose i ((i - 1) / 2) j = j := by
      unfold transpose; rw [if_neg hji, if_neg hjp]
    rw [e1]
    by_cases hq : (j - 1) / 2 = i
    · have e2 : transpose i ((i - 1) / 2) ((j - 1) / 2) = (i - 1) / 2 := by
        unfold transpose; rw [if_pos hq]
      rw [e2]
      exact hx.2 j hj hj0 hq hpos
    · have e2 : transpose i ((i - 1) / 2) ((j - 1) / 2) = (j - 1) / 2 := by
        unfold transpose; rw [if_neg hq, if_neg hqp]
      rw [e2]
      exact hx.1 j hj hj0 hji hq
  · intro j hj hj0 hq hp0
    rw [comp_at_swap comp a _ _ hia hpa]
    have e2 : transpose i ((i - 1) / 2) (((i - 1) / 2 - 1) / 2) = ((i - 1) / 2 - 1) / 2 := by
      unfold transpose; rw [if_neg (by omega), if_neg (by omega)]
    rw [e2]
    have hpp : comp_at comp a ((i - 1) / 2) (((i - 1) / 2 - 1) / 2) = false :=
      hx.1 _ (by omega) hp0 (by omega) (by omega)
    by_cases hji : j = i
    · have e1 : transpose i ((i - 1) / 2) j = (i - 1) / 2 := by
        unfold transpose; rw [if_pos hji]
      rw [e1]; exact hpp
    · have e1 : transpose i ((i - 1) / 2) j = j := by
        unfold transpose; rw [if_neg hji, if_neg (by omega)]
      rw [e1]
      have h1 := hx.1 j hj hj0 hji (by omega)
      rw [hq] at h1
      exact comp_at_negtrans h a j _ _ hpa h1 hpp
  · intro j hj hj0 hq
    rw [comp_at_swap comp a _ _ hia hpa]
    have e2 : transpose i ((i - 1) / 2) ((i - 1) / 2) = i := by
      unfold transpose; rw [if_neg (by omega), if_pos rfl]
    rw [e2]
    by_cases hji : j = i
    · have e1 : transpose i ((i - 1) / 2) j = (i - 1) / 2 := by
        unfold transpose; rw [if_pos hji]
      rw [e1]; exact comp_at_asymm h a _ _ hc
    · have e1 : transpose i ((i - 1) / 2) j = j := by
        unfold transpose; rw [if_neg hji, if_neg (by omega)]
      rw [e1]
      have h1 := hx.1 j hj hj0 hji (by omega)
      rw [hq] at h1
      exact comp_at_not_below h a j i _ hc h1
theorem heap_up_loop_spec {α : Type} {comp : α → α → Bool} (h : strict_weak_order comp)
    (size : Nat) : ∀ (fuel : Nat) (a : List α) (i : Nat) (placed : List Nat),
      i < size → size ≤ a.length → i < fuel → heap_except comp a size i →
      ∃ r i2 path, heap_up_loop comp fuel a i placed = some (r, i2, placed ++ path)
        ∧ i2 ≤ i ∧ r.length = a.length ∧ List.Perm r a
        ∧ heap_except comp r size i2
        ∧ (i2 = 0 ∨ comp_at comp r i2 ((i2 - 1) / 2) = false)
        ∧ ((∀ j < size, 0 < j → (j - 1) / 2 = i → comp_at comp a j i = false) →
            (∀ j < size, 0 < j → (j - 1) / 2 = i2 → comp_at comp r j i2 = false))
        ∧ r[i2]? = a[i]?
        ∧ (∀ k ∈ path, i2 < k ∧ k ≤ i)
        ∧ (i2 ≠ i → i ∈ path)
        ∧ (∀ k, k ∉ path → k ≠ i2 → r[k]? = a[k]?) := by
  intro fuel
  induction fuel with
  | zero => intro a i placed hi hs hf; omega
  | succ fuel ih =>
    intro a i placed hi hs hf hx
    unfold heap_up_loop
    dsimp only
    by_cases hc : i > 0 ∧ comp_at comp a i ((i - 1) / 2) = true
    · rw [if_pos hc]
      have hia : i < a.length := by omega
      have hpa : (i - 1) / 2 < a.length := by omega
      have hst := heap_up_step h a size i hi hs hc.1 hc.2 hx
      obtain ⟨r, i2, path, e, h1, h2, h3, h4, h5, h6, h7, h8, h9, h10⟩ :=
        ih (swap_at a i ((i - 1) / 2)) ((i - 1) / 2) (placed ++ [i]) (by omega)
          (by rw [swap_at_length]; exact hs) (by omega) hst.1
      refine ⟨r, i2, i :: path, ?_, by omega, ?_, ?_, h4, h5, ?_, ?_, ?_, ?_, ?_⟩
      · rw [e, List.append_assoc, List.singleton_append]
      · rw [h2, swap_at_length]
      · exact h3.trans (swap_at_perm _ _ _)
      · intro _; exact h6 hst.2
      · rw [h7, swap_at_get a _ _ hia hpa]
        unfold transpose
        rw [if_neg (by omega), if_pos rfl]
      · intro k hk
        rcases List.mem_cons.mp hk with hk | hk
        · omega
        · have := h8 k hk; omega
      · intro _; exact List.mem_cons_self _ _
      · intro k hk hk2
        have hki : k ≠ i := fun e => hk (e ▸ List.mem_cons_self _ _)
        have hkp : k ∉ path := fun e => hk (List.mem_cons_of_mem _ e)
        have hkq : k ≠ (i - 1) / 2 := by
          intro e
          by_cases hip : i2 = (i - 1) / 2
          · exact hk2 (e.trans hip.symm)
          · exact hkp (e ▸ h9 hip)
        rw [h10 k hkp hk2, swap_at_get a _ _ hia hpa]
        unfold transpose
        rw [if_neg hki, if_neg hkq]
    · rw [if_neg hc]
      refine ⟨a, i, [], by rw [List.append_nil], le_refl _, rfl, List.Perm.refl _, hx, ?_,
        fun hd => hd, rfl, ?_, fun e => absurd rfl e, fun _ _ _ => rfl⟩
      · by_cases h0 : i = 0
        · exact Or.inl h0
        · right
          cases hb : comp_at comp a i ((i - 1) / 2)
          · rfl
          · exact absurd ⟨Nat.pos_of_ne_zero h0, hb⟩ hc
      · intro k hk; cases hk

theorem heap_of_except {α : Type} {comp : α → α → Bool} (a : List α) (size i : Nat)
    (hx : heap_except comp a size i)
    (hup : i = 0 ∨ comp_at comp a i ((i - 1) / 2) = false)
    (hdown : ∀ j < size, 0 < j → (j - 1) / 2 = i → comp_at comp a j i = false) :
    is_heap comp a size := by
  intro j hj hj0
  by_cases hji : j = i
  · rcases hup with h0 | h1
    · omega
    · rw [hji]; exact h1
  · by_cases hq : (j - 1) / 2 = i
    · rw [hq]; exact hdown j hj hj0 hq
    · exact hx.1 j hj hj0 hji hq

theorem except_of_heap_init {α : Type} {comp : α → α → Bool} (a : List α) (size : Nat)
    (hh : is_heap comp a (size - 1)) : heap_except comp a size (size - 1) := by
  constructor
  · intro j hj hj0 hji _
    exact hh j (by omega) hj0
  · intro j hj hj0 hq _
    omega

theorem push_heap_spec {α : Type} {comp : α → α → Bool} (h : strict_weak_order comp)
    (a : List α) (hne : a ≠ []) (hh : is_heap comp a (a.length - 1)) :
    ∃ r path i, push_heap comp a = some (r, path ++ [i])
      ∧ is_heap comp r r.length ∧ List.Perm r a
      ∧ i ∉ path ∧ (path ++ [i]).count i = 1
      ∧ r[i]? = a[a.length - 1]?
      ∧ (∀ k ∈ path, i < k ∧ k < a.length)
      ∧ (∀ k, k ∉ path → k ≠ i → r[k]? = a[k]?) := by
  have hl : 0 < a.length := List.length_pos.mpr hne
  obtain ⟨r, i2, path, e, h1, h2, h3, h4, h5, h6, h7, h8, _, h10⟩ :=
    heap_up_loop_spec h a.length a.length a (a.length - 1) [] (by omega) (le_refl _) (by omega)
      (except_of_heap_init a a.length hh)
  have hni : i2 ∉ path := fun hm => by have := (h8 i2 hm).1; omega
  refine ⟨r, path, i2, ?_, ?_, h3, hni, ?_, h7, ?_, h10⟩
  · unfold push_heap
    rw [if_neg (by omega), e]
    rfl
  · rw [h2]
    exact heap_of_except r a.length i2 h4 h5 (h6 (fun j hj hj0 hq => by omega))
  · rw [List.count_append, List.count_eq_zero_of_not_mem hni]
    simp
  · intro k hk
    have := h8 k hk
    omega
theorem smallest_cases {α : Type} {comp : α → α → Bool} (h : strict_weak_order comp)
    (a : List α) (size i s1 s2 : Nat)
    (e1 : s1 = if i * 2 + 1 < size ∧ comp_at comp a (i * 2 + 1) i = true then i * 2 + 1 else i)
    (e2 : s2 = if i * 2 + 1 + 1 < size ∧ comp_at comp a (i * 2 + 1 + 1) s1 = true
      then i * 2 + 1 + 1 else s1) :
    (s2 = i ∧ ∀ j < size, 0 < j → (j - 1) / 2 = i → comp_at comp a j i = false)
    ∨ (s2 ≠ i ∧ s2 < size ∧ (s2 - 1) / 2 = i ∧ comp_at comp a s2 i = true
        ∧ ∀ j < size, 0 < j → (j - 1) / 2 = i → j ≠ s2 → comp_at comp a j s2 = false) := by
  have hb : ∀ b : Bool, ¬ b = true → b = false := fun b hb => by cases b <;> simp_all
  by_cases c1 : i * 2 + 1 < size ∧ comp_at comp a (i * 2 + 1) i = true
  · rw [if_pos c1] at e1
    rw [e1] at e2
    by_cases c2 : i * 2 + 1 + 1 < size ∧ comp_at comp a (i * 2 + 1 + 1) (i * 2 + 1) = true
    · rw [if_pos c2] at e2
      rw [e2]
      right
      refine ⟨by omega, c2.1, by omega, comp_at_trans h a _ _ _ c2.2 c1.2, ?_⟩
      intro j hj hj0 hq hne
      have : j = i * 2 + 1 := by omega
      rw [this]
      exact comp_at_asymm h a _ _ c2.2
    · rw [if_neg c2] at e2
      rw [e2]
      right
      refine ⟨by omega, c1.1, by omega, c1.2, ?_⟩
      intro j hj hj0 hq hne
      have hj2 : j = i * 2 + 1 + 1 := by omega
      rw [hj2]
      rw [hj2] at hj
      exact hb _ (fun hc => c2 ⟨hj, hc⟩)
  · rw [if_neg c1] at e1
    rw [e1] at e2
    by_cases c2 : i * 2 + 1 + 1 < size ∧ comp_at comp a (i * 2 + 1 + 1) i = true
    · rw [if_pos c2] at e2
      rw [e2]
      right
      refine ⟨by omega, c2.1, by omega, c2.2, ?_⟩
      intro j hj hj0 hq hne
      have hj2 : j = i * 2 + 1 := by omega
      rw [hj2]
      rw [hj2] at hj
      exact comp_at_not_below h a _ _ _ c2.2 (hb _ (fun hc => c1 ⟨hj, hc⟩))
    · rw [if_neg c2] at e2
      rw [e2]
      left
      refine ⟨rfl, ?_⟩
      intro j hj hj0 hq
      have hj2 : j = i * 2 + 1 ∨ j = i * 2 + 1 + 1 := by omega
      rcases hj2 with hj2 | hj2
      · rw [hj2]; rw [hj2] at hj
        exact hb _ (fun hc => c1 ⟨hj, hc⟩)
      · rw [hj2]; rw [hj2] at hj
        exact hb _ (fun hc => c2 ⟨hj, hc⟩)

theorem heap_down_step {α : Type} {comp : α → α → Bool} (h : strict_weak_order comp)
    (a : List α) (size i m : Nat) (hs : size ≤ a.length) (hm : m < size)
    (hmi : (m - 1) / 2 = i) (hne : m ≠ i)
    (hc : comp_at comp a m i = true)
    (ho : ∀ j < size, 0 < j → (j - 1) / 2 = i → j ≠ m → comp_at comp a j m = false)
    (hx : heap_except comp a size i) :
    heap_except comp (swap_at a i m) size m
    ∧ comp_at comp (swap_at a i m) m ((m - 1) / 2) = false := by
  have hm0 : 0 < m := by omega
  have him : i < m := by omega
  have hia : i < a.length := by omega
  have hma : m < a.length := by omega
  refine ⟨⟨?_, ?_⟩, ?_⟩
  · intro j hj hj0 hjm hqm
    rw [comp_at_swap comp a _ _ hia hma]
    by_cases hji : j = i
    · have e1 : transpose i m j = m := by unfold transpose; rw [if_pos hji]
      have e2 : transpose i m ((j - 1) / 2) = (i - 1) / 2 := by
        unfold transpose; rw [if_neg (by omega), if_neg hqm, hji]
      rw [e1, e2]
      exact hx.2 m hm hm0 hmi (by omega)
    · have e1 : transpose i m j = j := by unfold transpose; rw [if_neg hji, if_neg hjm]
      rw [e1]
      by_cases hq : (j - 1) / 2 = i
      · have e2 : transpose i m ((j - 1) / 2) = m := by unfold transpose; rw [if_pos hq]
        rw [e2]
        exact ho j hj hj0 hq hjm
      · have e2 : transpose i m ((j - 1) / 2) = (j - 1) / 2 := by
          unfold transpose; rw [if_neg hq, if_neg hqm]
        rw [e2]
        exact hx.1 j hj hj0 hji hq
  · intro j hj hj0 hq _
    rw [comp_at_swap comp a _ _ hia hma]
    have e1 : transpose i m j = j := by
      unfold transpose; rw [if_neg (by omega), if_neg (by omega)]
    have e2 : transpose i m ((m - 1) / 2) = m := by unfold transpose; rw [if_pos hmi]
    rw [e1, e2]
    have := hx.1 j hj hj0 (by omega) (by omega)
    rw [hq] at this
    exact this
  · rw [comp_at_swap comp a _ _ hia hma]
    have e1 : transpose i m m = i := by unfold transpose; rw [if_neg hne, if_pos rfl]
    have e2 : transpose i m ((m - 1) / 2) = m := by unfold transpose; rw [if_pos hmi]
    rw [e1, e2]
    exact comp_at_asymm h a _ _ hc

theorem heap_down_loop_spec {α : Type} {comp : α → α → Bool} (h : strict_weak_order comp)
    (size : Nat) : ∀ (fuel : Nat) (a : List α) (i : Nat) (placed : List Nat),
      i < size → size ≤ a.length → size ≤ fuel + i → heap_except comp a size i →
      (i = 0 ∨ comp_at comp a i ((i - 1) / 2) = false) →
      ∃ r i2 path, heap_down_loop comp size fuel a i placed = some (r, i2, placed ++ path)
        ∧ i ≤ i2 ∧ i2 < size ∧ r.length = a.length ∧ List.Perm r a
        ∧ is_heap comp r size
        ∧ r[i2]? = a[i]?
        ∧ (∀ k ∈ path, i ≤ k ∧ k < i2)
        ∧ (i2 ≠ i → i ∈ path)
        ∧ (∀ k, k ∉ path → k ≠ i2 → r[k]? = a[k]?) := by
  intro fuel
  induction fuel with
  | zero => intro a i placed hi hs hf; omega
  | succ fuel ih =>
    intro a i placed hi hs hf hx hup
    unfold heap_down_loop
    dsimp only
    rcases smallest_cases h a size i _ _ rfl rfl with hc | hc
    · rw [if_pos hc.1]
      exact ⟨a, i, [], by rw [List.append_nil], le_refl _, hi, rfl, List.Perm.refl _,
        heap_of_except a size i hx hup hc.2, rfl, (fun k hk => by cases hk), fun e => absurd rfl e, fun _ _ _ => rfl⟩
    · rw [if_neg hc.1]
      generalize (if i * 2 + 1 + 1 < size ∧ comp_at comp a (i * 2 + 1 + 1)
        (if i * 2 + 1 < size ∧ comp_at comp a (i * 2 + 1) i = true then i * 2 + 1 else i)
          = true then i * 2 + 1 + 1
        else if i * 2 + 1 < size ∧ comp_at comp a (i * 2 + 1) i = true then i * 2 + 1 else i)
        = m at hc ⊢
      obtain ⟨hne, hm, hmi, hcm, ho⟩ := hc
      have hia : i < a.length := by omega
      have hma : m < a.length := by omega
      have hst := heap_down_step h a size i m hs hm hmi hne hcm ho hx
      obtain ⟨r, i2, path, e, h1, h2, h3, h4, h5, h6, h7, h9, h8⟩ :=
        ih (swap_at a i m) m (placed ++ [i]) hm (by rw [swap_at_length]; exact hs) (by omega)
          hst.1 (Or.inr hst.2)
      refine ⟨r, i2, i :: path, ?_, by omega, h2, ?_, ?_, h5, ?_, ?_, ?_, ?_⟩
      · rw [e, List.append_assoc, List.singleton_append]
      · rw [h3, swap_at_length]
      · exact h4.trans (swap_at_perm _ _ _)
      · rw [h6, swap_at_get a _ _ hia hma]
        unfold transpose
        rw [if_neg hne, if_pos rfl]
      · intro k hk
        rcases List.mem_cons.mp hk with hk | hk
        · omega
        · have := h7 k hk; omega
      · intro _; exact List.mem_cons_self _ _
      · intro k hk hk2
        have hki : k ≠ i := fun e => hk (e ▸ List.mem_cons_self _ _)
        have hkp : k ∉ path := fun e => hk (List.mem_cons_of_mem _ e)
        have hkm : k ≠ m := by
          intro e
          by_cases hip : i2 = m
          · exact hk2 (e.trans hip.symm)
          · exact hkp (e ▸ h9 hip)
        rw [h8 k hkp hk2, swap_at_get a _ _ hia hma]
        unfold transpose
        rw [if_neg hki, if_neg hkm]

theorem change_heap_spec {α : Type} {comp : α → α → Bool} (h : strict_weak_order comp)
    (a : List α) (size element : Nat) (he : element < size) (hs : size ≤ a.length)
    (hx : heap_except comp a size element) :
    ∃ r pos placed, change_heap comp a size element = some (r, pos, placed)
      ∧ is_heap comp r size ∧ pos < size ∧ r[pos]? = a[element]?
      ∧ r.length = a.length ∧ List.Perm r a
      ∧ (∀ k, size ≤ k → r[k]? = a[k]?) := by
  obtain ⟨r1, i1, path1, e1, u1, u2, u3, u4, u5, _, u7, u8, _, u10⟩ :=
    heap_up_loop_spec h size size a element [] he hs he hx
  obtain ⟨r2, i2, path2, e2, d1, d2, d3, d4, d5, d6, d7, _, d9⟩ :=
    heap_down_loop_spec h size size r1 i1 ([] ++ path1) (by omega) (by omega) (by omega) u4 u5
  refine ⟨r2, i2, (if i2 ≠ element then [] ++ path1 ++ path2 ++ [i2] else [] ++ path1 ++ path2),
    ?_, d5, d2, by rw [d6, u7], by rw [d3, u2], d4.trans u3, ?_⟩
  · unfold change_heap
    rw [if_neg (not_not.mpr he), e1]
    dsimp only
    rw [e2]
  · intro k hk
    have hk1 : k ∉ path1 := fun hm => by have := u8 k hm; omega
    have hk2 : k ∉ path2 := fun hm => by have := d7 k hm; omega
    rw [d9 k hk2 (by omega), u10 k hk1 (by omega)]

theorem last_split {α : Type} (l : List α) (x : α) (hl : 0 < l.length)
    (hx : l[l.length - 1]? = some x) : l = l.take (l.length - 1) ++ [x] := by
  have h1 := @List.take_succ _ l (l.length - 1)
  rw [hx] at h1
  have h2 : l.length - 1 + 1 = l.length := by omega
  rw [h2, List.take_length] at h1
  exact h1

theorem perm_eraseIdx {α : Type} (a : List α) (e : Nat) (x : α) (hx : a[e]? = some x) :
    List.Perm a (x :: a.eraseIdx e) := by
  obtain ⟨he, hxe⟩ := List.getElem?_eq_some.mp hx
  have h1 : a = a.take e ++ (x :: a.drop (e + 1)) := by
    rw [← hxe, List.getElem_cons_drop, List.take_append_drop]
  rw [List.eraseIdx_eq_take_drop_succ]
  nth_rewrite 1 [h1]
  exact List.perm_middle

theorem heap_shorter {α : Type} {comp : α → α → Bool} (a : List α) (n m : Nat) (hm : m ≤ n)
    (hh : is_heap comp a n) : is_heap comp a m :=
  fun j hj hj0 => hh j (by omega) hj0

theorem except_after_swap {α : Type} {comp : α → α → Bool} (h : strict_weak_order comp)
    (a : List α) (element : Nat) (he : element + 1 < a.length)
    (hh : is_heap comp a a.length) :
    heap_except comp (swap_at a element (a.length - 1)) (a.length - 1) element := by
  have hea : element < a.length := by omega
  have hla : a.length - 1 < a.length := by omega
  constructor
  · intro j hj hj0 hje hqe
    rw [comp_at_swap comp a _ _ hea hla]
    have e1 : transpose element (a.length - 1) j = j := by
      unfold transpose; rw [if_neg hje, if_neg (by omega)]
    have e2 : transpose element (a.length - 1) ((j - 1) / 2) = (j - 1) / 2 := by
      unfold transpose; rw [if_neg hqe, if_neg (by omega)]
    rw [e1, e2]
    exact hh j (by omega) hj0
  · intro j hj hj0 hq he0
    rw [comp_at_swap comp a _ _ hea hla]
    have e1 : transpose element (a.length - 1) j = j := by
      unfold transpose; rw [if_neg (by omega), if_neg (by omega)]
    have e2 : transpose element (a.length - 1) ((element - 1) / 2) = (element - 1) / 2 := by
      unfold transpose; rw [if_neg (by omega), if_neg (by omega)]
    rw [e1, e2]
    have h1 := hh j (by omega) hj0
    rw [hq] at h1
    exact comp_at_negtrans h a j element _ hea h1 (hh element hea he0)

theorem remove_heap_spec {α : Type} {comp : α → α → Bool} (h : strict_weak_order comp)
    (a : List α) (element : Nat) (he : element < a.length) (hh : is_heap comp a a.length) :
    ∃ r placed, remove_heap comp a element = some (r, placed)
      ∧ is_heap comp r (a.length - 1)
      ∧ r.length = a.length
      ∧ List.Perm (r.take (a.length - 1)) (a.eraseIdx element)
      ∧ r[a.length - 1]? = a[element]? := by
  have key : ∀ r : List α, r.length = a.length → List.Perm r a →
      r[a.length - 1]? = a[element]? →
      List.Perm (r.take (a.length - 1)) (a.eraseIdx element) := by
    intro r hl hp hlast
    have hx : a[element]? = some a[element] := List.getElem?_eq_getElem he
    rw [hx] at hlast
    have h1 := last_split r a[element] (by omega) (by rw [hl]; exact hlast)
    rw [hl] at h1
    have h2 : List.Perm (a[element] :: r.take (a.length - 1)) r := by
      nth_rewrite 2 [h1]
      exact (List.perm_append_singleton _ _).symm
    exact ((h2.trans hp).trans (perm_eraseIdx a element _ hx)).cons_inv
  by_cases hlastel : element + 1 ≠ a.length
  · obtain ⟨r, pos, placed, e, c1, _, _, c4, c5, c6⟩ :=
      change_heap_spec h (swap_at a element (a.length - 1)) (a.length - 1) element (by omega)
        (by rw [swap_at_length]; omega) (except_after_swap h a element (by omega) hh)
    have hl : r.length = a.length := by rw [c4, swap_at_length]
    have hlast : r[a.length - 1]? = a[element]? := by
      rw [c6 _ (le_refl _), swap_at_get a _ _ he (by omega)]
      unfold transpose
      by_cases h0 : a.length - 1 = element
      · rw [if_pos h0, h0]
      · rw [if_neg h0, if_pos rfl]
    refine ⟨r, element :: placed, ?_, c1, hl, key r hl (c5.trans (swap_at_perm _ _ _)) hlast,
      hlast⟩
    unfold remove_heap
    rw [if_neg (not_not.mpr he), if_pos hlastel, e]
  · have hel : element = a.length - 1 := by omega
    have hlast : a[a.length - 1]? = a[element]? := by rw [hel]
    refine ⟨a, [], ?_, heap_shorter a _ _ (by omega) hh, rfl, key a rfl (List.Perm.refl _) hlast,
      hlast⟩
    unfold remove_heap
    rw [if_neg (not_not.mpr he), if_neg hlastel]
theorem remove_heap_unfold {α : Type} {comp : α → α → Bool} (h : strict_weak_order comp)
    (a : List α) (element : Nat) (he : element < a.length) (hh : is_heap comp a a.length)
    (hlast : element + 1 ≠ a.length) :
    ∃ r pos placed,
      change_heap comp (swap_at a element (a.length - 1)) (a.length - 1) element
        = some (r, pos, placed)
      ∧ remove_heap comp a element = some (r, element :: placed) := by
  obtain ⟨r, pos, placed, e, _⟩ :=
    change_heap_spec h (swap_at a element (a.length - 1)) (a.length - 1) element (by omega)
      (by rw [swap_at_length]; omega) (except_after_swap h a element (by omega) hh)
  refine ⟨r, pos, placed, e, ?_⟩
  unfold remove_heap
  rw [if_neg (not_not.mpr he), if_pos hlast, e]

/-- C23: for every non-empty range `a` whose prefix without the last element
is a heap under a strict weak order `comp`, `push_heap` returns; afterwards
the whole range is a heap and a permutation of `a`; the calls of `place` are
a path followed by one last call with `i`, the offset where the new element
(the former last one) now is, and `i` occurs once among the calls; the path
has the offsets of the elements moved down, all below the length and above
`i`, and every element at another offset is where it was. -/
theorem push_heap_contract {α : Type} (comp : α → α → Bool) (hswo : strict_weak_order comp)
    (a : List α) (hne : a ≠ []) (hheap : is_heap comp a (a.length - 1)) :
    ∃ r path i, push_heap comp a = some (r, path ++ [i])
      ∧ is_heap comp r r.length ∧ List.Perm r a
      ∧ i ∉ path ∧ (path ++ [i]).count i = 1
      ∧ r[i]? = a[a.length - 1]?
      ∧ (∀ k ∈ path, i < k ∧ k < a.length)
      ∧ (∀ k, k ∉ path → k ≠ i → r[k]? = a[k]?) :=
  push_heap_spec hswo a hne hheap

theorem push_heap_contract_witness :
    [1, 3, 2, 0] ≠ [] ∧ is_heap less [1, 3, 2, 0] 3
    ∧ push_heap less [1, 3, 2, 0] = some ([0, 1, 2, 3], [3, 1, 0])
    ∧ ∃ r path i, push_heap less [1, 3, 2, 0] = some (r, path ++ [i])
      ∧ is_heap less r r.length ∧ List.Perm r [1, 3, 2, 0]
      ∧ i ∉ path ∧ (path ++ [i]).count i = 1
      ∧ r[i]? = [1, 3, 2, 0][[1, 3, 2, 0].length - 1]?
      ∧ (∀ k ∈ path, i < k ∧ k < [1, 3, 2, 0].length)
      ∧ (∀ k, k ∉ path → k ≠ i → r[k]? = [1, 3, 2, 0][k]?) :=
  ⟨by decide, by decide, by decide,
    push_heap_contract less less_strict_weak_order [1, 3, 2, 0] (by decide) (by decide)⟩

/-- C24: for every heap `a` under a strict weak order `comp` and every offset
`element` in it, `remove_heap` returns; afterwards the range without its last
element is a heap and a permutation of `a` without the element at `element`,
and that element is the last one.  `pop_heap` is `remove_heap` at offset 0.
When `element` is not the last offset, `remove_heap` is the swap with the last
element followed by `change_heap` on the range without the last element.
`change_heap`, on `size` elements of `b` that are a heap except perhaps at
`el`, returns; afterwards they are a heap, the offset returned is in the range
and holds the element formerly at `el`, and the storage is a permutation of
`b` that is unchanged from `size` on. -/
theorem remove_heap_contract {α : Type} (comp : α → α → Bool) (hswo : strict_weak_order comp)
    (a : List α) (element : Nat) (he : element < a.length) (hheap : is_heap comp a a.length)
    (b : List α) (size el : Nat) (hel : el < size) (hsize : size ≤ b.length)
    (hb : heap_except comp b size el) :
    (∃ r placed, remove_heap comp a element = some (r, placed)
      ∧ is_heap comp r (a.length - 1)
      ∧ r.length = a.length
      ∧ List.Perm (r.take (a.length - 1)) (a.eraseIdx element)
      ∧ r[a.length - 1]? = a[element]?)
    ∧ pop_heap comp a = remove_heap comp a 0
    ∧ (∃ r placed, pop_heap comp a = some (r, placed)
      ∧ is_heap comp r (a.length - 1)
      ∧ r.length = a.length
      ∧ List.Perm (r.take (a.length - 1)) (a.eraseIdx 0)
      ∧ r[a.length - 1]? = a[0]?)
    ∧ (element + 1 ≠ a.length →
        ∃ r pos placed,
          change_heap comp (swap_at a element (a.length - 1)) (a.length - 1) element
            = some (r, pos, placed)
          ∧ remove_heap comp a element = some (r, element :: placed))
    ∧ (∃ r pos placed, change_heap comp b size el = some (r, pos, placed)
      ∧ is_heap comp r size ∧ pos < size ∧ r[pos]? = b[el]?
      ∧ r.length = b.length ∧ List.Perm r b
      ∧ (∀ k, size ≤ k → r[k]? = b[k]?)) :=
  ⟨remove_heap_spec hswo a element he hheap, rfl,
    remove_heap_spec hswo a 0 (by omega) hheap,
    remove_heap_unfold hswo a element he hheap,
    change_heap_spec hswo b size el hel hsize hb⟩

theorem remove_heap_contract_witness :
    (1 < [1, 3, 2, 4, 5].length ∧ is_heap less [1, 3, 2, 4, 5] [1, 3, 2, 4, 5].length
      ∧ 1 < 4 ∧ 4 ≤ [1, 5, 2, 4, 3].length ∧ heap_except less [1, 5, 2, 4, 3] 4 1)
    ∧ remove_heap less [1, 3, 2, 4, 5] 1 = some ([1, 4, 2, 5, 3], [1, 1, 3])
    ∧ pop_heap less [1, 3, 2, 4, 5] = some ([2, 3, 5, 4, 1], [0, 0, 2])
    ∧ change_heap less [1, 5, 2, 4, 3] 4 1 = some ([1, 4, 2, 5, 3], 3, [1, 3])
    ∧ ((∃ r placed, remove_heap less [1, 3, 2, 4, 5] 1 = some (r, placed)
        ∧ is_heap less r ([1, 3, 2, 4, 5].length - 1)
        ∧ r.length = [1, 3, 2, 4, 5].length
        ∧ List.Perm (r.take ([1, 3, 2, 4, 5].length - 1)) ([1, 3, 2, 4, 5].eraseIdx 1)
        ∧ r[[1, 3, 2, 4, 5].length - 1]? = [1, 3, 2, 4, 5][1]?)
      ∧ pop_heap less [1, 3, 2, 4, 5] = remove_heap less [1, 3, 2, 4, 5] 0
      ∧ (∃ r placed, pop_heap less [1, 3, 2, 4, 5] = some (r, placed)
        ∧ is_heap less r ([1, 3, 2, 4, 5].length - 1)
        ∧ r.length = [1, 3, 2, 4, 5].length
        ∧ List.Perm (r.take ([1, 3, 2, 4, 5].length - 1)) ([1, 3, 2, 4, 5].eraseIdx 0)
        ∧ r[[1, 3, 2, 4, 5].length - 1]? = [1, 3, 2, 4, 5][0]?)
      ∧ (1 + 1 ≠ [1, 3, 2, 4, 5].length →
          ∃ r pos placed,
            change_heap less (swap_at [1, 3, 2, 4, 5] 1 ([1, 3, 2, 4, 5].length - 1))
                ([1, 3, 2, 4, 5].length - 1) 1
              = some (r, pos, placed)
            ∧ remove_heap less [1, 3, 2, 4, 5] 1 = some (r, 1 :: placed))
      ∧ (∃ r pos placed, change_heap less [1, 5, 2, 4, 3] 4 1 = some (r, pos, placed)
        ∧ is_heap less r 4 ∧ pos < 4 ∧ r[pos]? = [1, 5, 2, 4, 3][1]?
        ∧ r.length = [1, 5, 2, 4, 3].length ∧ List.Perm r [1, 5, 2, 4, 3]
        ∧ (∀ k, 4 ≤ k → r[k]? = [1, 5, 2, 4, 3][k]?))) :=
  ⟨⟨by decide, by decide, by decide, by decide, by decide⟩, by decide, by decide, by decide,
    remove_heap_contract less less_strict_weak_order [1, 3, 2, 4, 5] 1 (by decide) (by decide)
      [1, 5, 2, 4, 3] 4 1 (by decide) (by decide) (by decide)⟩

end IPFilter
